import Mathlib

/-!
# DualBootPatcher `libmbbootimg`: Android and Sony ELF boot image formats

A shallow embedding of

* `libmbbootimg/src/format/android_reader.cpp`
* `libmbbootimg/src/format/sony_elf_reader.cpp`
* `libmbbootimg/src/format/sony_elf_writer.cpp`

Bytes are natural numbers, fixed-width machine integers are natural numbers
reduced explicitly where the C++ arithmetic wraps, and every object that the
C++ code mutates through a reference is threaded through explicitly.
-/

namespace DualBootPatcher

/-! ## Machine integers and byte strings -/

/-- Number of values of a `uint64_t`. -/
def UINT64_MOD : Nat := 2 ^ 64

/-- Number of values of a `uint32_t`. -/
def UINT32_MOD : Nat := 2 ^ 32

/-- Little-endian value of a byte string. -/
def le_decode : List Nat → Nat
  | [] => 0
  | b :: bs => b + 256 * le_decode bs

/-- Little-endian encoding of `x` in `n` bytes (the value is truncated to `n` bytes). -/
def le_encode : Nat → Nat → List Nat
  | 0, _ => []
  | n + 1, x => x % 256 :: le_encode n (x / 256)

/-- The `len` bytes of `b` starting at byte offset `off`. -/
def slice (b : List Nat) (off len : Nat) : List Nat := (b.drop off).take len

/-- The 32-bit little-endian field at byte offset `off`. -/
def le32_at (b : List Nat) (off : Nat) : Nat := le_decode (slice b off 4)

/-- The 16-bit little-endian field at byte offset `off`. -/
def le16_at (b : List Nat) (off : Nat) : Nat := le_decode (slice b off 2)

/-- The C string stored in a buffer: the bytes before the first NUL. -/
def c_str (buf : List Nat) : List Nat := buf.takeWhile (fun c => c != 0)

/-- The conversion `static_cast<int64_t>(pos)` of a `uint64_t`. -/
def to_int64 (pos : Nat) : Int :=
  if pos % UINT64_MOD < 2 ^ 63 then (pos % UINT64_MOD : Nat) else (pos % UINT64_MOD : Nat) - 2 ^ 64

/-! ## Error codes -/

/-- The error codes that the three translation units set or compare against. -/
inductive Error
  | FileIo
  | FileUnexpectedEof
  | FileInvalidOffset
  | AndroidInvalidArgument
  | HeaderNotFound
  | HeaderOutOfBounds
  | HeaderSetFieldsFailed
  | SamsungMagicNotFound
  | BumpMagicNotFound
  | SonyElfHeaderTooSmall
  | InvalidElfMagic
  | KernelCmdlineTooLong
  | InvalidTypeOrFlagsField
  | EndOfEntries
  | InvalidState
  | SegmentInvalidOffset
  | SegmentUnexpectedEof
  | SizeMismatch
  deriving DecidableEq, Repr

/-! ## The `File` capability -/

/-- Modelled from the spec: the `File` capability (`mbcommon/file.h` is not part of the
translation units embedded here).  A file is a byte string with a cursor.  The flag
`io_ok` stands for the health of the underlying device: while it is `false` every
seek, read and write reports an I/O error, and `fatal` is what `is_fatal()` answers. -/
structure File where
  data : List Nat
  pos : Nat
  io_ok : Bool
  fatal : Bool
  deriving DecidableEq, Repr

/-- Modelled from the spec: `File::seek(offset, SEEK_SET)`; a negative offset is refused. -/
def File.seek_set (f : File) (offset : Int) : Except Error Nat × File :=
  if f.io_ok = false then (.error .FileIo, f)
  else if offset < 0 then (.error .FileInvalidOffset, f)
  else (.ok offset.toNat, { f with pos := offset.toNat })

/-- Modelled from the spec: `file_read_retry`, the read that retries short reads until
either the requested length is satisfied or end of file is reached.  The result is the
string of bytes read; its length is the `n.value()` of the C++ code. -/
def file_read_retry (f : File) (size : Nat) : Except Error (List Nat) × File :=
  if f.io_ok = false then (.error .FileIo, f)
  else (.ok (slice f.data f.pos size), { f with pos := f.pos + (slice f.data f.pos size).length })

/-- Modelled from the spec: `file_read_exact`, the read that fails with `UnexpectedEof`
on a short read. -/
def file_read_exact (f : File) (size : Nat) : Except Error (List Nat) × File :=
  if f.io_ok = false then (.error .FileIo, f)
  else if (slice f.data f.pos size).length < size then
    (.error .FileUnexpectedEof, { f with pos := f.pos + (slice f.data f.pos size).length })
  else (.ok (slice f.data f.pos size), { f with pos := f.pos + size })

/-- Modelled from the spec: `file_write_exact`.  A write of no bytes changes nothing.
Writing past the end of the file first fills the gap with zero bytes (a file hole), then
the bytes at the cursor are replaced. -/
def file_write_exact (f : File) (buf : List Nat) : Except Error Unit × File :=
  if f.io_ok = false then (.error .FileIo, f)
  else if buf = [] then (.ok (), f)
  else
    (.ok (),
     { f with
       data := (f.data ++ List.replicate (f.pos - f.data.length) 0).take f.pos ++ buf
                 ++ f.data.drop (f.pos + buf.length)
       pos := f.pos + buf.length })

/-- Modelled from the spec: `mb_memmem`, the "search the first N bytes for a byte pattern"
helper: the lowest index at which `needle` occurs in `haystack`, if any. -/
def mb_memmem : List Nat → List Nat → Option Nat
  | [], needle => if needle.isPrefixOf [] then some 0 else none
  | h :: t, needle =>
    if needle.isPrefixOf (h :: t) then some 0
    else (mb_memmem t needle).map (fun i => i + 1)

/-! ## The facade's error slot -/

/-- The part of the `Reader` facade that the format readers touch: the stored error and
the fatal flag. -/
structure Reader where
  error : Option Error
  fatal : Bool
  deriving DecidableEq, Repr

/-- `Reader::set_error`. -/
def Reader.set_error (r : Reader) (e : Error) : Reader := { r with error := some e }

/-- `Reader::set_fatal`. -/
def Reader.set_fatal (r : Reader) : Reader := { r with fatal := true }

/-- The recurring `if (file.is_fatal()) { reader.set_fatal(); }`. -/
def Reader.fatal_if (r : Reader) (f : File) : Reader := if f.fatal then r.set_fatal else r

/-! ## The uniform `Header` -/

/-- The fields of the uniform header. -/
inductive HeaderField
  | BoardName
  | KernelCmdline
  | PageSize
  | KernelAddress
  | RamdiskAddress
  | SecondbootAddress
  | KernelTagsAddress
  | SonyIplAddress
  | SonyRpmAddress
  | SonyAppsblAddress
  | Entrypoint
  deriving DecidableEq, Repr

/-- Modelled from the spec: the uniform `Header` (`mbbootimg/header.h` is not under the
embedded sources).  Every field is optional and the format declares the subset it
supports.  The bound on the two string fields is left out: the spec names no buffer size
and the callers embedded here pass strings taken from buffers of 16 and 512 bytes. -/
structure Header where
  supported_fields : List HeaderField
  board_name : Option (List Nat)
  kernel_cmdline : Option (List Nat)
  page_size : Option Nat
  kernel_address : Option Nat
  ramdisk_address : Option Nat
  secondboot_address : Option Nat
  kernel_tags_address : Option Nat
  sony_ipl_address : Option Nat
  sony_rpm_address : Option Nat
  sony_appsbl_address : Option Nat
  entrypoint_address : Option Nat
  deriving DecidableEq, Repr

/-- A freshly constructed `Header`: every field absent. -/
def Header.empty : Header :=
  { supported_fields := [], board_name := none, kernel_cmdline := none, page_size := none,
    kernel_address := none, ramdisk_address := none, secondboot_address := none,
    kernel_tags_address := none, sony_ipl_address := none, sony_rpm_address := none,
    sony_appsbl_address := none, entrypoint_address := none }

/-- `Header::set_supported_fields`. -/
def Header.set_supported_fields (h : Header) (fs : List HeaderField) : Header :=
  { h with supported_fields := fs }

/-- Modelled from the spec: a setter fails (and changes nothing) when the field is not
listed in `supported_fields`. -/
def Header.set_board_name (h : Header) (v : Option (List Nat)) : Bool × Header :=
  if HeaderField.BoardName ∈ h.supported_fields then (true, { h with board_name := v }) else (false, h)

/-- Setter of the kernel command line. -/
def Header.set_kernel_cmdline (h : Header) (v : Option (List Nat)) : Bool × Header :=
  if HeaderField.KernelCmdline ∈ h.supported_fields then (true, { h with kernel_cmdline := v })
  else (false, h)

/-- Setter of the page size. -/
def Header.set_page_size (h : Header) (v : Option Nat) : Bool × Header :=
  if HeaderField.PageSize ∈ h.supported_fields then (true, { h with page_size := v }) else (false, h)

/-- Setter of the kernel address. -/
def Header.set_kernel_address (h : Header) (v : Option Nat) : Bool × Header :=
  if HeaderField.KernelAddress ∈ h.supported_fields then (true, { h with kernel_address := v })
  else (false, h)

/-- Setter of the ramdisk address. -/
def Header.set_ramdisk_address (h : Header) (v : Option Nat) : Bool × Header :=
  if HeaderField.RamdiskAddress ∈ h.supported_fields then (true, { h with ramdisk_address := v })
  else (false, h)

/-- Setter of the second bootloader address. -/
def Header.set_secondboot_address (h : Header) (v : Option Nat) : Bool × Header :=
  if HeaderField.SecondbootAddress ∈ h.supported_fields then
    (true, { h with secondboot_address := v })
  else (false, h)

/-- Setter of the kernel tags address. -/
def Header.set_kernel_tags_address (h : Header) (v : Option Nat) : Bool × Header :=
  if HeaderField.KernelTagsAddress ∈ h.supported_fields then
    (true, { h with kernel_tags_address := v })
  else (false, h)

/-- Setter of the Sony IPL address. -/
def Header.set_sony_ipl_address (h : Header) (v : Option Nat) : Bool × Header :=
  if HeaderField.SonyIplAddress ∈ h.supported_fields then (true, { h with sony_ipl_address := v })
  else (false, h)

/-- Setter of the Sony RPM address. -/
def Header.set_sony_rpm_address (h : Header) (v : Option Nat) : Bool × Header :=
  if HeaderField.SonyRpmAddress ∈ h.supported_fields then (true, { h with sony_rpm_address := v })
  else (false, h)

/-- Setter of the Sony APPSBL address. -/
def Header.set_sony_appsbl_address (h : Header) (v : Option Nat) : Bool × Header :=
  if HeaderField.SonyAppsblAddress ∈ h.supported_fields then
    (true, { h with sony_appsbl_address := v })
  else (false, h)

/-- Setter of the entry point address. -/
def Header.set_entrypoint_address (h : Header) (v : Option Nat) : Bool × Header :=
  if HeaderField.Entrypoint ∈ h.supported_fields then (true, { h with entrypoint_address := v })
  else (false, h)

/-- Modelled from the spec: two headers agree on one field. -/
def Header.same_field (a b : Header) : HeaderField → Bool
  | .BoardName => decide (a.board_name = b.board_name)
  | .KernelCmdline => decide (a.kernel_cmdline = b.kernel_cmdline)
  | .PageSize => decide (a.page_size = b.page_size)
  | .KernelAddress => decide (a.kernel_address = b.kernel_address)
  | .RamdiskAddress => decide (a.ramdisk_address = b.ramdisk_address)
  | .SecondbootAddress => decide (a.secondboot_address = b.secondboot_address)
  | .KernelTagsAddress => decide (a.kernel_tags_address = b.kernel_tags_address)
  | .SonyIplAddress => decide (a.sony_ipl_address = b.sony_ipl_address)
  | .SonyRpmAddress => decide (a.sony_rpm_address = b.sony_rpm_address)
  | .SonyAppsblAddress => decide (a.sony_appsbl_address = b.sony_appsbl_address)
  | .Entrypoint => decide (a.entrypoint_address = b.entrypoint_address)

/-- Modelled from the spec: `operator==` of `Header`, "Equality of two Headers is
field-wise over the intersection of their supported fields". -/
def Header.equal (a b : Header) : Bool :=
  (a.supported_fields.filter (fun f => decide (f ∈ b.supported_fields))).all (a.same_field b)

/-! ## Entry types -/

/-- Modelled from the spec: the closed set of entry type tags (`mbbootimg/entry.h` is not
under the embedded sources); the tags are distinct bit flags. -/
def ENTRY_TYPE_KERNEL : Int := 1

/-- Entry type tag of the ramdisk. -/
def ENTRY_TYPE_RAMDISK : Int := 2

/-- Entry type tag of the second bootloader. -/
def ENTRY_TYPE_SECONDBOOT : Int := 4

/-- Entry type tag of the device tree. -/
def ENTRY_TYPE_DEVICE_TREE : Int := 8

/-- Entry type tag of the Sony IPL image. -/
def ENTRY_TYPE_SONY_IPL : Int := 128

/-- Entry type tag of the Sony RPM image. -/
def ENTRY_TYPE_SONY_RPM : Int := 256

/-- Entry type tag of the Sony APPSBL image. -/
def ENTRY_TYPE_SONY_APPSBL : Int := 512

/-- Modelled from the spec: the caller-visible `Entry`, a type tag and an optional size. -/
structure Entry where
  type : Option Int
  size : Option Nat
  deriving DecidableEq, Repr

/-- `Entry::clear`. -/
def Entry.clear (_e : Entry) : Entry := { type := none, size := none }

/-! ## The reader side of the segment engine -/

/-- The record `SegmentReaderEntry { type, offset, size, can_truncate }` that the format
readers build; `offset` is a `uint64_t` and `size` a `uint32_t`. -/
structure SegmentReaderEntry where
  type : Int
  offset : Nat
  size : Nat
  can_truncate : Bool
  deriving DecidableEq, Repr

/-- States of the reader side of the segment engine. -/
inductive SegmentReaderState
  | Begin
  | Entries
  | End
  deriving DecidableEq, Repr

/-- Modelled from the spec: the reader side of the segment engine
(`segment_reader.cpp` is not under the embedded sources).  `entry` is the index of the
current segment (the length of the list stands for the end iterator) and
`read_cur`/`read_end` delimit the bytes of the current segment not yet handed out. -/
structure SegmentReader where
  state : SegmentReaderState
  entries : List SegmentReaderEntry
  entry : Nat
  read_cur : Nat
  read_end : Nat
  deriving DecidableEq, Repr

/-- A freshly constructed segment reader. -/
def SegmentReader.init : SegmentReader :=
  { state := .Begin, entries := [], entry := 0, read_cur := 0, read_end := 0 }

/-- Offsets never decrease along the list. -/
def offsets_nondecreasing : List SegmentReaderEntry → Bool
  | [] => true
  | [_] => true
  | a :: b :: rest => decide (a.offset ≤ b.offset) && offsets_nondecreasing (b :: rest)

/-- Modelled from the spec: `SegmentReader::set_entries` "validates that offsets are
strictly non-decreasing and stores the list"; it is only legal before the first entry
has been read. -/
def SegmentReader.set_entries (s : SegmentReader) (reader : Reader)
    (entries : List SegmentReaderEntry) : Bool × SegmentReader × Reader :=
  if s.state ≠ .Begin then (false, s, reader.set_error .InvalidState)
  else if offsets_nondecreasing entries = false then
    (false, s, reader.set_error .SegmentInvalidOffset)
  else (true, { s with entries := entries, entry := entries.length }, reader)

/-! ## The Android boot image header -/

/-- The Android magic `"ANDROID!"`. -/
def BOOT_MAGIC : List Nat := [65, 78, 68, 82, 79, 73, 68, 33]

/-- Length of the Android magic. -/
def BOOT_MAGIC_SIZE : Nat := 8

/-- Length of the board name field. -/
def BOOT_NAME_SIZE : Nat := 16

/-- Length of the command line field. -/
def BOOT_ARGS_SIZE : Nat := 512

/-- The Samsung trailer magic `"SEANDROIDENFORCE"`. -/
def SAMSUNG_SEANDROID_MAGIC : List Nat :=
  [83, 69, 65, 78, 68, 82, 79, 73, 68, 69, 78, 70, 79, 82, 67, 69]

/-- Length of the Samsung trailer magic. -/
def SAMSUNG_SEANDROID_MAGIC_SIZE : Nat := 16

/-- The highest offset at which an Android header may start. -/
def MAX_HEADER_OFFSET : Nat := 512

/-- Modelled from the spec: the raw `AndroidHeader` (`android_p.h` is not under the
embedded sources), with the published Android boot image layout: the magic, ten 32-bit
words, the board name, the command line and eight 32-bit words of id. -/
structure AndroidHeader where
  magic : List Nat
  kernel_size : Nat
  kernel_addr : Nat
  ramdisk_size : Nat
  ramdisk_addr : Nat
  second_size : Nat
  second_addr : Nat
  tags_addr : Nat
  page_size : Nat
  dt_size : Nat
  unused : Nat
  name : List Nat
  cmdline : List Nat
  id : List Nat
  deriving DecidableEq, Repr

/-- The value-initialised header (`_hdr()`). -/
def AndroidHeader.zero : AndroidHeader :=
  { magic := List.replicate 8 0, kernel_size := 0, kernel_addr := 0, ramdisk_size := 0,
    ramdisk_addr := 0, second_size := 0, second_addr := 0, tags_addr := 0, page_size := 0,
    dt_size := 0, unused := 0, name := List.replicate 16 0, cmdline := List.replicate 512 0,
    id := List.replicate 8 0 }

/-- The `sizeof(AndroidHeader)` of the published layout: 8 + 10*4 + 16 + 512 + 8*4. -/
def sizeof_AndroidHeader : Nat := 608

/-- The `memcpy` of `sizeof(AndroidHeader)` bytes into the struct followed by
`android_fix_header_byte_order`: every 32-bit word is read as little-endian, whatever the
byte order of the host. -/
def AndroidHeader.of_bytes (b : List Nat) : AndroidHeader :=
  { magic := slice b 0 8
    kernel_size := le32_at b 8
    kernel_addr := le32_at b 12
    ramdisk_size := le32_at b 16
    ramdisk_addr := le32_at b 20
    second_size := le32_at b 24
    second_addr := le32_at b 28
    tags_addr := le32_at b 32
    page_size := le32_at b 36
    dt_size := le32_at b 40
    unused := le32_at b 44
    name := slice b 48 16
    cmdline := slice b 64 512
    id := (List.range 8).map (fun i => le32_at b (576 + 4 * i)) }

/-- The on-disk bytes of a header (little-endian words), used to build test images. -/
def AndroidHeader.to_bytes (h : AndroidHeader) : List Nat :=
  h.magic ++ le_encode 4 h.kernel_size ++ le_encode 4 h.kernel_addr
    ++ le_encode 4 h.ramdisk_size ++ le_encode 4 h.ramdisk_addr
    ++ le_encode 4 h.second_size ++ le_encode 4 h.second_addr
    ++ le_encode 4 h.tags_addr ++ le_encode 4 h.page_size
    ++ le_encode 4 h.dt_size ++ le_encode 4 h.unused
    ++ h.name ++ h.cmdline ++ (h.id.map (le_encode 4)).flatten

/-- Modelled from the spec: `align_page_size<uint64_t>` (`align_p.h` is not under the
embedded sources): "the alignment helper computes `(−pos) mod page_size` using unsigned
arithmetic", the negation being taken modulo 2^64.  With `page_size = 0` the remainder
is the negated position itself. -/
def align_page_size (pos page_size : Nat) : Nat :=
  ((UINT64_MOD - pos % UINT64_MOD) % UINT64_MOD) % page_size

/-- The fields the Android format supports (`android::SUPPORTED_FIELDS`, declared in
`android_p.h`): exactly the fields that `convert_header` sets. -/
def ANDROID_SUPPORTED_FIELDS : List HeaderField :=
  [.BoardName, .KernelCmdline, .PageSize, .KernelAddress, .RamdiskAddress,
   .SecondbootAddress, .KernelTagsAddress]

/-! ## `AndroidFormatReader` -/

/-- The members of `AndroidFormatReader`; `_reader` is the facade the reader reports its
errors to. -/
structure AndroidFormatReader where
  _reader : Reader
  _hdr : AndroidHeader
  _allow_truncated_dt : Bool
  _is_bump : Bool
  _header_offset : Option Nat
  _samsung_offset : Option Nat
  _bump_offset : Option Nat
  _seg : SegmentReader
  deriving DecidableEq, Repr

/-- The constructor `AndroidFormatReader::AndroidFormatReader(reader, is_bump)`. -/
def AndroidFormatReader.new (reader : Reader) (is_bump : Bool) : AndroidFormatReader :=
  { _reader := reader, _hdr := AndroidHeader.zero, _allow_truncated_dt := true,
    _is_bump := is_bump, _header_offset := none, _samsung_offset := none,
    _bump_offset := none, _seg := SegmentReader.init }

/-- What `find_header` leaves behind: the return value, the facade, the file and the two
output parameters. -/
structure FindHeaderResult where
  ok : Bool
  reader : Reader
  file : File
  header_out : AndroidHeader
  offset_out : Nat
  deriving DecidableEq, Repr

/-- `AndroidFormatReader::find_header`. -/
def find_header (reader : Reader) (file : File) (max_header_offset : Nat)
    (header_out : AndroidHeader) (offset_out : Nat) : FindHeaderResult :=
  if max_header_offset > MAX_HEADER_OFFSET then
    ⟨false, reader.set_error .AndroidInvalidArgument, file, header_out, offset_out⟩
  else
    match file.seek_set 0 with
    | (.error e, file1) =>
      ⟨false, (reader.set_error e).fatal_if file1, file1, header_out, offset_out⟩
    | (.ok _, file1) =>
      match file_read_retry file1 (max_header_offset + sizeof_AndroidHeader) with
      | (.error e, file2) =>
        ⟨false, (reader.set_error e).fatal_if file2, file2, header_out, offset_out⟩
      | (.ok buf, file2) =>
        match mb_memmem buf BOOT_MAGIC with
        | none => ⟨false, reader.set_error .HeaderNotFound, file2, header_out, offset_out⟩
        | some offset =>
          if buf.length - offset < sizeof_AndroidHeader then
            ⟨false, reader.set_error .HeaderOutOfBounds, file2, header_out, offset_out⟩
          else
            ⟨true, reader, file2,
             AndroidHeader.of_bytes (slice buf offset sizeof_AndroidHeader), offset⟩

/-- `AndroidFormatReader::convert_header`: the results of the setters are dropped and the
function reports success unconditionally. -/
def convert_header (hdr : AndroidHeader) (header : Header) : Bool × Header :=
  let board_name := c_str (hdr.name.take BOOT_NAME_SIZE ++ [0])
  let cmdline := c_str (hdr.cmdline.take BOOT_ARGS_SIZE ++ [0])
  let header := header.set_supported_fields ANDROID_SUPPORTED_FIELDS
  let header := (header.set_board_name (some board_name)).2
  let header := (header.set_kernel_cmdline (some cmdline)).2
  let header := (header.set_page_size (some hdr.page_size)).2
  let header := (header.set_kernel_address (some hdr.kernel_addr)).2
  let header := (header.set_ramdisk_address (some hdr.ramdisk_addr)).2
  let header := (header.set_secondboot_address (some hdr.second_addr)).2
  let header := (header.set_kernel_tags_address (some hdr.tags_addr)).2
  (true, header)

/-- What `read_header` leaves behind: the return value, the reader object, the file and
the caller's `Header`. -/
structure ReadHeaderResult where
  ok : Bool
  self : AndroidFormatReader
  file : File
  header : Header
  deriving DecidableEq, Repr

/-- One step of the offset computation of `read_header`: `pos += size;
pos += align_page_size<uint64_t>(pos, page_size);` in `uint64_t` arithmetic. -/
def advance (pos size page_size : Nat) : Nat :=
  let pos := (pos + size) % UINT64_MOD
  (pos + align_page_size pos page_size) % UINT64_MOD

/-- The segment list that `read_header` builds from the cached raw header, the header
offset and the page size. -/
def android_entries (hdr : AndroidHeader) (header_offset page_size : Nat)
    (allow_truncated_dt : Bool) : List SegmentReaderEntry :=
  let pos := 0
  let pos := (pos + header_offset) % UINT64_MOD
  let pos := advance pos sizeof_AndroidHeader page_size
  let kernel_offset := pos
  let pos := advance pos hdr.kernel_size page_size
  let ramdisk_offset := pos
  let pos := advance pos hdr.ramdisk_size page_size
  let second_offset := pos
  let pos := advance pos hdr.second_size page_size
  let dt_offset := pos
  let entries : List SegmentReaderEntry := []
  let entries := entries ++ [⟨ENTRY_TYPE_KERNEL, kernel_offset, hdr.kernel_size, false⟩]
  let entries := entries ++ [⟨ENTRY_TYPE_RAMDISK, ramdisk_offset, hdr.ramdisk_size, false⟩]
  let entries :=
    if hdr.second_size > 0 then
      entries ++ [⟨ENTRY_TYPE_SECONDBOOT, second_offset, hdr.second_size, false⟩]
    else entries
  let entries :=
    if hdr.dt_size > 0 then
      entries ++ [⟨ENTRY_TYPE_DEVICE_TREE, dt_offset, hdr.dt_size, allow_truncated_dt⟩]
    else entries
  entries

/-- The part of `AndroidFormatReader::read_header` after the header has been located. -/
def read_header_located (self : AndroidFormatReader) (file : File) (header : Header)
    (header_offset : Nat) : ReadHeaderResult :=
  match convert_header self._hdr header with
  | (false, header1) =>
    ⟨false, { self with _reader := self._reader.set_error .HeaderSetFieldsFailed }, file,
     header1⟩
  | (true, header1) =>
    let page_size := header1.page_size.getD 0
    let entries := android_entries self._hdr header_offset page_size self._allow_truncated_dt
    match self._seg.set_entries self._reader entries with
    | (ok, seg, reader) => ⟨ok, { self with _seg := seg, _reader := reader }, file, header1⟩

/-- `AndroidFormatReader::read_header`. -/
def read_header (self : AndroidFormatReader) (file : File) (header : Header) :
    ReadHeaderResult :=
  match self._header_offset with
  | none =>
    let r := find_header self._reader file MAX_HEADER_OFFSET self._hdr 0
    if r.ok = false then
      ⟨false, { self with _reader := r.reader, _hdr := r.header_out }, r.file, header⟩
    else
      read_header_located
        { self with _reader := r.reader, _hdr := r.header_out,
                    _header_offset := some r.offset_out }
        r.file header r.offset_out
  | some header_offset => read_header_located self file header header_offset

/-! ## Sony ELF definitions -/

/-- The constants of `sony_elf_defs.h`, which is not under the embedded sources: the
identification bytes and the `(type, flags)` encodings of the program headers.  They are
parameters of the development. -/
structure SonyElfDefs where
  SONY_E_IDENT : List Nat
  SONY_EI_NIDENT : Nat
  SONY_E_TYPE_KERNEL : Nat
  SONY_E_FLAGS_KERNEL : Nat
  SONY_E_TYPE_RAMDISK : Nat
  SONY_E_FLAGS_RAMDISK : Nat
  SONY_E_TYPE_IPL : Nat
  SONY_E_FLAGS_IPL : Nat
  SONY_E_TYPE_CMDLINE : Nat
  SONY_E_FLAGS_CMDLINE : Nat
  SONY_E_TYPE_RPM : Nat
  SONY_E_FLAGS_RPM : Nat
  SONY_E_TYPE_APPSBL : Nat
  SONY_E_FLAGS_APPSBL : Nat
  SONY_E_TYPE_SIN : Nat
  deriving DecidableEq, Repr

/-- What the code takes for granted about the constants: the identification bytes fit the
16-byte identification area of an ELF header, every constant is a 32-bit word, and the six
`(type, flags)` pairs are pairwise distinct. -/
def SonyElfDefs.valid (D : SonyElfDefs) : Prop :=
  D.SONY_EI_NIDENT ≤ 16 ∧ D.SONY_E_IDENT.length = D.SONY_EI_NIDENT
  ∧ (∀ x ∈ [D.SONY_E_TYPE_KERNEL, D.SONY_E_FLAGS_KERNEL, D.SONY_E_TYPE_RAMDISK,
        D.SONY_E_FLAGS_RAMDISK, D.SONY_E_TYPE_IPL, D.SONY_E_FLAGS_IPL,
        D.SONY_E_TYPE_CMDLINE, D.SONY_E_FLAGS_CMDLINE, D.SONY_E_TYPE_RPM,
        D.SONY_E_FLAGS_RPM, D.SONY_E_TYPE_APPSBL, D.SONY_E_FLAGS_APPSBL,
        D.SONY_E_TYPE_SIN], x < UINT32_MOD)
  ∧ ([(D.SONY_E_TYPE_CMDLINE, D.SONY_E_FLAGS_CMDLINE),
      (D.SONY_E_TYPE_KERNEL, D.SONY_E_FLAGS_KERNEL),
      (D.SONY_E_TYPE_RAMDISK, D.SONY_E_FLAGS_RAMDISK),
      (D.SONY_E_TYPE_IPL, D.SONY_E_FLAGS_IPL),
      (D.SONY_E_TYPE_RPM, D.SONY_E_FLAGS_RPM),
      (D.SONY_E_TYPE_APPSBL, D.SONY_E_FLAGS_APPSBL)] : List (Nat × Nat)).Nodup

instance (D : SonyElfDefs) : Decidable D.valid := by
  unfold SonyElfDefs.valid
  exact inferInstance

/-- The constants of the Sony ELF boot images found on devices, used for examples. -/
def sony_elf_defs : SonyElfDefs :=
  { SONY_E_IDENT := [0x7f, 69, 76, 70, 1, 1, 1, 0x61]
    SONY_EI_NIDENT := 8
    SONY_E_TYPE_KERNEL := 1
    SONY_E_FLAGS_KERNEL := 0
    SONY_E_TYPE_RAMDISK := 1
    SONY_E_FLAGS_RAMDISK := 0x80000000
    SONY_E_TYPE_IPL := 1
    SONY_E_FLAGS_IPL := 0x40000000
    SONY_E_TYPE_CMDLINE := 4
    SONY_E_FLAGS_CMDLINE := 0x20000000
    SONY_E_TYPE_RPM := 1
    SONY_E_FLAGS_RPM := 0x01000000
    SONY_E_TYPE_APPSBL := 1
    SONY_E_FLAGS_APPSBL := 0x02000000
    SONY_E_TYPE_SIN := 0x214e4953 }

/-- Modelled from the spec: the raw ELF header `Sony_Elf32_Ehdr` (declared in
`sony_elf_defs.h`, not under the embedded sources), with the layout of a 32-bit ELF
header: 16 bytes of identification (the `SONY_EI_NIDENT` identification bytes and the
padding after them), then the words of the header. -/
structure Sony_Elf32_Ehdr where
  e_ident : List Nat
  e_type : Nat
  e_machine : Nat
  e_version : Nat
  e_entry : Nat
  e_phoff : Nat
  e_shoff : Nat
  e_flags : Nat
  e_ehsize : Nat
  e_phentsize : Nat
  e_phnum : Nat
  e_shentsize : Nat
  e_shnum : Nat
  e_shstrndx : Nat
  deriving DecidableEq, Repr

/-- Modelled from the spec: the raw program header `Sony_Elf32_Phdr`, with the layout of
a 32-bit ELF program header: eight 32-bit words. -/
structure Sony_Elf32_Phdr where
  p_type : Nat
  p_offset : Nat
  p_vaddr : Nat
  p_paddr : Nat
  p_filesz : Nat
  p_memsz : Nat
  p_flags : Nat
  p_align : Nat
  deriving DecidableEq, Repr

/-- The value-initialised ELF header (`_hdr = {}`). -/
def Sony_Elf32_Ehdr.zero : Sony_Elf32_Ehdr :=
  { e_ident := List.replicate 16 0, e_type := 0, e_machine := 0, e_version := 0, e_entry := 0,
    e_phoff := 0, e_shoff := 0, e_flags := 0, e_ehsize := 0, e_phentsize := 0, e_phnum := 0,
    e_shentsize := 0, e_shnum := 0, e_shstrndx := 0 }

/-- The value-initialised program header. -/
def Sony_Elf32_Phdr.zero : Sony_Elf32_Phdr :=
  { p_type := 0, p_offset := 0, p_vaddr := 0, p_paddr := 0, p_filesz := 0, p_memsz := 0,
    p_flags := 0, p_align := 0 }

/-- The `sizeof(Sony_Elf32_Ehdr)` of the 32-bit ELF layout; the writer stores the same
number in `e_phoff`. -/
def sizeof_Sony_Elf32_Ehdr : Nat := 52

/-- The `sizeof(Sony_Elf32_Phdr)` of the 32-bit ELF layout. -/
def sizeof_Sony_Elf32_Phdr : Nat := 32

/-- The bytes that reach the file for an ELF header: `sony_elf_fix_ehdr_byte_order`
followed by the raw write of the struct, that is, every word little-endian. -/
def Sony_Elf32_Ehdr.to_bytes (h : Sony_Elf32_Ehdr) : List Nat :=
  (h.e_ident ++ List.replicate 16 0).take 16
    ++ le_encode 2 h.e_type ++ le_encode 2 h.e_machine ++ le_encode 4 h.e_version
    ++ le_encode 4 h.e_entry ++ le_encode 4 h.e_phoff ++ le_encode 4 h.e_shoff
    ++ le_encode 4 h.e_flags ++ le_encode 2 h.e_ehsize ++ le_encode 2 h.e_phentsize
    ++ le_encode 2 h.e_phnum ++ le_encode 2 h.e_shentsize ++ le_encode 2 h.e_shnum
    ++ le_encode 2 h.e_shstrndx

/-- The raw read of an ELF header followed by `sony_elf_fix_ehdr_byte_order`. -/
def Sony_Elf32_Ehdr.of_bytes (b : List Nat) : Sony_Elf32_Ehdr :=
  { e_ident := slice b 0 16
    e_type := le16_at b 16
    e_machine := le16_at b 18
    e_version := le32_at b 20
    e_entry := le32_at b 24
    e_phoff := le32_at b 28
    e_shoff := le32_at b 32
    e_flags := le32_at b 36
    e_ehsize := le16_at b 40
    e_phentsize := le16_at b 42
    e_phnum := le16_at b 44
    e_shentsize := le16_at b 46
    e_shnum := le16_at b 48
    e_shstrndx := le16_at b 50 }

/-- The bytes that reach the file for a program header: `sony_elf_fix_phdr_byte_order`
followed by the raw write of the struct. -/
def Sony_Elf32_Phdr.to_bytes (p : Sony_Elf32_Phdr) : List Nat :=
  le_encode 4 p.p_type ++ le_encode 4 p.p_offset ++ le_encode 4 p.p_vaddr
    ++ le_encode 4 p.p_paddr ++ le_encode 4 p.p_filesz ++ le_encode 4 p.p_memsz
    ++ le_encode 4 p.p_flags ++ le_encode 4 p.p_align

/-- The raw read of a program header followed by `sony_elf_fix_phdr_byte_order`. -/
def Sony_Elf32_Phdr.of_bytes (b : List Nat) : Sony_Elf32_Phdr :=
  { p_type := le32_at b 0
    p_offset := le32_at b 4
    p_vaddr := le32_at b 8
    p_paddr := le32_at b 12
    p_filesz := le32_at b 16
    p_memsz := le32_at b 20
    p_flags := le32_at b 24
    p_align := le32_at b 28 }

/-- The fields the Sony ELF format supports (`sonyelf::SUPPORTED_FIELDS`, declared in
`sony_elf_p.h`): the fields that the reader sets and the writer reads. -/
def SONY_ELF_SUPPORTED_FIELDS : List HeaderField :=
  [.KernelAddress, .RamdiskAddress, .KernelCmdline, .SonyIplAddress, .SonyRpmAddress,
   .SonyAppsblAddress, .Entrypoint]

/-- The writer's private entry type of the command line segment. -/
def SONY_ELF_ENTRY_CMDLINE : Int := -1

/-! ## The reader side of the segment engine: entries and data -/

/-- The index of the segment that the next `read_entry` moves to: the first one before
any entry has been read, the one after the current entry otherwise. -/
def SegmentReader.next_index (s : SegmentReader) : Nat :=
  match s.state with
  | .Begin => 0
  | .Entries => s.entry + 1
  | .End => s.entries.length

/-- Modelled from the spec: `SegmentReader::read_entry` "advances the cursor to the next
segment, seeks the file to that segment's offset, records the residual bytes, and
returns the entry's type and size (or `EndOfEntries`)". -/
def SegmentReader.read_entry (s : SegmentReader) (file : File) (entry : Entry)
    (reader : Reader) : Bool × SegmentReader × File × Entry × Reader :=
  let next := s.next_index
  match s.entries[next]? with
  | none =>
    (false, { s with state := .End, entry := s.entries.length }, file, entry,
     reader.set_error .EndOfEntries)
  | some e =>
    match file.seek_set (to_int64 e.offset) with
    | (.error err, file1) => (false, s, file1, entry, (reader.set_error err).fatal_if file1)
    | (.ok _, file1) =>
      (true,
       { s with state := .Entries, entry := next, read_cur := e.offset,
                read_end := e.offset + e.size },
       file1, { type := some e.type, size := some e.size }, reader)

/-- Modelled from the spec: `SegmentReader::read_data` "returns up to `min(n, residual)`
bytes from the current segment, decrements the residual, and at residual 0 returns 0
bytes"; a short read fails with `UnexpectedEof` unless the segment allows truncation. -/
def SegmentReader.read_data (s : SegmentReader) (file : File) (buf_size : Nat)
    (reader : Reader) : Bool × SegmentReader × File × List Nat × Reader :=
  match s.state, s.entries[s.entry]? with
  | .Entries, some e =>
    let to_read := min buf_size (s.read_end - s.read_cur)
    match file_read_retry file to_read with
    | (.error err, file1) => (false, s, file1, [], (reader.set_error err).fatal_if file1)
    | (.ok buf, file1) =>
      if buf.length < to_read ∧ e.can_truncate = false then
        (false, s, file1, [], reader.set_error .SegmentUnexpectedEof)
      else (true, { s with read_cur := s.read_cur + buf.length }, file1, buf, reader)
  | _, _ => (false, s, file, [], reader.set_error .InvalidState)

/-! ## The writer side of the segment engine -/

/-- The part of the `Writer` facade that the format writers touch. -/
structure Writer where
  error : Option Error
  fatal : Bool
  deriving DecidableEq, Repr

/-- `Writer::set_error`. -/
def Writer.set_error (w : Writer) (e : Error) : Writer := { w with error := some e }

/-- `Writer::set_fatal`. -/
def Writer.set_fatal (w : Writer) : Writer := { w with fatal := true }

/-- The recurring `if (file.is_fatal()) { _writer.set_fatal(); }`. -/
def Writer.fatal_if (w : Writer) (f : File) : Writer := if f.fatal then w.set_fatal else w

/-- A facade with no error stored. -/
def Writer.init : Writer := { error := none, fatal := false }

/-- The record `SegmentWriterEntry { type, offset, size, align }` that the format writers
build. -/
structure SegmentWriterEntry where
  type : Int
  offset : Nat
  size : Option Nat
  align : Nat
  deriving DecidableEq, Repr

/-- States of the writer side of the segment engine. -/
inductive SegmentWriterState
  | Begin
  | Entries
  | End
  deriving DecidableEq, Repr

/-- Modelled from the spec: the writer side of the segment engine (`segment_writer.cpp`
is not under the embedded sources).  `entry` is the index of the current segment (the
length of the list stands for the end iterator) and `entry_size` the number of bytes
written to it so far. -/
structure SegmentWriter where
  state : SegmentWriterState
  entries : List SegmentWriterEntry
  entry : Nat
  entry_size : Nat
  deriving DecidableEq, Repr

/-- A freshly constructed segment writer. -/
def SegmentWriter.init : SegmentWriter :=
  { state := .Begin, entries := [], entry := 0, entry_size := 0 }

/-- Modelled from the spec: `SegmentWriter::set_entries` "accepts an ordered list of
segments whose offsets/sizes are not yet known". -/
def SegmentWriter.set_entries (s : SegmentWriter) (writer : Writer)
    (entries : List SegmentWriterEntry) : Bool × SegmentWriter × Writer :=
  if s.state ≠ .Begin then (false, s, writer.set_error .InvalidState)
  else (true, { s with entries := entries, entry := entries.length }, writer)

/-- The index of the segment that the next `get_entry` moves to. -/
def SegmentWriter.next_index (s : SegmentWriter) : Nat :=
  match s.state with
  | .Begin => 0
  | .Entries => s.entry + 1
  | .End => s.entries.length

/-- Modelled from the spec: `SegmentWriter::get_entry` moves to the next expected entry,
notes the file position as the start of the segment and "returns the next expected
entry's type and any pre-declared size"; after the last entry it fails with
`EndOfEntries` and the current entry is the end of the list. -/
def SegmentWriter.get_entry (s : SegmentWriter) (file : File) (entry : Entry)
    (writer : Writer) : Bool × SegmentWriter × File × Entry × Writer :=
  if file.io_ok = false then
    (false, s, file, entry, (writer.set_error .FileIo).fatal_if file)
  else
    let next := s.next_index
    match s.entries[next]? with
    | none =>
      (false, { s with state := .End, entry := s.entries.length }, file, entry,
       writer.set_error .EndOfEntries)
    | some e =>
      (true,
       { s with state := .Entries, entries := s.entries.set next { e with offset := file.pos },
                entry := next, entry_size := 0 },
       file, { type := some e.type, size := e.size }, writer)

/-- Modelled from the spec: `SegmentWriter::write_entry` "records the caller-declared size
(if present)". -/
def SegmentWriter.write_entry (s : SegmentWriter) (file : File) (entry : Entry)
    (writer : Writer) : Bool × SegmentWriter × File × Writer :=
  match s.state, s.entries[s.entry]? with
  | .Entries, some e =>
    match entry.size with
    | some size =>
      (true, { s with entries := s.entries.set s.entry { e with size := some size } }, file,
       writer)
    | none => (true, s, file, writer)
  | _, _ => (false, s, file, writer.set_error .InvalidState)

/-- Modelled from the spec: `SegmentWriter::write_data` "streams bytes to the file and
accumulates the running size". -/
def SegmentWriter.write_data (s : SegmentWriter) (file : File) (buf : List Nat)
    (writer : Writer) : Bool × SegmentWriter × File × Nat × Writer :=
  match s.state with
  | .Entries =>
    match file_write_exact file buf with
    | (.error err, file1) => (false, s, file1, 0, (writer.set_error err).fatal_if file1)
    | (.ok _, file1) =>
      (true, { s with entry_size := s.entry_size + buf.length }, file1, buf.length, writer)
  | _ => (false, s, file, 0, writer.set_error .InvalidState)

/-- Modelled from the spec: `SegmentWriter::finish_entry` validates a declared size against
the bytes written (`SizeMismatch`), otherwise takes the size to be what was written, and
"pads to page alignment" (for a non-zero alignment) by moving the file position; the
current entry stays the finished one. -/
def SegmentWriter.finish_entry (s : SegmentWriter) (file : File) (writer : Writer) :
    Bool × SegmentWriter × File × Writer :=
  match s.state, s.entries[s.entry]? with
  | .Entries, some e =>
    if e.size.isSome ∧ e.size ≠ some s.entry_size then
      (false, s, file, writer.set_error .SizeMismatch)
    else
      let s1 := { s with entries := s.entries.set s.entry { e with size := some s.entry_size } }
      if e.align > 0 then
        match file.seek_set (to_int64 (file.pos + align_page_size file.pos e.align)) with
        | (.error err, file1) => (false, s1, file1, (writer.set_error err).fatal_if file1)
        | (.ok _, file1) => (true, s1, file1, writer)
      else (true, s1, file, writer)
  | _, _ => (false, s, file, writer.set_error .InvalidState)

/-! ## `SonyElfFormatWriter` -/

/-- The members of `SonyElfFormatWriter`. -/
structure SonyElfFormatWriter where
  _writer : Writer
  _hdr : Sony_Elf32_Ehdr
  _hdr_kernel : Sony_Elf32_Phdr
  _hdr_ramdisk : Sony_Elf32_Phdr
  _hdr_cmdline : Sony_Elf32_Phdr
  _hdr_ipl : Sony_Elf32_Phdr
  _hdr_rpm : Sony_Elf32_Phdr
  _hdr_appsbl : Sony_Elf32_Phdr
  _cmdline : List Nat
  _seg : SegmentWriter
  deriving DecidableEq, Repr

/-- The constructor `SonyElfFormatWriter::SonyElfFormatWriter(writer)`. -/
def SonyElfFormatWriter.new (writer : Writer) : SonyElfFormatWriter :=
  { _writer := writer, _hdr := Sony_Elf32_Ehdr.zero, _hdr_kernel := Sony_Elf32_Phdr.zero,
    _hdr_ramdisk := Sony_Elf32_Phdr.zero, _hdr_cmdline := Sony_Elf32_Phdr.zero,
    _hdr_ipl := Sony_Elf32_Phdr.zero, _hdr_rpm := Sony_Elf32_Phdr.zero,
    _hdr_appsbl := Sony_Elf32_Phdr.zero, _cmdline := [], _seg := SegmentWriter.init }

/-- A program header as `write_header` constructs it: zeroed, then type, flags and
alignment, and the load address when the `Header` has one. -/
def staged_phdr (p_type p_flags : Nat) (address : Option Nat) : Sony_Elf32_Phdr :=
  let p := { Sony_Elf32_Phdr.zero with p_type := p_type, p_flags := p_flags, p_align := 0 }
  match address with
  | some a => { p with p_vaddr := a, p_paddr := a }
  | none => p

/-- `SonyElfFormatWriter::write_header`. -/
def SonyElfFormatWriter.write_header (D : SonyElfDefs) (self : SonyElfFormatWriter)
    (file : File) (header : Header) : Bool × SonyElfFormatWriter × File :=
  let _hdr : Sony_Elf32_Ehdr :=
    { Sony_Elf32_Ehdr.zero with
      e_ident := D.SONY_E_IDENT.take D.SONY_EI_NIDENT
        ++ Sony_Elf32_Ehdr.zero.e_ident.drop D.SONY_EI_NIDENT
      e_type := 2
      e_machine := 40
      e_version := 1
      e_phoff := 52
      e_shoff := 0
      e_flags := 0
      e_ehsize := sizeof_Sony_Elf32_Ehdr
      e_phentsize := sizeof_Sony_Elf32_Phdr
      e_shentsize := 0
      e_shnum := 0
      e_shstrndx := 0 }
  let _hdr : Sony_Elf32_Ehdr :=
    match header.entrypoint_address with
    | some entrypoint_address => { _hdr with e_entry := entrypoint_address }
    | none =>
      match header.kernel_address with
      | some kernel_address => { _hdr with e_entry := kernel_address }
      | none => _hdr
  let _hdr_kernel := staged_phdr D.SONY_E_TYPE_KERNEL D.SONY_E_FLAGS_KERNEL header.kernel_address
  let _hdr_ramdisk :=
    staged_phdr D.SONY_E_TYPE_RAMDISK D.SONY_E_FLAGS_RAMDISK header.ramdisk_address
  let _hdr_cmdline :=
    { Sony_Elf32_Phdr.zero with
      p_type := D.SONY_E_TYPE_CMDLINE, p_vaddr := 0, p_paddr := 0,
      p_flags := D.SONY_E_FLAGS_CMDLINE, p_align := 0 }
  let _cmdline : List Nat :=
    match header.kernel_cmdline with
    | some cmdline => cmdline
    | none => []
  let _hdr_ipl := staged_phdr D.SONY_E_TYPE_IPL D.SONY_E_FLAGS_IPL header.sony_ipl_address
  let _hdr_rpm := staged_phdr D.SONY_E_TYPE_RPM D.SONY_E_FLAGS_RPM header.sony_rpm_address
  let _hdr_appsbl :=
    staged_phdr D.SONY_E_TYPE_APPSBL D.SONY_E_FLAGS_APPSBL header.sony_appsbl_address
  let entries : List SegmentWriterEntry :=
    [⟨ENTRY_TYPE_KERNEL, 0, none, 0⟩, ⟨ENTRY_TYPE_RAMDISK, 0, none, 0⟩,
     ⟨SONY_ELF_ENTRY_CMDLINE, 0, none, 0⟩, ⟨ENTRY_TYPE_SONY_IPL, 0, none, 0⟩,
     ⟨ENTRY_TYPE_SONY_RPM, 0, none, 0⟩, ⟨ENTRY_TYPE_SONY_APPSBL, 0, none, 0⟩]
  let self1 : SonyElfFormatWriter :=
    { self with
      _hdr := _hdr, _hdr_kernel := _hdr_kernel, _hdr_ramdisk := _hdr_ramdisk,
      _hdr_cmdline := _hdr_cmdline, _hdr_ipl := _hdr_ipl, _hdr_rpm := _hdr_rpm,
      _hdr_appsbl := _hdr_appsbl, _cmdline := _cmdline }
  match self1._seg.set_entries self1._writer entries with
  | (false, seg, writer) => (false, { self1 with _seg := seg, _writer := writer }, file)
  | (true, seg, writer) =>
    let self2 := { self1 with _seg := seg, _writer := writer }
    match file.seek_set 4096 with
    | (.error err, file1) =>
      (false, { self2 with _writer := (self2._writer.set_error err).fatal_if file1 }, file1)
    | (.ok _, file1) => (true, self2, file1)

/-- `SonyElfFormatWriter::write_entry`. -/
def SonyElfFormatWriter.write_entry (self : SonyElfFormatWriter) (file : File)
    (entry : Entry) : Bool × SonyElfFormatWriter × File :=
  match self._seg.write_entry file entry self._writer with
  | (ok, seg, file1, writer) => (ok, { self with _seg := seg, _writer := writer }, file1)

/-- `SonyElfFormatWriter::write_data`; the last component is `bytes_written`. -/
def SonyElfFormatWriter.write_data (self : SonyElfFormatWriter) (file : File)
    (buf : List Nat) : Bool × SonyElfFormatWriter × File × Nat :=
  match self._seg.write_data file buf self._writer with
  | (ok, seg, file1, n, writer) => (ok, { self with _seg := seg, _writer := writer }, file1, n)

/-- The three assignments of one `case` of `finish_entry`: the offset narrowed to
`Elf32_Off` and the size stored in both size words. -/
def finished_phdr (p : Sony_Elf32_Phdr) (swentry : SegmentWriterEntry) : Sony_Elf32_Phdr :=
  { p with
    p_offset := swentry.offset % UINT32_MOD
    p_filesz := (swentry.size.getD 0) % UINT32_MOD
    p_memsz := (swentry.size.getD 0) % UINT32_MOD }

/-- `SonyElfFormatWriter::finish_entry`. -/
def SonyElfFormatWriter.finish_entry (self : SonyElfFormatWriter) (file : File) :
    Bool × SonyElfFormatWriter × File :=
  match self._seg.finish_entry file self._writer with
  | (false, seg, file1, writer) => (false, { self with _seg := seg, _writer := writer }, file1)
  | (true, seg, file1, writer) =>
    let self1 := { self with _seg := seg, _writer := writer }
    match seg.entries[seg.entry]? with
    | none => (false, self1, file1)
    | some swentry =>
      let self2 : SonyElfFormatWriter :=
        if swentry.type = ENTRY_TYPE_KERNEL then
          { self1 with _hdr_kernel := finished_phdr self1._hdr_kernel swentry }
        else if swentry.type = ENTRY_TYPE_RAMDISK then
          { self1 with _hdr_ramdisk := finished_phdr self1._hdr_ramdisk swentry }
        else if swentry.type = ENTRY_TYPE_SONY_IPL then
          { self1 with _hdr_ipl := finished_phdr self1._hdr_ipl swentry }
        else if swentry.type = ENTRY_TYPE_SONY_RPM then
          { self1 with _hdr_rpm := finished_phdr self1._hdr_rpm swentry }
        else if swentry.type = ENTRY_TYPE_SONY_APPSBL then
          { self1 with _hdr_appsbl := finished_phdr self1._hdr_appsbl swentry }
        else if swentry.type = SONY_ELF_ENTRY_CMDLINE then
          { self1 with _hdr_cmdline := finished_phdr self1._hdr_cmdline swentry }
        else self1
      let e_phnum :=
        if swentry.size.getD 0 > 0 then (self2._hdr.e_phnum + 1) % 2 ^ 16
        else self2._hdr.e_phnum
      (true, { self2 with _hdr := { self2._hdr with e_phnum := e_phnum } }, file1)

/-- `SonyElfFormatWriter::get_entry`.  The C++ function calls itself after it has written
the command line segment; the first argument bounds the depth of that recursion. -/
def SonyElfFormatWriter.get_entry : Nat → SonyElfFormatWriter → File → Entry →
    Bool × SonyElfFormatWriter × File × Entry
  | 0, self, file, entry => (false, { self with _writer := self._writer.set_fatal }, file, entry)
  | depth + 1, self, file, entry =>
    match self._seg.get_entry file entry self._writer with
    | (false, seg, file1, entry1, writer) =>
      (false, { self with _seg := seg, _writer := writer }, file1, entry1)
    | (true, seg, file1, entry1, writer) =>
      let self1 := { self with _seg := seg, _writer := writer }
      match seg.entries[seg.entry]? with
      | none => (false, self1, file1, entry1)
      | some swentry =>
        if swentry.type = SONY_ELF_ENTRY_CMDLINE then
          let entry2 := entry1.clear
          let entry3 : Entry := { entry2 with size := some self1._cmdline.length }
          match self1.write_entry file1 entry3 with
          | (false, self2, file2) =>
            (false, { self2 with _writer := self2._writer.set_fatal }, file2, entry3)
          | (true, self2, file2) =>
            match self2.write_data file2 self2._cmdline with
            | (false, self3, file3, _) =>
              (false, { self3 with _writer := self3._writer.set_fatal }, file3, entry3)
            | (true, self3, file3, _) =>
              match self3.finish_entry file3 with
              | (false, self4, file4) =>
                (false, { self4 with _writer := self4._writer.set_fatal }, file4, entry3)
              | (true, self4, file4) =>
                match SonyElfFormatWriter.get_entry depth self4 file4 entry3 with
                | (false, self5, file5, entry5) =>
                  (false, { self5 with _writer := self5._writer.set_fatal }, file5, entry5)
                | (true, self5, file5, entry5) => (true, self5, file5, entry5)
        else (true, self1, file1, entry1)

/-- The loop at the end of `close`: the headers are written one after the other until the
first one that may not be written. -/
def write_headers (writer : Writer) (file : File) :
    List (List Nat × Bool) → Bool × Writer × File
  | [] => (true, writer, file)
  | (bytes, can_write) :: rest =>
    if can_write then
      match file_write_exact file bytes with
      | (.error err, file1) => (false, (writer.set_error err).fatal_if file1, file1)
      | (.ok _, file1) => write_headers writer file1 rest
    else (true, writer, file)

/-- `SonyElfFormatWriter::close`. -/
def SonyElfFormatWriter.close (self : SonyElfFormatWriter) (file : File) :
    Bool × SonyElfFormatWriter × File :=
  if self._seg.entry ≥ self._seg.entries.length then
    let headers : List (List Nat × Bool) :=
      [(self._hdr.to_bytes, true),
       (self._hdr_kernel.to_bytes, decide (self._hdr_kernel.p_filesz > 0)),
       (self._hdr_ramdisk.to_bytes, decide (self._hdr_ramdisk.p_filesz > 0)),
       (self._hdr_cmdline.to_bytes, decide (self._hdr_cmdline.p_filesz > 0)),
       (self._hdr_ipl.to_bytes, decide (self._hdr_ipl.p_filesz > 0)),
       (self._hdr_rpm.to_bytes, decide (self._hdr_rpm.p_filesz > 0)),
       (self._hdr_appsbl.to_bytes, decide (self._hdr_appsbl.p_filesz > 0))]
    match file.seek_set 0 with
    | (.error err, file1) =>
      (false, { self with _writer := (self._writer.set_error err).fatal_if file1 }, file1)
    | (.ok _, file1) =>
      match write_headers self._writer file1 headers with
      | (ok, writer, file2) => (ok, { self with _writer := writer }, file2)
  else (true, self, file)

/-! ## `SonyElfFormatReader` -/

/-- The members of `SonyElfFormatReader`. -/
structure SonyElfFormatReader where
  _reader : Reader
  _hdr : Sony_Elf32_Ehdr
  _have_header : Bool
  _seg : SegmentReader
  deriving DecidableEq, Repr

/-- The constructor `SonyElfFormatReader::SonyElfFormatReader(reader)`. -/
def SonyElfFormatReader.new (reader : Reader) : SonyElfFormatReader :=
  { _reader := reader, _hdr := Sony_Elf32_Ehdr.zero, _have_header := false,
    _seg := SegmentReader.init }

/-- `SonyElfFormatReader::find_sony_elf_header`; the last component is `header_out`. -/
def find_sony_elf_header (D : SonyElfDefs) (reader : Reader) (file : File)
    (header_out : Sony_Elf32_Ehdr) : Bool × Reader × File × Sony_Elf32_Ehdr :=
  match file.seek_set 0 with
  | (.error err, file1) => (false, (reader.set_error err).fatal_if file1, file1, header_out)
  | (.ok _, file1) =>
    match file_read_exact file1 sizeof_Sony_Elf32_Ehdr with
    | (.error err, file2) =>
      if err = .FileUnexpectedEof then
        (false, reader.set_error .SonyElfHeaderTooSmall, file2, header_out)
      else (false, (reader.set_error err).fatal_if file2, file2, header_out)
    | (.ok buf, file2) =>
      if (slice buf 0 16).take D.SONY_EI_NIDENT ≠ D.SONY_E_IDENT.take D.SONY_EI_NIDENT then
        (false, reader.set_error .InvalidElfMagic, file2, header_out)
      else (true, reader, file2, Sony_Elf32_Ehdr.of_bytes buf)

/-- The loop of `read_header` over the program headers; the first argument is the number
of program headers still to read (`_hdr.e_phnum - i`) and `pos` the offset of the next
one. -/
def read_program_headers (D : SonyElfDefs) :
    Nat → Nat → Reader → File → Header → List SegmentReaderEntry →
    Bool × Reader × File × Header × List SegmentReaderEntry
  | 0, _, reader, file, header, entries => (true, reader, file, header, entries)
  | n + 1, pos, reader, file, header, entries =>
    match file.seek_set (to_int64 pos) with
    | (.error err, file1) =>
      (false, (reader.set_error err).fatal_if file1, file1, header, entries)
    | (.ok _, file1) =>
      match file_read_exact file1 sizeof_Sony_Elf32_Phdr with
      | (.error err, file2) =>
        (false, (reader.set_error err).fatal_if file2, file2, header, entries)
      | (.ok buf, file2) =>
        let pos1 := (pos + sizeof_Sony_Elf32_Phdr) % UINT64_MOD
        let phdr := Sony_Elf32_Phdr.of_bytes buf
        if phdr.p_type = D.SONY_E_TYPE_CMDLINE ∧ phdr.p_flags = D.SONY_E_FLAGS_CMDLINE then
          if phdr.p_memsz ≥ 512 then
            (false, reader.set_error .KernelCmdlineTooLong, file2, header, entries)
          else
            match file2.seek_set phdr.p_offset with
            | (.error err, file3) =>
              (false, (reader.set_error err).fatal_if file3, file3, header, entries)
            | (.ok _, file3) =>
              match file_read_exact file3 phdr.p_memsz with
              | (.error err, file4) =>
                (false, (reader.set_error err).fatal_if file4, file4, header, entries)
              | (.ok cmdline, file4) =>
                read_program_headers D n pos1 reader file4
                  (header.set_kernel_cmdline (some (c_str (cmdline ++ [0])))).2 entries
        else if phdr.p_type = D.SONY_E_TYPE_KERNEL ∧ phdr.p_flags = D.SONY_E_FLAGS_KERNEL then
          read_program_headers D n pos1 reader file2
            (header.set_kernel_address (some phdr.p_vaddr)).2
            (entries ++ [⟨ENTRY_TYPE_KERNEL, phdr.p_offset, phdr.p_memsz, false⟩])
        else if phdr.p_type = D.SONY_E_TYPE_RAMDISK
            ∧ phdr.p_flags = D.SONY_E_FLAGS_RAMDISK then
          read_program_headers D n pos1 reader file2
            (header.set_ramdisk_address (some phdr.p_vaddr)).2
            (entries ++ [⟨ENTRY_TYPE_RAMDISK, phdr.p_offset, phdr.p_memsz, false⟩])
        else if phdr.p_type = D.SONY_E_TYPE_IPL ∧ phdr.p_flags = D.SONY_E_FLAGS_IPL then
          read_program_headers D n pos1 reader file2
            (header.set_sony_ipl_address (some phdr.p_vaddr)).2
            (entries ++ [⟨ENTRY_TYPE_SONY_IPL, phdr.p_offset, phdr.p_memsz, false⟩])
        else if phdr.p_type = D.SONY_E_TYPE_RPM ∧ phdr.p_flags = D.SONY_E_FLAGS_RPM then
          read_program_headers D n pos1 reader file2
            (header.set_sony_rpm_address (some phdr.p_vaddr)).2
            (entries ++ [⟨ENTRY_TYPE_SONY_RPM, phdr.p_offset, phdr.p_memsz, false⟩])
        else if phdr.p_type = D.SONY_E_TYPE_APPSBL
            ∧ phdr.p_flags = D.SONY_E_FLAGS_APPSBL then
          read_program_headers D n pos1 reader file2
            (header.set_sony_appsbl_address (some phdr.p_vaddr)).2
            (entries ++ [⟨ENTRY_TYPE_SONY_APPSBL, phdr.p_offset, phdr.p_memsz, false⟩])
        else if phdr.p_type = D.SONY_E_TYPE_SIN then
          read_program_headers D n pos1 reader file2 header entries
        else
          (false, reader.set_error .InvalidTypeOrFlagsField, file2, header, entries)

/-- `SonyElfFormatReader::read_header`. -/
def SonyElfFormatReader.read_header (D : SonyElfDefs) (self : SonyElfFormatReader)
    (file : File) (header : Header) : Bool × SonyElfFormatReader × File × Header :=
  let located : Bool × SonyElfFormatReader × File :=
    if self._have_header = false then
      match find_sony_elf_header D self._reader file self._hdr with
      | (false, reader, file1, hdr) =>
        (false, { self with _reader := reader, _hdr := hdr }, file1)
      | (true, reader, file1, hdr) =>
        (true, { self with _reader := reader, _hdr := hdr, _have_header := true }, file1)
    else (true, self, file)
  match located with
  | (false, self1, file1) => (false, self1, file1, header)
  | (true, self1, file1) =>
    let header1 := header.set_supported_fields SONY_ELF_SUPPORTED_FIELDS
    let header2 := (header1.set_entrypoint_address (some self1._hdr.e_entry)).2
    let pos := (0 + sizeof_Sony_Elf32_Ehdr) % UINT64_MOD
    match read_program_headers D self1._hdr.e_phnum pos self1._reader file1 header2 [] with
    | (false, reader, file2, header3, _) =>
      (false, { self1 with _reader := reader }, file2, header3)
    | (true, reader, file2, header3, entries) =>
      match self1._seg.set_entries reader entries with
      | (ok, seg, reader1) => (ok, { self1 with _seg := seg, _reader := reader1 }, file2, header3)

/-- `SonyElfFormatReader::read_entry`. -/
def SonyElfFormatReader.read_entry (self : SonyElfFormatReader) (file : File)
    (entry : Entry) : Bool × SonyElfFormatReader × File × Entry :=
  match self._seg.read_entry file entry self._reader with
  | (ok, seg, file1, entry1, reader) =>
    (ok, { self with _seg := seg, _reader := reader }, file1, entry1)

/-- `SonyElfFormatReader::read_data`; the last component is the buffer filled, whose
length is `bytes_read`. -/
def SonyElfFormatReader.read_data (self : SonyElfFormatReader) (file : File)
    (buf_size : Nat) : Bool × SonyElfFormatReader × File × List Nat :=
  match self._seg.read_data file buf_size self._reader with
  | (ok, seg, file1, buf, reader) =>
    (ok, { self with _seg := seg, _reader := reader }, file1, buf)

/-! ## Options and bids of `AndroidFormatReader` -/

/-- The C library's `tolower` on a byte, in the "C" locale. -/
def c_tolower (c : Nat) : Nat := if 65 ≤ c ∧ c ≤ 90 then c + 32 else c

/-- The test `strcmp(a, b) == 0` on C strings, each given by its bytes before the
terminating NUL. -/
def strcmp_eq (a b : List Nat) : Bool := decide (a = b)

/-- The test `strcasecmp(a, b) == 0` on C strings. -/
def strcasecmp_eq (a b : List Nat) : Bool := decide (a.map c_tolower = b.map c_tolower)

/-- The string `"strict"`. -/
def STR_strict : List Nat := [115, 116, 114, 105, 99, 116]

/-- The string `"true"`. -/
def STR_true : List Nat := [116, 114, 117, 101]

/-- The string `"yes"`. -/
def STR_yes : List Nat := [121, 101, 115]

/-- The string `"y"`. -/
def STR_y : List Nat := [121]

/-- The string `"1"`. -/
def STR_1 : List Nat := [49]

/-- `AndroidFormatReader::set_option`. -/
def AndroidFormatReader.set_option (self : AndroidFormatReader) (key value : List Nat) :
    Bool × AndroidFormatReader :=
  if strcmp_eq key STR_strict then
    let strict := strcasecmp_eq value STR_true || strcasecmp_eq value STR_yes
      || strcasecmp_eq value STR_y || strcmp_eq value STR_1
    (true, { self with _allow_truncated_dt := !strict })
  else (false, self)

/-- `AndroidFormatReader::find_samsung_seandroid_magic`; the last component is
`offset_out`. -/
def find_samsung_seandroid_magic (reader : Reader) (file : File) (hdr : AndroidHeader)
    (offset_out : Nat) : Bool × Reader × File × Nat :=
  let pos := 0
  let pos := (pos + hdr.page_size) % UINT64_MOD
  let pos := advance pos hdr.kernel_size hdr.page_size
  let pos := advance pos hdr.ramdisk_size hdr.page_size
  let pos := advance pos hdr.second_size hdr.page_size
  let pos := advance pos hdr.dt_size hdr.page_size
  match file.seek_set (to_int64 pos) with
  | (.error e, file1) => (false, (reader.set_error e).fatal_if file1, file1, offset_out)
  | (.ok _, file1) =>
    match file_read_retry file1 SAMSUNG_SEANDROID_MAGIC_SIZE with
    | (.error e, file2) => (false, (reader.set_error e).fatal_if file2, file2, offset_out)
    | (.ok buf, file2) =>
      if buf.length ≠ SAMSUNG_SEANDROID_MAGIC_SIZE
          ∨ buf ≠ SAMSUNG_SEANDROID_MAGIC.take buf.length then
        (false, reader.set_error .SamsungMagicNotFound, file2, offset_out)
      else (true, reader, file2, pos)

/-- The constants of `bump_defs.h`, which is not under the embedded sources: the Bump
trailer magic and its length.  They are parameters of the development. -/
structure BumpDefs where
  BUMP_MAGIC : List Nat
  BUMP_MAGIC_SIZE : Nat
  deriving DecidableEq, Repr

/-- What the code and the specification take for granted about the Bump constants: the
magic has 16 bytes (the specification's "16-byte Bump magic") and is not the Samsung
trailer magic. -/
def BumpDefs.valid (B : BumpDefs) : Prop :=
  B.BUMP_MAGIC_SIZE = 16 ∧ B.BUMP_MAGIC.length = B.BUMP_MAGIC_SIZE
  ∧ B.BUMP_MAGIC ≠ SAMSUNG_SEANDROID_MAGIC

instance (B : BumpDefs) : Decidable B.valid := by
  unfold BumpDefs.valid
  exact inferInstance

/-- The Bump constants found in the wild, used for examples. -/
def bump_defs : BumpDefs :=
  { BUMP_MAGIC :=
      [0x41, 0xa9, 0xe4, 0x67, 0x74, 0x4d, 0x1d, 0x1b, 0xa4, 0x29, 0xf2, 0xec, 0xea, 0x65,
       0x52, 0x79]
    BUMP_MAGIC_SIZE := 16 }

/-- `AndroidFormatReader::find_bump_magic`; the last component is `offset_out`. -/
def find_bump_magic (B : BumpDefs) (reader : Reader) (file : File) (hdr : AndroidHeader)
    (offset_out : Nat) : Bool × Reader × File × Nat :=
  let pos := 0
  let pos := (pos + hdr.page_size) % UINT64_MOD
  let pos := advance pos hdr.kernel_size hdr.page_size
  let pos := advance pos hdr.ramdisk_size hdr.page_size
  let pos := advance pos hdr.second_size hdr.page_size
  let pos := advance pos hdr.dt_size hdr.page_size
  match file.seek_set (to_int64 pos) with
  | (.error e, file1) => (false, (reader.set_error e).fatal_if file1, file1, offset_out)
  | (.ok _, file1) =>
    match file_read_retry file1 B.BUMP_MAGIC_SIZE with
    | (.error e, file2) => (false, (reader.set_error e).fatal_if file2, file2, offset_out)
    | (.ok buf, file2) =>
      if buf.length ≠ B.BUMP_MAGIC_SIZE ∨ buf ≠ B.BUMP_MAGIC.take buf.length then
        (false, reader.set_error .BumpMagicNotFound, file2, offset_out)
      else (true, reader, file2, pos)

/-- What a bid leaves behind: the value returned, the reader object and the file. -/
structure BidResult where
  bid : Int
  self : AndroidFormatReader
  file : File
  deriving DecidableEq, Repr

/-- `AndroidFormatReader::bid_android`. -/
def AndroidFormatReader.bid_android (self : AndroidFormatReader) (file : File)
    (best_bid : Int) : BidResult :=
  let bid : Int := 0
  if best_bid ≥ ((BOOT_MAGIC_SIZE + SAMSUNG_SEANDROID_MAGIC_SIZE : Nat) : Int) * 8 then
    ⟨-2, self, file⟩
  else
    let r := find_header self._reader file MAX_HEADER_OFFSET self._hdr 0
    let self1 := { self with _reader := r.reader, _hdr := r.header_out }
    if r.ok = true then
      let self2 := { self1 with _header_offset := some r.offset_out }
      let bid := bid + ((BOOT_MAGIC_SIZE * 8 : Nat) : Int)
      match find_samsung_seandroid_magic self2._reader r.file self2._hdr 0 with
      | (true, reader, file2, samsung_offset) =>
        ⟨bid + ((SAMSUNG_SEANDROID_MAGIC_SIZE * 8 : Nat) : Int),
         { self2 with _reader := reader, _samsung_offset := some samsung_offset }, file2⟩
      | (false, reader, file2, _) =>
        if reader.error = some .SamsungMagicNotFound then
          ⟨bid, { self2 with _reader := reader }, file2⟩
        else ⟨-1, { self2 with _reader := reader }, file2⟩
    else if r.reader.error = some .HeaderNotFound
        ∨ r.reader.error = some .HeaderOutOfBounds then
      ⟨0, self1, r.file⟩
    else ⟨-1, self1, r.file⟩

/-- `AndroidFormatReader::bid_bump`. -/
def AndroidFormatReader.bid_bump (B : BumpDefs) (self : AndroidFormatReader) (file : File)
    (best_bid : Int) : BidResult :=
  let bid : Int := 0
  if best_bid ≥ ((BOOT_MAGIC_SIZE + B.BUMP_MAGIC_SIZE : Nat) : Int) * 8 then
    ⟨-2, self, file⟩
  else
    let r := find_header self._reader file MAX_HEADER_OFFSET self._hdr 0
    let self1 := { self with _reader := r.reader, _hdr := r.header_out }
    if r.ok = true then
      let self2 := { self1 with _header_offset := some r.offset_out }
      let bid := bid + ((BOOT_MAGIC_SIZE * 8 : Nat) : Int)
      match find_bump_magic B self2._reader r.file self2._hdr 0 with
      | (true, reader, file2, bump_offset) =>
        ⟨bid + ((B.BUMP_MAGIC_SIZE * 8 : Nat) : Int),
         { self2 with _reader := reader, _bump_offset := some bump_offset }, file2⟩
      | (false, reader, file2, _) =>
        if reader.error = some .BumpMagicNotFound then
          ⟨bid, { self2 with _reader := reader }, file2⟩
        else ⟨-1, { self2 with _reader := reader }, file2⟩
    else if r.reader.error = some .HeaderNotFound
        ∨ r.reader.error = some .HeaderOutOfBounds then
      ⟨0, self1, r.file⟩
    else ⟨-1, self1, r.file⟩

/-- `AndroidFormatReader::bid`. -/
def AndroidFormatReader.bid (B : BumpDefs) (self : AndroidFormatReader) (file : File)
    (best_bid : Int) : BidResult :=
  if self._is_bump then self.bid_bump B file best_bid else self.bid_android file best_bid

/-- `AndroidFormatReader::read_entry`. -/
def AndroidFormatReader.read_entry (self : AndroidFormatReader) (file : File)
    (entry : Entry) : Bool × AndroidFormatReader × File × Entry :=
  match self._seg.read_entry file entry self._reader with
  | (ok, seg, file1, entry1, reader) =>
    (ok, { self with _seg := seg, _reader := reader }, file1, entry1)

/-- Modelled from the spec: the error category of the Sony ELF format holds the codes
`SonyElfHeaderTooSmall`, `InvalidElfMagic`, `KernelCmdlineTooLong` and
`InvalidTypeOrFlagsField`; this is the test
`error.category() == sony_elf_error_category()`. -/
def Error.is_sony_elf : Error → Bool
  | .SonyElfHeaderTooSmall => true
  | .InvalidElfMagic => true
  | .KernelCmdlineTooLong => true
  | .InvalidTypeOrFlagsField => true
  | _ => false

/-- What a bid of the Sony ELF reader leaves behind: the value returned, the reader object
and the file. -/
structure SonyBidResult where
  bid : Int
  self : SonyElfFormatReader
  file : File
  deriving DecidableEq, Repr

/-- `SonyElfFormatReader::bid`. -/
def SonyElfFormatReader.bid (D : SonyElfDefs) (self : SonyElfFormatReader) (file : File)
    (best_bid : Int) : SonyBidResult :=
  let bid : Int := 0
  if best_bid ≥ (D.SONY_EI_NIDENT : Int) * 8 then ⟨-2, self, file⟩
  else
    match find_sony_elf_header D self._reader file self._hdr with
    | (true, reader, file1, hdr) =>
      ⟨bid + ((D.SONY_EI_NIDENT * 8 : Nat) : Int),
       { self with _reader := reader, _hdr := hdr, _have_header := true }, file1⟩
    | (false, reader, file1, hdr) =>
      if (reader.error.map Error.is_sony_elf).getD false then
        ⟨0, { self with _reader := reader, _hdr := hdr }, file1⟩
      else ⟨-1, { self with _reader := reader, _hdr := hdr }, file1⟩

/-- The states of an `AndroidFormatReader` object in a program: the object is constructed,
the facade it reports to changes between the calls, and its member functions `set_option`,
`bid`, `read_header` and `read_entry` are called on files of bytes. -/
inductive AndroidFormatReader.Reachable : AndroidFormatReader → Prop
  | constructed (reader : Reader) (is_bump : Bool) :
    AndroidFormatReader.Reachable (AndroidFormatReader.new reader is_bump)
  | reported (self : AndroidFormatReader) (reader : Reader) :
    AndroidFormatReader.Reachable self →
    AndroidFormatReader.Reachable { self with _reader := reader }
  | after_set_option (self : AndroidFormatReader) (key value : List Nat) :
    AndroidFormatReader.Reachable self →
    AndroidFormatReader.Reachable (self.set_option key value).2
  | after_bid (B : BumpDefs) (self : AndroidFormatReader) (file : File) (best_bid : Int) :
    AndroidFormatReader.Reachable self → (∀ x ∈ file.data, x < 256) →
    AndroidFormatReader.Reachable (self.bid B file best_bid).self
  | after_read_header (self : AndroidFormatReader) (file : File) (header : Header) :
    AndroidFormatReader.Reachable self → (∀ x ∈ file.data, x < 256) →
    AndroidFormatReader.Reachable (read_header self file header).self
  | after_read_entry (self : AndroidFormatReader) (file : File) (entry : Entry) :
    AndroidFormatReader.Reachable self →
    AndroidFormatReader.Reachable (self.read_entry file entry).2.1

/-! ## Specification vocabulary -/

/-- The byte pattern `needle` occurs in `data` at offset `o` and at no lower offset. -/
def first_occurrence (needle data : List Nat) (o : Nat) : Prop :=
  needle <+: data.drop o ∧ ∀ j, j < o → ¬ needle <+: data.drop j

instance (needle data : List Nat) (o : Nat) : Decidable (first_occurrence needle data o) := by
  unfold first_occurrence
  exact inferInstance

/-- A file as the operating system hands it over: the contents, the cursor anywhere, a
healthy device. -/
def File.of_bytes (data : List Nat) (pos : Nat) : File :=
  { data := data, pos := pos, io_ok := true, fatal := false }

/-- A facade with no error stored. -/
def Reader.init : Reader := { error := none, fatal := false }

/-- A raw Android header used for examples: page size 2048, a 4-byte kernel and a 4-byte
ramdisk. -/
def example_android_header : AndroidHeader :=
  { magic := BOOT_MAGIC, kernel_size := 4, kernel_addr := 0x8000, ramdisk_size := 4,
    ramdisk_addr := 0x1000000, second_size := 0, second_addr := 0xf00000,
    tags_addr := 0x100, page_size := 2048, dt_size := 0, unused := 0,
    name := List.replicate 16 0, cmdline := List.replicate 512 0, id := List.replicate 8 0 }

/-- The same raw header with `page_size = 0`. -/
def zero_page_android_header : AndroidHeader := { example_android_header with page_size := 0 }

/-- The rounding of the specification: `up(x) = x + align_page_size(x, page_size)`,
computed without any reduction modulo 2^64. -/
def up (x page_size : Nat) : Nat := x + align_page_size x page_size

/-- The segment offsets of the specification: cumulative page-aligned addition starting at
header offset + header size, computed without any reduction modulo 2^64.  The components
are the kernel, ramdisk, second bootloader and device tree offsets and the position after
the device tree. -/
def cumulative_offsets (hdr : AndroidHeader) (header_offset page_size : Nat) :
    Nat × Nat × Nat × Nat × Nat :=
  let kernel_offset := up (header_offset + sizeof_AndroidHeader) page_size
  let ramdisk_offset := up (kernel_offset + hdr.kernel_size) page_size
  let second_offset := up (ramdisk_offset + hdr.ramdisk_size) page_size
  let dt_offset := up (second_offset + hdr.second_size) page_size
  let end_offset := up (dt_offset + hdr.dt_size) page_size
  (kernel_offset, ramdisk_offset, second_offset, dt_offset, end_offset)

/-- Every word of the raw header fits in 32 bits. -/
def AndroidHeader.words_fit (hdr : AndroidHeader) : Prop :=
  hdr.kernel_size < UINT32_MOD ∧ hdr.ramdisk_size < UINT32_MOD ∧ hdr.second_size < UINT32_MOD
  ∧ hdr.dt_size < UINT32_MOD ∧ hdr.page_size < UINT32_MOD

/-! ## Writing and reading a whole Sony ELF image through the API -/

/-- The payloads a caller streams into the five caller-visible entries. -/
structure SonyPayload where
  kernel : List Nat
  ramdisk : List Nat
  ipl : List Nat
  rpm : List Nat
  appsbl : List Nat
  deriving DecidableEq, Repr

/-- The payload the caller streams for an entry of the given type. -/
def SonyPayload.data (p : SonyPayload) (type : Option Int) : List Nat :=
  if type = some ENTRY_TYPE_KERNEL then p.kernel
  else if type = some ENTRY_TYPE_RAMDISK then p.ramdisk
  else if type = some ENTRY_TYPE_SONY_IPL then p.ipl
  else if type = some ENTRY_TYPE_SONY_RPM then p.rpm
  else if type = some ENTRY_TYPE_SONY_APPSBL then p.appsbl
  else []

/-- The caller's loop `get_entry`, `write_entry`, `write_data`, `finish_entry`, repeated
until `get_entry` reports `EndOfEntries`; the first argument bounds the number of rounds. -/
def write_entries (p : SonyPayload) :
    Nat → SonyElfFormatWriter → File → Bool × SonyElfFormatWriter × File
  | 0, self, file => (false, self, file)
  | n + 1, self, file =>
    match SonyElfFormatWriter.get_entry (self._seg.entries.length + 1) self file ⟨none, none⟩ with
    | (false, self1, file1, _) =>
      (decide (self1._writer.error = some Error.EndOfEntries ∧ self1._writer.fatal = false),
       self1, file1)
    | (true, self1, file1, entry) =>
      match self1.write_entry file1 entry with
      | (false, self2, file2) => (false, self2, file2)
      | (true, self2, file2) =>
        match self2.write_data file2 (p.data entry.type) with
        | (false, self3, file3, _) => (false, self3, file3)
        | (true, self3, file3, _) =>
          match self3.finish_entry file3 with
          | (false, self4, file4) => (false, self4, file4)
          | (true, self4, file4) => write_entries p n self4 file4

/-- A caller writes a Sony ELF image to a fresh file: `write_header`, the entry loop,
`close`.  The result is the success flag and the file. -/
def sony_write_image (D : SonyElfDefs) (header : Header) (p : SonyPayload) : Bool × File :=
  match (SonyElfFormatWriter.new Writer.init).write_header D (File.of_bytes [] 0) header with
  | (false, _, file1) => (false, file1)
  | (true, self1, file1) =>
    match write_entries p 7 self1 file1 with
    | (false, _, file2) => (false, file2)
    | (true, self2, file2) =>
      match self2.close file2 with
      | (ok, _, file3) => (ok, file3)

/-- The caller's loop `read_entry`, `read_data` (one call that asks for the whole entry),
repeated until `read_entry` reports `EndOfEntries`; the result is the list of entry types
with the bytes read. -/
def read_entries :
    Nat → SonyElfFormatReader → File → List (Int × List Nat) → Option (List (Int × List Nat))
  | 0, _, _, _ => none
  | n + 1, self, file, acc =>
    match self.read_entry file ⟨none, none⟩ with
    | (false, self1, _, _) =>
      if self1._reader.error = some Error.EndOfEntries then some acc else none
    | (true, self1, file1, entry) =>
      match self1.read_data file1 (entry.size.getD 0) with
      | (false, _, _, _) => none
      | (true, self2, file2, buf) =>
        read_entries n self2 file2 (acc ++ [(entry.type.getD 0, buf)])

/-- A caller reads a Sony ELF image: `read_header`, then every entry with its data. -/
def sony_read_image (D : SonyElfDefs) (data : List Nat) :
    Option (Header × List (Int × List Nat)) :=
  match (SonyElfFormatReader.new Reader.init).read_header D (File.of_bytes data 0)
      Header.empty with
  | (false, _, _, _) => none
  | (true, self1, file1, header) =>
    (read_entries (self1._seg.entries.length + 1) self1 file1 []).map (fun es => (header, es))

/-- Every word of a program header fits in 32 bits. -/
def Sony_Elf32_Phdr.fits (p : Sony_Elf32_Phdr) : Prop :=
  p.p_type < UINT32_MOD ∧ p.p_offset < UINT32_MOD ∧ p.p_vaddr < UINT32_MOD
  ∧ p.p_paddr < UINT32_MOD ∧ p.p_filesz < UINT32_MOD ∧ p.p_memsz < UINT32_MOD
  ∧ p.p_flags < UINT32_MOD ∧ p.p_align < UINT32_MOD

/-- Every word of an ELF header fits its width and the identification area has 16
bytes. -/
def Sony_Elf32_Ehdr.fits (h : Sony_Elf32_Ehdr) : Prop :=
  h.e_ident.length = 16 ∧ h.e_type < 2 ^ 16 ∧ h.e_machine < 2 ^ 16 ∧ h.e_version < UINT32_MOD
  ∧ h.e_entry < UINT32_MOD ∧ h.e_phoff < UINT32_MOD ∧ h.e_shoff < UINT32_MOD
  ∧ h.e_flags < UINT32_MOD ∧ h.e_ehsize < 2 ^ 16 ∧ h.e_phentsize < 2 ^ 16
  ∧ h.e_phnum < 2 ^ 16 ∧ h.e_shentsize < 2 ^ 16 ∧ h.e_shnum < 2 ^ 16
  ∧ h.e_shstrndx < 2 ^ 16

/-- The addresses of a `Header` are 32-bit values (the getters return
`optional<uint32_t>`). -/
def Header.addresses_fit (h : Header) : Prop :=
  (∀ a, h.kernel_address = some a → a < UINT32_MOD)
  ∧ (∀ a, h.ramdisk_address = some a → a < UINT32_MOD)
  ∧ (∀ a, h.sony_ipl_address = some a → a < UINT32_MOD)
  ∧ (∀ a, h.sony_rpm_address = some a → a < UINT32_MOD)
  ∧ (∀ a, h.sony_appsbl_address = some a → a < UINT32_MOD)
  ∧ (∀ a, h.entrypoint_address = some a → a < UINT32_MOD)

/-! ## The layout of a written Sony ELF image -/

/-- The output file while the payload is streamed: nothing before the first payload byte
is written, afterwards `base` zero bytes (the hole left for the headers) followed by the
payload bytes `written` so far; the cursor is at the end. -/
def body_file (base : Nat) (written : List Nat) : File :=
  { data := if written = [] then [] else List.replicate base 0 ++ written
    pos := base + written.length
    io_ok := true
    fatal := false }

/-- The output file while `close` writes the headers: the header bytes `headers` written
so far, the rest of the hole and the payload; the cursor is after the header bytes. -/
def image_file (headers : List Nat) (base : Nat) (written : List Nat) : File :=
  { data :=
      if written = [] then headers
      else headers ++ List.replicate (base - headers.length) 0 ++ written
    pos := headers.length
    io_ok := true
    fatal := false }

/-- The effect of `if (*swentry->size > 0) { ++_hdr.e_phnum; }` on the 16-bit counter. -/
def count_segment (e_phnum size : Nat) : Nat :=
  if size > 0 then (e_phnum + 1) % 2 ^ 16 else e_phnum

/-- A staged program header after its segment has been finished at file offset `offset`
with `size` bytes. -/
def written_phdr (p : Sony_Elf32_Phdr) (offset size : Nat) : Sony_Elf32_Phdr :=
  { p with
    p_offset := offset % UINT32_MOD
    p_filesz := size % UINT32_MOD
    p_memsz := size % UINT32_MOD }

/-- The bytes that the loop of `close` writes for a list of headers: everything up to the
first header that may not be written. -/
def written_headers : List (List Nat × Bool) → List Nat
  | [] => []
  | (bytes, can_write) :: rest => if can_write then bytes ++ written_headers rest else []

/-- The ELF header that `write_header` stages for a `Header`. -/
def staged_ehdr (D : SonyElfDefs) (header : Header) : Sony_Elf32_Ehdr :=
  { e_ident := D.SONY_E_IDENT.take D.SONY_EI_NIDENT
      ++ Sony_Elf32_Ehdr.zero.e_ident.drop D.SONY_EI_NIDENT
    e_type := 2
    e_machine := 40
    e_version := 1
    e_entry :=
      match header.entrypoint_address with
      | some entrypoint_address => entrypoint_address
      | none =>
        match header.kernel_address with
        | some kernel_address => kernel_address
        | none => 0
    e_phoff := 52
    e_shoff := 0
    e_flags := 0
    e_ehsize := sizeof_Sony_Elf32_Ehdr
    e_phentsize := sizeof_Sony_Elf32_Phdr
    e_phnum := 0
    e_shentsize := 0
    e_shnum := 0
    e_shstrndx := 0 }

/-- The command line that `write_header` stores for a `Header`. -/
def staged_cmdline (header : Header) : List Nat :=
  match header.kernel_cmdline with
  | some cmdline => cmdline
  | none => []

/-- The writer object after `write_header` on a fresh writer. -/
def staged_writer (D : SonyElfDefs) (header : Header) : SonyElfFormatWriter :=
  { _writer := Writer.init
    _hdr := staged_ehdr D header
    _hdr_kernel :=
      staged_phdr D.SONY_E_TYPE_KERNEL D.SONY_E_FLAGS_KERNEL header.kernel_address
    _hdr_ramdisk :=
      staged_phdr D.SONY_E_TYPE_RAMDISK D.SONY_E_FLAGS_RAMDISK header.ramdisk_address
    _hdr_cmdline := staged_phdr D.SONY_E_TYPE_CMDLINE D.SONY_E_FLAGS_CMDLINE none
    _hdr_ipl := staged_phdr D.SONY_E_TYPE_IPL D.SONY_E_FLAGS_IPL header.sony_ipl_address
    _hdr_rpm := staged_phdr D.SONY_E_TYPE_RPM D.SONY_E_FLAGS_RPM header.sony_rpm_address
    _hdr_appsbl :=
      staged_phdr D.SONY_E_TYPE_APPSBL D.SONY_E_FLAGS_APPSBL header.sony_appsbl_address
    _cmdline := staged_cmdline header
    _seg :=
      { state := .Begin
        entries :=
          [⟨ENTRY_TYPE_KERNEL, 0, none, 0⟩, ⟨ENTRY_TYPE_RAMDISK, 0, none, 0⟩,
           ⟨SONY_ELF_ENTRY_CMDLINE, 0, none, 0⟩, ⟨ENTRY_TYPE_SONY_IPL, 0, none, 0⟩,
           ⟨ENTRY_TYPE_SONY_RPM, 0, none, 0⟩, ⟨ENTRY_TYPE_SONY_APPSBL, 0, none, 0⟩]
        entry := 6
        entry_size := 0 } }

/-- The ELF header at `close`, after every entry has been finished. -/
def final_ehdr (D : SonyElfDefs) (header : Header) (p : SonyPayload) : Sony_Elf32_Ehdr :=
  { staged_ehdr D header with
    e_phnum :=
      count_segment (count_segment (count_segment (count_segment (count_segment
        (count_segment 0 p.kernel.length) p.ramdisk.length) (staged_cmdline header).length)
        p.ipl.length) p.rpm.length) p.appsbl.length }

/-- The kernel program header at `close`. -/
def final_kernel_phdr (D : SonyElfDefs) (header : Header) (p : SonyPayload) :
    Sony_Elf32_Phdr :=
  written_phdr (staged_phdr D.SONY_E_TYPE_KERNEL D.SONY_E_FLAGS_KERNEL header.kernel_address)
    4096 p.kernel.length

/-- The ramdisk program header at `close`. -/
def final_ramdisk_phdr (D : SonyElfDefs) (header : Header) (p : SonyPayload) :
    Sony_Elf32_Phdr :=
  written_phdr
    (staged_phdr D.SONY_E_TYPE_RAMDISK D.SONY_E_FLAGS_RAMDISK header.ramdisk_address)
    (4096 + p.kernel.length) p.ramdisk.length

/-- The command line program header at `close`. -/
def final_cmdline_phdr (D : SonyElfDefs) (header : Header) (p : SonyPayload) :
    Sony_Elf32_Phdr :=
  written_phdr (staged_phdr D.SONY_E_TYPE_CMDLINE D.SONY_E_FLAGS_CMDLINE none)
    (4096 + (p.kernel.length + p.ramdisk.length)) (staged_cmdline header).length

/-- The IPL program header at `close`. -/
def final_ipl_phdr (D : SonyElfDefs) (header : Header) (p : SonyPayload) : Sony_Elf32_Phdr :=
  written_phdr (staged_phdr D.SONY_E_TYPE_IPL D.SONY_E_FLAGS_IPL header.sony_ipl_address)
    (4096 + (p.kernel.length + (p.ramdisk.length + (staged_cmdline header).length)))
    p.ipl.length

/-- The RPM program header at `close`. -/
def final_rpm_phdr (D : SonyElfDefs) (header : Header) (p : SonyPayload) : Sony_Elf32_Phdr :=
  written_phdr (staged_phdr D.SONY_E_TYPE_RPM D.SONY_E_FLAGS_RPM header.sony_rpm_address)
    (4096 + (p.kernel.length + (p.ramdisk.length + ((staged_cmdline header).length
      + p.ipl.length))))
    p.rpm.length

/-- The APPSBL program header at `close`. -/
def final_appsbl_phdr (D : SonyElfDefs) (header : Header) (p : SonyPayload) :
    Sony_Elf32_Phdr :=
  written_phdr
    (staged_phdr D.SONY_E_TYPE_APPSBL D.SONY_E_FLAGS_APPSBL header.sony_appsbl_address)
    (4096 + (p.kernel.length + (p.ramdisk.length + ((staged_cmdline header).length
      + (p.ipl.length + p.rpm.length)))))
    p.appsbl.length

/-- The six program headers at `close`, in the order in which `close` lists them, each
with its `can_write` flag. -/
def final_phdrs (D : SonyElfDefs) (header : Header) (p : SonyPayload) :
    List (Sony_Elf32_Phdr × Bool) :=
  [(final_kernel_phdr D header p, decide ((final_kernel_phdr D header p).p_filesz > 0)),
   (final_ramdisk_phdr D header p, decide ((final_ramdisk_phdr D header p).p_filesz > 0)),
   (final_cmdline_phdr D header p, decide ((final_cmdline_phdr D header p).p_filesz > 0)),
   (final_ipl_phdr D header p, decide ((final_ipl_phdr D header p).p_filesz > 0)),
   (final_rpm_phdr D header p, decide ((final_rpm_phdr D header p).p_filesz > 0)),
   (final_appsbl_phdr D header p, decide ((final_appsbl_phdr D header p).p_filesz > 0))]

/-- The `Header` that the reader fills from an image whose program headers are a kernel, a
ramdisk and a command line. -/
def header_three (e : Sony_Elf32_Ehdr) (pk pr : Sony_Elf32_Phdr) (cmdline : List Nat) :
    Header :=
  { Header.empty with
    supported_fields := SONY_ELF_SUPPORTED_FIELDS
    entrypoint_address := some e.e_entry
    kernel_address := some pk.p_vaddr
    ramdisk_address := some pr.p_vaddr
    kernel_cmdline := some cmdline }

/-- The header bytes of a written image: the ELF header and the program headers that
`close` writes. -/
def image_headers (D : SonyElfDefs) (header : Header) (p : SonyPayload) : List Nat :=
  written_headers
    (((final_ehdr D header p).to_bytes, true)
      :: (final_phdrs D header p).map (fun q => (q.1.to_bytes, q.2)))

/-- The payload bytes of a written image, in file order. -/
def image_body (header : Header) (p : SonyPayload) : List Nat :=
  p.kernel ++ p.ramdisk ++ staged_cmdline header ++ p.ipl ++ p.rpm ++ p.appsbl

/-- A `Header` used for examples: kernel address `0x40008000` and the command line
`console=ttyS0`. -/
def example_sony_header : Header :=
  { Header.empty with
    kernel_address := some 0x40008000
    kernel_cmdline := some [99, 111, 110, 115, 111, 108, 101, 61, 116, 116, 121, 83, 48] }

/-- A `Header` that holds a kernel address and nothing else. -/
def kernel_only_header : Header := { Header.empty with kernel_address := some 0x40008000 }

/-- What the loop of `read_header` does with one program header of a known kind: the
command line is installed in the `Header`, every other kind sets its address and
contributes a segment. -/
def apply_phdr (D : SonyElfDefs) (data : List Nat) (st : Header × List SegmentReaderEntry)
    (p : Sony_Elf32_Phdr) : Header × List SegmentReaderEntry :=
  if p.p_type = D.SONY_E_TYPE_CMDLINE ∧ p.p_flags = D.SONY_E_FLAGS_CMDLINE then
    ((st.1.set_kernel_cmdline (some (c_str (slice data p.p_offset p.p_memsz ++ [0])))).2, st.2)
  else if p.p_type = D.SONY_E_TYPE_KERNEL ∧ p.p_flags = D.SONY_E_FLAGS_KERNEL then
    ((st.1.set_kernel_address (some p.p_vaddr)).2,
     st.2 ++ [⟨ENTRY_TYPE_KERNEL, p.p_offset, p.p_memsz, false⟩])
  else if p.p_type = D.SONY_E_TYPE_RAMDISK ∧ p.p_flags = D.SONY_E_FLAGS_RAMDISK then
    ((st.1.set_ramdisk_address (some p.p_vaddr)).2,
     st.2 ++ [⟨ENTRY_TYPE_RAMDISK, p.p_offset, p.p_memsz, false⟩])
  else if p.p_type = D.SONY_E_TYPE_IPL ∧ p.p_flags = D.SONY_E_FLAGS_IPL then
    ((st.1.set_sony_ipl_address (some p.p_vaddr)).2,
     st.2 ++ [⟨ENTRY_TYPE_SONY_IPL, p.p_offset, p.p_memsz, false⟩])
  else if p.p_type = D.SONY_E_TYPE_RPM ∧ p.p_flags = D.SONY_E_FLAGS_RPM then
    ((st.1.set_sony_rpm_address (some p.p_vaddr)).2,
     st.2 ++ [⟨ENTRY_TYPE_SONY_RPM, p.p_offset, p.p_memsz, false⟩])
  else if p.p_type = D.SONY_E_TYPE_APPSBL ∧ p.p_flags = D.SONY_E_FLAGS_APPSBL then
    ((st.1.set_sony_appsbl_address (some p.p_vaddr)).2,
     st.2 ++ [⟨ENTRY_TYPE_SONY_APPSBL, p.p_offset, p.p_memsz, false⟩])
  else st

/-- A program header that the reader can process: its words fit, its `(type, flags)` pair
is one of the six known pairs, and a command line is shorter than 512 bytes and lies
within the file. -/
def phdr_readable (D : SonyElfDefs) (data : List Nat) (p : Sony_Elf32_Phdr) : Prop :=
  p.fits
  ∧ ((p.p_type, p.p_flags) ∈
      [(D.SONY_E_TYPE_CMDLINE, D.SONY_E_FLAGS_CMDLINE),
       (D.SONY_E_TYPE_KERNEL, D.SONY_E_FLAGS_KERNEL),
       (D.SONY_E_TYPE_RAMDISK, D.SONY_E_FLAGS_RAMDISK),
       (D.SONY_E_TYPE_IPL, D.SONY_E_FLAGS_IPL),
       (D.SONY_E_TYPE_RPM, D.SONY_E_FLAGS_RPM),
       (D.SONY_E_TYPE_APPSBL, D.SONY_E_FLAGS_APPSBL)])
  ∧ (p.p_type = D.SONY_E_TYPE_CMDLINE ∧ p.p_flags = D.SONY_E_FLAGS_CMDLINE →
      p.p_memsz < 512 ∧ (slice data p.p_offset p.p_memsz).length = p.p_memsz)

/-- The `Header` with which `read_header` enters its loop over the program headers: the
supported fields and the entry point of the ELF header. -/
def entry_header (e : Sony_Elf32_Ehdr) : Header :=
  ((Header.empty.set_supported_fields SONY_ELF_SUPPORTED_FIELDS).set_entrypoint_address
    (some e.e_entry)).2

/-- The segment that the loop of `read_header` pushes for a program header: none for a
command line, one entry for each of the five other known kinds. -/
def phdr_entry (D : SonyElfDefs) (p : Sony_Elf32_Phdr) : Option SegmentReaderEntry :=
  if p.p_type = D.SONY_E_TYPE_CMDLINE ∧ p.p_flags = D.SONY_E_FLAGS_CMDLINE then none
  else if p.p_type = D.SONY_E_TYPE_KERNEL ∧ p.p_flags = D.SONY_E_FLAGS_KERNEL then
    some ⟨ENTRY_TYPE_KERNEL, p.p_offset, p.p_memsz, false⟩
  else if p.p_type = D.SONY_E_TYPE_RAMDISK ∧ p.p_flags = D.SONY_E_FLAGS_RAMDISK then
    some ⟨ENTRY_TYPE_RAMDISK, p.p_offset, p.p_memsz, false⟩
  else if p.p_type = D.SONY_E_TYPE_IPL ∧ p.p_flags = D.SONY_E_FLAGS_IPL then
    some ⟨ENTRY_TYPE_SONY_IPL, p.p_offset, p.p_memsz, false⟩
  else if p.p_type = D.SONY_E_TYPE_RPM ∧ p.p_flags = D.SONY_E_FLAGS_RPM then
    some ⟨ENTRY_TYPE_SONY_RPM, p.p_offset, p.p_memsz, false⟩
  else if p.p_type = D.SONY_E_TYPE_APPSBL ∧ p.p_flags = D.SONY_E_FLAGS_APPSBL then
    some ⟨ENTRY_TYPE_SONY_APPSBL, p.p_offset, p.p_memsz, false⟩
  else none

/-- Segments that lie one after the other from file offset `base`: every program header
holds the offset and the length of its payload. -/
def laid_out : Nat → List (Sony_Elf32_Phdr × List Nat) → Prop
  | _, [] => True
  | base, (p, s) :: rest =>
    p.p_offset = base ∧ p.p_memsz = s.length ∧ laid_out (base + s.length) rest

/-- The six segments of an image at `close`, in file order: each program header with the
payload of its segment. -/
def written_segments (D : SonyElfDefs) (header : Header) (p : SonyPayload) :
    List (Sony_Elf32_Phdr × List Nat) :=
  [(final_kernel_phdr D header p, p.kernel), (final_ramdisk_phdr D header p, p.ramdisk),
   (final_cmdline_phdr D header p, staged_cmdline header), (final_ipl_phdr D header p, p.ipl),
   (final_rpm_phdr D header p, p.rpm), (final_appsbl_phdr D header p, p.appsbl)]

/-- No empty byte string precedes a non-empty one. -/
def no_gap : List (List Nat) → Prop
  | [] => True
  | s :: rest => (s = [] → ∀ t ∈ rest, t = []) ∧ no_gap rest

/-- The caller-visible entries with a non-empty payload, in the writer's entry order. -/
def SonyPayload.nonempty_entries (p : SonyPayload) : List (Int × List Nat) :=
  [(ENTRY_TYPE_KERNEL, p.kernel), (ENTRY_TYPE_RAMDISK, p.ramdisk),
   (ENTRY_TYPE_SONY_IPL, p.ipl), (ENTRY_TYPE_SONY_RPM, p.rpm),
   (ENTRY_TYPE_SONY_APPSBL, p.appsbl)].filter (fun e => decide (e.2 ≠ []))

/-- A `Header` whose kernel command line has 512 bytes. -/
def long_cmdline_header : Header :=
  { Header.empty with kernel_cmdline := some (List.replicate 512 99) }

/-- Consecutive segments of a list do not overlap: each one ends at or before the offset
of the next. -/
def non_overlapping (l : List SegmentReaderEntry) : Prop :=
  List.Chain' (fun a b => a.offset + a.size ≤ b.offset) l

/-- The example raw header with an empty kernel. -/
def empty_kernel_android_header : AndroidHeader :=
  { example_android_header with kernel_size := 0 }

/-- The program header number `i` of a file, as `read_header` reads it: the 32 bytes at
offset `sizeof(Sony_Elf32_Ehdr) + i * sizeof(Sony_Elf32_Phdr)`, in host byte order. -/
def phdr_at (data : List Nat) (i : Nat) : Sony_Elf32_Phdr :=
  Sony_Elf32_Phdr.of_bytes
    (slice data (sizeof_Sony_Elf32_Ehdr + sizeof_Sony_Elf32_Phdr * i) sizeof_Sony_Elf32_Phdr)

/-- The entry type that the loop of `read_header` gives to a `(type, flags)` pair: none for
the command line pair and for every pair that is not one of the five segment pairs. -/
def pair_entry_type (D : SonyElfDefs) (q : Nat × Nat) : Option Int :=
  if q.1 = D.SONY_E_TYPE_CMDLINE ∧ q.2 = D.SONY_E_FLAGS_CMDLINE then none
  else if q.1 = D.SONY_E_TYPE_KERNEL ∧ q.2 = D.SONY_E_FLAGS_KERNEL then some ENTRY_TYPE_KERNEL
  else if q.1 = D.SONY_E_TYPE_RAMDISK ∧ q.2 = D.SONY_E_FLAGS_RAMDISK then some ENTRY_TYPE_RAMDISK
  else if q.1 = D.SONY_E_TYPE_IPL ∧ q.2 = D.SONY_E_FLAGS_IPL then some ENTRY_TYPE_SONY_IPL
  else if q.1 = D.SONY_E_TYPE_RPM ∧ q.2 = D.SONY_E_FLAGS_RPM then some ENTRY_TYPE_SONY_RPM
  else if q.1 = D.SONY_E_TYPE_APPSBL ∧ q.2 = D.SONY_E_FLAGS_APPSBL then some ENTRY_TYPE_SONY_APPSBL
  else none

/-- A Sony ELF file with two program headers of the kernel kind: the ELF header announces
two program headers, the first one a kernel segment of 4 bytes at offset 4096, the second
one a kernel segment of 4 bytes at offset 8192. -/
def two_kernels_image : List Nat :=
  ({ staged_ehdr sony_elf_defs Header.empty with e_phnum := 2 } : Sony_Elf32_Ehdr).to_bytes
    ++ (written_phdr
          (staged_phdr sony_elf_defs.SONY_E_TYPE_KERNEL sony_elf_defs.SONY_E_FLAGS_KERNEL none)
          4096 4).to_bytes
    ++ (written_phdr
          (staged_phdr sony_elf_defs.SONY_E_TYPE_KERNEL sony_elf_defs.SONY_E_FLAGS_KERNEL none)
          8192 4).to_bytes

/-- A raw header with a device tree of 4 bytes, used for examples. -/
def dt_android_header : AndroidHeader := { example_android_header with dt_size := 4 }

/-- The string `"YES"`, in upper case. -/
def STR_YES_upper : List Nat := [89, 69, 83]

/-- The string `"no"`. -/
def STR_no : List Nat := [110, 111]

/-- The file offset at which both trailer searches look for their magic: the page size,
then the four sections, each followed by its padding, in `uint64_t` arithmetic. -/
def trailer_position (hdr : AndroidHeader) : Nat :=
  advance (advance (advance (advance ((0 + hdr.page_size) % UINT64_MOD) hdr.kernel_size
    hdr.page_size) hdr.ramdisk_size hdr.page_size) hdr.second_size hdr.page_size) hdr.dt_size
    hdr.page_size

/-- The header that `find_header` hands out on a healthy file, with its offset: the first
occurrence of the magic within the 1120 bytes read, provided 608 bytes were read from
there on. -/
def located_header (data : List Nat) : Option (Nat × AndroidHeader) :=
  match mb_memmem (data.take 1120) BOOT_MAGIC with
  | none => none
  | some o =>
    if (data.take 1120).length - o < 608 then none
    else some (o, AndroidHeader.of_bytes (slice (data.take 1120) o 608))

/-- The value of a bid of the Android family as a function of the file contents, the
health of the device, `best_bid`, the trailer magic looked for and the score of the
trailer. -/
def trailer_bid_value (magic : List Nat) (magic_size : Nat) (data : List Nat) (io_ok : Bool)
    (best_bid : Int) : Int :=
  if best_bid ≥ ((BOOT_MAGIC_SIZE + magic_size : Nat) : Int) * 8 then -2
  else if io_ok = false then -1
  else
    match located_header data with
    | none => 0
    | some (_, hdr) =>
      if 2 ^ 63 ≤ trailer_position hdr then -1
      else if (slice data (trailer_position hdr) magic_size).length = magic_size
          ∧ slice data (trailer_position hdr) magic_size = magic.take magic_size then
        64 + ((magic_size * 8 : Nat) : Int)
      else 64

/-- The value of a bid of the Sony ELF reader as a function of the file contents, the
health of the device and `best_bid`. -/
def sony_bid_value (D : SonyElfDefs) (data : List Nat) (io_ok : Bool) (best_bid : Int) : Int :=
  if best_bid ≥ (D.SONY_EI_NIDENT : Int) * 8 then -2
  else if io_ok = false then -1
  else if data.length < sizeof_Sony_Elf32_Ehdr then 0
  else if (slice data 0 16).take D.SONY_EI_NIDENT ≠ D.SONY_E_IDENT.take D.SONY_EI_NIDENT then 0
  else ((D.SONY_EI_NIDENT * 8 : Nat) : Int)

/-- The search that `find_samsung_seandroid_magic` and `find_bump_magic` share: seek to
the trailer position, read `magic_size` bytes and compare them with the magic; `not_found`
is the error code of the search. -/
def find_trailer_magic (magic : List Nat) (magic_size : Nat) (not_found : Error)
    (reader : Reader) (file : File) (hdr : AndroidHeader) (offset_out : Nat) :
    Bool × Reader × File × Nat :=
  match file.seek_set (to_int64 (trailer_position hdr)) with
  | (.error e, file1) => (false, (reader.set_error e).fatal_if file1, file1, offset_out)
  | (.ok _, file1) =>
    match file_read_retry file1 magic_size with
    | (.error e, file2) => (false, (reader.set_error e).fatal_if file2, file2, offset_out)
    | (.ok buf, file2) =>
      if buf.length ≠ magic_size ∨ buf ≠ magic.take buf.length then
        (false, reader.set_error not_found, file2, offset_out)
      else (true, reader, file2, trailer_position hdr)

/-- An Android image with a Bump trailer: the example header (page size 2048, a 4-byte
kernel, a 4-byte ramdisk), zero bytes up to the trailer position 6144 and the Bump magic. -/
def bump_image : List Nat :=
  example_android_header.to_bytes ++ List.replicate (6144 - 608) 0 ++ bump_defs.BUMP_MAGIC

/-- An Android image with a Samsung trailer: as `bump_image`, with the magic
`SEANDROIDENFORCE` at the trailer position. -/
def samsung_image : List Nat :=
  example_android_header.to_bytes ++ List.replicate (6144 - 608) 0 ++ SAMSUNG_SEANDROID_MAGIC

/-- The six `(type, flags)` pairs for which the loop of `read_header` has a branch: command
line, kernel, ramdisk, ipl, rpm and appsbl. -/
def known_pairs (D : SonyElfDefs) : List (Nat × Nat) :=
  [(D.SONY_E_TYPE_CMDLINE, D.SONY_E_FLAGS_CMDLINE),
   (D.SONY_E_TYPE_KERNEL, D.SONY_E_FLAGS_KERNEL),
   (D.SONY_E_TYPE_RAMDISK, D.SONY_E_FLAGS_RAMDISK),
   (D.SONY_E_TYPE_IPL, D.SONY_E_FLAGS_IPL),
   (D.SONY_E_TYPE_RPM, D.SONY_E_FLAGS_RPM),
   (D.SONY_E_TYPE_APPSBL, D.SONY_E_FLAGS_APPSBL)]

/-- An unknown program header: its `(type, flags)` pair is none of the six known pairs and
its type is not the signature type.  A known type with flags other than the expected ones
is unknown in this sense. -/
def phdr_unknown (D : SonyElfDefs) (p : Sony_Elf32_Phdr) : Prop :=
  (p.p_type, p.p_flags) ∉ known_pairs D ∧ p.p_type ≠ D.SONY_E_TYPE_SIN

instance (D : SonyElfDefs) (p : Sony_Elf32_Phdr) : Decidable (phdr_unknown D p) := by
  unfold phdr_unknown
  exact inferInstance

/-- A program header that the loop gets past without a failure: it is not unknown, and if
it is a command line, the command line is shorter than 512 bytes and lies within the
file. -/
def phdr_passes (D : SonyElfDefs) (data : List Nat) (p : Sony_Elf32_Phdr) : Prop :=
  ¬ phdr_unknown D p
  ∧ (p.p_type = D.SONY_E_TYPE_CMDLINE ∧ p.p_flags = D.SONY_E_FLAGS_CMDLINE →
      p.p_memsz < 512 ∧ (slice data p.p_offset p.p_memsz).length = p.p_memsz)

instance (D : SonyElfDefs) (data : List Nat) (p : Sony_Elf32_Phdr) :
    Decidable (phdr_passes D data p) := by
  unfold phdr_passes
  exact inferInstance

/-- A file with a valid Sony ELF header, as `find_sony_elf_header` tests it: the file
holds the `sizeof(Sony_Elf32_Ehdr)` bytes of an ELF header and the first `SONY_EI_NIDENT`
bytes of `e_ident` are those of `SONY_E_IDENT`. -/
def has_sony_elf_header (D : SonyElfDefs) (data : List Nat) : Prop :=
  sizeof_Sony_Elf32_Ehdr ≤ data.length
  ∧ (slice data 0 16).take D.SONY_EI_NIDENT = D.SONY_E_IDENT.take D.SONY_EI_NIDENT

instance (D : SonyElfDefs) (data : List Nat) : Decidable (has_sony_elf_header D data) := by
  unfold has_sony_elf_header
  exact inferInstance

/-- A Sony ELF file whose only program header has the type of a command line and the
flags 0, which are not the flags of a command line. -/
def wrong_flags_image : List Nat :=
  ({ staged_ehdr sony_elf_defs Header.empty with e_phnum := 1 } : Sony_Elf32_Ehdr).to_bytes
    ++ (written_phdr (staged_phdr sony_elf_defs.SONY_E_TYPE_CMDLINE 0 none) 4096 4).to_bytes

/-- The first `n` program headers of a file, as `read_header` reads them. -/
def file_phdrs (data : List Nat) (n : Nat) : List Sony_Elf32_Phdr :=
  (List.range n).map (phdr_at data)

/-- The value that a field of the `Header` has after a loop in which every program header
with `sel p = some v` stores `v` in the field: the value of the last such program header,
or the old value `old` when there is none. -/
def last_of {α : Type} (sel : Sony_Elf32_Phdr → Option α) (ps : List Sony_Elf32_Phdr)
    (old : Option α) : Option α :=
  ((ps.filterMap sel).getLast?).or old

/-- The address that a program header with the `(type, flags)` pair `(t, f)` carries. -/
def vaddr_of (t f : Nat) (p : Sony_Elf32_Phdr) : Option Nat :=
  if p.p_type = t ∧ p.p_flags = f then some p.p_vaddr else none

/-- The command line that a command line program header designates: the `p_memsz` bytes at
`p_offset`, cut at the first NUL byte. -/
def cmdline_of (D : SonyElfDefs) (data : List Nat) (p : Sony_Elf32_Phdr) :
    Option (List Nat) :=
  if p.p_type = D.SONY_E_TYPE_CMDLINE ∧ p.p_flags = D.SONY_E_FLAGS_CMDLINE then
    some ((slice data p.p_offset p.p_memsz).takeWhile (fun c => c != 0))
  else none

/-- A Sony ELF file whose only program header is a command line of 512 bytes. -/
def long_cmdline_image : List Nat :=
  ({ staged_ehdr sony_elf_defs Header.empty with e_phnum := 1 } : Sony_Elf32_Ehdr).to_bytes
    ++ (written_phdr
          (staged_phdr sony_elf_defs.SONY_E_TYPE_CMDLINE sony_elf_defs.SONY_E_FLAGS_CMDLINE none)
          4096 512).to_bytes

/-- A written Sony ELF image with a kernel, a ramdisk and the command line
`console=ttyS0`, used for examples. -/
def example_sony_image : List Nat :=
  (sony_write_image sony_elf_defs example_sony_header ⟨[75], [82], [], [], []⟩).2.data

/-- The byte swap of a 32-bit word. -/
def bswap32 (x : Nat) : Nat := le_decode (le_encode 4 x).reverse

/-- The byte swap of a 16-bit word. -/
def bswap16 (x : Nat) : Nat := le_decode (le_encode 2 x).reverse

/-- Modelled from the spec: the conversion of a 32-bit word "between little-endian on-disk
encoding and host order" (`mb_le32toh` and `mb_htole32`, which are the same function):
nothing on a little-endian host, the byte swap on a big-endian host. -/
def le32toh (big_endian : Bool) (x : Nat) : Nat := if big_endian then bswap32 x else x

/-- Modelled from the spec: the conversion of a 16-bit word between little-endian on-disk
encoding and host order. -/
def le16toh (big_endian : Bool) (x : Nat) : Nat := if big_endian then bswap16 x else x

/-- Modelled from the spec: `android_fix_header_byte_order` "swaps every multi-byte integer
field between little-endian on-disk encoding and host order": the ten words and the eight
words of the id; the byte arrays are left alone. -/
def android_fix_header_byte_order (big_endian : Bool) (h : AndroidHeader) : AndroidHeader :=
  { h with
    kernel_size := le32toh big_endian h.kernel_size
    kernel_addr := le32toh big_endian h.kernel_addr
    ramdisk_size := le32toh big_endian h.ramdisk_size
    ramdisk_addr := le32toh big_endian h.ramdisk_addr
    second_size := le32toh big_endian h.second_size
    second_addr := le32toh big_endian h.second_addr
    tags_addr := le32toh big_endian h.tags_addr
    page_size := le32toh big_endian h.page_size
    dt_size := le32toh big_endian h.dt_size
    unused := le32toh big_endian h.unused
    id := h.id.map (le32toh big_endian) }

/-- Modelled from the spec: `sony_elf_fix_ehdr_byte_order`: every 16-bit and 32-bit field
of the ELF header; the identification bytes are left alone. -/
def sony_elf_fix_ehdr_byte_order (big_endian : Bool) (h : Sony_Elf32_Ehdr) :
    Sony_Elf32_Ehdr :=
  { h with
    e_type := le16toh big_endian h.e_type
    e_machine := le16toh big_endian h.e_machine
    e_version := le32toh big_endian h.e_version
    e_entry := le32toh big_endian h.e_entry
    e_phoff := le32toh big_endian h.e_phoff
    e_shoff := le32toh big_endian h.e_shoff
    e_flags := le32toh big_endian h.e_flags
    e_ehsize := le16toh big_endian h.e_ehsize
    e_phentsize := le16toh big_endian h.e_phentsize
    e_phnum := le16toh big_endian h.e_phnum
    e_shentsize := le16toh big_endian h.e_shentsize
    e_shnum := le16toh big_endian h.e_shnum
    e_shstrndx := le16toh big_endian h.e_shstrndx }

/-- Modelled from the spec: `sony_elf_fix_phdr_byte_order`: the eight words of the program
header. -/
def sony_elf_fix_phdr_byte_order (big_endian : Bool) (p : Sony_Elf32_Phdr) :
    Sony_Elf32_Phdr :=
  { p_type := le32toh big_endian p.p_type
    p_offset := le32toh big_endian p.p_offset
    p_vaddr := le32toh big_endian p.p_vaddr
    p_paddr := le32toh big_endian p.p_paddr
    p_filesz := le32toh big_endian p.p_filesz
    p_memsz := le32toh big_endian p.p_memsz
    p_flags := le32toh big_endian p.p_flags
    p_align := le32toh big_endian p.p_align }

/-- Every integer field of a raw Android header is a 32-bit word. -/
def AndroidHeader.fits (h : AndroidHeader) : Prop :=
  h.kernel_size < UINT32_MOD ∧ h.kernel_addr < UINT32_MOD ∧ h.ramdisk_size < UINT32_MOD
  ∧ h.ramdisk_addr < UINT32_MOD ∧ h.second_size < UINT32_MOD ∧ h.second_addr < UINT32_MOD
  ∧ h.tags_addr < UINT32_MOD ∧ h.page_size < UINT32_MOD ∧ h.dt_size < UINT32_MOD
  ∧ h.unused < UINT32_MOD ∧ ∀ x ∈ h.id, x < UINT32_MOD

/-- The bytes of a 32-bit word in the memory of the host. -/
def host_bytes32 (big_endian : Bool) (x : Nat) : List Nat :=
  if big_endian then (le_encode 4 x).reverse else le_encode 4 x

/-- The 32-bit word that the host reads from four bytes of its memory. -/
def host_word (big_endian : Bool) (bytes : List Nat) : Nat :=
  if big_endian then le_decode bytes.reverse else le_decode bytes

/-- The raw write of a program header struct: the memory of the host, byte for byte. -/
def Sony_Elf32_Phdr.raw_bytes (big_endian : Bool) (p : Sony_Elf32_Phdr) : List Nat :=
  host_bytes32 big_endian p.p_type ++ host_bytes32 big_endian p.p_offset
    ++ host_bytes32 big_endian p.p_vaddr ++ host_bytes32 big_endian p.p_paddr
    ++ host_bytes32 big_endian p.p_filesz ++ host_bytes32 big_endian p.p_memsz
    ++ host_bytes32 big_endian p.p_flags ++ host_bytes32 big_endian p.p_align

/-- The raw read of a program header struct: 32 bytes copied into the memory of the
host. -/
def Sony_Elf32_Phdr.raw_of_bytes (big_endian : Bool) (b : List Nat) : Sony_Elf32_Phdr :=
  { p_type := host_word big_endian (slice b 0 4)
    p_offset := host_word big_endian (slice b 4 4)
    p_vaddr := host_word big_endian (slice b 8 4)
    p_paddr := host_word big_endian (slice b 12 4)
    p_filesz := host_word big_endian (slice b 16 4)
    p_memsz := host_word big_endian (slice b 20 4)
    p_flags := host_word big_endian (slice b 24 4)
    p_align := host_word big_endian (slice b 28 4) }

/-- The value of `pos` when the offset computation of `read_header` ends: the position
after the device tree and its padding, directly after the last declared segment. -/
def read_header_end_position (hdr : AndroidHeader) (header_offset page_size : Nat) : Nat :=
  let pos := 0
  let pos := (pos + header_offset) % UINT64_MOD
  let pos := advance pos sizeof_AndroidHeader page_size
  let pos := advance pos hdr.kernel_size page_size
  let pos := advance pos hdr.ramdisk_size page_size
  let pos := advance pos hdr.second_size page_size
  let pos := advance pos hdr.dt_size page_size
  pos

/-- The example raw header with a page size of 512 bytes, which is less than the size of
the header. -/
def small_page_android_header : AndroidHeader := { example_android_header with page_size := 512 }

/-- A raw header with an empty kernel and a page size of 3000 bytes, which is not a power
of two. -/
def odd_page_android_header : AndroidHeader :=
  { empty_kernel_android_header with page_size := 3000 }

/-! ## `bootimg_compare` -/

/-- The index of the first entry of a type in a list of segments. -/
def find_type : List SegmentReaderEntry → Int → Option Nat
  | [], _ => none
  | e :: rest, entry_type =>
    if e.type = entry_type then some 0 else (find_type rest entry_type).map (fun i => i + 1)

/-- Modelled from the spec: the move to the segment with a given index that `read_entry`
and `go_to_entry` share: the file is sought to the offset of the segment, the residual
bytes are recorded, and the type and the size of the entry are handed out. -/
def SegmentReader.move_to_entry (s : SegmentReader) (file : File) (entry : Entry)
    (index : Nat) (reader : Reader) : Bool × SegmentReader × File × Entry × Reader :=
  match s.entries[index]? with
  | none => (false, s, file, entry, reader.set_error .EndOfEntries)
  | some e =>
    match file.seek_set (to_int64 e.offset) with
    | (.error err, file1) => (false, s, file1, entry, (reader.set_error err).fatal_if file1)
    | (.ok _, file1) =>
      (true,
       { s with state := .Entries, entry := index, read_cur := e.offset,
                read_end := e.offset + e.size },
       file1, { type := some e.type, size := some e.size }, reader)

/-- Modelled from the spec: `SegmentReader::go_to_entry` "scans forward from the current
position to the next entry of a given type (fails `EndOfEntries` if none)". -/
def SegmentReader.go_to_entry (s : SegmentReader) (file : File) (entry : Entry)
    (entry_type : Int) (reader : Reader) : Bool × SegmentReader × File × Entry × Reader :=
  match find_type (s.entries.drop s.next_index) entry_type with
  | none => (false, s, file, entry, reader.set_error .EndOfEntries)
  | some i => s.move_to_entry file entry (s.next_index + i) reader

/-- The type of a `go_to_entry` operation.  The code of the operation is not under the
embedded sources, so `main` is embedded with the operation as a parameter. -/
@[reducible] def GoToEntry : Type :=
  SegmentReader → File → Entry → Int → Reader → Bool × SegmentReader × File × Entry × Reader

/-- Modelled from the spec: what `main` gets to see of one boot image through the `Reader`
facade.  `enabled` and `opened` are the results of `enable_format_all` and
`open_filename`, `header` is the `Header` that `read_header` fills, or `none` when the call
fails, and `seg` and `file` are the segment engine of the selected format and the opened
file after `read_header`. -/
structure BootImage where
  enabled : Bool
  opened : Bool
  header : Option Header
  seg : SegmentReader
  file : File
  deriving DecidableEq, Repr

/-- Modelled from the spec: a `Reader` facade with an open boot image, "subsequent calls
delegate to the chosen format", whose entry operations delegate to the segment engine:
the segment engine, the file, the error slot and the caller's `Entry`. -/
structure ImageReader where
  seg : SegmentReader
  file : File
  reader : Reader
  entry : Entry
  deriving DecidableEq, Repr

/-- `Reader::read_entry` on the caller's `Entry`. -/
def ImageReader.read_entry (r : ImageReader) : Bool × ImageReader :=
  match r.seg.read_entry r.file r.entry r.reader with
  | (ok, seg, file, entry, reader) => (ok, ⟨seg, file, reader, entry⟩)

/-- `Reader::go_to_entry` on the caller's `Entry`. -/
def ImageReader.go_to_entry (g : GoToEntry) (r : ImageReader) (entry_type : Int) :
    Bool × ImageReader :=
  match g r.seg r.file r.entry entry_type r.reader with
  | (ok, seg, file, entry, reader) => (ok, ⟨seg, file, reader, entry⟩)

/-- `Reader::read_data`; the last component is the buffer filled, whose length is the
number of bytes read. -/
def ImageReader.read_data (r : ImageReader) (size : Nat) : Bool × ImageReader × List Nat :=
  match r.seg.read_data r.file size r.reader with
  | (ok, seg, file, buf, reader) => (ok, ⟨seg, file, reader, r.entry⟩, buf)

/-- The facade operations that `main` calls. -/
inductive FacadeCall
  | enable_format_all
  | open_filename
  | read_header
  | read_entry
  | go_to_entry
  | read_data
  deriving DecidableEq, Repr

/-- One call of `main` as the program observes it: on which of the two readers, which
operation, whether it returned true, and what `error()` of that reader answers after the
call (`none` for the three calls before the entries, whose errors `main` only prints). -/
structure CallRecord where
  reader : Nat
  call : FacadeCall
  ok : Bool
  error : Option Error
  deriving DecidableEq, Repr

/-- The variables of `main` once both headers are read: the two readers with their
entries, the counter `entries`, and the calls made so far. -/
structure CompareState where
  reader1 : ImageReader
  reader2 : ImageReader
  entries : Nat
  calls : List CallRecord
  deriving DecidableEq, Repr

/-- How a loop of `main` ends: control leaves the loop (`break`), `main` returns an exit
code, or the fuel of the embedding is used up. -/
inductive Outcome
  | done
  | exit (code : Nat)
  | out_of_fuel
  deriving DecidableEq, Repr

/-- The size of the two buffers `buf1` and `buf2`. -/
def COMPARE_BUF_SIZE : Nat := 10240

/-- The loop `// Count entries in first boot image`; the first argument bounds the number
of rounds.  The counter is a `size_t`, which cannot wrap: a vector holds fewer entries
than a `size_t` has values. -/
def count_entries : Nat → CompareState → Outcome × CompareState
  | 0, s => (.out_of_fuel, s)
  | fuel + 1, s =>
    match s.reader1.read_entry with
    | (false, r1) =>
      let s1 := { s with reader1 := r1
                         calls := s.calls ++ [⟨1, .read_entry, false, r1.reader.error⟩] }
      if r1.reader.error = some .EndOfEntries then (.done, s1) else (.exit 1, s1)
    | (true, r1) =>
      count_entries fuel
        { s with reader1 := r1, entries := s.entries + 1
                 calls := s.calls ++ [⟨1, .read_entry, true, r1.reader.error⟩] }

/-- The loop `// Compare data` of one pair of entries; the first argument bounds the
number of rounds. -/
def compare_data : Nat → CompareState → Outcome × CompareState
  | 0, s => (.out_of_fuel, s)
  | fuel + 1, s =>
    match s.reader1.read_data COMPARE_BUF_SIZE with
    | (false, r1, _) =>
      (.exit 1, { s with reader1 := r1
                         calls := s.calls ++ [⟨1, .read_data, false, r1.reader.error⟩] })
    | (true, r1, buf1) =>
      let s1 := { s with reader1 := r1
                         calls := s.calls ++ [⟨1, .read_data, true, r1.reader.error⟩] }
      if buf1.length = 0 then (.done, s1)
      else
        match s1.reader2.read_data buf1.length with
        | (false, r2, _) =>
          (.exit 1, { s1 with reader2 := r2
                              calls := s1.calls ++ [⟨2, .read_data, false, r2.reader.error⟩] })
        | (true, r2, buf2) =>
          let s2 := { s1 with reader2 := r2
                              calls := s1.calls ++ [⟨2, .read_data, true, r2.reader.error⟩] }
          if buf1.length ≠ buf2.length ∨ buf1 ≠ buf2 then (.exit 2, s2)
          else compare_data fuel s2

/-- The loop `// Compare each entry in second image to first`; the first argument bounds
the number of rounds.  `*entry2.type()` is the type that `read_entry` has just stored in
`entry2`.  The data loop gets one round more than the first reader's current entry has
bytes left. -/
def compare_entries (g : GoToEntry) : Nat → CompareState → Outcome × CompareState
  | 0, s => (.out_of_fuel, s)
  | fuel + 1, s =>
    match s.reader2.read_entry with
    | (false, r2) =>
      let s1 := { s with reader2 := r2
                         calls := s.calls ++ [⟨2, .read_entry, false, r2.reader.error⟩] }
      if r2.reader.error = some .EndOfEntries then (.done, s1) else (.exit 1, s1)
    | (true, r2) =>
      let s1 := { s with reader2 := r2
                         calls := s.calls ++ [⟨2, .read_entry, true, r2.reader.error⟩] }
      if s1.entries = 0 then (.exit 2, s1)
      else
        let s2 := { s1 with entries := s1.entries - 1 }
        match s2.reader1.go_to_entry g (r2.entry.type.getD 0) with
        | (false, r1) =>
          let s3 := { s2 with reader1 := r1
                              calls := s2.calls ++ [⟨1, .go_to_entry, false, r1.reader.error⟩] }
          if r1.reader.error = some .EndOfEntries then (.exit 2, s3) else (.exit 1, s3)
        | (true, r1) =>
          let s3 := { s2 with reader1 := r1
                              calls := s2.calls ++ [⟨1, .go_to_entry, true, r1.reader.error⟩] }
          match compare_data (r1.seg.read_end - r1.seg.read_cur + 1) s3 with
          | (.done, s4) => compare_entries g fuel s4
          | (o, s4) => (o, s4)

/-- What a run of `main` leaves behind: the exit code (`none` when the fuel of the
embedding is used up) and the final state, which holds the calls made. -/
structure CompareResult where
  exit_code : Option Nat
  state : CompareState
  deriving DecidableEq, Repr

/-- The state of `main` when the two headers are read. -/
def CompareState.start (image1 image2 : BootImage) (calls : List CallRecord) :
    CompareState :=
  { reader1 := ⟨image1.seg, image1.file, Reader.init, ⟨none, none⟩⟩
    reader2 := ⟨image2.seg, image2.file, Reader.init, ⟨none, none⟩⟩
    entries := 0
    calls := calls }

/-- `main` of `bootimg_compare`, from `// Set up reader formats` on, for two file names
whose boot images are `image1` and `image2`. -/
def bootimg_compare (g : GoToEntry) (image1 image2 : BootImage) : CompareResult :=
  let calls : List CallRecord := []
  let calls := calls ++ [⟨1, .enable_format_all, image1.enabled, none⟩]
  if image1.enabled = false then ⟨some 1, CompareState.start image1 image2 calls⟩
  else
    let calls := calls ++ [⟨2, .enable_format_all, image2.enabled, none⟩]
    if image2.enabled = false then ⟨some 1, CompareState.start image1 image2 calls⟩
    else
      let calls := calls ++ [⟨1, .open_filename, image1.opened, none⟩]
      if image1.opened = false then ⟨some 1, CompareState.start image1 image2 calls⟩
      else
        let calls := calls ++ [⟨2, .open_filename, image2.opened, none⟩]
        if image2.opened = false then
          ⟨some 1, CompareState.start image1 image2 calls⟩
        else
          let calls := calls ++ [⟨1, .read_header, image1.header.isSome, none⟩]
          match image1.header with
          | none => ⟨some 1, CompareState.start image1 image2 calls⟩
          | some header1 =>
            let calls := calls ++ [⟨2, .read_header, image2.header.isSome, none⟩]
            match image2.header with
            | none => ⟨some 1, CompareState.start image1 image2 calls⟩
            | some header2 =>
              if header1.equal header2 = false then
                ⟨some 2, CompareState.start image1 image2 calls⟩
              else
                match count_entries (image1.seg.entries.length + 1)
                    (CompareState.start image1 image2 calls) with
                | (.exit code, s1) => ⟨some code, s1⟩
                | (.out_of_fuel, s1) => ⟨none, s1⟩
                | (.done, s1) =>
                  match compare_entries g (image2.seg.entries.length + 1) s1 with
                  | (.exit code, s2) => ⟨some code, s2⟩
                  | (.out_of_fuel, s2) => ⟨none, s2⟩
                  | (.done, s2) => ⟨some 0, s2⟩

/-- Modelled from the spec: a file that the facade opens and that the Android reader reads:
`enable_format_all` and `open_filename` succeed and `read_header` of the facade hands a
fresh `Header` to `AndroidFormatReader::read_header`. -/
def BootImage.android (data : List Nat) : BootImage :=
  { enabled := true
    opened := true
    header :=
      if (read_header (AndroidFormatReader.new Reader.init false) (File.of_bytes data 0)
          Header.empty).ok = true then
        some (read_header (AndroidFormatReader.new Reader.init false) (File.of_bytes data 0)
          Header.empty).header
      else none
    seg := (read_header (AndroidFormatReader.new Reader.init false) (File.of_bytes data 0)
      Header.empty).self._seg
    file := (read_header (AndroidFormatReader.new Reader.init false) (File.of_bytes data 0)
      Header.empty).file }

/-- The bytes of an Android boot image with a page size of 2048 bytes: the header, the
kernel, the ramdisk and the second bootloader, each padded with zero bytes to the next
page, for payloads of less than a page. -/
def android_image (hdr : AndroidHeader) (kernel ramdisk second : List Nat) : List Nat :=
  hdr.to_bytes ++ List.replicate (2048 - 608) 0
    ++ kernel ++ List.replicate (2048 - kernel.length) 0
    ++ ramdisk ++ List.replicate (2048 - ramdisk.length) 0
    ++ second

/-- The bytes of `"KERN"`. -/
def BYTES_KERN : List Nat := [75, 69, 82, 78]

/-- The bytes of `"RAMD"`. -/
def BYTES_RAMD : List Nat := [82, 65, 77, 68]

/-- The Android image of the specification's examples: kernel `"KERN"`, ramdisk `"RAMD"`,
page size 2048. -/
def image_kern_ramd : List Nat :=
  android_image example_android_header BYTES_KERN BYTES_RAMD []

/-- The image of the examples with the kernel address `0x10000000` in place of `0x8000`. -/
def image_other_address : List Nat :=
  android_image { example_android_header with kernel_addr := 0x10000000 } BYTES_KERN
    BYTES_RAMD []

/-- A call that reports an error other than `EndOfEntries`: it returned false and `error()`
of its reader does not answer `EndOfEntries`. -/
def CallRecord.reports_error (c : CallRecord) : Prop :=
  c.ok = false ∧ c.error ≠ some .EndOfEntries

instance (c : CallRecord) : Decidable c.reports_error :=
  inferInstanceAs (Decidable (c.ok = false ∧ c.error ≠ some .EndOfEntries))

/-! ## The entries of the Sony ELF writer and the positions of the Sony ELF reader -/

/-- The six entries that `write_header` hands to the segment engine. -/
def SONY_ELF_WRITER_ENTRIES : List SegmentWriterEntry :=
  [⟨ENTRY_TYPE_KERNEL, 0, none, 0⟩, ⟨ENTRY_TYPE_RAMDISK, 0, none, 0⟩,
   ⟨SONY_ELF_ENTRY_CMDLINE, 0, none, 0⟩, ⟨ENTRY_TYPE_SONY_IPL, 0, none, 0⟩,
   ⟨ENTRY_TYPE_SONY_RPM, 0, none, 0⟩, ⟨ENTRY_TYPE_SONY_APPSBL, 0, none, 0⟩]

/-- The writer object after a `write_header` that succeeds on the writer `self`: the
members staged for the `Header`, the facade of `self`, and the segment engine of `self`
with the six entries installed. -/
def staged_from (D : SonyElfDefs) (self : SonyElfFormatWriter) (header : Header) :
    SonyElfFormatWriter :=
  { staged_writer D header with
    _writer := self._writer
    _seg := { self._seg with entries := SONY_ELF_WRITER_ENTRIES
                             entry := SONY_ELF_WRITER_ENTRIES.length } }

/-- The caller's loop `get_entry`, `write_entry`, `write_data`, `finish_entry`, with a
record of the entries that the `get_entry` calls hand out.  `depth` bounds the depth of
the recursion of `get_entry` and the second argument the number of rounds; the first
component tells whether the loop ended because `get_entry` reported `EndOfEntries`. -/
def returned_entries (p : SonyPayload) (depth : Nat) :
    Nat → SonyElfFormatWriter → File → List Entry →
    Bool × List Entry × SonyElfFormatWriter × File
  | 0, self, file, acc => (false, acc, self, file)
  | n + 1, self, file, acc =>
    match SonyElfFormatWriter.get_entry depth self file ⟨none, none⟩ with
    | (false, self1, file1, _) =>
      (decide (self1._writer.error = some Error.EndOfEntries), acc, self1, file1)
    | (true, self1, file1, entry) =>
      match self1.write_entry file1 entry with
      | (false, self2, file2) => (false, acc ++ [entry], self2, file2)
      | (true, self2, file2) =>
        match self2.write_data file2 (p.data entry.type) with
        | (false, self3, file3, _) => (false, acc ++ [entry], self3, file3)
        | (true, self3, file3, _) =>
          match self3.finish_entry file3 with
          | (false, self4, file4) => (false, acc ++ [entry], self4, file4)
          | (true, self4, file4) => returned_entries p depth n self4 file4 (acc ++ [entry])

/-- The file after `file_write_exact`. -/
def File.after_write (f : File) (buf : List Nat) : File := (file_write_exact f buf).2

/-- The value of `pos` in `read_header` when the loop reads program header `i`: `pos`
starts at 0, `pos += sizeof(Sony_Elf32_Ehdr)` before the loop, and `pos += sizeof(phdr)`
in every round, in `uint64_t` arithmetic. -/
def phdr_pos : Nat → Nat
  | 0 => (0 + sizeof_Sony_Elf32_Ehdr) % UINT64_MOD
  | i + 1 => (phdr_pos i + sizeof_Sony_Elf32_Phdr) % UINT64_MOD

/-- Modelled from the spec: the "ELF-conformant lookup" of program header `i`, at
`e_phoff + i * e_phentsize`. -/
def elf_phdr_offset (h : Sony_Elf32_Ehdr) (i : Nat) : Nat := h.e_phoff + i * h.e_phentsize

/-- A Sony ELF file with one program header, a kernel segment of one byte at offset 4096,
whose ELF header has `e_phoff = 52` and `e_phentsize = 0`. -/
def zero_phentsize_image : List Nat :=
  ({ staged_ehdr sony_elf_defs Header.empty with e_phnum := 1, e_phentsize := 0 } :
      Sony_Elf32_Ehdr).to_bytes
    ++ (written_phdr
          (staged_phdr sony_elf_defs.SONY_E_TYPE_KERNEL sony_elf_defs.SONY_E_FLAGS_KERNEL none)
          4096 1).to_bytes

/-- A Sony ELF file with two program headers, first a command line of 3 bytes stored at
offset 116, behind the program headers, then a kernel segment of one byte at offset 4096;
the command line is `a=b`. -/
def cmdline_first_image : List Nat :=
  ({ staged_ehdr sony_elf_defs Header.empty with e_phnum := 2 } : Sony_Elf32_Ehdr).to_bytes
    ++ (written_phdr
          (staged_phdr sony_elf_defs.SONY_E_TYPE_CMDLINE sony_elf_defs.SONY_E_FLAGS_CMDLINE none)
          116 3).to_bytes
    ++ (written_phdr
          (staged_phdr sony_elf_defs.SONY_E_TYPE_KERNEL sony_elf_defs.SONY_E_FLAGS_KERNEL none)
          4096 1).to_bytes
    ++ [97, 61, 98]

/-! ## The boot images that the readers produce -/

/-- A seek of the file to the offset of a segment succeeds: the device is healthy and the
offset, converted to `int64_t`, is not negative. -/
def SegmentReaderEntry.seekable (e : SegmentReaderEntry) (file : File) : Prop :=
  file.io_ok = true ∧ 0 ≤ to_int64 e.offset

instance (e : SegmentReaderEntry) (file : File) : Decidable (e.seekable file) :=
  inferInstanceAs (Decidable (file.io_ok = true ∧ 0 ≤ to_int64 e.offset))

/-- The segments that a reader has still before it. -/
def SegmentReader.remaining (s : SegmentReader) : List SegmentReaderEntry :=
  s.entries.drop s.next_index

/-- The `Header` holds the load address of a segment: the kernel, ramdisk, IPL, RPM or
APPSBL address is set. -/
def Header.has_segment_address (h : Header) : Bool :=
  h.kernel_address.isSome || h.ramdisk_address.isSome || h.sony_ipl_address.isSome
    || h.sony_rpm_address.isSome || h.sony_appsbl_address.isSome

/-- Modelled from the spec: a file that the facade opens and that the Sony ELF reader
reads: `enable_format_all` and `open_filename` succeed and `read_header` of the facade
hands a fresh `Header` to `SonyElfFormatReader::read_header`. -/
def BootImage.sony (D : SonyElfDefs) (data : List Nat) : BootImage :=
  { enabled := true
    opened := true
    header :=
      if ((SonyElfFormatReader.new Reader.init).read_header D (File.of_bytes data 0)
          Header.empty).1 = true then
        some ((SonyElfFormatReader.new Reader.init).read_header D (File.of_bytes data 0)
          Header.empty).2.2.2
      else none
    seg := ((SonyElfFormatReader.new Reader.init).read_header D (File.of_bytes data 0)
      Header.empty).2.1._seg
    file := ((SonyElfFormatReader.new Reader.init).read_header D (File.of_bytes data 0)
      Header.empty).2.2.1 }

/-- The boot images that the two readers of the embedded sources hand to `main`: a file
of bytes read by the Android reader or by the Sony ELF reader. -/
def BootImage.from_bytes (D : SonyElfDefs) (image : BootImage) : Prop :=
  ∃ data : List Nat, (∀ x ∈ data, x < 256)
    ∧ (image = BootImage.android data ∨ image = BootImage.sony D data)

/-- Both headers are read and `operator==` finds them equal. -/
def BootImage.headers_equal (image1 image2 : BootImage) : Bool :=
  match image1.header, image2.header with
  | some header1, some header2 => header1.equal header2
  | _, _ => false

/-- Modelled from the spec: a `File` on a device whose seeks and reads can fail one by
one ("`seek(offset, whence) → pos | error`, `read(buf, n) → bytes_read | error`").
`faults` is the script of the device: the next seek or read fails with an I/O error when
the head of the script is `true`, and behaves as the operation of the `File` otherwise;
every operation consumes the head, and past the end of the script the device does not
fail.  Reaching the end of the file is not a fault of the device: it shows in the bytes
that a read hands out. -/
structure FaultyFile where
  file : File
  faults : List Bool
  deriving DecidableEq, Repr

/-- The device fails the operation that comes `n` operations from now. -/
def FaultyFile.fault_at (f : FaultyFile) (n : Nat) : Bool := (f.faults.drop n).headD false

/-- One operation of the device: it fails with an I/O error when the script says so and is
the operation of the `File` otherwise. -/
def FaultyFile.run {α : Type} (f : FaultyFile) (op : File → Except Error α × File) :
    Except Error α × FaultyFile :=
  if f.fault_at 0 = true then (.error .FileIo, ⟨f.file, f.faults.tail⟩)
  else ((op f.file).1, ⟨(op f.file).2, f.faults.tail⟩)

/-- `File::seek(offset, SEEK_SET)` on the device. -/
def FaultyFile.seek_set (f : FaultyFile) (offset : Int) : Except Error Nat × FaultyFile :=
  f.run (fun x => x.seek_set offset)

/-- `file_read_retry` on the device. -/
def Faulty.file_read_retry (f : FaultyFile) (size : Nat) :
    Except Error (List Nat) × FaultyFile :=
  f.run (fun x => DualBootPatcher.file_read_retry x size)

/-- `file_read_exact` on the device. -/
def Faulty.file_read_exact (f : FaultyFile) (size : Nat) :
    Except Error (List Nat) × FaultyFile :=
  f.run (fun x => DualBootPatcher.file_read_exact x size)

/-- What `find_header` leaves behind on the device. -/
structure Faulty.FindHeaderResult where
  ok : Bool
  reader : Reader
  file : FaultyFile
  header_out : AndroidHeader
  offset_out : Nat
  deriving DecidableEq, Repr

/-- `AndroidFormatReader::find_header` on the device. -/
def Faulty.find_header (reader : Reader) (file : FaultyFile) (max_header_offset : Nat)
    (header_out : AndroidHeader) (offset_out : Nat) : Faulty.FindHeaderResult :=
  if max_header_offset > MAX_HEADER_OFFSET then
    ⟨false, reader.set_error .AndroidInvalidArgument, file, header_out, offset_out⟩
  else
    match file.seek_set 0 with
    | (.error e, file1) =>
      ⟨false, (reader.set_error e).fatal_if file1.file, file1, header_out, offset_out⟩
    | (.ok _, file1) =>
      match Faulty.file_read_retry file1 (max_header_offset + sizeof_AndroidHeader) with
      | (.error e, file2) =>
        ⟨false, (reader.set_error e).fatal_if file2.file, file2, header_out, offset_out⟩
      | (.ok buf, file2) =>
        match mb_memmem buf BOOT_MAGIC with
        | none => ⟨false, reader.set_error .HeaderNotFound, file2, header_out, offset_out⟩
        | some offset =>
          if buf.length - offset < sizeof_AndroidHeader then
            ⟨false, reader.set_error .HeaderOutOfBounds, file2, header_out, offset_out⟩
          else
            ⟨true, reader, file2,
             AndroidHeader.of_bytes (slice buf offset sizeof_AndroidHeader), offset⟩

/-- `AndroidFormatReader::find_samsung_seandroid_magic` on the device; the last component
is `offset_out`. -/
def Faulty.find_samsung_seandroid_magic (reader : Reader) (file : FaultyFile)
    (hdr : AndroidHeader) (offset_out : Nat) : Bool × Reader × FaultyFile × Nat :=
  let pos := 0
  let pos := (pos + hdr.page_size) % UINT64_MOD
  let pos := advance pos hdr.kernel_size hdr.page_size
  let pos := advance pos hdr.ramdisk_size hdr.page_size
  let pos := advance pos hdr.second_size hdr.page_size
  let pos := advance pos hdr.dt_size hdr.page_size
  match file.seek_set (to_int64 pos) with
  | (.error e, file1) => (false, (reader.set_error e).fatal_if file1.file, file1, offset_out)
  | (.ok _, file1) =>
    match Faulty.file_read_retry file1 SAMSUNG_SEANDROID_MAGIC_SIZE with
    | (.error e, file2) =>
      (false, (reader.set_error e).fatal_if file2.file, file2, offset_out)
    | (.ok buf, file2) =>
      if buf.length ≠ SAMSUNG_SEANDROID_MAGIC_SIZE
          ∨ buf ≠ SAMSUNG_SEANDROID_MAGIC.take buf.length then
        (false, reader.set_error .SamsungMagicNotFound, file2, offset_out)
      else (true, reader, file2, pos)

/-- What a bid leaves behind on the device: the value returned, the reader object and the
file. -/
structure Faulty.BidResult where
  bid : Int
  self : AndroidFormatReader
  file : FaultyFile
  deriving DecidableEq, Repr

/-- `AndroidFormatReader::bid_android` on the device. -/
def Faulty.bid_android (self : AndroidFormatReader) (file : FaultyFile) (best_bid : Int) :
    Faulty.BidResult :=
  let bid : Int := 0
  if best_bid ≥ ((BOOT_MAGIC_SIZE + SAMSUNG_SEANDROID_MAGIC_SIZE : Nat) : Int) * 8 then
    ⟨-2, self, file⟩
  else
    let r := Faulty.find_header self._reader file MAX_HEADER_OFFSET self._hdr 0
    let self1 := { self with _reader := r.reader, _hdr := r.header_out }
    if r.ok = true then
      let self2 := { self1 with _header_offset := some r.offset_out }
      let bid := bid + ((BOOT_MAGIC_SIZE * 8 : Nat) : Int)
      match Faulty.find_samsung_seandroid_magic self2._reader r.file self2._hdr 0 with
      | (true, reader, file2, samsung_offset) =>
        ⟨bid + ((SAMSUNG_SEANDROID_MAGIC_SIZE * 8 : Nat) : Int),
         { self2 with _reader := reader, _samsung_offset := some samsung_offset }, file2⟩
      | (false, reader, file2, _) =>
        if reader.error = some .SamsungMagicNotFound then
          ⟨bid, { self2 with _reader := reader }, file2⟩
        else ⟨-1, { self2 with _reader := reader }, file2⟩
    else if r.reader.error = some .HeaderNotFound
        ∨ r.reader.error = some .HeaderOutOfBounds then
      ⟨0, self1, r.file⟩
    else ⟨-1, self1, r.file⟩

/-- `SonyElfFormatReader::find_sony_elf_header` on the device; the last component is
`header_out`. -/
def Faulty.find_sony_elf_header (D : SonyElfDefs) (reader : Reader) (file : FaultyFile)
    (header_out : Sony_Elf32_Ehdr) : Bool × Reader × FaultyFile × Sony_Elf32_Ehdr :=
  match file.seek_set 0 with
  | (.error err, file1) =>
    (false, (reader.set_error err).fatal_if file1.file, file1, header_out)
  | (.ok _, file1) =>
    match Faulty.file_read_exact file1 sizeof_Sony_Elf32_Ehdr with
    | (.error err, file2) =>
      if err = .FileUnexpectedEof then
        (false, reader.set_error .SonyElfHeaderTooSmall, file2, header_out)
      else (false, (reader.set_error err).fatal_if file2.file, file2, header_out)
    | (.ok buf, file2) =>
      if (slice buf 0 16).take D.SONY_EI_NIDENT ≠ D.SONY_E_IDENT.take D.SONY_EI_NIDENT then
        (false, reader.set_error .InvalidElfMagic, file2, header_out)
      else (true, reader, file2, Sony_Elf32_Ehdr.of_bytes buf)

/-- What a bid of the Sony ELF reader leaves behind on the device. -/
structure Faulty.SonyBidResult where
  bid : Int
  self : SonyElfFormatReader
  file : FaultyFile
  deriving DecidableEq, Repr

/-- `SonyElfFormatReader::bid` on the device. -/
def Faulty.sony_bid (D : SonyElfDefs) (self : SonyElfFormatReader) (file : FaultyFile)
    (best_bid : Int) : Faulty.SonyBidResult :=
  let bid : Int := 0
  if best_bid ≥ (D.SONY_EI_NIDENT : Int) * 8 then ⟨-2, self, file⟩
  else
    match Faulty.find_sony_elf_header D self._reader file self._hdr with
    | (true, reader, file1, hdr) =>
      ⟨bid + ((D.SONY_EI_NIDENT * 8 : Nat) : Int),
       { self with _reader := reader, _hdr := hdr, _have_header := true }, file1⟩
    | (false, reader, file1, hdr) =>
      if (reader.error.map Error.is_sony_elf).getD false then
        ⟨0, { self with _reader := reader, _hdr := hdr }, file1⟩
      else ⟨-1, { self with _reader := reader, _hdr := hdr }, file1⟩

/-! # Theorems -/

/-! ## Byte strings -/

theorem slice_length (b : List Nat) (off len : Nat) :
    (slice b off len).length = min len (b.length - off) := by
  simp [slice]

theorem slice_zero (b : List Nat) (len : Nat) : slice b 0 len = b.take len := by
  simp [slice]

/-! ## `mb_memmem` finds the first occurrence -/

theorem mb_memmem_eq_some_iff (needle : List Nat) :
    ∀ (l : List Nat) (i : Nat), mb_memmem l needle = some i ↔ first_occurrence needle l i := by
  intro l
  induction l with
  | nil =>
    intro i
    simp only [mb_memmem, first_occurrence, List.drop_nil, List.prefix_nil,
      List.isPrefixOf_iff_prefix]
    constructor
    · intro h
      split at h
      · rename_i hn
        cases h
        exact ⟨hn, fun j hj => absurd hj (Nat.not_lt_zero j)⟩
      · cases h
    · rintro ⟨hn, hmin⟩
      rw [if_pos hn]
      cases i with
      | zero => rfl
      | succ k => exact absurd hn (hmin 0 (Nat.succ_pos k))
  | cons a t ih =>
    intro i
    simp only [mb_memmem, first_occurrence, List.isPrefixOf_iff_prefix]
    by_cases hp : needle <+: a :: t
    · rw [if_pos hp]
      constructor
      · intro h
        cases h
        exact ⟨by simpa using hp, fun j hj => absurd hj (Nat.not_lt_zero j)⟩
      · rintro ⟨_, hmin⟩
        cases i with
        | zero => rfl
        | succ k => exact absurd (by simpa using hp) (hmin 0 (Nat.succ_pos k))
    · rw [if_neg hp]
      cases i with
      | zero =>
        constructor
        · intro h
          cases hm : mb_memmem t needle <;> simp [hm] at h
        · rintro ⟨h0, _⟩
          exact absurd (by simpa using h0) hp
      | succ k =>
        have := ih k
        constructor
        · intro h
          have hk : mb_memmem t needle = some k := by
            cases hm : mb_memmem t needle with
            | none => simp [hm] at h
            | some v => simp [hm] at h; simp [h]
          obtain ⟨h1, h2⟩ := (ih k).1 hk
          refine ⟨by simpa using h1, ?_⟩
          intro j hj
          cases j with
          | zero => simpa using hp
          | succ j' => simpa using h2 j' (by omega)
        · rintro ⟨h1, h2⟩
          have hk : mb_memmem t needle = some k := by
            refine (ih k).2 ⟨by simpa using h1, ?_⟩
            intro j hj
            simpa using h2 (j + 1) (by omega)
          simp [hk]

theorem mb_memmem_eq_none_iff (needle l : List Nat) :
    mb_memmem l needle = none ↔ ∀ j, ¬ first_occurrence needle l j := by
  constructor
  · intro h j hj
    rw [← mb_memmem_eq_some_iff] at hj
    rw [h] at hj
    cases hj
  · intro h
    cases hm : mb_memmem l needle with
    | none => rfl
    | some i => exact absurd ((mb_memmem_eq_some_iff needle l i).1 hm) (h i)

/-- An occurrence of a non-empty pattern in the first `n` bytes is an occurrence in the
whole string that ends within the first `n` bytes. -/
theorem prefix_drop_take_iff (needle l : List Nat) (n j : Nat) (hne : needle ≠ []) :
    needle <+: (l.take n).drop j ↔ needle <+: l.drop j ∧ j + needle.length ≤ n := by
  rw [List.drop_take, List.prefix_take_iff]
  have hpos : 0 < needle.length := List.length_pos.2 hne
  constructor
  · rintro ⟨h1, h2⟩
    exact ⟨h1, by omega⟩
  · rintro ⟨h1, h2⟩
    exact ⟨h1, by omega⟩

theorem first_occurrence_take (needle l : List Nat) (n o : Nat) (hne : needle ≠ [])
    (h : first_occurrence needle l o) (hn : o + needle.length ≤ n) :
    first_occurrence needle (l.take n) o := by
  refine ⟨(prefix_drop_take_iff needle l n o hne).2 ⟨h.1, hn⟩, ?_⟩
  intro j hj hp
  exact h.2 j hj ((prefix_drop_take_iff needle l n j hne).1 hp).1

/-! ## `find_header` -/

/-- The buffer `find_header` searches: the first `MAX_HEADER_OFFSET + sizeof(AndroidHeader)`
bytes of the file. -/
theorem find_header_healthy (reader : Reader) (file : File) (header_out : AndroidHeader)
    (offset_out : Nat) (hio : file.io_ok = true) :
    find_header reader file MAX_HEADER_OFFSET header_out offset_out =
      (match mb_memmem (file.data.take 1120) BOOT_MAGIC with
       | none =>
         ⟨false, reader.set_error .HeaderNotFound,
          { file with pos := (file.data.take 1120).length }, header_out, offset_out⟩
       | some offset =>
         if (file.data.take 1120).length - offset < 608 then
           ⟨false, reader.set_error .HeaderOutOfBounds,
            { file with pos := (file.data.take 1120).length }, header_out, offset_out⟩
         else
           ⟨true, reader, { file with pos := (file.data.take 1120).length },
            AndroidHeader.of_bytes (slice (file.data.take 1120) offset 608), offset⟩) := by
  simp only [find_header, MAX_HEADER_OFFSET, sizeof_AndroidHeader, File.seek_set,
    file_read_retry, hio, slice_zero, gt_iff_lt, lt_irrefl, if_false, Int.toNat_zero,
    Bool.true_eq_false, zero_add, Nat.reduceAdd, List.drop_zero]

theorem boot_magic_ne_nil : BOOT_MAGIC ≠ [] := by decide

theorem boot_magic_length : BOOT_MAGIC.length = 8 := by decide

/-- A header found at offset `o` with `o + 608` bytes available in the buffer. -/
theorem find_header_found (reader : Reader) (file : File) (header_out : AndroidHeader)
    (offset_out o : Nat) (hio : file.io_ok = true)
    (hfirst : first_occurrence BOOT_MAGIC file.data o) (ho : o ≤ 512)
    (hcomplete : o + sizeof_AndroidHeader ≤ file.data.length) :
    find_header reader file MAX_HEADER_OFFSET header_out offset_out =
      ⟨true, reader, { file with pos := (file.data.take 1120).length },
       AndroidHeader.of_bytes (slice file.data o sizeof_AndroidHeader), o⟩ := by
  have hm : mb_memmem (file.data.take 1120) BOOT_MAGIC = some o :=
    (mb_memmem_eq_some_iff _ _ _).2
      (first_occurrence_take _ _ _ _ boot_magic_ne_nil hfirst
        (by rw [boot_magic_length]; omega))
  rw [find_header_healthy _ _ _ _ hio, hm]
  simp only [sizeof_AndroidHeader] at hcomplete ⊢
  have hlen : ¬ (file.data.take 1120).length - o < 608 := by
    rw [List.length_take]; omega
  simp only [hlen, if_false]
  have hs : slice (file.data.take 1120) o 608 = slice file.data o 608 := by
    simp only [slice, List.drop_take, List.take_take]
    congr 1
    omega
  rw [hs]

/-- C4: on a healthy file whose first occurrence of the magic `ANDROID!` is at an offset
`o` with `0 ≤ o ≤ 511` and which holds a complete header from `o` on, `find_header` with
`max_header_offset = MAX_HEADER_OFFSET` succeeds, reports the offset `o` (the lowest
offset at which the magic occurs) and hands out the header bytes at `o` with every word
converted from little-endian to host order. -/
theorem C4_find_header_lowest_magic (reader : Reader) (file : File)
    (header_out : AndroidHeader) (offset_out o : Nat) (hio : file.io_ok = true)
    (hfirst : first_occurrence BOOT_MAGIC file.data o) (ho : o ≤ 511)
    (hcomplete : o + sizeof_AndroidHeader ≤ file.data.length) :
    (find_header reader file MAX_HEADER_OFFSET header_out offset_out).ok = true
    ∧ (find_header reader file MAX_HEADER_OFFSET header_out offset_out).offset_out = o
    ∧ (find_header reader file MAX_HEADER_OFFSET header_out offset_out).header_out
        = AndroidHeader.of_bytes (slice file.data o sizeof_AndroidHeader)
    ∧ (find_header reader file MAX_HEADER_OFFSET header_out offset_out).reader = reader := by
  rw [find_header_found reader file header_out offset_out o hio hfirst (by omega) hcomplete]
  exact ⟨rfl, rfl, rfl, rfl⟩

set_option maxRecDepth 100000 in
/-- Witness of C4: three junk bytes followed by a header; the header is found at offset 3. -/
theorem C4_find_header_lowest_magic_witness :
    (find_header Reader.init (File.of_bytes ([1, 2, 3] ++ example_android_header.to_bytes) 7)
        MAX_HEADER_OFFSET AndroidHeader.zero 0).ok = true
    ∧ (find_header Reader.init (File.of_bytes ([1, 2, 3] ++ example_android_header.to_bytes) 7)
        MAX_HEADER_OFFSET AndroidHeader.zero 0).offset_out = 3 :=
  have h := C4_find_header_lowest_magic Reader.init
    (File.of_bytes ([1, 2, 3] ++ example_android_header.to_bytes) 7) AndroidHeader.zero 0 3
    rfl (by decide) (by decide) (by decide)
  ⟨h.1, h.2.1⟩

/-- No occurrence of the magic in the buffer: `find_header` reports `HeaderNotFound`. -/
theorem find_header_not_found (reader : Reader) (file : File) (header_out : AndroidHeader)
    (offset_out : Nat) (hio : file.io_ok = true)
    (hnone : ∀ j, j + 8 ≤ 1120 → ¬ BOOT_MAGIC <+: file.data.drop j) :
    find_header reader file MAX_HEADER_OFFSET header_out offset_out =
      ⟨false, reader.set_error .HeaderNotFound,
       { file with pos := (file.data.take 1120).length }, header_out, offset_out⟩ := by
  have hm : mb_memmem (file.data.take 1120) BOOT_MAGIC = none := by
    rw [mb_memmem_eq_none_iff]
    intro j hj
    have := (prefix_drop_take_iff BOOT_MAGIC file.data 1120 j boot_magic_ne_nil).1 hj.1
    rw [boot_magic_length] at this
    exact hnone j this.2 this.1
  rw [find_header_healthy _ _ _ _ hio, hm]

/-- The magic is found in the buffer at `o` but fewer than 608 bytes were read from `o`
on: `find_header` reports `HeaderOutOfBounds`. -/
theorem find_header_out_of_bounds (reader : Reader) (file : File)
    (header_out : AndroidHeader) (offset_out o : Nat) (hio : file.io_ok = true)
    (hfirst : first_occurrence BOOT_MAGIC (file.data.take 1120) o)
    (hshort : (file.data.take 1120).length - o < sizeof_AndroidHeader) :
    find_header reader file MAX_HEADER_OFFSET header_out offset_out =
      ⟨false, reader.set_error .HeaderOutOfBounds,
       { file with pos := (file.data.take 1120).length }, header_out, offset_out⟩ := by
  have hm := (mb_memmem_eq_some_iff _ _ _).2 hfirst
  rw [find_header_healthy _ _ _ _ hio, hm]
  simp only [sizeof_AndroidHeader] at hshort
  simp only [hshort, if_true]

/-- Zero padding in front of a string that starts with the magic: the first occurrence
of the magic is right after the padding. -/
theorem first_occurrence_after_zeros (n : Nat) (rest : List Nat)
    (h : BOOT_MAGIC <+: rest) :
    first_occurrence BOOT_MAGIC (List.replicate n 0 ++ rest) n := by
  constructor
  · rw [List.drop_append_of_le_length (by rw [List.length_replicate])]
    rw [List.drop_replicate, Nat.sub_self]
    simpa using h
  · intro j hj hp
    rw [List.drop_append_of_le_length (by rw [List.length_replicate]; omega),
      List.drop_replicate] at hp
    obtain ⟨m, hm⟩ : ∃ m, n - j = m + 1 := ⟨n - j - 1, by omega⟩
    rw [hm, List.replicate_succ] at hp
    simp [BOOT_MAGIC] at hp

theorem example_header_magic : BOOT_MAGIC <+: example_android_header.to_bytes := by
  decide

set_option maxRecDepth 100000 in
theorem example_header_length : example_android_header.to_bytes.length = 608 := by
  decide

/-- Counterexample to C5: 512 zero bytes followed by a complete header.  The first
occurrence of the magic is at offset 512, and `find_header` succeeds with offset 512. -/
theorem C5_counterexample :
    first_occurrence BOOT_MAGIC (List.replicate 512 0 ++ example_android_header.to_bytes) 512
    ∧ (find_header Reader.init
        (File.of_bytes (List.replicate 512 0 ++ example_android_header.to_bytes) 0)
        MAX_HEADER_OFFSET AndroidHeader.zero 0).ok = true
    ∧ (find_header Reader.init
        (File.of_bytes (List.replicate 512 0 ++ example_android_header.to_bytes) 0)
        MAX_HEADER_OFFSET AndroidHeader.zero 0).offset_out = 512 := by
  have hfirst := first_occurrence_after_zeros 512 _ example_header_magic
  have h := find_header_found Reader.init
    (File.of_bytes (List.replicate 512 0 ++ example_android_header.to_bytes) 0)
    AndroidHeader.zero 0 512 rfl hfirst (le_refl _)
    (by
      show 512 + sizeof_AndroidHeader
        ≤ (List.replicate 512 0 ++ example_android_header.to_bytes).length
      rw [List.length_append, List.length_replicate, example_header_length]
      decide)
  rw [h]
  exact ⟨hfirst, rfl, rfl⟩

/-- C5 (amended): on a healthy file whose first occurrence of the magic is at an offset
`o ≥ 513`, `find_header` fails and leaves both outputs untouched; the error is
`HeaderOutOfBounds` when the magic still lies within the 1120 bytes read (`o ≤ 1112`) and
`HeaderNotFound` otherwise. -/
theorem C5_find_header_beyond_max_offset (reader : Reader) (file : File)
    (header_out : AndroidHeader) (offset_out o : Nat) (hio : file.io_ok = true)
    (hfirst : first_occurrence BOOT_MAGIC file.data o) (ho : 513 ≤ o) :
    (find_header reader file MAX_HEADER_OFFSET header_out offset_out).ok = false
    ∧ (find_header reader file MAX_HEADER_OFFSET header_out offset_out).reader.error
        = some (if o ≤ 1112 then Error.HeaderOutOfBounds else Error.HeaderNotFound)
    ∧ (find_header reader file MAX_HEADER_OFFSET header_out offset_out).header_out = header_out
    ∧ (find_header reader file MAX_HEADER_OFFSET header_out offset_out).offset_out
        = offset_out := by
  by_cases hle : o ≤ 1112
  · have hf := first_occurrence_take BOOT_MAGIC file.data 1120 o boot_magic_ne_nil hfirst
      (by rw [boot_magic_length]; omega)
    rw [find_header_out_of_bounds reader file header_out offset_out o hio hf
      (by rw [List.length_take, sizeof_AndroidHeader]; omega)]
    simp [hle, Reader.set_error]
  · rw [find_header_not_found reader file header_out offset_out hio
      (fun j hj hp => by
        by_cases hjo : j < o
        · exact hfirst.2 j hjo hp
        · omega)]
    simp [hle, Reader.set_error]

/-- Witness of C5 (amended): 513 zero bytes followed by a complete header. -/
theorem C5_find_header_beyond_max_offset_witness :
    (find_header Reader.init
        (File.of_bytes (List.replicate 513 0 ++ example_android_header.to_bytes) 0)
        MAX_HEADER_OFFSET AndroidHeader.zero 0).reader.error = some Error.HeaderOutOfBounds :=
  (C5_find_header_beyond_max_offset Reader.init
    (File.of_bytes (List.replicate 513 0 ++ example_android_header.to_bytes) 0)
    AndroidHeader.zero 0 513 rfl
    (first_occurrence_after_zeros 513 _ example_header_magic) (le_refl _)).2.1

/-- Any occurrence of a pattern is preceded by (or is) a first occurrence. -/
theorem exists_first_occurrence (needle data : List Nat) (j : Nat)
    (h : needle <+: data.drop j) : ∃ o, o ≤ j ∧ first_occurrence needle data o := by
  induction j using Nat.strong_induction_on with
  | _ j ih =>
    by_cases hmin : ∀ i, i < j → ¬ needle <+: data.drop i
    · exact ⟨j, le_refl j, h, hmin⟩
    · push_neg at hmin
      obtain ⟨i, hi, hp⟩ := hmin
      obtain ⟨o, ho, hf⟩ := ih i hi hp
      exact ⟨o, by omega, hf⟩

/-- Counterexample to C6: the empty file is smaller than the header struct, and
`find_header` fails on it with `HeaderNotFound`, not `HeaderOutOfBounds`. -/
theorem C6_counterexample :
    (File.of_bytes [] 0).data.length < sizeof_AndroidHeader
    ∧ (find_header Reader.init (File.of_bytes [] 0) MAX_HEADER_OFFSET
        AndroidHeader.zero 0).ok = false
    ∧ (find_header Reader.init (File.of_bytes [] 0) MAX_HEADER_OFFSET
        AndroidHeader.zero 0).reader.error = some Error.HeaderNotFound := by
  decide

/-- C6 (amended): on a healthy file, whenever the magic is found at offset `o` of the
bytes read but fewer than `sizeof(AndroidHeader)` bytes were read from `o` on,
`find_header` fails with `HeaderOutOfBounds` and writes neither `header_out` nor
`offset_out`; a file smaller than the header struct always fails without writing the
outputs, with `HeaderOutOfBounds` when it contains the magic and with `HeaderNotFound`
when it does not. -/
theorem C6_find_header_short_file (reader : Reader) (file : File)
    (header_out : AndroidHeader) (offset_out : Nat) (hio : file.io_ok = true) :
    (∀ o, first_occurrence BOOT_MAGIC
            (file.data.take (MAX_HEADER_OFFSET + sizeof_AndroidHeader)) o →
          (file.data.take (MAX_HEADER_OFFSET + sizeof_AndroidHeader)).length - o
            < sizeof_AndroidHeader →
          (find_header reader file MAX_HEADER_OFFSET header_out offset_out).ok = false
          ∧ (find_header reader file MAX_HEADER_OFFSET header_out offset_out).reader.error
              = some Error.HeaderOutOfBounds
          ∧ (find_header reader file MAX_HEADER_OFFSET header_out offset_out).header_out
              = header_out
          ∧ (find_header reader file MAX_HEADER_OFFSET header_out offset_out).offset_out
              = offset_out)
    ∧ (file.data.length < sizeof_AndroidHeader →
          (find_header reader file MAX_HEADER_OFFSET header_out offset_out).ok = false
          ∧ (find_header reader file MAX_HEADER_OFFSET header_out offset_out).header_out
              = header_out
          ∧ (find_header reader file MAX_HEADER_OFFSET header_out offset_out).offset_out
              = offset_out
          ∧ ((∃ j, BOOT_MAGIC <+: file.data.drop j) →
              (find_header reader file MAX_HEADER_OFFSET header_out offset_out).reader.error
                = some Error.HeaderOutOfBounds)
          ∧ ((¬ ∃ j, BOOT_MAGIC <+: file.data.drop j) →
              (find_header reader file MAX_HEADER_OFFSET header_out offset_out).reader.error
                = some Error.HeaderNotFound)) := by
  have hbuf : MAX_HEADER_OFFSET + sizeof_AndroidHeader = 1120 := rfl
  rw [hbuf]
  have part1 : ∀ o, first_occurrence BOOT_MAGIC (file.data.take 1120) o →
      (file.data.take 1120).length - o < sizeof_AndroidHeader →
      (find_header reader file MAX_HEADER_OFFSET header_out offset_out).ok = false
      ∧ (find_header reader file MAX_HEADER_OFFSET header_out offset_out).reader.error
          = some Error.HeaderOutOfBounds
      ∧ (find_header reader file MAX_HEADER_OFFSET header_out offset_out).header_out
          = header_out
      ∧ (find_header reader file MAX_HEADER_OFFSET header_out offset_out).offset_out
          = offset_out := by
    intro o hfirst hshort
    rw [find_header_out_of_bounds reader file header_out offset_out o hio hfirst hshort]
    exact ⟨rfl, rfl, rfl, rfl⟩
  refine ⟨part1, ?_⟩
  intro hsmall
  simp only [sizeof_AndroidHeader] at hsmall
  by_cases hex : ∃ j, BOOT_MAGIC <+: file.data.drop j
  · obtain ⟨j, hj⟩ := hex
    obtain ⟨o, _, hfo⟩ := exists_first_occurrence _ _ _ hj
    have hlen : o + 8 ≤ file.data.length := by
      have := hfo.1.length_le
      rw [boot_magic_length, List.length_drop] at this
      omega
    have hfb := first_occurrence_take BOOT_MAGIC file.data 1120 o boot_magic_ne_nil hfo
      (by rw [boot_magic_length]; omega)
    obtain ⟨h1, h2, h3, h4⟩ := part1 o hfb
      (by rw [List.length_take, sizeof_AndroidHeader]; omega)
    exact ⟨h1, h3, h4, fun _ => h2, fun hne => absurd ⟨j, hj⟩ hne⟩
  · rw [find_header_not_found reader file header_out offset_out hio
      (fun j _ hp => hex ⟨j, hp⟩)]
    exact ⟨rfl, rfl, rfl, fun h => absurd h hex, fun _ => rfl⟩

/-- Witness of C6 (amended): a file that consists of the magic alone. -/
theorem C6_find_header_short_file_witness :
    (find_header Reader.init (File.of_bytes BOOT_MAGIC 0) MAX_HEADER_OFFSET
        AndroidHeader.zero 0).reader.error = some Error.HeaderOutOfBounds
    ∧ (find_header Reader.init (File.of_bytes BOOT_MAGIC 0) MAX_HEADER_OFFSET
        AndroidHeader.zero 0).ok = false :=
  ⟨((C6_find_header_short_file Reader.init (File.of_bytes BOOT_MAGIC 0) AndroidHeader.zero 0
      rfl).2 (by decide)).2.2.2.1 ⟨0, by decide⟩,
   ((C6_find_header_short_file Reader.init (File.of_bytes BOOT_MAGIC 0) AndroidHeader.zero 0
      rfl).1 0 (by decide) (by decide)).1⟩

/-! ## Little-endian words -/

theorem le_decode_lt (l : List Nat) (h : ∀ b ∈ l, b < 256) :
    le_decode l < 256 ^ l.length := by
  induction l with
  | nil => simp [le_decode]
  | cons a t ih =>
    have ha : a < 256 := h a (List.mem_cons_self a t)
    have ht := ih (fun b hb => h b (List.mem_cons_of_mem a hb))
    simp only [le_decode, List.length_cons, pow_succ]
    omega

theorem slice_mem (b : List Nat) (off len x : Nat) (h : x ∈ slice b off len) : x ∈ b :=
  List.mem_of_mem_drop (List.mem_of_mem_take h)

theorem le32_at_lt (b : List Nat) (off : Nat) (h : ∀ x ∈ b, x < 256) :
    le32_at b off < UINT32_MOD := by
  have h1 := le_decode_lt (slice b off 4) (fun x hx => h x (slice_mem b off 4 x hx))
  have h2 : (slice b off 4).length ≤ 4 := by rw [slice_length]; omega
  have h3 : 256 ^ (slice b off 4).length ≤ 256 ^ 4 := Nat.pow_le_pow_right (by decide) h2
  have h4 : (256 : Nat) ^ 4 = UINT32_MOD := by decide
  unfold le32_at
  omega

theorem of_bytes_words_fit (b : List Nat) (h : ∀ x ∈ b, x < 256) :
    (AndroidHeader.of_bytes b).words_fit :=
  ⟨le32_at_lt b 8 h, le32_at_lt b 16 h, le32_at_lt b 24 h, le32_at_lt b 40 h,
   le32_at_lt b 36 h⟩

/-! ## Alignment arithmetic -/

theorem align_page_size_lt (pos page_size : Nat) (h : 0 < page_size) :
    align_page_size pos page_size < page_size :=
  Nat.mod_lt _ h

/-- For a page size that divides 2^64 the padded position is a multiple of the page
size. -/
theorem align_page_size_dvd (pos page_size : Nat) (hpos : pos < UINT64_MOD)
    (hdvd : page_size ∣ UINT64_MOD) : page_size ∣ pos + align_page_size pos page_size := by
  unfold align_page_size
  rw [Nat.mod_eq_of_lt hpos]
  by_cases h0 : pos = 0
  · subst h0
    simp
  · rw [Nat.mod_eq_of_lt (by omega : UINT64_MOD - pos < UINT64_MOD)]
    apply Nat.dvd_of_mod_eq_zero
    rw [Nat.add_mod, Nat.mod_mod, ← Nat.add_mod]
    rw [show pos + (UINT64_MOD - pos) = UINT64_MOD by omega]
    exact Nat.mod_eq_zero_of_dvd hdvd

/-- Whatever the operands, a position produced by `advance` is a multiple of a page size
that divides 2^64. -/
theorem advance_dvd (pos size page_size : Nat) (hdvd : page_size ∣ UINT64_MOD) :
    page_size ∣ advance pos size page_size := by
  unfold advance
  have hlt : (pos + size) % UINT64_MOD < UINT64_MOD := Nat.mod_lt _ (by decide)
  exact (Nat.dvd_mod_iff hdvd).2 (align_page_size_dvd _ _ hlt hdvd)

/-- Without overflow `advance` is the rounding `up` of the specification. -/
theorem advance_eq_up (pos size page_size : Nat) (hps : 0 < page_size)
    (h : pos + size + page_size ≤ UINT64_MOD) :
    advance pos size page_size = up (pos + size) page_size
    ∧ pos + size ≤ up (pos + size) page_size
    ∧ up (pos + size) page_size < pos + size + page_size := by
  have ha := align_page_size_lt (pos + size) page_size hps
  unfold advance up
  rw [Nat.mod_eq_of_lt (by omega : pos + size < UINT64_MOD)]
  rw [Nat.mod_eq_of_lt (by omega)]
  omega

/-! ## The segment list of `read_header` -/

/-- The shape of the segment list, in terms of the four offsets that `read_header`
computes. -/
theorem android_entries_eq (hdr : AndroidHeader) (ho ps : Nat) (b : Bool) :
    android_entries hdr ho ps b =
      [⟨ENTRY_TYPE_KERNEL, advance (ho % UINT64_MOD) sizeof_AndroidHeader ps,
          hdr.kernel_size, false⟩,
       ⟨ENTRY_TYPE_RAMDISK,
          advance (advance (ho % UINT64_MOD) sizeof_AndroidHeader ps) hdr.kernel_size ps,
          hdr.ramdisk_size, false⟩]
      ++ (if hdr.second_size > 0 then
            [⟨ENTRY_TYPE_SECONDBOOT,
              advance (advance (advance (ho % UINT64_MOD) sizeof_AndroidHeader ps)
                hdr.kernel_size ps) hdr.ramdisk_size ps,
              hdr.second_size, false⟩]
          else [])
      ++ (if hdr.dt_size > 0 then
            [⟨ENTRY_TYPE_DEVICE_TREE,
              advance (advance (advance (advance (ho % UINT64_MOD) sizeof_AndroidHeader ps)
                hdr.kernel_size ps) hdr.ramdisk_size ps) hdr.second_size ps,
              hdr.dt_size, b⟩]
          else []) := by
  unfold android_entries
  by_cases h1 : hdr.second_size > 0 <;> by_cases h2 : hdr.dt_size > 0 <;>
    simp [h1, h2]

/-- With a positive page size and 32-bit operands no step of the offset computation
overflows: the offsets are the cumulative sums of the specification and they increase
with the sections in between. -/
theorem advance_chain (hdr : AndroidHeader) (ho ps : Nat) (hps : 0 < ps)
    (hps32 : ps < UINT32_MOD) (hfit : hdr.words_fit) (hho : ho ≤ MAX_HEADER_OFFSET) :
    advance (ho % UINT64_MOD) sizeof_AndroidHeader ps = (cumulative_offsets hdr ho ps).1
    ∧ advance (cumulative_offsets hdr ho ps).1 hdr.kernel_size ps
        = (cumulative_offsets hdr ho ps).2.1
    ∧ advance (cumulative_offsets hdr ho ps).2.1 hdr.ramdisk_size ps
        = (cumulative_offsets hdr ho ps).2.2.1
    ∧ advance (cumulative_offsets hdr ho ps).2.2.1 hdr.second_size ps
        = (cumulative_offsets hdr ho ps).2.2.2.1
    ∧ advance (cumulative_offsets hdr ho ps).2.2.2.1 hdr.dt_size ps
        = (cumulative_offsets hdr ho ps).2.2.2.2
    ∧ (cumulative_offsets hdr ho ps).1 + hdr.kernel_size ≤ (cumulative_offsets hdr ho ps).2.1
    ∧ (cumulative_offsets hdr ho ps).2.1 + hdr.ramdisk_size
        ≤ (cumulative_offsets hdr ho ps).2.2.1
    ∧ (cumulative_offsets hdr ho ps).2.2.1 + hdr.second_size
        ≤ (cumulative_offsets hdr ho ps).2.2.2.1
    ∧ (cumulative_offsets hdr ho ps).2.2.2.1 + hdr.dt_size
        ≤ (cumulative_offsets hdr ho ps).2.2.2.2
    ∧ (cumulative_offsets hdr ho ps).2.2.2.2 < UINT64_MOD := by
  obtain ⟨hk, hr, hs, hd, hp⟩ := hfit
  simp only [UINT32_MOD, MAX_HEADER_OFFSET, Nat.reducePow] at hk hr hs hd hp hho hps32
  have hmod : ho % UINT64_MOD = ho := Nat.mod_eq_of_lt (by simp only [UINT64_MOD]; omega)
  simp only [cumulative_offsets, hmod]
  have e1 := advance_eq_up ho sizeof_AndroidHeader ps hps
    (by simp only [UINT64_MOD, sizeof_AndroidHeader]; omega)
  simp only [sizeof_AndroidHeader] at e1 ⊢
  have e2 := advance_eq_up (up (ho + 608) ps) hdr.kernel_size ps hps
    (by simp only [UINT64_MOD]; omega)
  have e3 := advance_eq_up (up (up (ho + 608) ps + hdr.kernel_size) ps) hdr.ramdisk_size ps
    hps (by simp only [UINT64_MOD]; omega)
  have e4 := advance_eq_up
    (up (up (up (ho + 608) ps + hdr.kernel_size) ps + hdr.ramdisk_size) ps)
    hdr.second_size ps hps (by simp only [UINT64_MOD]; omega)
  have e5 := advance_eq_up
    (up (up (up (up (ho + 608) ps + hdr.kernel_size) ps + hdr.ramdisk_size) ps
      + hdr.second_size) ps)
    hdr.dt_size ps hps (by simp only [UINT64_MOD]; omega)
  refine ⟨e1.1, e2.1, e3.1, e4.1, e5.1, e2.2.1, e3.2.1, e4.2.1, e5.2.1, ?_⟩
  simp only [UINT64_MOD]
  omega

/-! ## `read_header` -/

theorem convert_header_eq (hdr : AndroidHeader) (header : Header) :
    (convert_header hdr header).1 = true
    ∧ (convert_header hdr header).2.page_size = some hdr.page_size
    ∧ (convert_header hdr header).2.kernel_address = some hdr.kernel_addr
    ∧ (convert_header hdr header).2.supported_fields = ANDROID_SUPPORTED_FIELDS := by
  simp [convert_header, Header.set_supported_fields, Header.set_board_name,
    Header.set_kernel_cmdline, Header.set_page_size, Header.set_kernel_address,
    Header.set_ramdisk_address, Header.set_secondboot_address,
    Header.set_kernel_tags_address, ANDROID_SUPPORTED_FIELDS]

/-- Once the header is located `read_header` never fails on its own: it converts the
header and returns whatever `set_entries` returns for the list computed with the raw page
size. -/
theorem read_header_located_eq (self : AndroidFormatReader) (file : File) (header : Header)
    (ho : Nat) :
    read_header_located self file header ho =
      ⟨(self._seg.set_entries self._reader
          (android_entries self._hdr ho self._hdr.page_size self._allow_truncated_dt)).1,
       { self with
         _seg := (self._seg.set_entries self._reader
          (android_entries self._hdr ho self._hdr.page_size self._allow_truncated_dt)).2.1
         _reader := (self._seg.set_entries self._reader
          (android_entries self._hdr ho self._hdr.page_size self._allow_truncated_dt)).2.2 },
       file, (convert_header self._hdr header).2⟩ := by
  have h := convert_header_eq self._hdr header
  unfold read_header_located
  have hc : convert_header self._hdr header = (true, (convert_header self._hdr header).2) := by
    rw [← h.1]
  rw [hc]
  simp only [h.2.1, Option.getD_some]

theorem set_entries_begin (s : SegmentReader) (reader : Reader)
    (entries : List SegmentReaderEntry) (hs : s.state = .Begin)
    (hmono : offsets_nondecreasing entries = true) :
    s.set_entries reader entries
      = (true, { s with entries := entries, entry := entries.length }, reader) := by
  simp [SegmentReader.set_entries, hs, hmono]

/-- The list built with a positive page size has non-decreasing offsets. -/
theorem android_entries_nondecreasing (hdr : AndroidHeader) (ho ps : Nat) (b : Bool)
    (hps : 0 < ps) (hps32 : ps < UINT32_MOD) (hfit : hdr.words_fit)
    (hho : ho ≤ MAX_HEADER_OFFSET) :
    offsets_nondecreasing (android_entries hdr ho ps b) = true := by
  obtain ⟨e1, e2, e3, e4, _, l1, l2, l3, _, _⟩ := advance_chain hdr ho ps hps hps32 hfit hho
  rw [android_entries_eq, e1, e2, e3, e4]
  by_cases h1 : hdr.second_size > 0 <;> by_cases h2 : hdr.dt_size > 0 <;>
    simp [h1, h2, offsets_nondecreasing] <;> omega

theorem set_entries_ok (s : SegmentReader) (reader : Reader)
    (entries : List SegmentReaderEntry) (h : (s.set_entries reader entries).1 = true) :
    (s.set_entries reader entries).2.1.entries = entries
    ∧ (s.set_entries reader entries).2.2 = reader := by
  unfold SegmentReader.set_entries at h ⊢
  by_cases hs : s.state ≠ .Begin
  · simp [hs] at h
  · by_cases hm : offsets_nondecreasing entries = false
    · simp [hs, hm] at h
    · simp [hs, hm]

/-- An unlocated reader on a healthy file with a complete header at the first occurrence
`o ≤ 512` of the magic: `read_header` caches the header and continues at offset `o`. -/
theorem read_header_unlocated (self : AndroidFormatReader) (file : File) (header : Header)
    (o : Nat) (hnone : self._header_offset = none) (hio : file.io_ok = true)
    (hfirst : first_occurrence BOOT_MAGIC file.data o) (ho : o ≤ 512)
    (hcomplete : o + sizeof_AndroidHeader ≤ file.data.length) :
    read_header self file header =
      read_header_located
        { self with _hdr := AndroidHeader.of_bytes (slice file.data o sizeof_AndroidHeader),
                    _header_offset := some o }
        { file with pos := (file.data.take 1120).length } header o := by
  unfold read_header
  rw [hnone]
  simp only [find_header_found self._reader file self._hdr 0 o hio hfirst ho hcomplete]
  simp

/-- After a successful `read_header` the installed segment list is the one computed from
the cached raw header, the cached header offset and the raw page size. -/
theorem read_header_ok_entries (self : AndroidFormatReader) (file : File) (header : Header)
    (h : (read_header self file header).ok = true) :
    ∃ ho, (read_header self file header).self._header_offset = some ho
      ∧ (read_header self file header).self._seg.entries
          = android_entries (read_header self file header).self._hdr ho
              (read_header self file header).self._hdr.page_size self._allow_truncated_dt
      ∧ (read_header self file header).header.page_size
          = some (read_header self file header).self._hdr.page_size := by
  unfold read_header at h ⊢
  cases hoff : self._header_offset with
  | none =>
    simp only [hoff] at h ⊢
    by_cases hf : (find_header self._reader file MAX_HEADER_OFFSET self._hdr 0).ok = false
    · simp [hf] at h
    · simp only [hf, if_false] at h ⊢
      rw [read_header_located_eq] at h ⊢
      refine ⟨_, rfl, ?_, (convert_header_eq _ _).2.1⟩
      exact (set_entries_ok _ _ _ h).1
  | some ho =>
    simp only [hoff] at h ⊢
    rw [read_header_located_eq] at h ⊢
    refine ⟨ho, hoff, ?_, (convert_header_eq _ _).2.1⟩
    exact (set_entries_ok _ _ _ h).1

theorem android_entries_offsets_dvd (hdr : AndroidHeader) (ho ps : Nat) (b : Bool)
    (hdvd : ps ∣ UINT64_MOD) : ∀ e ∈ android_entries hdr ho ps b, ps ∣ e.offset := by
  intro e he
  rw [android_entries_eq] at he
  simp only [List.mem_append, List.mem_cons, List.mem_singleton, List.not_mem_nil,
    or_false] at he
  rcases he with ((he | he) | he) | he
  · subst he; exact advance_dvd _ _ _ hdvd
  · subst he; exact advance_dvd _ _ _ hdvd
  · split at he
    · simp only [List.mem_singleton] at he
      subst he; exact advance_dvd _ _ _ hdvd
    · cases he
  · split at he
    · simp only [List.mem_singleton] at he
      subst he; exact advance_dvd _ _ _ hdvd
    · cases he

/-! ## Page size and declared sizes are not validated by `read_header` -/

set_option maxRecDepth 1000000 in
/-- Counterexample to C7: a file that consists of a header declaring `page_size = 0`.
`read_header` returns `true`, stores the page size 0 in the `Header` and installs a
segment list computed with the zero page size. -/
theorem C7_counterexample :
    (AndroidHeader.of_bytes zero_page_android_header.to_bytes).page_size = 0
    ∧ (read_header (AndroidFormatReader.new Reader.init false)
        (File.of_bytes zero_page_android_header.to_bytes 0) Header.empty).ok = true
    ∧ (read_header (AndroidFormatReader.new Reader.init false)
        (File.of_bytes zero_page_android_header.to_bytes 0) Header.empty).header.page_size
        = some 0
    ∧ (read_header (AndroidFormatReader.new Reader.init false)
        (File.of_bytes zero_page_android_header.to_bytes 0) Header.empty).self._seg.entries
        = android_entries zero_page_android_header 0 0 true := by
  decide

/-- C7 (amended): `read_header` does not validate the page size.  `convert_header` always
reports success and stores the raw `page_size` in the `Header`, zero included; with the
header located (cached by a bid, or found by `find_header`), `read_header` returns
exactly what `set_entries` returns for the segment list computed with that raw page
size, so a header with `page_size = 0` is not rejected by a page-size check. -/
theorem C7_read_header_no_page_size_check (self : AndroidFormatReader) (file : File)
    (header : Header) :
    (convert_header self._hdr header).1 = true
    ∧ (∀ ho, self._header_offset = some ho →
        (read_header self file header).ok
          = (self._seg.set_entries self._reader
              (android_entries self._hdr ho self._hdr.page_size
                self._allow_truncated_dt)).1
        ∧ (read_header self file header).header.page_size = some self._hdr.page_size)
    ∧ (self._header_offset = none →
        (find_header self._reader file MAX_HEADER_OFFSET self._hdr 0).ok = true →
        (read_header self file header).ok
          = (self._seg.set_entries
              (find_header self._reader file MAX_HEADER_OFFSET self._hdr 0).reader
              (android_entries
                (find_header self._reader file MAX_HEADER_OFFSET self._hdr 0).header_out
                (find_header self._reader file MAX_HEADER_OFFSET self._hdr 0).offset_out
                (find_header self._reader file MAX_HEADER_OFFSET self._hdr 0).header_out.page_size
                self._allow_truncated_dt)).1
        ∧ (read_header self file header).header.page_size
          = some (find_header self._reader file MAX_HEADER_OFFSET self._hdr
              0).header_out.page_size) := by
  refine ⟨(convert_header_eq _ _).1, ?_, ?_⟩
  · intro ho hoff
    unfold read_header
    simp only [hoff]
    rw [read_header_located_eq]
    exact ⟨rfl, (convert_header_eq _ _).2.1⟩
  · intro hnone hfound
    unfold read_header
    simp only [hnone, hfound, Bool.true_eq_false, if_false]
    rw [read_header_located_eq]
    exact ⟨rfl, (convert_header_eq _ _).2.1⟩

set_option maxRecDepth 1000000 in
/-- Witness of C7 (amended): a reader that has cached a header with `page_size = 0` at
offset 0, and a fresh reader on a file that consists of such a header. -/
theorem C7_read_header_no_page_size_check_witness :
    (read_header
        { AndroidFormatReader.new Reader.init false with
          _hdr := zero_page_android_header, _header_offset := some 0 }
        (File.of_bytes zero_page_android_header.to_bytes 0) Header.empty).header.page_size
      = some 0
    ∧ (read_header (AndroidFormatReader.new Reader.init false)
        (File.of_bytes zero_page_android_header.to_bytes 0) Header.empty).header.page_size
      = some (find_header Reader.init (File.of_bytes zero_page_android_header.to_bytes 0)
          MAX_HEADER_OFFSET AndroidHeader.zero 0).header_out.page_size :=
  ⟨((C7_read_header_no_page_size_check
      { AndroidFormatReader.new Reader.init false with
        _hdr := zero_page_android_header, _header_offset := some 0 }
      (File.of_bytes zero_page_android_header.to_bytes 0) Header.empty).2.1 0 rfl).2,
   ((C7_read_header_no_page_size_check (AndroidFormatReader.new Reader.init false)
      (File.of_bytes zero_page_android_header.to_bytes 0) Header.empty).2.2 rfl
      (by decide)).2⟩

set_option maxRecDepth 1000000 in
/-- Counterexample to C8: a 608-byte file that consists of a header declaring a 4-byte
kernel and a 4-byte ramdisk with page size 2048.  The kernel range `[2048, 2052)` and
the ramdisk range `[4096, 4100)` lie past the end of the file, and `read_header`
succeeds. -/
theorem C8_counterexample :
    (File.of_bytes example_android_header.to_bytes 0).data.length = 608
    ∧ (read_header (AndroidFormatReader.new Reader.init false)
        (File.of_bytes example_android_header.to_bytes 0) Header.empty).ok = true
    ∧ (read_header (AndroidFormatReader.new Reader.init false)
        (File.of_bytes example_android_header.to_bytes 0) Header.empty).self._seg.entries
        = [⟨ENTRY_TYPE_KERNEL, 2048, 4, false⟩, ⟨ENTRY_TYPE_RAMDISK, 4096, 4, false⟩] := by
  decide

/-- C8 (amended): `read_header` does not compare the declared sizes with the file (the
file length is only checked when data is read).  On every healthy file of bytes in which
the first occurrence of the magic is at `o ≤ 512`, followed by a complete header with a
non-zero page size, `read_header` of a reader that has not read a header yet succeeds
and installs the segment list computed from the declared sizes, whatever the length of
the file beyond the header. -/
theorem C8_read_header_ignores_file_size (self : AndroidFormatReader) (file : File)
    (header : Header) (o : Nat) (hnone : self._header_offset = none)
    (hbegin : self._seg.state = .Begin) (hio : file.io_ok = true)
    (hbytes : ∀ x ∈ file.data, x < 256)
    (hfirst : first_occurrence BOOT_MAGIC file.data o) (ho : o ≤ 512)
    (hcomplete : o + sizeof_AndroidHeader ≤ file.data.length)
    (hps : 0 < (AndroidHeader.of_bytes (slice file.data o sizeof_AndroidHeader)).page_size) :
    (read_header self file header).ok = true
    ∧ (read_header self file header).self._seg.entries
        = android_entries (AndroidHeader.of_bytes (slice file.data o sizeof_AndroidHeader)) o
            (AndroidHeader.of_bytes (slice file.data o sizeof_AndroidHeader)).page_size
            self._allow_truncated_dt := by
  have hfit := of_bytes_words_fit (slice file.data o sizeof_AndroidHeader)
    (fun x hx => hbytes x (slice_mem _ _ _ _ hx))
  have hmono := android_entries_nondecreasing
    (AndroidHeader.of_bytes (slice file.data o sizeof_AndroidHeader)) o _
    self._allow_truncated_dt hps hfit.2.2.2.2 hfit ho
  rw [read_header_unlocated self file header o hnone hio hfirst ho hcomplete,
    read_header_located_eq]
  simp only []
  rw [set_entries_begin _ _ _ hbegin hmono]
  exact ⟨rfl, rfl⟩

set_option maxRecDepth 1000000 in
/-- Witness of C8 (amended): the 608-byte file of the counterexample. -/
theorem C8_read_header_ignores_file_size_witness :
    (read_header (AndroidFormatReader.new Reader.init false)
        (File.of_bytes example_android_header.to_bytes 0) Header.empty).ok = true :=
  (C8_read_header_ignores_file_size (AndroidFormatReader.new Reader.init false)
    (File.of_bytes example_android_header.to_bytes 0) Header.empty 0 rfl rfl rfl
    (by decide) (by decide) (by decide) (by decide) (by decide)).1

/-! ## Cumulative page-aligned offsets -/

/-- With a positive page size the segment list carries the cumulative page-aligned
offsets of the specification and the declared sizes, and no step of the computation
exceeds 64 bits. -/
theorem android_entries_cumulative (hdr : AndroidHeader) (ho ps : Nat) (b : Bool)
    (hps : 0 < ps) (hps32 : ps < UINT32_MOD) (hfit : hdr.words_fit)
    (hho : ho ≤ MAX_HEADER_OFFSET) :
    android_entries hdr ho ps b =
      [⟨ENTRY_TYPE_KERNEL, (cumulative_offsets hdr ho ps).1, hdr.kernel_size, false⟩,
       ⟨ENTRY_TYPE_RAMDISK, (cumulative_offsets hdr ho ps).2.1, hdr.ramdisk_size, false⟩]
      ++ (if hdr.second_size > 0 then
            [⟨ENTRY_TYPE_SECONDBOOT, (cumulative_offsets hdr ho ps).2.2.1, hdr.second_size,
              false⟩]
          else [])
      ++ (if hdr.dt_size > 0 then
            [⟨ENTRY_TYPE_DEVICE_TREE, (cumulative_offsets hdr ho ps).2.2.2.1, hdr.dt_size, b⟩]
          else [])
    ∧ (cumulative_offsets hdr ho ps).2.2.2.2 < UINT64_MOD := by
  obtain ⟨e1, e2, e3, e4, _, _, _, _, _, hlt⟩ :=
    advance_chain hdr ho ps hps hps32 hfit hho
  rw [android_entries_eq, e1, e2, e3, e4]
  exact ⟨rfl, hlt⟩

set_option maxRecDepth 1000000 in
/-- C9, evaluated at the failing input: a file that consists of a header declaring
`page_size = 0`.  `read_header` succeeds, the first aligned sum
`up(header_offset + sizeof(AndroidHeader))` is 2^64 and does not fit a `uint64_t`, and
the kernel and ramdisk offsets handed to the segment engine are the wrapped value 0. -/
theorem C9_zero_page_size_overflows :
    (read_header (AndroidFormatReader.new Reader.init false)
        (File.of_bytes zero_page_android_header.to_bytes 0) Header.empty).ok = true
    ∧ (read_header (AndroidFormatReader.new Reader.init false)
        (File.of_bytes zero_page_android_header.to_bytes 0) Header.empty).self._seg.entries
        = [⟨ENTRY_TYPE_KERNEL, 0, 4, false⟩, ⟨ENTRY_TYPE_RAMDISK, 0, 4, false⟩]
    ∧ (cumulative_offsets zero_page_android_header 0 0).1 = UINT64_MOD
    ∧ up (0 + sizeof_AndroidHeader) 0 = UINT64_MOD := by
  decide

/-! ## Alignment -/

/-- Counterexample to C10: with `pos = 1` and `page_size = 3` the padding
`(−pos) mod page_size` taken modulo 2^64 is 0, and `pos + padding = 1` is not a multiple
of 3; a header at offset 0 with page size 3 gets the kernel offset 610, which 3 does not
divide. -/
theorem C10_counterexample :
    0 < 3 ∧ align_page_size 1 3 = 0 ∧ ¬ 3 ∣ 1 + align_page_size 1 3
    ∧ (android_entries example_android_header 0 3 true).map (fun e => e.offset)
        = [610, 616]
    ∧ ¬ 3 ∣ 610 := by
  decide

/-- C10 (amended): for every 64-bit position and every positive page size the padding
`(−pos) mod page_size` satisfies `0 ≤ padding < page_size`; when the page size is a power
of two, `pos + padding` is a multiple of the page size, and every segment offset that a
successful Android `read_header` hands to the segment engine is divisible by the header's
page size. -/
theorem C10_alignment_power_of_two (pos page_size : Nat) (hpos : pos < UINT64_MOD)
    (hps : 0 < page_size) :
    align_page_size pos page_size < page_size
    ∧ ((∃ k, k ≤ 64 ∧ page_size = 2 ^ k) →
        page_size ∣ pos + align_page_size pos page_size
        ∧ ∀ (self : AndroidFormatReader) (file : File) (header : Header),
            (read_header self file header).ok = true →
            (read_header self file header).self._hdr.page_size = page_size →
            ∀ e ∈ (read_header self file header).self._seg.entries, page_size ∣ e.offset) := by
  refine ⟨align_page_size_lt pos page_size hps, ?_⟩
  rintro ⟨k, hk, rfl⟩
  have hdvd : 2 ^ k ∣ UINT64_MOD := Nat.pow_dvd_pow 2 hk
  refine ⟨align_page_size_dvd pos _ hpos hdvd, ?_⟩
  intro self file header hok hpage e he
  obtain ⟨ho, _, hentries, _⟩ := read_header_ok_entries self file header hok
  rw [hentries, hpage] at he
  exact android_entries_offsets_dvd _ _ _ _ hdvd e he

set_option maxRecDepth 1000000 in
/-- Witness of C10 (amended): position 608 and page size 2048, and the example image. -/
theorem C10_alignment_power_of_two_witness :
    align_page_size 608 2048 < 2048
    ∧ 2048 ∣ 608 + align_page_size 608 2048
    ∧ ∀ e ∈ (read_header (AndroidFormatReader.new Reader.init false)
          (File.of_bytes example_android_header.to_bytes 0) Header.empty).self._seg.entries,
        2048 ∣ e.offset :=
  have h := C10_alignment_power_of_two 608 2048 (by decide) (by decide)
  ⟨h.1, (h.2 ⟨11, by decide, by decide⟩).1,
   (h.2 ⟨11, by decide, by decide⟩).2 (AndroidFormatReader.new Reader.init false)
     (File.of_bytes example_android_header.to_bytes 0) Header.empty (by decide) (by decide)⟩

/-! ## Encoding and decoding words -/

theorem le_encode_length (n x : Nat) : (le_encode n x).length = n := by
  induction n generalizing x with
  | zero => rfl
  | succ k ih => simp [le_encode, ih]

theorem le_encode_four (x : Nat) :
    le_encode 4 x = [x % 256, x / 256 % 256, x / 256 / 256 % 256, x / 256 / 256 / 256 % 256] :=
  rfl

theorem le_encode_two (x : Nat) : le_encode 2 x = [x % 256, x / 256 % 256] := rfl

theorem le_decode_four (x : Nat) (h : x < UINT32_MOD) :
    le_decode [x % 256, x / 256 % 256, x / 256 / 256 % 256, x / 256 / 256 / 256 % 256] = x := by
  simp only [le_decode, UINT32_MOD] at *
  omega

theorem le_decode_two (x : Nat) (h : x < 2 ^ 16) :
    le_decode [x % 256, x / 256 % 256] = x := by
  simp only [le_decode] at *
  omega

theorem phdr_to_bytes_length (p : Sony_Elf32_Phdr) : p.to_bytes.length = 32 := by
  simp [Sony_Elf32_Phdr.to_bytes, le_encode_length]

/-- Decoding the bytes of a program header gives the program header back. -/
theorem phdr_of_bytes_to_bytes (p : Sony_Elf32_Phdr) (h : p.fits) :
    Sony_Elf32_Phdr.of_bytes p.to_bytes = p := by
  obtain ⟨h1, h2, h3, h4, h5, h6, h7, h8⟩ := h
  cases p
  simp only [Sony_Elf32_Phdr.of_bytes, Sony_Elf32_Phdr.to_bytes, le_encode_four, le32_at,
    slice, List.cons_append, List.nil_append, List.drop_succ_cons, List.drop_zero,
    List.take_succ_cons, List.take_zero, Sony_Elf32_Phdr.mk.injEq] at *
  exact ⟨le_decode_four _ h1, le_decode_four _ h2, le_decode_four _ h3, le_decode_four _ h4,
    le_decode_four _ h5, le_decode_four _ h6, le_decode_four _ h7, le_decode_four _ h8⟩

/-! ## The Sony ELF writer, step by step -/

theorem write_body (base : Nat) (W buf : List Nat) :
    file_write_exact (body_file base W) buf = (.ok (), body_file base (W ++ buf)) := by
  unfold file_write_exact body_file
  by_cases hb : buf = []
  · subst hb; simp
  · by_cases hw : W = []
    · subst hw
      simp [hb]
    · simp [hb, hw, List.take_append_eq_append_take, List.drop_append_eq_append_drop]
      omega

theorem body_file_io (b : Nat) (W : List Nat) : (body_file b W).io_ok = true := rfl

theorem body_file_fatal (b : Nat) (W : List Nat) : (body_file b W).fatal = false := rfl

theorem body_file_pos (b : Nat) (W : List Nat) : (body_file b W).pos = b + W.length := rfl

theorem body_file_rewind (b : Nat) (W : List Nat) :
    (body_file b W).seek_set 0 = (.ok 0, image_file [] b W) := by
  simp [File.seek_set, body_file, image_file]

theorem write_image (hd : List Nat) (b : Nat) (W bytes : List Nat)
    (h : hd.length + bytes.length ≤ b) :
    file_write_exact (image_file hd b W) bytes = (.ok (), image_file (hd ++ bytes) b W) := by
  unfold file_write_exact image_file
  by_cases hb : bytes = []
  · subst hb; simp
  · by_cases hw : W = []
    · subst hw
      simp [hb]
    · simp only [hb, hw, if_false, Bool.true_eq_false, List.length_append,
        List.length_replicate, Prod.mk.injEq, true_and, File.mk.injEq, and_true]
      rw [show hd.length - (hd.length + (b - hd.length) + W.length) = 0 by omega]
      simp only [List.replicate_zero, List.append_nil, List.append_assoc]
      rw [List.take_append_of_le_length (le_refl _), List.take_length]
      rw [List.drop_append_eq_append_drop, List.drop_of_length_le (by omega)]
      simp only [List.nil_append, Nat.add_sub_cancel_left]
      rw [List.drop_append_eq_append_drop, List.drop_replicate, List.length_replicate]
      rw [show bytes.length - (b - hd.length) = 0 by omega]
      simp only [List.drop_zero]
      rw [Nat.sub_sub]

theorem written_headers_length_le (hs : List (List Nat × Bool)) :
    (written_headers hs).length ≤ (hs.map (fun q => q.1.length)).sum := by
  induction hs with
  | nil => simp [written_headers]
  | cons q rest ih =>
    obtain ⟨bytes, cw⟩ := q
    cases cw
    · simp [written_headers]
    · simp [written_headers]
      omega

theorem write_headers_eq (w : Writer) (hd : List Nat) (b : Nat) (W : List Nat)
    (hs : List (List Nat × Bool))
    (h : hd.length + (hs.map (fun q => q.1.length)).sum ≤ b) :
    write_headers w (image_file hd b W) hs
      = (true, w, image_file (hd ++ written_headers hs) b W) := by
  induction hs generalizing hd with
  | nil => simp [write_headers, written_headers]
  | cons q rest ih =>
    obtain ⟨bytes, cw⟩ := q
    simp only [List.map_cons, List.sum_cons] at h
    cases cw
    · simp [write_headers, written_headers]
    · simp only [write_headers, written_headers, if_true]
      rw [write_image hd b W bytes (by omega)]
      simp only []
      rw [ih (hd ++ bytes) (by rw [List.length_append]; omega), List.append_assoc]

theorem ehdr_to_bytes_length (h : Sony_Elf32_Ehdr) : h.to_bytes.length = 52 := by
  simp [Sony_Elf32_Ehdr.to_bytes, le_encode_length]

/-- The state that `write_header` leaves behind on a fresh writer and a fresh file. -/
theorem write_header_fresh (D : SonyElfDefs) (H : Header) :
    (SonyElfFormatWriter.new Writer.init).write_header D (File.of_bytes [] 0) H
      = (true, staged_writer D H, body_file 4096 []) := by
  cases he : H.entrypoint_address <;> cases hk : H.kernel_address <;>
    simp [SonyElfFormatWriter.write_header, SonyElfFormatWriter.new, SegmentWriter.set_entries,
      SegmentWriter.init, File.seek_set, File.of_bytes, body_file, staged_ehdr, staged_cmdline,
      staged_phdr, he, hk, Sony_Elf32_Phdr.zero, Sony_Elf32_Ehdr.zero, staged_writer]

set_option maxHeartbeats 4000000 in
/-- The caller's entry loop on the state left by `write_header`: every payload is appended
to the file, every program header records the offset and size of its segment, and the
loop ends with the current entry at the end of the list. -/
theorem write_entries_staged (P : SonyPayload) (self1 : SonyElfFormatWriter)
    (hs : self1._seg =
      { state := .Begin
        entries :=
          [⟨ENTRY_TYPE_KERNEL, 0, none, 0⟩, ⟨ENTRY_TYPE_RAMDISK, 0, none, 0⟩,
           ⟨SONY_ELF_ENTRY_CMDLINE, 0, none, 0⟩, ⟨ENTRY_TYPE_SONY_IPL, 0, none, 0⟩,
           ⟨ENTRY_TYPE_SONY_RPM, 0, none, 0⟩, ⟨ENTRY_TYPE_SONY_APPSBL, 0, none, 0⟩]
        entry := 6
        entry_size := 0 })
    (hw : self1._writer = Writer.init) (b : Nat) :
    ∃ selfF,
      write_entries P 7 self1 (body_file b [])
        = (true, selfF,
           body_file b
             (P.kernel ++ P.ramdisk ++ self1._cmdline ++ P.ipl ++ P.rpm ++ P.appsbl))
      ∧ selfF._hdr =
          { self1._hdr with
            e_phnum :=
              count_segment (count_segment (count_segment (count_segment (count_segment
                (count_segment self1._hdr.e_phnum P.kernel.length) P.ramdisk.length)
                self1._cmdline.length) P.ipl.length) P.rpm.length) P.appsbl.length }
      ∧ selfF._hdr_kernel = written_phdr self1._hdr_kernel b P.kernel.length
      ∧ selfF._hdr_ramdisk
          = written_phdr self1._hdr_ramdisk (b + P.kernel.length) P.ramdisk.length
      ∧ selfF._hdr_cmdline
          = written_phdr self1._hdr_cmdline (b + (P.kernel.length + P.ramdisk.length))
              self1._cmdline.length
      ∧ selfF._hdr_ipl
          = written_phdr self1._hdr_ipl
              (b + (P.kernel.length + (P.ramdisk.length + self1._cmdline.length)))
              P.ipl.length
      ∧ selfF._hdr_rpm
          = written_phdr self1._hdr_rpm
              (b + (P.kernel.length + (P.ramdisk.length + (self1._cmdline.length
                + P.ipl.length))))
              P.rpm.length
      ∧ selfF._hdr_appsbl
          = written_phdr self1._hdr_appsbl
              (b + (P.kernel.length + (P.ramdisk.length + (self1._cmdline.length
                + (P.ipl.length + P.rpm.length)))))
              P.appsbl.length
      ∧ selfF._seg.entry = 6 ∧ selfF._seg.entries.length = 6 := by
  obtain ⟨w, h, hk, hr, hc, hi, hrpm, ha, cmd, seg⟩ := self1
  simp only at hs hw
  subst hs hw
  simp [write_entries, SonyElfFormatWriter.get_entry, SegmentWriter.get_entry,
    SegmentWriter.next_index, body_file_io, body_file_pos, body_file_fatal, SonyElfFormatWriter.write_entry,
    SegmentWriter.write_entry, SonyElfFormatWriter.write_data, SegmentWriter.write_data,
    SonyElfFormatWriter.finish_entry, SegmentWriter.finish_entry, write_body,
    ENTRY_TYPE_KERNEL, ENTRY_TYPE_RAMDISK, SONY_ELF_ENTRY_CMDLINE, ENTRY_TYPE_SONY_IPL,
    ENTRY_TYPE_SONY_RPM, ENTRY_TYPE_SONY_APPSBL, SonyPayload.data, Entry.clear, Writer.init,
    Writer.set_error, count_segment, written_phdr, finished_phdr]

/-- What a caller's complete write leaves in the file: the headers that `close` writes,
the rest of the 4096-byte hole, and the payloads in entry order with the command line
after the ramdisk. -/
theorem sony_write_image_eq (D : SonyElfDefs) (H : Header) (P : SonyPayload) :
    sony_write_image D H P
      = (true, image_file (image_headers D H P) 4096 (image_body H P)) := by
  unfold sony_write_image
  rw [write_header_fresh]
  simp only []
  obtain ⟨selfF, hrun, h0, h1, h2, h3, h4, h5, h6, hentry, hlen⟩ :=
    write_entries_staged P (staged_writer D H) rfl rfl 4096
  rw [hrun]
  simp only []
  unfold SonyElfFormatWriter.close
  rw [if_pos (by rw [hentry, hlen]), body_file_rewind]
  simp only []
  rw [write_headers_eq _ [] 4096 _ _
    (by simp [ehdr_to_bytes_length, phdr_to_bytes_length])]
  simp only [h0, h1, h2, h3, h4, h5, h6, List.nil_append]
  rfl

/-! ## The Sony ELF reader, step by step -/

theorem to_int64_small (pos : Nat) (h : pos < 2 ^ 63) : to_int64 pos = (pos : Int) := by
  unfold to_int64 UINT64_MOD
  have : pos % 2 ^ 64 = pos := Nat.mod_eq_of_lt (by omega)
  rw [this, if_pos h]

theorem seek_set_healthy (f : File) (n : Nat) (hio : f.io_ok = true) :
    f.seek_set (n : Int) = (.ok n, { f with pos := n }) := by
  simp [File.seek_set, hio]

theorem read_exact_healthy (f : File) (size : Nat) (hio : f.io_ok = true)
    (hlen : (slice f.data f.pos size).length = size) :
    file_read_exact f size = (.ok (slice f.data f.pos size), { f with pos := f.pos + size }) := by
  simp [file_read_exact, hio, hlen]

theorem slice_append_right (l r : List Nat) (n off m : Nat) (hl : l.length = n)
    (hoff : n ≤ off) : slice (l ++ r) off m = slice r (off - n) m := by
  subst hl
  obtain ⟨k, rfl⟩ := Nat.exists_eq_add_of_le hoff
  simp [slice]

theorem ehdr_of_bytes_to_bytes (h : Sony_Elf32_Ehdr) (hf : h.fits) :
    Sony_Elf32_Ehdr.of_bytes h.to_bytes = h := by
  obtain ⟨h0, h1, h2, h3, h4, h5, h6, h7, h8, h9, h10, h11, h12, h13⟩ := hf
  cases h with
  | mk e_ident e_type e_machine e_version e_entry e_phoff e_shoff e_flags e_ehsize e_phentsize e_phnum e_shentsize e_shnum e_shstrndx =>
  simp only at h0 h1 h2 h3 h4 h5 h6 h7 h8 h9 h10 h11 h12 h13
  have hid : (e_ident ++ List.replicate 16 0).take 16 = e_ident := by
    rw [List.take_append_of_le_length (by omega), ← h0, List.take_length]
  simp only [Sony_Elf32_Ehdr.of_bytes, Sony_Elf32_Ehdr.to_bytes, hid, le_encode_four, le_encode_two,
    List.append_assoc, List.cons_append, List.nil_append, Sony_Elf32_Ehdr.mk.injEq, le16_at, le32_at]
  refine ⟨?_, ?_, ?_, ?_, ?_, ?_, ?_, ?_, ?_, ?_, ?_, ?_, ?_, ?_⟩
  · simp [slice, ← h0]
  all_goals
    first
    | (rw [slice_append_right e_ident _ 16 _ _ h0 (by decide)]
       simp only [slice, Nat.reduceSub, List.drop_succ_cons, List.drop_zero, List.take_succ_cons,
         List.take_zero]
       first | exact le_decode_two _ (by assumption) | exact le_decode_four _ (by assumption))


theorem find_sony_elf_header_eq (D : SonyElfDefs) (reader : Reader) (file : File)
    (header_out e : Sony_Elf32_Ehdr) (hio : file.io_ok = true)
    (hs : slice file.data 0 52 = e.to_bytes) (he : e.fits)
    (hid : e.e_ident.take D.SONY_EI_NIDENT = D.SONY_E_IDENT.take D.SONY_EI_NIDENT) :
    find_sony_elf_header D reader file header_out = (true, reader, { file with pos := 52 }, e) := by
  have hident : slice e.to_bytes 0 16 = e.e_ident := by
    have := ehdr_of_bytes_to_bytes e he
    exact congrArg Sony_Elf32_Ehdr.e_ident this
  unfold find_sony_elf_header
  have h0 : file.seek_set 0 = (.ok 0, { file with pos := 0 }) := seek_set_healthy file 0 hio
  rw [h0]
  simp only []
  rw [read_exact_healthy { file with pos := 0 } _ hio
    (by simp only [sizeof_Sony_Elf32_Ehdr]; rw [hs, ehdr_to_bytes_length])]
  simp only [sizeof_Sony_Elf32_Ehdr, hs, hident, hid, ne_eq, not_true_eq_false, if_false, zero_add,
    ehdr_of_bytes_to_bytes e he]

/-- Reading one program header whose bytes are those of `p`. -/
theorem read_phdr (file : File) (pos : Nat) (p : Sony_Elf32_Phdr) (hio : file.io_ok = true)
    (hpos : pos < 2 ^ 63) (hs : slice file.data pos 32 = p.to_bytes) :
    file.seek_set (to_int64 pos) = (.ok pos, { file with pos := pos })
    ∧ file_read_exact { file with pos := pos } sizeof_Sony_Elf32_Phdr
        = (.ok p.to_bytes, { file with pos := pos + 32 }) := by
  refine ⟨by rw [to_int64_small pos hpos]; exact seek_set_healthy file pos hio, ?_⟩
  rw [read_exact_healthy { file with pos := pos } _ hio
    (by simp only [sizeof_Sony_Elf32_Phdr]; rw [hs, phdr_to_bytes_length])]
  simp only [sizeof_Sony_Elf32_Phdr, hs]

theorem valid_distinct (D : SonyElfDefs) (hD : D.valid) :
    ¬ (D.SONY_E_TYPE_KERNEL = D.SONY_E_TYPE_CMDLINE ∧ D.SONY_E_FLAGS_KERNEL = D.SONY_E_FLAGS_CMDLINE)
    ∧ ¬ (D.SONY_E_TYPE_RAMDISK = D.SONY_E_TYPE_CMDLINE ∧ D.SONY_E_FLAGS_RAMDISK = D.SONY_E_FLAGS_CMDLINE)
    ∧ ¬ (D.SONY_E_TYPE_RAMDISK = D.SONY_E_TYPE_KERNEL ∧ D.SONY_E_FLAGS_RAMDISK = D.SONY_E_FLAGS_KERNEL)
    ∧ ¬ (D.SONY_E_TYPE_IPL = D.SONY_E_TYPE_CMDLINE ∧ D.SONY_E_FLAGS_IPL = D.SONY_E_FLAGS_CMDLINE)
    ∧ ¬ (D.SONY_E_TYPE_IPL = D.SONY_E_TYPE_KERNEL ∧ D.SONY_E_FLAGS_IPL = D.SONY_E_FLAGS_KERNEL)
    ∧ ¬ (D.SONY_E_TYPE_IPL = D.SONY_E_TYPE_RAMDISK ∧ D.SONY_E_FLAGS_IPL = D.SONY_E_FLAGS_RAMDISK)
    ∧ ¬ (D.SONY_E_TYPE_RPM = D.SONY_E_TYPE_CMDLINE ∧ D.SONY_E_FLAGS_RPM = D.SONY_E_FLAGS_CMDLINE)
    ∧ ¬ (D.SONY_E_TYPE_RPM = D.SONY_E_TYPE_KERNEL ∧ D.SONY_E_FLAGS_RPM = D.SONY_E_FLAGS_KERNEL)
    ∧ ¬ (D.SONY_E_TYPE_RPM = D.SONY_E_TYPE_RAMDISK ∧ D.SONY_E_FLAGS_RPM = D.SONY_E_FLAGS_RAMDISK)
    ∧ ¬ (D.SONY_E_TYPE_RPM = D.SONY_E_TYPE_IPL ∧ D.SONY_E_FLAGS_RPM = D.SONY_E_FLAGS_IPL)
    ∧ ¬ (D.SONY_E_TYPE_APPSBL = D.SONY_E_TYPE_CMDLINE ∧ D.SONY_E_FLAGS_APPSBL = D.SONY_E_FLAGS_CMDLINE)
    ∧ ¬ (D.SONY_E_TYPE_APPSBL = D.SONY_E_TYPE_KERNEL ∧ D.SONY_E_FLAGS_APPSBL = D.SONY_E_FLAGS_KERNEL)
    ∧ ¬ (D.SONY_E_TYPE_APPSBL = D.SONY_E_TYPE_RAMDISK ∧ D.SONY_E_FLAGS_APPSBL = D.SONY_E_FLAGS_RAMDISK)
    ∧ ¬ (D.SONY_E_TYPE_APPSBL = D.SONY_E_TYPE_IPL ∧ D.SONY_E_FLAGS_APPSBL = D.SONY_E_FLAGS_IPL)
    ∧ ¬ (D.SONY_E_TYPE_APPSBL = D.SONY_E_TYPE_RPM ∧ D.SONY_E_FLAGS_APPSBL = D.SONY_E_FLAGS_RPM) := by
  obtain ⟨_, _, _, hnd⟩ := hD
  simp only [List.nodup_cons, List.mem_cons, Prod.mk.injEq, List.mem_singleton, not_or, not_and,
    List.not_mem_nil, not_false_eq_true, List.nodup_nil, and_true] at hnd
  obtain ⟨⟨c1, c2, c3, c4, c5⟩, ⟨k1, k2, k3, k4⟩, ⟨r1, r2, r3⟩, ⟨i1, i2⟩, m1⟩ := hnd
  refine ⟨?_, ?_, ?_, ?_, ?_, ?_, ?_, ?_, ?_, ?_, ?_, ?_, ?_, ?_, ?_⟩ <;> rintro ⟨a, b⟩
  · exact c1 a.symm b.symm
  · exact c2 a.symm b.symm
  · exact k1 a.symm b.symm
  · exact c3 a.symm b.symm
  · exact k2 a.symm b.symm
  · exact r1 a.symm b.symm
  · exact c4 a.symm b.symm
  · exact k3 a.symm b.symm
  · exact r2 a.symm b.symm
  · exact i1 a.symm b.symm
  · exact c5 a.symm b.symm
  · exact k4 a.symm b.symm
  · exact r3 a.symm b.symm
  · exact i2 a.symm b.symm
  · exact m1 a.symm b.symm

theorem step_kernel (D : SonyElfDefs) (hD : D.valid) (n pos : Nat) (reader : Reader)
    (file : File) (header : Header) (entries : List SegmentReaderEntry) (p : Sony_Elf32_Phdr)
    (hio : file.io_ok = true) (hpos : pos < 2 ^ 63) (hs : slice file.data pos 32 = p.to_bytes)
    (hp : p.fits) (ht : p.p_type = D.SONY_E_TYPE_KERNEL) (hf : p.p_flags = D.SONY_E_FLAGS_KERNEL) :
    read_program_headers D (n + 1) pos reader file header entries
      = read_program_headers D n (pos + 32) reader { file with pos := pos + 32 }
          (header.set_kernel_address (some p.p_vaddr)).2
          (entries ++ [⟨ENTRY_TYPE_KERNEL, p.p_offset, p.p_memsz, false⟩]) := by
  obtain ⟨h1, h2⟩ := read_phdr file pos p hio hpos hs
  have hd := valid_distinct D hD
  rw [read_program_headers, h1]
  simp only []
  rw [h2]
  simp only [phdr_of_bytes_to_bytes p hp, sizeof_Sony_Elf32_Phdr]
  have hm : (pos + 32) % UINT64_MOD = pos + 32 :=
    Nat.mod_eq_of_lt (by simp only [UINT64_MOD]; omega)
  simp only [ht, hf, hd, if_false, and_self, if_true, hm]

theorem step_ramdisk (D : SonyElfDefs) (hD : D.valid) (n pos : Nat) (reader : Reader)
    (file : File) (header : Header) (entries : List SegmentReaderEntry) (p : Sony_Elf32_Phdr)
    (hio : file.io_ok = true) (hpos : pos < 2 ^ 63) (hs : slice file.data pos 32 = p.to_bytes)
    (hp : p.fits) (ht : p.p_type = D.SONY_E_TYPE_RAMDISK) (hf : p.p_flags = D.SONY_E_FLAGS_RAMDISK) :
    read_program_headers D (n + 1) pos reader file header entries
      = read_program_headers D n (pos + 32) reader { file with pos := pos + 32 }
          (header.set_ramdisk_address (some p.p_vaddr)).2
          (entries ++ [⟨ENTRY_TYPE_RAMDISK, p.p_offset, p.p_memsz, false⟩]) := by
  obtain ⟨h1, h2⟩ := read_phdr file pos p hio hpos hs
  have hd := valid_distinct D hD
  rw [read_program_headers, h1]
  simp only []
  rw [h2]
  simp only [phdr_of_bytes_to_bytes p hp, sizeof_Sony_Elf32_Phdr]
  have hm : (pos + 32) % UINT64_MOD = pos + 32 :=
    Nat.mod_eq_of_lt (by simp only [UINT64_MOD]; omega)
  simp only [ht, hf, hd, if_false, and_self, if_true, hm]

theorem step_ipl (D : SonyElfDefs) (hD : D.valid) (n pos : Nat) (reader : Reader)
    (file : File) (header : Header) (entries : List SegmentReaderEntry) (p : Sony_Elf32_Phdr)
    (hio : file.io_ok = true) (hpos : pos < 2 ^ 63) (hs : slice file.data pos 32 = p.to_bytes)
    (hp : p.fits) (ht : p.p_type = D.SONY_E_TYPE_IPL) (hf : p.p_flags = D.SONY_E_FLAGS_IPL) :
    read_program_headers D (n + 1) pos reader file header entries
      = read_program_headers D n (pos + 32) reader { file with pos := pos + 32 }
          (header.set_sony_ipl_address (some p.p_vaddr)).2
          (entries ++ [⟨ENTRY_TYPE_SONY_IPL, p.p_offset, p.p_memsz, false⟩]) := by
  obtain ⟨h1, h2⟩ := read_phdr file pos p hio hpos hs
  have hd := valid_distinct D hD
  rw [read_program_headers, h1]
  simp only []
  rw [h2]
  simp only [phdr_of_bytes_to_bytes p hp, sizeof_Sony_Elf32_Phdr]
  have hm : (pos + 32) % UINT64_MOD = pos + 32 :=
    Nat.mod_eq_of_lt (by simp only [UINT64_MOD]; omega)
  simp only [ht, hf, hd, if_false, and_self, if_true, hm]

theorem step_rpm (D : SonyElfDefs) (hD : D.valid) (n pos : Nat) (reader : Reader)
    (file : File) (header : Header) (entries : List SegmentReaderEntry) (p : Sony_Elf32_Phdr)
    (hio : file.io_ok = true) (hpos : pos < 2 ^ 63) (hs : slice file.data pos 32 = p.to_bytes)
    (hp : p.fits) (ht : p.p_type = D.SONY_E_TYPE_RPM) (hf : p.p_flags = D.SONY_E_FLAGS_RPM) :
    read_program_headers D (n + 1) pos reader file header entries
      = read_program_headers D n (pos + 32) reader { file with pos := pos + 32 }
          (header.set_sony_rpm_address (some p.p_vaddr)).2
          (entries ++ [⟨ENTRY_TYPE_SONY_RPM, p.p_offset, p.p_memsz, false⟩]) := by
  obtain ⟨h1, h2⟩ := read_phdr file pos p hio hpos hs
  have hd := valid_distinct D hD
  rw [read_program_headers, h1]
  simp only []
  rw [h2]
  simp only [phdr_of_bytes_to_bytes p hp, sizeof_Sony_Elf32_Phdr]
  have hm : (pos + 32) % UINT64_MOD = pos + 32 :=
    Nat.mod_eq_of_lt (by simp only [UINT64_MOD]; omega)
  simp only [ht, hf, hd, if_false, and_self, if_true, hm]

theorem step_appsbl (D : SonyElfDefs) (hD : D.valid) (n pos : Nat) (reader : Reader)
    (file : File) (header : Header) (entries : List SegmentReaderEntry) (p : Sony_Elf32_Phdr)
    (hio : file.io_ok = true) (hpos : pos < 2 ^ 63) (hs : slice file.data pos 32 = p.to_bytes)
    (hp : p.fits) (ht : p.p_type = D.SONY_E_TYPE_APPSBL) (hf : p.p_flags = D.SONY_E_FLAGS_APPSBL) :
    read_program_headers D (n + 1) pos reader file header entries
      = read_program_headers D n (pos + 32) reader { file with pos := pos + 32 }
          (header.set_sony_appsbl_address (some p.p_vaddr)).2
          (entries ++ [⟨ENTRY_TYPE_SONY_APPSBL, p.p_offset, p.p_memsz, false⟩]) := by
  obtain ⟨h1, h2⟩ := read_phdr file pos p hio hpos hs
  have hd := valid_distinct D hD
  rw [read_program_headers, h1]
  simp only []
  rw [h2]
  simp only [phdr_of_bytes_to_bytes p hp, sizeof_Sony_Elf32_Phdr]
  have hm : (pos + 32) % UINT64_MOD = pos + 32 :=
    Nat.mod_eq_of_lt (by simp only [UINT64_MOD]; omega)
  simp only [ht, hf, hd, if_false, and_self, if_true, hm]

theorem step_cmdline (D : SonyElfDefs) (n pos : Nat) (reader : Reader)
    (file : File) (header : Header) (entries : List SegmentReaderEntry) (p : Sony_Elf32_Phdr)
    (hio : file.io_ok = true) (hpos : pos < 2 ^ 63) (hs : slice file.data pos 32 = p.to_bytes)
    (hp : p.fits) (ht : p.p_type = D.SONY_E_TYPE_CMDLINE)
    (hf : p.p_flags = D.SONY_E_FLAGS_CMDLINE) (hsz : p.p_memsz < 512)
    (hlen : (slice file.data p.p_offset p.p_memsz).length = p.p_memsz) :
    read_program_headers D (n + 1) pos reader file header entries
      = read_program_headers D n (pos + 32) reader
          { file with pos := p.p_offset + p.p_memsz }
          (header.set_kernel_cmdline
            (some (c_str (slice file.data p.p_offset p.p_memsz ++ [0])))).2
          entries := by
  obtain ⟨h1, h2⟩ := read_phdr file pos p hio hpos hs
  rw [read_program_headers, h1]
  simp only []
  rw [h2]
  simp only [phdr_of_bytes_to_bytes p hp, sizeof_Sony_Elf32_Phdr]
  have hm : (pos + 32) % UINT64_MOD = pos + 32 :=
    Nat.mod_eq_of_lt (by simp only [UINT64_MOD]; omega)
  simp only [ht, hf, and_self, if_true, hm, ge_iff_le, Nat.not_le.2 hsz, if_false]
  rw [seek_set_healthy { file with pos := pos + 32 } p.p_offset hio]
  simp only []
  rw [read_exact_healthy { file with pos := p.p_offset } p.p_memsz hio hlen]


theorem read_retry_healthy (f : File) (size : Nat) (hio : f.io_ok = true) :
    file_read_retry f size
      = (.ok (slice f.data f.pos size), { f with pos := f.pos + (slice f.data f.pos size).length }) := by
  simp [file_read_retry, hio]

theorem seg_read_entry_some (s : SegmentReader) (file : File) (entry : Entry)
    (reader : Reader) (e : SegmentReaderEntry) (he : s.entries[s.next_index]? = some e)
    (hio : file.io_ok = true) (hoff : e.offset < 2 ^ 63) :
    s.read_entry file entry reader
      = (true,
         { s with state := .Entries, entry := s.next_index, read_cur := e.offset,
                  read_end := e.offset + e.size },
         { file with pos := e.offset }, { type := some e.type, size := some e.size },
         reader) := by
  unfold SegmentReader.read_entry
  simp only [he, to_int64_small e.offset hoff, seek_set_healthy file e.offset hio]

theorem seg_read_entry_none (s : SegmentReader) (file : File) (entry : Entry)
    (reader : Reader) (he : s.entries[s.next_index]? = none) :
    s.read_entry file entry reader
      = (false, { s with state := .End, entry := s.entries.length }, file, entry,
         reader.set_error .EndOfEntries) := by
  unfold SegmentReader.read_entry
  simp only [he]

theorem seg_read_data_whole (s : SegmentReader) (file : File) (reader : Reader)
    (e : SegmentReaderEntry) (hst : s.state = .Entries) (he : s.entries[s.entry]? = some e)
    (hcur : s.read_cur = e.offset) (hend : s.read_end = e.offset + e.size)
    (hpos : file.pos = e.offset) (hio : file.io_ok = true)
    (hlen : (slice file.data e.offset e.size).length = e.size) :
    s.read_data file e.size reader
      = (true, { s with read_cur := e.offset + e.size },
         { file with pos := e.offset + e.size }, slice file.data e.offset e.size, reader) := by
  unfold SegmentReader.read_data
  simp only [hst, he, hcur, hend, Nat.add_sub_cancel_left, Nat.min_self]
  rw [read_retry_healthy file e.size hio]
  simp only [hpos, hlen, lt_irrefl, false_and, if_false]

/-- The caller's read loop hands out, for every remaining segment that lies within the
file, its type and the bytes of the file at its offset. -/
theorem read_entries_from (data : List Nat) (es : List SegmentReaderEntry) :
    ∀ (fuel k : Nat) (self : SonyElfFormatReader) (file : File) (acc : List (Int × List Nat)),
      self._seg.entries = es → self._seg.next_index = k →
      file.data = data → file.io_ok = true →
      (∀ e ∈ es.drop k, e.offset < 2 ^ 63 ∧ (slice data e.offset e.size).length = e.size) →
      es.length - k < fuel →
      read_entries fuel self file acc
        = some (acc ++ (es.drop k).map (fun e => (e.type, slice data e.offset e.size))) := by
  intro fuel
  induction fuel with
  | zero => intro k self file acc _ _ _ _ _ hf; omega
  | succ n ih =>
    intro k self file acc hes hk hdata hio hin hf
    unfold read_entries SonyElfFormatReader.read_entry
    cases hek : es[k]? with
    | none =>
      have hd : es.drop k = [] := List.drop_eq_nil_of_le (by
        rw [List.getElem?_eq_none_iff] at hek; exact hek)
      rw [seg_read_entry_none _ _ _ _ (by rw [hes, hk]; exact hek)]
      simp [hd, Reader.set_error]
    | some e =>
      have hdrop : es.drop k = e :: es.drop (k + 1) := by
        rw [List.getElem?_eq_some_iff] at hek
        obtain ⟨h1, h2⟩ := hek
        rw [← h2]
        exact List.drop_eq_getElem_cons h1
      have hlt : k < es.length := by
        rw [List.getElem?_eq_some_iff] at hek; exact hek.1
      obtain ⟨hoff, hlen⟩ := hin e (by rw [hdrop]; exact List.mem_cons_self _ _)
      rw [seg_read_entry_some _ _ _ _ e (by rw [hes, hk]; exact hek) hio hoff]
      simp only [Option.getD_some]
      unfold SonyElfFormatReader.read_data
      rw [seg_read_data_whole
        { state := .Entries, entries := self._seg.entries, entry := self._seg.next_index,
          read_cur := e.offset, read_end := e.offset + e.size }
        { file with pos := e.offset } self._reader e rfl
        (by simp only [hes, hk]; exact hek) rfl rfl rfl hio
        (by simp only [hdata]; exact hlen)]
      simp only []
      rw [ih (k + 1)
        { _reader := self._reader, _hdr := self._hdr, _have_header := self._have_header,
          _seg :=
            { state := .Entries, entries := self._seg.entries, entry := self._seg.next_index,
              read_cur := e.offset + e.size, read_end := e.offset + e.size } }
        { data := file.data, pos := e.offset + e.size, io_ok := file.io_ok,
          fatal := file.fatal }
        _ hes (by show self._seg.next_index + 1 = k + 1; rw [hk]) hdata hio
        (fun e' he' => hin e' (by rw [hdrop]; exact List.mem_cons_of_mem _ he')) (by omega)]
      simp [hdrop, hdata]

theorem slice_flatten (segs : List (List Nat)) :
    ∀ (i : Nat) (x : List Nat), segs[i]? = some x →
      slice segs.flatten ((segs.take i).map List.length).sum x.length = x := by
  induction segs with
  | nil => intro i x h; simp at h
  | cons y rest ih =>
    intro i x h
    cases i with
    | zero =>
      simp only [List.getElem?_cons_zero, Option.some.injEq] at h
      subst h
      simp [slice]
    | succ j =>
      simp only [List.getElem?_cons_succ] at h
      have := ih j x h
      simp only [List.flatten_cons, List.take_succ_cons, List.map_cons, List.sum_cons]
      rw [slice_append_right y _ y.length _ _ rfl (by omega), Nat.add_sub_cancel_left]
      exact this

/-- Reading the header of an image that holds a kernel, a ramdisk and a command line
program header, in this order. -/
theorem read_header_three (D : SonyElfDefs) (hD : D.valid) (data : List Nat)
    (e : Sony_Elf32_Ehdr) (pk pr pc : Sony_Elf32_Phdr)
    (he : e.fits) (hid : e.e_ident.take D.SONY_EI_NIDENT = D.SONY_E_IDENT.take D.SONY_EI_NIDENT)
    (hnum : e.e_phnum = 3)
    (hk : pk.fits) (hkt : pk.p_type = D.SONY_E_TYPE_KERNEL) (hkf : pk.p_flags = D.SONY_E_FLAGS_KERNEL)
    (hr : pr.fits) (hrt : pr.p_type = D.SONY_E_TYPE_RAMDISK) (hrf : pr.p_flags = D.SONY_E_FLAGS_RAMDISK)
    (hc : pc.fits) (hct : pc.p_type = D.SONY_E_TYPE_CMDLINE) (hcf : pc.p_flags = D.SONY_E_FLAGS_CMDLINE)
    (hcs : pc.p_memsz < 512)
    (s0 : slice data 0 52 = e.to_bytes) (s1 : slice data 52 32 = pk.to_bytes)
    (s2 : slice data 84 32 = pr.to_bytes) (s3 : slice data 116 32 = pc.to_bytes)
    (hcl : (slice data pc.p_offset pc.p_memsz).length = pc.p_memsz) :
    (SonyElfFormatReader.new Reader.init).read_header D (File.of_bytes data 0) Header.empty
      = ((SegmentReader.init.set_entries Reader.init
            [⟨ENTRY_TYPE_KERNEL, pk.p_offset, pk.p_memsz, false⟩,
             ⟨ENTRY_TYPE_RAMDISK, pr.p_offset, pr.p_memsz, false⟩]).1,
         { _reader := (SegmentReader.init.set_entries Reader.init
            [⟨ENTRY_TYPE_KERNEL, pk.p_offset, pk.p_memsz, false⟩,
             ⟨ENTRY_TYPE_RAMDISK, pr.p_offset, pr.p_memsz, false⟩]).2.2
           _hdr := e
           _have_header := true
           _seg := (SegmentReader.init.set_entries Reader.init
            [⟨ENTRY_TYPE_KERNEL, pk.p_offset, pk.p_memsz, false⟩,
             ⟨ENTRY_TYPE_RAMDISK, pr.p_offset, pr.p_memsz, false⟩]).2.1 },
         File.of_bytes data (pc.p_offset + pc.p_memsz),
         header_three e pk pr (c_str (slice data pc.p_offset pc.p_memsz ++ [0]))) := by
  unfold SonyElfFormatReader.read_header
  simp only [SonyElfFormatReader.new, Bool.false_eq_true, if_true]
  rw [find_sony_elf_header_eq D Reader.init (File.of_bytes data 0) Sony_Elf32_Ehdr.zero e rfl s0 he hid]
  simp only [hnum, sizeof_Sony_Elf32_Ehdr, zero_add]
  have hm : 52 % UINT64_MOD = 52 := by decide
  rw [hm]
  rw [step_kernel D hD 2 52 _ _ _ _ pk rfl (by decide) s1 hk hkt hkf]
  rw [step_ramdisk D hD 1 84 _ _ _ _ pr rfl (by decide) s2 hr hrt hrf]
  rw [step_cmdline D 0 116 _ _ _ _ pc rfl (by decide) s3 hc hct hcf hcs hcl]
  simp only [read_program_headers, List.nil_append, List.cons_append]
  simp [header_three, Header.set_supported_fields, Header.set_entrypoint_address, Header.set_kernel_address,
    Header.set_ramdisk_address, Header.set_kernel_cmdline, SONY_ELF_SUPPORTED_FIELDS, Header.empty, File.of_bytes]

/-! ## Written images with a kernel, a ramdisk and a command line -/

theorem valid_words (D : SonyElfDefs) (hD : D.valid) :
    D.SONY_E_TYPE_KERNEL < UINT32_MOD ∧ D.SONY_E_FLAGS_KERNEL < UINT32_MOD
    ∧ D.SONY_E_TYPE_RAMDISK < UINT32_MOD ∧ D.SONY_E_FLAGS_RAMDISK < UINT32_MOD
    ∧ D.SONY_E_TYPE_IPL < UINT32_MOD ∧ D.SONY_E_FLAGS_IPL < UINT32_MOD
    ∧ D.SONY_E_TYPE_CMDLINE < UINT32_MOD ∧ D.SONY_E_FLAGS_CMDLINE < UINT32_MOD
    ∧ D.SONY_E_TYPE_RPM < UINT32_MOD ∧ D.SONY_E_FLAGS_RPM < UINT32_MOD
    ∧ D.SONY_E_TYPE_APPSBL < UINT32_MOD ∧ D.SONY_E_FLAGS_APPSBL < UINT32_MOD
    ∧ D.SONY_E_TYPE_SIN < UINT32_MOD := by
  obtain ⟨_, _, hw, _⟩ := hD
  simp only [List.mem_cons, List.mem_singleton, forall_eq_or_imp, forall_eq, List.not_mem_nil,
    false_implies, implies_true, and_true] at hw
  exact hw

theorem staged_phdr_fits (t f : Nat) (a : Option Nat) (ht : t < UINT32_MOD) (hf : f < UINT32_MOD)
    (ha : ∀ x, a = some x → x < UINT32_MOD) : (staged_phdr t f a).fits := by
  have h0 : 0 < UINT32_MOD := by decide
  cases a with
  | none => exact ⟨ht, h0, h0, h0, h0, h0, hf, h0⟩
  | some x =>
    have := ha x rfl
    exact ⟨ht, h0, this, this, h0, h0, hf, h0⟩

theorem written_phdr_fits (p : Sony_Elf32_Phdr) (off size : Nat) (hp : p.fits) :
    (written_phdr p off size).fits := by
  obtain ⟨h1, _, h3, h4, _, _, h7, h8⟩ := hp
  have hpos : 0 < UINT32_MOD := by decide
  exact ⟨h1, Nat.mod_lt _ hpos, h3, h4, Nat.mod_lt _ hpos, Nat.mod_lt _ hpos, h7, h8⟩

theorem count_segment_lt (n size : Nat) (h : n < 2 ^ 16) : count_segment n size < 2 ^ 16 := by
  unfold count_segment
  split
  · exact Nat.mod_lt _ (by decide)
  · exact h

theorem final_ehdr_fits (D : SonyElfDefs) (hD : D.valid) (H : Header) (hH : H.addresses_fit)
    (P : SonyPayload) : (final_ehdr D H P).fits := by
  obtain ⟨hn, hl, _, _⟩ := hD
  obtain ⟨hka, _, _, _, _, hea⟩ := hH
  have hentry : (final_ehdr D H P).e_entry < UINT32_MOD := by
    simp only [final_ehdr, staged_ehdr]
    cases he : H.entrypoint_address with
    | some x => exact hea x he
    | none =>
      cases hk : H.kernel_address with
      | some y => exact hka y hk
      | none => decide
  have a2 : (2 : Nat) < 2 ^ 16 := by decide
  have a40 : (40 : Nat) < 2 ^ 16 := by decide
  have a1 : (1 : Nat) < UINT32_MOD := by decide
  have a52 : (52 : Nat) < UINT32_MOD := by decide
  have a0 : (0 : Nat) < UINT32_MOD := by decide
  have b52 : sizeof_Sony_Elf32_Ehdr < 2 ^ 16 := by decide
  have b32 : sizeof_Sony_Elf32_Phdr < 2 ^ 16 := by decide
  have b0 : (0 : Nat) < 2 ^ 16 := by decide
  refine ⟨?_, a2, a40, a1, hentry, a52, a0, a0, b52, b32, ?_, b0, b0, b0⟩
  · simp only [final_ehdr, staged_ehdr, Sony_Elf32_Ehdr.zero, List.length_append, List.length_take,
      List.length_drop, List.length_replicate]
    omega
  · simp only [final_ehdr]
    exact count_segment_lt _ _ (count_segment_lt _ _ (count_segment_lt _ _ (count_segment_lt _ _
      (count_segment_lt _ _ (count_segment_lt _ _ (by decide))))))

theorem final_ehdr_ident (D : SonyElfDefs) (hD : D.valid) (H : Header) (P : SonyPayload) :
    (final_ehdr D H P).e_ident.take D.SONY_EI_NIDENT = D.SONY_E_IDENT.take D.SONY_EI_NIDENT := by
  obtain ⟨hn, hl, _, _⟩ := hD
  simp only [final_ehdr, staged_ehdr]
  rw [List.take_append_of_le_length (by rw [List.length_take]; omega), List.take_take, Nat.min_self]

/-- The bytes of a written image that holds a kernel, a ramdisk and a command line and no
other segment: the four headers, the rest of the hole, the three payloads. -/
theorem image_three (D : SonyElfDefs) (H : Header) (k r : List Nat)
    (hk : 0 < k.length % UINT32_MOD) (hr : 0 < r.length % UINT32_MOD)
    (hc : 0 < (staged_cmdline H).length % UINT32_MOD) :
    (sony_write_image D H ⟨k, r, [], [], []⟩).1 = true
    ∧ ∃ Z : List Nat, Z.length = 3948
      ∧ (sony_write_image D H ⟨k, r, [], [], []⟩).2.data
          = [(final_ehdr D H ⟨k, r, [], [], []⟩).to_bytes,
             (final_kernel_phdr D H ⟨k, r, [], [], []⟩).to_bytes,
             (final_ramdisk_phdr D H ⟨k, r, [], [], []⟩).to_bytes,
             (final_cmdline_phdr D H ⟨k, r, [], [], []⟩).to_bytes,
             Z, k, r, staged_cmdline H].flatten := by
  rw [sony_write_image_eq]
  refine ⟨rfl, ?_⟩
  have hkne : k ≠ [] := by
    intro h; subst h; simp at hk
  have f1 : (final_kernel_phdr D H ⟨k, r, [], [], []⟩).p_filesz = k.length % UINT32_MOD := rfl
  have f2 : (final_ramdisk_phdr D H ⟨k, r, [], [], []⟩).p_filesz = r.length % UINT32_MOD := rfl
  have f3 : (final_cmdline_phdr D H ⟨k, r, [], [], []⟩).p_filesz
      = (staged_cmdline H).length % UINT32_MOD := rfl
  have f4 : (final_ipl_phdr D H ⟨k, r, [], [], []⟩).p_filesz = 0 := rfl
  have hh : image_headers D H ⟨k, r, [], [], []⟩
      = (final_ehdr D H ⟨k, r, [], [], []⟩).to_bytes
        ++ ((final_kernel_phdr D H ⟨k, r, [], [], []⟩).to_bytes
        ++ ((final_ramdisk_phdr D H ⟨k, r, [], [], []⟩).to_bytes
        ++ (final_cmdline_phdr D H ⟨k, r, [], [], []⟩).to_bytes)) := by
    simp [image_headers, final_phdrs, written_headers, f1, f2, f3, f4, hk, hr, hc]
  have hb : image_body H ⟨k, r, [], [], []⟩ = k ++ (r ++ staged_cmdline H) := by
    simp [image_body]
  have hbne : image_body H ⟨k, r, [], [], []⟩ ≠ [] := by
    rw [hb]; simp [hkne]
  refine ⟨List.replicate (4096 - (image_headers D H ⟨k, r, [], [], []⟩).length) 0, ?_, ?_⟩
  · rw [List.length_replicate, hh]
    simp only [List.length_append, ehdr_to_bytes_length, phdr_to_bytes_length]
  · simp only [image_file, hbne, if_false]
    rw [hb, hh]
    simp only [List.flatten, List.append_assoc, List.append_nil]

theorem c_str_no_nul (c : List Nat) (h : 0 ∉ c) : c_str (c ++ [0]) = c := by
  unfold c_str
  induction c with
  | nil => simp [List.takeWhile]
  | cons a t ih =>
    have ha : a ≠ 0 := fun h0 => h (by rw [h0]; exact List.mem_cons_self _ _)
    have ht : 0 ∉ t := fun h0 => h (List.mem_cons_of_mem _ h0)
    rw [List.cons_append, List.takeWhile_cons]
    simp [ha, ih ht]

set_option maxHeartbeats 1000000 in
/-- The reader on a written image that holds a kernel, a ramdisk and a command line: the
three program headers are recognised, the command line is read from the offset stored in
its program header, and the result is what `set_entries` returns for the two segments. -/
theorem read_written_three (D : SonyElfDefs) (hD : D.valid) (H : Header)
    (hH : H.addresses_fit) (k r : List Nat)
    (hk : 0 < k.length % UINT32_MOD) (hr : 0 < r.length % UINT32_MOD)
    (hc : 0 < (staged_cmdline H).length % UINT32_MOD)
    (hcs : (staged_cmdline H).length % UINT32_MOD < 512) :
    (SonyElfFormatReader.new Reader.init).read_header D
        (File.of_bytes (sony_write_image D H ⟨k, r, [], [], []⟩).2.data 0) Header.empty
      = ((SegmentReader.init.set_entries Reader.init
            [⟨ENTRY_TYPE_KERNEL, (final_kernel_phdr D H ⟨k, r, [], [], []⟩).p_offset,
               (final_kernel_phdr D H ⟨k, r, [], [], []⟩).p_memsz, false⟩,
             ⟨ENTRY_TYPE_RAMDISK, (final_ramdisk_phdr D H ⟨k, r, [], [], []⟩).p_offset,
               (final_ramdisk_phdr D H ⟨k, r, [], [], []⟩).p_memsz, false⟩]).1,
         { _reader := (SegmentReader.init.set_entries Reader.init
            [⟨ENTRY_TYPE_KERNEL, (final_kernel_phdr D H ⟨k, r, [], [], []⟩).p_offset,
               (final_kernel_phdr D H ⟨k, r, [], [], []⟩).p_memsz, false⟩,
             ⟨ENTRY_TYPE_RAMDISK, (final_ramdisk_phdr D H ⟨k, r, [], [], []⟩).p_offset,
               (final_ramdisk_phdr D H ⟨k, r, [], [], []⟩).p_memsz, false⟩]).2.2
           _hdr := final_ehdr D H ⟨k, r, [], [], []⟩
           _have_header := true
           _seg := (SegmentReader.init.set_entries Reader.init
            [⟨ENTRY_TYPE_KERNEL, (final_kernel_phdr D H ⟨k, r, [], [], []⟩).p_offset,
               (final_kernel_phdr D H ⟨k, r, [], [], []⟩).p_memsz, false⟩,
             ⟨ENTRY_TYPE_RAMDISK, (final_ramdisk_phdr D H ⟨k, r, [], [], []⟩).p_offset,
               (final_ramdisk_phdr D H ⟨k, r, [], [], []⟩).p_memsz, false⟩]).2.1 },
         File.of_bytes (sony_write_image D H ⟨k, r, [], [], []⟩).2.data
           ((final_cmdline_phdr D H ⟨k, r, [], [], []⟩).p_offset
             + (final_cmdline_phdr D H ⟨k, r, [], [], []⟩).p_memsz),
         header_three (final_ehdr D H ⟨k, r, [], [], []⟩)
           (final_kernel_phdr D H ⟨k, r, [], [], []⟩)
           (final_ramdisk_phdr D H ⟨k, r, [], [], []⟩)
           (c_str (slice (sony_write_image D H ⟨k, r, [], [], []⟩).2.data
              (final_cmdline_phdr D H ⟨k, r, [], [], []⟩).p_offset
              (final_cmdline_phdr D H ⟨k, r, [], [], []⟩).p_memsz ++ [0]))) := by
  obtain ⟨_, Z, hZ, hdata⟩ := image_three D H k r hk hr hc
  generalize (sony_write_image D H ⟨k, r, [], [], []⟩).2.data = data at hdata ⊢
  obtain ⟨wk, wkf, wr, wrf, _, _, wc, wcf, _⟩ := valid_words D hD
  have hE := final_ehdr_fits D hD H hH ⟨k, r, [], [], []⟩
  have hI := final_ehdr_ident D hD H ⟨k, r, [], [], []⟩
  obtain ⟨hka, hra, _⟩ := hH
  have hkpos : 0 < k.length := by
    rcases Nat.eq_zero_or_pos k.length with h | h
    · rw [h] at hk; simp at hk
    · exact h
  have hrpos : 0 < r.length := by
    rcases Nat.eq_zero_or_pos r.length with h | h
    · rw [h] at hr; simp at hr
    · exact h
  have hcpos : 0 < (staged_cmdline H).length := by
    rcases Nat.eq_zero_or_pos (staged_cmdline H).length with h | h
    · rw [h] at hc; simp at hc
    · exact h
  have hnum : (final_ehdr D H ⟨k, r, [], [], []⟩).e_phnum = 3 := by
    simp [final_ehdr, count_segment, hkpos, hrpos, hcpos]
  have fk : (final_kernel_phdr D H ⟨k, r, [], [], []⟩).fits :=
    written_phdr_fits _ _ _ (staged_phdr_fits _ _ _ wk wkf hka)
  have fr : (final_ramdisk_phdr D H ⟨k, r, [], [], []⟩).fits :=
    written_phdr_fits _ _ _ (staged_phdr_fits _ _ _ wr wrf hra)
  have fc : (final_cmdline_phdr D H ⟨k, r, [], [], []⟩).fits :=
    written_phdr_fits _ _ _ (staged_phdr_fits _ _ _ wc wcf (fun x h => by cases h))
  have tk : (final_kernel_phdr D H ⟨k, r, [], [], []⟩).p_type = D.SONY_E_TYPE_KERNEL
      ∧ (final_kernel_phdr D H ⟨k, r, [], [], []⟩).p_flags = D.SONY_E_FLAGS_KERNEL := by
    cases h : H.kernel_address <;> simp [final_kernel_phdr, written_phdr, staged_phdr, h]
  have tr : (final_ramdisk_phdr D H ⟨k, r, [], [], []⟩).p_type = D.SONY_E_TYPE_RAMDISK
      ∧ (final_ramdisk_phdr D H ⟨k, r, [], [], []⟩).p_flags = D.SONY_E_FLAGS_RAMDISK := by
    cases h : H.ramdisk_address <;> simp [final_ramdisk_phdr, written_phdr, staged_phdr, h]
  have tc : (final_cmdline_phdr D H ⟨k, r, [], [], []⟩).p_type = D.SONY_E_TYPE_CMDLINE
      ∧ (final_cmdline_phdr D H ⟨k, r, [], [], []⟩).p_flags = D.SONY_E_FLAGS_CMDLINE := by
    simp [final_cmdline_phdr, written_phdr, staged_phdr]
  have s0 := slice_flatten
    [(final_ehdr D H ⟨k, r, [], [], []⟩).to_bytes,
     (final_kernel_phdr D H ⟨k, r, [], [], []⟩).to_bytes,
     (final_ramdisk_phdr D H ⟨k, r, [], [], []⟩).to_bytes,
     (final_cmdline_phdr D H ⟨k, r, [], [], []⟩).to_bytes, Z, k, r, staged_cmdline H]
    0 (final_ehdr D H ⟨k, r, [], [], []⟩).to_bytes rfl
  have s1 := slice_flatten
    [(final_ehdr D H ⟨k, r, [], [], []⟩).to_bytes,
     (final_kernel_phdr D H ⟨k, r, [], [], []⟩).to_bytes,
     (final_ramdisk_phdr D H ⟨k, r, [], [], []⟩).to_bytes,
     (final_cmdline_phdr D H ⟨k, r, [], [], []⟩).to_bytes, Z, k, r, staged_cmdline H]
    1 (final_kernel_phdr D H ⟨k, r, [], [], []⟩).to_bytes rfl
  have s2 := slice_flatten
    [(final_ehdr D H ⟨k, r, [], [], []⟩).to_bytes,
     (final_kernel_phdr D H ⟨k, r, [], [], []⟩).to_bytes,
     (final_ramdisk_phdr D H ⟨k, r, [], [], []⟩).to_bytes,
     (final_cmdline_phdr D H ⟨k, r, [], [], []⟩).to_bytes, Z, k, r, staged_cmdline H]
    2 (final_ramdisk_phdr D H ⟨k, r, [], [], []⟩).to_bytes rfl
  have s3 := slice_flatten
    [(final_ehdr D H ⟨k, r, [], [], []⟩).to_bytes,
     (final_kernel_phdr D H ⟨k, r, [], [], []⟩).to_bytes,
     (final_ramdisk_phdr D H ⟨k, r, [], [], []⟩).to_bytes,
     (final_cmdline_phdr D H ⟨k, r, [], [], []⟩).to_bytes, Z, k, r, staged_cmdline H]
    3 (final_cmdline_phdr D H ⟨k, r, [], [], []⟩).to_bytes rfl
  rw [← hdata] at s0 s1 s2 s3
  simp only [List.take_zero, List.take_succ_cons, List.map_nil, List.map_cons, List.sum_nil,
    List.sum_cons, ehdr_to_bytes_length, phdr_to_bytes_length, Nat.add_zero, Nat.reduceAdd]
    at s0 s1 s2 s3
  have hlen : data.length
      = 4096 + (k.length + (r.length + (staged_cmdline H).length)) := by
    rw [hdata]
    simp only [List.flatten, List.length_append, ehdr_to_bytes_length, phdr_to_bytes_length, hZ,
      List.length_nil]
    omega
  have hcl : (slice data
      (final_cmdline_phdr D H ⟨k, r, [], [], []⟩).p_offset
      (final_cmdline_phdr D H ⟨k, r, [], [], []⟩).p_memsz).length
      = (final_cmdline_phdr D H ⟨k, r, [], [], []⟩).p_memsz := by
    rw [slice_length, hlen]
    simp only [final_cmdline_phdr, written_phdr]
    have h1 := Nat.mod_le (4096 + (k.length + r.length)) UINT32_MOD
    have h2 := Nat.mod_le (staged_cmdline H).length UINT32_MOD
    omega
  exact read_header_three D hD data _ _ _ _ hE hI hnum fk tk.1 tk.2 fr tr.1 tr.2 fc tc.1 tc.2
    hcs s0 s1 s2 s3 hcl

/-! ## Sony ELF round trip -/

theorem sony_elf_defs_valid : sony_elf_defs.valid := by decide

theorem example_sony_header_fits : example_sony_header.addresses_fit := by
  refine ⟨?_, ?_, ?_, ?_, ?_, ?_⟩ <;> intro a h <;> simp [example_sony_header, Header.empty] at h
  subst h; decide

/-- A kernel that ends exactly at file offset 2^32: the ramdisk offset stored in the 32-bit
`p_offset` wraps to 0, and the image written without error cannot be read back. -/
theorem read_truncated_image (D : SonyElfDefs) (hD : D.valid) (H : Header)
    (hH : H.addresses_fit) (k r : List Nat) (hk : k.length = UINT32_MOD - 4096)
    (hr : r.length = 1) (hc : 0 < (staged_cmdline H).length)
    (hcs : (staged_cmdline H).length < 512) :
    (sony_write_image D H ⟨k, r, [], [], []⟩).1 = true
    ∧ sony_read_image D (sony_write_image D H ⟨k, r, [], [], []⟩).2.data = none := by
  have h32 : UINT32_MOD = 4294967296 := by decide
  have mk : k.length % UINT32_MOD = 4294963200 := by rw [hk, h32]
  have mr : r.length % UINT32_MOD = 1 := by rw [hr, h32]
  have mc : (staged_cmdline H).length % UINT32_MOD = (staged_cmdline H).length :=
    Nat.mod_eq_of_lt (by omega)
  have m1 : (4096 + k.length) % UINT32_MOD = 0 := by rw [hk, h32]
  have hrd := read_written_three D hD H hH k r (by rw [mk]; decide) (by rw [mr]; decide)
    (by rw [mc]; exact hc) (by rw [mc]; exact hcs)
  refine ⟨by rw [sony_write_image_eq], ?_⟩
  have e1 : (final_kernel_phdr D H ⟨k, r, [], [], []⟩).p_offset = 4096 % UINT32_MOD := rfl
  have e3 : (final_ramdisk_phdr D H ⟨k, r, [], [], []⟩).p_offset
      = (4096 + k.length) % UINT32_MOD := rfl
  have m0 : 4096 % UINT32_MOD = 4096 := by decide
  rw [e1, e3, m0, m1] at hrd
  have hbad : ∀ (s1 s2 : Nat), (SegmentReader.init.set_entries Reader.init
      [⟨ENTRY_TYPE_KERNEL, 4096, s1, false⟩, ⟨ENTRY_TYPE_RAMDISK, 0, s2, false⟩]).1 = false := by
    intro s1 s2
    simp [SegmentReader.set_entries, SegmentReader.init, offsets_nondecreasing]
  unfold sony_read_image
  rw [hrd, hbad]

theorem mod_small (n : Nat) (h : n < UINT32_MOD) : n % UINT32_MOD = n := Nat.mod_eq_of_lt h

/-- C1 (amended): for every `Header` with a kernel address and a non-empty kernel command
line shorter than 512 bytes without NUL byte, and every non-empty kernel payload and
non-empty ramdisk payload whose lengths together with the 4096-byte header page stay
below 2^32, writing them with `SonyElfFormatWriter` (`write_header`, the entry loop,
`close`) succeeds and reading the output with `SonyElfFormatReader` recovers the same
kernel address, the same command line and byte-identical kernel and ramdisk data. -/
theorem C1_sony_elf_round_trip (D : SonyElfDefs) (hD : D.valid) (H : Header)
    (hH : H.addresses_fit) (ka : Nat) (hka : H.kernel_address = some ka) (c : List Nat)
    (hc : H.kernel_cmdline = some c) (hcne : c ≠ []) (hclen : c.length < 512)
    (hcnul : 0 ∉ c) (k r : List Nat) (hk : k ≠ []) (hr : r ≠ [])
    (hsize : 4096 + k.length + r.length < UINT32_MOD) :
    (sony_write_image D H ⟨k, r, [], [], []⟩).1 = true
    ∧ ∃ H', sony_read_image D (sony_write_image D H ⟨k, r, [], [], []⟩).2.data
          = some (H', [(ENTRY_TYPE_KERNEL, k), (ENTRY_TYPE_RAMDISK, r)])
        ∧ H'.kernel_address = some ka ∧ H'.kernel_cmdline = some c := by
  have hkpos : 0 < k.length := List.length_pos.2 hk
  have hrpos : 0 < r.length := List.length_pos.2 hr
  have hcpos : 0 < c.length := List.length_pos.2 hcne
  have hsc : staged_cmdline H = c := by simp [staged_cmdline, hc]
  have h32 : UINT32_MOD = 4294967296 := by decide
  have mk : k.length % UINT32_MOD = k.length := mod_small _ (by omega)
  have mr : r.length % UINT32_MOD = r.length := mod_small _ (by omega)
  have mc : c.length % UINT32_MOD = c.length := mod_small _ (by omega)
  have m0 : 4096 % UINT32_MOD = 4096 := by decide
  have m1 : (4096 + k.length) % UINT32_MOD = 4096 + k.length := mod_small _ (by omega)
  have m2 : (4096 + (k.length + r.length)) % UINT32_MOD = 4096 + (k.length + r.length) :=
    mod_small _ (by omega)
  have hrd := read_written_three D hD H hH k r (by rw [mk]; exact hkpos) (by rw [mr]; exact hrpos)
    (by rw [hsc, mc]; exact hcpos) (by rw [hsc, mc]; exact hclen)
  obtain ⟨hw, Z, hZ, hdata⟩ := image_three D H k r (by rw [mk]; exact hkpos)
    (by rw [mr]; exact hrpos) (by rw [hsc, mc]; exact hcpos)
  refine ⟨hw, ?_⟩
  have e1 : (final_kernel_phdr D H ⟨k, r, [], [], []⟩).p_offset = 4096 % UINT32_MOD := rfl
  have e2 : (final_kernel_phdr D H ⟨k, r, [], [], []⟩).p_memsz = k.length % UINT32_MOD := rfl
  have e3 : (final_ramdisk_phdr D H ⟨k, r, [], [], []⟩).p_offset
      = (4096 + k.length) % UINT32_MOD := rfl
  have e4 : (final_ramdisk_phdr D H ⟨k, r, [], [], []⟩).p_memsz = r.length % UINT32_MOD := rfl
  have e5 : (final_cmdline_phdr D H ⟨k, r, [], [], []⟩).p_offset
      = (4096 + (k.length + r.length)) % UINT32_MOD := rfl
  have e6 : (final_cmdline_phdr D H ⟨k, r, [], [], []⟩).p_memsz
      = (staged_cmdline H).length % UINT32_MOD := rfl
  have e7 : (final_kernel_phdr D H ⟨k, r, [], [], []⟩).p_vaddr = ka := by
    simp [final_kernel_phdr, written_phdr, staged_phdr, hka]
  rw [e1, e2, e3, e4, e5, e6, hsc, mk, mr, mc, m0, m1, m2] at hrd
  generalize (sony_write_image D H ⟨k, r, [], [], []⟩).2.data = data at hdata hrd ⊢
  have sk := slice_flatten
    [(final_ehdr D H ⟨k, r, [], [], []⟩).to_bytes,
     (final_kernel_phdr D H ⟨k, r, [], [], []⟩).to_bytes,
     (final_ramdisk_phdr D H ⟨k, r, [], [], []⟩).to_bytes,
     (final_cmdline_phdr D H ⟨k, r, [], [], []⟩).to_bytes, Z, k, r, staged_cmdline H]
    5 k rfl
  have sr := slice_flatten
    [(final_ehdr D H ⟨k, r, [], [], []⟩).to_bytes,
     (final_kernel_phdr D H ⟨k, r, [], [], []⟩).to_bytes,
     (final_ramdisk_phdr D H ⟨k, r, [], [], []⟩).to_bytes,
     (final_cmdline_phdr D H ⟨k, r, [], [], []⟩).to_bytes, Z, k, r, staged_cmdline H]
    6 r rfl
  have sc := slice_flatten
    [(final_ehdr D H ⟨k, r, [], [], []⟩).to_bytes,
     (final_kernel_phdr D H ⟨k, r, [], [], []⟩).to_bytes,
     (final_ramdisk_phdr D H ⟨k, r, [], [], []⟩).to_bytes,
     (final_cmdline_phdr D H ⟨k, r, [], [], []⟩).to_bytes, Z, k, r, staged_cmdline H]
    7 (staged_cmdline H) rfl
  rw [← hdata] at sk sr sc
  simp only [List.take_zero, List.take_succ_cons, List.map_nil, List.map_cons, List.sum_nil,
    List.sum_cons, ehdr_to_bytes_length, phdr_to_bytes_length, Nat.add_zero, Nat.reduceAdd, hZ,
    hsc] at sk sr sc
  have ok : k.length + (r.length + 0) = k.length + r.length := by omega
  have hmono : offsets_nondecreasing
      [⟨ENTRY_TYPE_KERNEL, 4096, k.length, false⟩,
       ⟨ENTRY_TYPE_RAMDISK, 4096 + k.length, r.length, false⟩] = true := by
    simp [offsets_nondecreasing]
  rw [set_entries_begin _ _ _ rfl hmono] at hrd
  have a1 : 52 + (32 + (32 + (32 + (3948 + k.length)))) = 4096 + k.length := by omega
  have a2 : 52 + (32 + (32 + (32 + (3948 + (k.length + r.length)))))
      = 4096 + (k.length + r.length) := by omega
  rw [a1] at sr
  rw [a2] at sc
  unfold sony_read_image
  rw [hrd]
  simp only []
  have hre := read_entries_from data
    [⟨ENTRY_TYPE_KERNEL, 4096, k.length, false⟩,
     ⟨ENTRY_TYPE_RAMDISK, 4096 + k.length, r.length, false⟩]
    ([(⟨ENTRY_TYPE_KERNEL, 4096, k.length, false⟩ : SegmentReaderEntry),
      ⟨ENTRY_TYPE_RAMDISK, 4096 + k.length, r.length, false⟩].length + 1) 0
    { _reader := Reader.init
      _hdr := final_ehdr D H ⟨k, r, [], [], []⟩
      _have_header := true
      _seg :=
        { SegmentReader.init with
          entries :=
            [⟨ENTRY_TYPE_KERNEL, 4096, k.length, false⟩,
             ⟨ENTRY_TYPE_RAMDISK, 4096 + k.length, r.length, false⟩]
          entry :=
            [(⟨ENTRY_TYPE_KERNEL, 4096, k.length, false⟩ : SegmentReaderEntry),
             ⟨ENTRY_TYPE_RAMDISK, 4096 + k.length, r.length, false⟩].length } }
    (File.of_bytes data (4096 + (k.length + r.length) + c.length)) [] rfl rfl rfl rfl
    (by
      intro e he
      simp only [List.drop_zero, List.mem_cons, List.mem_singleton, List.not_mem_nil,
        or_false] at he
      rcases he with rfl | rfl
      · exact ⟨by simp only []; omega, by simp only [sk]⟩
      · exact ⟨by simp only []; omega, by simp only [sr]⟩)
    (by simp only [List.length_cons, List.length_nil]; omega)
  rw [hre]
  refine ⟨header_three (final_ehdr D H ⟨k, r, [], [], []⟩)
    (final_kernel_phdr D H ⟨k, r, [], [], []⟩) (final_ramdisk_phdr D H ⟨k, r, [], [], []⟩)
    (c_str (slice data (4096 + (k.length + r.length)) c.length ++ [0])), ?_, ?_, ?_⟩
  · simp only [List.drop_zero, List.map_cons, List.map_nil, List.nil_append, sk, sr,
      Option.map_some']
  · simp only [header_three, e7]
  · simp only [header_three, sc, c_str_no_nul c hcnul]

/-- Witness of C1 (amended): kernel address `0x40008000`, command line `console=ttyS0`,
a kernel of 1024 bytes `K` and a ramdisk of 512 bytes `R`. -/
theorem C1_sony_elf_round_trip_witness :
    (sony_write_image sony_elf_defs example_sony_header
        ⟨List.replicate 1024 75, List.replicate 512 82, [], [], []⟩).1 = true
    ∧ ∃ H', sony_read_image sony_elf_defs
          (sony_write_image sony_elf_defs example_sony_header
            ⟨List.replicate 1024 75, List.replicate 512 82, [], [], []⟩).2.data
          = some (H', [(ENTRY_TYPE_KERNEL, List.replicate 1024 75),
                       (ENTRY_TYPE_RAMDISK, List.replicate 512 82)])
        ∧ H'.kernel_address = some 0x40008000
        ∧ H'.kernel_cmdline
            = some [99, 111, 110, 115, 111, 108, 101, 61, 116, 116, 121, 83, 48] :=
  C1_sony_elf_round_trip sony_elf_defs sony_elf_defs_valid example_sony_header
    example_sony_header_fits 0x40008000 rfl
    [99, 111, 110, 115, 111, 108, 101, 61, 116, 116, 121, 83, 48] rfl (by decide) (by decide)
    (by decide) (List.replicate 1024 75) (List.replicate 512 82)
    (by intro h; exact absurd (congrArg List.length h) (by rw [List.length_replicate]; decide))
    (by intro h; exact absurd (congrArg List.length h) (by rw [List.length_replicate]; decide))
    (by rw [List.length_replicate, List.length_replicate]; decide)

/-- Counterexample to C1: the header of the claim's witness, a kernel of 2^32 - 4096 bytes
`K` and a one-byte ramdisk.  The write succeeds, but the ramdisk starts at file offset
2^32, which `finish_entry` narrows to the 32-bit `p_offset` 0, and reading the output
fails instead of recovering the payloads. -/
theorem C1_counterexample :
    List.replicate (2 ^ 32 - 4096) 75 ≠ ([] : List Nat)
    ∧ ([82] : List Nat) ≠ []
    ∧ (sony_write_image sony_elf_defs example_sony_header
        ⟨List.replicate (2 ^ 32 - 4096) 75, [82], [], [], []⟩).1 = true
    ∧ sony_read_image sony_elf_defs
        (sony_write_image sony_elf_defs example_sony_header
          ⟨List.replicate (2 ^ 32 - 4096) 75, [82], [], [], []⟩).2.data = none :=
  ⟨by intro h; exact absurd (congrArg List.length h) (by rw [List.length_replicate]; decide),
   by decide,
   read_truncated_image sony_elf_defs sony_elf_defs_valid example_sony_header
     example_sony_header_fits (List.replicate (2 ^ 32 - 4096) 75) [82]
     (List.length_replicate _ _) rfl (by decide) (by decide)⟩

/-- With every section empty and no command line the written image is the ELF header
alone. -/
theorem image_empty (D : SonyElfDefs) (H : Header) (hc : staged_cmdline H = []) :
    sony_write_image D H ⟨[], [], [], [], []⟩
      = (true, image_file (final_ehdr D H ⟨[], [], [], [], []⟩).to_bytes 4096 []) := by
  rw [sony_write_image_eq]
  have f1 : (final_kernel_phdr D H ⟨[], [], [], [], []⟩).p_filesz = 0 := rfl
  have hh : image_headers D H ⟨[], [], [], [], []⟩
      = (final_ehdr D H ⟨[], [], [], [], []⟩).to_bytes := by
    simp [image_headers, final_phdrs, written_headers, f1]
  have hb : image_body H ⟨[], [], [], [], []⟩ = [] := by
    simp [image_body, hc]
  rw [hh, hb]

/-- A caller's read of an image on which `read_header` succeeds with segments that lie
within the file: the header of `read_header` and the bytes of every segment. -/
theorem sony_read_image_eq (D : SonyElfDefs) (data : List Nat) (self1 : SonyElfFormatReader)
    (file1 : File) (header : Header) (es : List SegmentReaderEntry)
    (hrd : (SonyElfFormatReader.new Reader.init).read_header D (File.of_bytes data 0)
        Header.empty = (true, self1, file1, header))
    (hes : self1._seg.entries = es) (hidx : self1._seg.next_index = 0)
    (hdata : file1.data = data) (hio : file1.io_ok = true)
    (hin : ∀ e ∈ es, e.offset < 2 ^ 63 ∧ (slice data e.offset e.size).length = e.size) :
    sony_read_image D data
      = some (header, es.map (fun e => (e.type, slice data e.offset e.size))) := by
  unfold sony_read_image
  rw [hrd]
  simp only []
  rw [read_entries_from data es (self1._seg.entries.length + 1) 0 self1 file1 [] hes hidx hdata
    hio (by simpa using hin) (by rw [hes]; omega)]
  simp

/-- Reading the header of an image without program headers. -/
theorem read_header_empty (D : SonyElfDefs) (data : List Nat) (e : Sony_Elf32_Ehdr)
    (he : e.fits) (hid : e.e_ident.take D.SONY_EI_NIDENT = D.SONY_E_IDENT.take D.SONY_EI_NIDENT)
    (hnum : e.e_phnum = 0) (s0 : slice data 0 52 = e.to_bytes) :
    (SonyElfFormatReader.new Reader.init).read_header D (File.of_bytes data 0) Header.empty
      = (true,
         { _reader := Reader.init, _hdr := e, _have_header := true,
           _seg := { SegmentReader.init with entries := [], entry := 0 } },
         File.of_bytes data 52,
         { Header.empty with
           supported_fields := SONY_ELF_SUPPORTED_FIELDS
           entrypoint_address := some e.e_entry }) := by
  unfold SonyElfFormatReader.read_header
  simp only [SonyElfFormatReader.new, Bool.false_eq_true, if_true]
  rw [find_sony_elf_header_eq D Reader.init (File.of_bytes data 0) Sony_Elf32_Ehdr.zero e rfl s0
    he hid]
  simp only [hnum, read_program_headers]
  rw [set_entries_begin SegmentReader.init Reader.init [] rfl rfl]
  simp [Header.set_supported_fields, Header.set_entrypoint_address, SONY_ELF_SUPPORTED_FIELDS,
    Header.empty, File.of_bytes]

set_option maxRecDepth 1000000 in
/-- Counterexample to C2: a `Header` that holds only the kernel address `0x40008000`,
written with all sections zero-length.  Reading the output gives a `Header` without
kernel address and with the entry point `0x40008000`, which the written `Header` does not
have. -/
theorem C2_counterexample :
    kernel_only_header.kernel_address = some 0x40008000
    ∧ kernel_only_header.entrypoint_address = none
    ∧ sony_read_image sony_elf_defs
        (sony_write_image sony_elf_defs kernel_only_header ⟨[], [], [], [], []⟩).2.data
        = some ({ Header.empty with
                  supported_fields := SONY_ELF_SUPPORTED_FIELDS
                  kernel_address := none
                  entrypoint_address := some 0x40008000 }, []) := by
  decide

/-- C2 (amended): for every `Header` with 32-bit addresses and no (or an empty) kernel
command line, writing it with the Sony ELF writer with all sections zero-length succeeds,
and reading the output yields a `Header` whose entry point is the written entry point
when present, otherwise the written kernel address when present, otherwise 0; every other
field (the kernel, ramdisk, ipl, rpm and appsbl addresses and the command line) is
absent, and there is no entry. -/
theorem C2_sony_elf_header_round_trip (D : SonyElfDefs) (hD : D.valid) (H : Header)
    (hH : H.addresses_fit) (hc : H.kernel_cmdline = none ∨ H.kernel_cmdline = some []) :
    (sony_write_image D H ⟨[], [], [], [], []⟩).1 = true
    ∧ sony_read_image D (sony_write_image D H ⟨[], [], [], [], []⟩).2.data
        = some ({ Header.empty with
                  supported_fields := SONY_ELF_SUPPORTED_FIELDS
                  entrypoint_address :=
                    some (H.entrypoint_address.getD (H.kernel_address.getD 0)) }, []) := by
  have hsc : staged_cmdline H = [] := by
    rcases hc with h | h <;> simp [staged_cmdline, h]
  rw [image_empty D H hsc]
  refine ⟨rfl, ?_⟩
  have hE := final_ehdr_fits D hD H hH ⟨[], [], [], [], []⟩
  have hI := final_ehdr_ident D hD H ⟨[], [], [], [], []⟩
  have hnum : (final_ehdr D H ⟨[], [], [], [], []⟩).e_phnum = 0 := by
    simp [final_ehdr, count_segment, hsc]
  have hentry : (final_ehdr D H ⟨[], [], [], [], []⟩).e_entry
      = H.entrypoint_address.getD (H.kernel_address.getD 0) := by
    simp only [final_ehdr, staged_ehdr]
    cases H.entrypoint_address <;> cases H.kernel_address <;> rfl
  have hdata : (image_file (final_ehdr D H ⟨[], [], [], [], []⟩).to_bytes 4096 []).data
      = (final_ehdr D H ⟨[], [], [], [], []⟩).to_bytes := by
    simp [image_file]
  simp only [hdata]
  have s0 : slice (final_ehdr D H ⟨[], [], [], [], []⟩).to_bytes 0 52
      = (final_ehdr D H ⟨[], [], [], [], []⟩).to_bytes := by
    rw [slice_zero, ← ehdr_to_bytes_length (final_ehdr D H ⟨[], [], [], [], []⟩), List.take_length]
  have hrd := read_header_empty D _ _ hE hI hnum s0
  rw [sony_read_image_eq D _ _ _ _ [] hrd rfl rfl rfl rfl (by intro e he; simp at he), hentry]
  rfl

/-- Witness of C2 (amended): the `Header` that holds only a kernel address. -/
theorem C2_sony_elf_header_round_trip_witness :
    (sony_write_image sony_elf_defs kernel_only_header ⟨[], [], [], [], []⟩).1 = true
    ∧ sony_read_image sony_elf_defs
        (sony_write_image sony_elf_defs kernel_only_header ⟨[], [], [], [], []⟩).2.data
        = some ({ Header.empty with
                  supported_fields := SONY_ELF_SUPPORTED_FIELDS
                  entrypoint_address :=
                    some (kernel_only_header.entrypoint_address.getD
                      (kernel_only_header.kernel_address.getD 0)) }, []) :=
  C2_sony_elf_header_round_trip sony_elf_defs sony_elf_defs_valid kernel_only_header
    (by
      refine ⟨?_, ?_, ?_, ?_, ?_, ?_⟩ <;> intro a h <;>
        simp [kernel_only_header, Header.empty] at h
      subst h; decide)
    (Or.inl rfl)

set_option maxRecDepth 1000000 in
/-- An empty segment before a non-empty one, at two inputs.  With an empty kernel and a
one-byte ramdisk the writer succeeds and stores `e_phnum = 1`, but `close` stops at the
kernel program header and writes no program header at all; the reader finds zero bytes
where the program header should be and fails with `InvalidTypeOrFlagsField`.  The same
happens with a kernel, a ramdisk, a command line, no ipl and a one-byte rpm: `e_phnum = 4`,
three program headers written. -/
theorem close_stops_at_empty_segment :
    (sony_write_image sony_elf_defs Header.empty ⟨[], [82], [], [], []⟩).1 = true
    ∧ (Sony_Elf32_Ehdr.of_bytes
        (sony_write_image sony_elf_defs Header.empty ⟨[], [82], [], [], []⟩).2.data).e_phnum = 1
    ∧ slice (sony_write_image sony_elf_defs Header.empty ⟨[], [82], [], [], []⟩).2.data 52 32
        = List.replicate 32 0
    ∧ ((SonyElfFormatReader.new Reader.init).read_header sony_elf_defs
        (File.of_bytes
          (sony_write_image sony_elf_defs Header.empty ⟨[], [82], [], [], []⟩).2.data 0)
        Header.empty).1 = false
    ∧ ((SonyElfFormatReader.new Reader.init).read_header sony_elf_defs
        (File.of_bytes
          (sony_write_image sony_elf_defs Header.empty ⟨[], [82], [], [], []⟩).2.data 0)
        Header.empty).2.1._reader.error = some Error.InvalidTypeOrFlagsField
    ∧ sony_read_image sony_elf_defs
        (sony_write_image sony_elf_defs Header.empty ⟨[], [82], [], [], []⟩).2.data = none
    ∧ (sony_write_image sony_elf_defs example_sony_header ⟨[75], [82], [], [80], []⟩).1 = true
    ∧ (Sony_Elf32_Ehdr.of_bytes
        (sony_write_image sony_elf_defs example_sony_header
          ⟨[75], [82], [], [80], []⟩).2.data).e_phnum = 4
    ∧ slice (sony_write_image sony_elf_defs example_sony_header
          ⟨[75], [82], [], [80], []⟩).2.data 148 32 = List.replicate 32 0
    ∧ sony_read_image sony_elf_defs
        (sony_write_image sony_elf_defs example_sony_header
          ⟨[75], [82], [], [80], []⟩).2.data = none := by
  decide

theorem read_program_headers_fold (D : SonyElfDefs) (hD : D.valid) (data : List Nat) :
    ∀ (ps : List Sony_Elf32_Phdr) (pos : Nat) (reader : Reader) (file : File) (header : Header)
      (entries : List SegmentReaderEntry),
      file.data = data → file.io_ok = true → pos + 32 * ps.length < 2 ^ 63 →
      (∀ i (h : i < ps.length), slice data (pos + 32 * i) 32 = (ps.get ⟨i, h⟩).to_bytes) →
      (∀ p ∈ ps, phdr_readable D data p) →
      ∃ file', file'.data = data ∧ file'.io_ok = true
        ∧ read_program_headers D ps.length pos reader file header entries
            = (true, reader, file', (ps.foldl (apply_phdr D data) (header, entries)).1,
               (ps.foldl (apply_phdr D data) (header, entries)).2) := by
  intro ps
  induction ps with
  | nil =>
    intro pos reader file header entries hdata hio _ _ _
    exact ⟨file, hdata, hio, rfl⟩
  | cons p rest ih =>
    intro pos reader file header entries hdata hio hpos hs hread
    have hd := valid_distinct D hD
    have hs0 : slice file.data pos 32 = p.to_bytes := by
      have := hs 0 (by simp)
      simpa [hdata] using this
    have hsr : ∀ i (h : i < rest.length),
        slice data (pos + 32 + 32 * i) 32 = (rest.get ⟨i, h⟩).to_bytes := by
      intro i h
      have := hs (i + 1) (by simp; omega)
      simp only [List.get_eq_getElem, List.getElem_cons_succ] at this ⊢
      rw [← this]
      congr 1
      omega
    have hrr : ∀ q ∈ rest, phdr_readable D data q :=
      fun q hq => hread q (List.mem_cons_of_mem _ hq)
    have hlen : pos + 32 + 32 * rest.length < 2 ^ 63 := by
      simp only [List.length_cons] at hpos
      omega
    obtain ⟨hfit, hkind, hcmd⟩ := hread p (List.mem_cons_self _ _)
    simp only [List.mem_cons, Prod.mk.injEq, List.mem_singleton, List.not_mem_nil,
      or_false] at hkind
    simp only [List.length_cons, List.foldl_cons]
    rcases hkind with ⟨ht, hf⟩ | ⟨ht, hf⟩ | ⟨ht, hf⟩ | ⟨ht, hf⟩ | ⟨ht, hf⟩ | ⟨ht, hf⟩
    · obtain ⟨hsz, hcl⟩ := hcmd ⟨ht, hf⟩
      rw [step_cmdline D rest.length pos reader file header entries p hio (by omega) hs0 hfit ht hf
        hsz (by rw [hdata]; exact hcl)]
      have ha : apply_phdr D data (header, entries) p
          = ((header.set_kernel_cmdline
              (some (c_str (slice file.data p.p_offset p.p_memsz ++ [0])))).2, entries) := by
        simp only [apply_phdr, ht, hf, and_self, if_true, hdata]
      rw [ha]
      exact ih (pos + 32) reader _ _ _ hdata hio hlen hsr hrr
    · rw [step_kernel D hD rest.length pos reader file header entries p hio (by omega) hs0 hfit ht hf]
      have ha : apply_phdr D data (header, entries) p
          = ((header.set_kernel_address (some p.p_vaddr)).2,
             entries ++ [⟨ENTRY_TYPE_KERNEL, p.p_offset, p.p_memsz, false⟩]) := by
        simp only [apply_phdr, ht, hf, hd, and_self, if_true, if_false]
      rw [ha]
      exact ih (pos + 32) reader _ _ _ hdata hio hlen hsr hrr
    · rw [step_ramdisk D hD rest.length pos reader file header entries p hio (by omega) hs0 hfit ht hf]
      have ha : apply_phdr D data (header, entries) p
          = ((header.set_ramdisk_address (some p.p_vaddr)).2,
             entries ++ [⟨ENTRY_TYPE_RAMDISK, p.p_offset, p.p_memsz, false⟩]) := by
        simp only [apply_phdr, ht, hf, hd, and_self, if_true, if_false]
      rw [ha]
      exact ih (pos + 32) reader _ _ _ hdata hio hlen hsr hrr
    · rw [step_ipl D hD rest.length pos reader file header entries p hio (by omega) hs0 hfit ht hf]
      have ha : apply_phdr D data (header, entries) p
          = ((header.set_sony_ipl_address (some p.p_vaddr)).2,
             entries ++ [⟨ENTRY_TYPE_SONY_IPL, p.p_offset, p.p_memsz, false⟩]) := by
        simp only [apply_phdr, ht, hf, hd, and_self, if_true, if_false]
      rw [ha]
      exact ih (pos + 32) reader _ _ _ hdata hio hlen hsr hrr
    · rw [step_rpm D hD rest.length pos reader file header entries p hio (by omega) hs0 hfit ht hf]
      have ha : apply_phdr D data (header, entries) p
          = ((header.set_sony_rpm_address (some p.p_vaddr)).2,
             entries ++ [⟨ENTRY_TYPE_SONY_RPM, p.p_offset, p.p_memsz, false⟩]) := by
        simp only [apply_phdr, ht, hf, hd, and_self, if_true, if_false]
      rw [ha]
      exact ih (pos + 32) reader _ _ _ hdata hio hlen hsr hrr
    · rw [step_appsbl D hD rest.length pos reader file header entries p hio (by omega) hs0 hfit ht hf]
      have ha : apply_phdr D data (header, entries) p
          = ((header.set_sony_appsbl_address (some p.p_vaddr)).2,
             entries ++ [⟨ENTRY_TYPE_SONY_APPSBL, p.p_offset, p.p_memsz, false⟩]) := by
        simp only [apply_phdr, ht, hf, hd, and_self, if_true, if_false]
      rw [ha]
      exact ih (pos + 32) reader _ _ _ hdata hio hlen hsr hrr

/-- Reading an image whose ELF header announces the program headers `ps`, all of a known
kind: the `Header` and the segment list are those that the loop builds, and every segment
that lies within the file is handed out with the bytes at its offset. -/
theorem sony_read_image_fold (D : SonyElfDefs) (hD : D.valid) (data : List Nat)
    (e : Sony_Elf32_Ehdr) (ps : List Sony_Elf32_Phdr) (he : e.fits)
    (hid : e.e_ident.take D.SONY_EI_NIDENT = D.SONY_E_IDENT.take D.SONY_EI_NIDENT)
    (hnum : e.e_phnum = ps.length) (s0 : slice data 0 52 = e.to_bytes)
    (hs : ∀ i (h : i < ps.length), slice data (52 + 32 * i) 32 = (ps.get ⟨i, h⟩).to_bytes)
    (hread : ∀ p ∈ ps, phdr_readable D data p)
    (hmono : offsets_nondecreasing (ps.foldl (apply_phdr D data) (entry_header e, [])).2 = true)
    (hin : ∀ en ∈ (ps.foldl (apply_phdr D data) (entry_header e, [])).2,
      en.offset < 2 ^ 63 ∧ (slice data en.offset en.size).length = en.size) :
    sony_read_image D data
      = some ((ps.foldl (apply_phdr D data) (entry_header e, [])).1,
          (ps.foldl (apply_phdr D data) (entry_header e, [])).2.map
            (fun en => (en.type, slice data en.offset en.size))) := by
  have hlt : e.e_phnum < 2 ^ 16 := he.2.2.2.2.2.2.2.2.2.2.1
  obtain ⟨file1, hd1, hio1, hloop⟩ := read_program_headers_fold D hD data ps 52 Reader.init
    { File.of_bytes data 0 with pos := 52 } (entry_header e) [] rfl rfl (by omega) hs hread
  have hrd : (SonyElfFormatReader.new Reader.init).read_header D (File.of_bytes data 0)
      Header.empty
      = (true,
         { _reader := Reader.init, _hdr := e, _have_header := true,
           _seg := { SegmentReader.init with
             entries := (ps.foldl (apply_phdr D data) (entry_header e, [])).2
             entry := (ps.foldl (apply_phdr D data) (entry_header e, [])).2.length } },
         file1, (ps.foldl (apply_phdr D data) (entry_header e, [])).1) := by
    unfold SonyElfFormatReader.read_header
    simp only [SonyElfFormatReader.new, Bool.false_eq_true, if_true]
    rw [find_sony_elf_header_eq D Reader.init (File.of_bytes data 0) Sony_Elf32_Ehdr.zero e rfl s0
      he hid]
    simp only [hnum, sizeof_Sony_Elf32_Ehdr, zero_add]
    have hm : 52 % UINT64_MOD = 52 := by decide
    rw [hm]
    have hl := hloop
    simp only [entry_header] at hl
    rw [hl]
    simp only []
    rw [set_entries_begin SegmentReader.init Reader.init _ rfl (by simpa [entry_header] using hmono)]
    simp [entry_header]
  exact sony_read_image_eq D data _ file1 _ _ hrd rfl rfl hd1 hio1 hin

/-! ## Program header tables and segment layouts -/

theorem apply_phdr_entries (D : SonyElfDefs) (data : List Nat)
    (st : Header × List SegmentReaderEntry) (p : Sony_Elf32_Phdr) :
    (apply_phdr D data st p).2 = st.2 ++ (phdr_entry D p).toList := by
  unfold apply_phdr phdr_entry
  split_ifs <;> simp

theorem fold_entries (D : SonyElfDefs) (data : List Nat) :
    ∀ (ps : List Sony_Elf32_Phdr) (st : Header × List SegmentReaderEntry),
      (ps.foldl (apply_phdr D data) st).2 = st.2 ++ ps.filterMap (phdr_entry D) := by
  intro ps
  induction ps with
  | nil => intro st; simp
  | cons p rest ih =>
    intro st
    rw [List.foldl_cons, ih, apply_phdr_entries, List.append_assoc]
    congr 1
    cases h : phdr_entry D p <;> simp [List.filterMap_cons, h]

theorem phdr_entry_some (D : SonyElfDefs) (p : Sony_Elf32_Phdr) (en : SegmentReaderEntry)
    (h : phdr_entry D p = some en) : en.offset = p.p_offset ∧ en.size = p.p_memsz := by
  unfold phdr_entry at h
  split_ifs at h <;> simp at h <;> subst h <;> exact ⟨rfl, rfl⟩

/-- The `i`-th program header of a table that follows `pre` in the file. -/
theorem slice_phdr_table :
    ∀ (ps : List Sony_Elf32_Phdr) (pre rest : List Nat) (i : Nat) (h : i < ps.length),
      slice (pre ++ ((ps.map Sony_Elf32_Phdr.to_bytes).flatten ++ rest)) (pre.length + 32 * i) 32
        = (ps.get ⟨i, h⟩).to_bytes := by
  intro ps
  induction ps with
  | nil => intro pre rest i h; simp at h
  | cons p tl ih =>
    intro pre rest i h
    cases i with
    | zero =>
      simp only [List.map_cons, List.flatten_cons, List.append_assoc, Nat.mul_zero, Nat.add_zero,
        List.get_eq_getElem, List.getElem_cons_zero]
      rw [slice_append_right pre _ pre.length _ _ rfl (Nat.le_refl _), Nat.sub_self]
      rw [slice_zero, ← phdr_to_bytes_length p, List.take_left]
    | succ j =>
      have hj : j < tl.length := by simpa using h
      have := ih (pre ++ p.to_bytes) rest j hj
      simp only [List.map_cons, List.flatten_cons, List.append_assoc, List.get_eq_getElem,
        List.getElem_cons_succ, List.length_append, phdr_to_bytes_length] at this ⊢
      rw [← this]
      congr 1
      omega

theorem laid_out_bound :
    ∀ (L : List (Sony_Elf32_Phdr × List Nat)) (base : Nat), laid_out base L →
      ∀ q ∈ L, base ≤ q.1.p_offset
        ∧ q.1.p_offset + q.1.p_memsz ≤ base + (L.map Prod.snd).flatten.length
        ∧ q.1.p_memsz = q.2.length := by
  intro L
  induction L with
  | nil => intro base _ q hq; simp at hq
  | cons a tl ih =>
    intro base hl q hq
    obtain ⟨p, s⟩ := a
    obtain ⟨h1, h2, h3⟩ := hl
    simp only [List.map_cons, List.flatten_cons, List.length_append]
    rcases List.mem_cons.1 hq with rfl | hq
    · simp only [h1, h2]
      exact ⟨Nat.le_refl _, by omega, trivial⟩
    · obtain ⟨b1, b2, b3⟩ := ih (base + s.length) h3 q hq
      exact ⟨by omega, by omega, b3⟩

theorem laid_out_takeWhile (f : Sony_Elf32_Phdr × List Nat → Bool) :
    ∀ (L : List (Sony_Elf32_Phdr × List Nat)) (base : Nat), laid_out base L →
      laid_out base (L.takeWhile f) := by
  intro L
  induction L with
  | nil => intro base h; exact h
  | cons a tl ih =>
    intro base hl
    obtain ⟨p, s⟩ := a
    obtain ⟨h1, h2, h3⟩ := hl
    rw [List.takeWhile_cons]
    split
    · exact ⟨h1, h2, ih _ h3⟩
    · trivial

theorem offsets_nondecreasing_cons (a : SegmentReaderEntry) (l : List SegmentReaderEntry)
    (h : ∀ b ∈ l, a.offset ≤ b.offset) (hl : offsets_nondecreasing l = true) :
    offsets_nondecreasing (a :: l) = true := by
  cases l with
  | nil => rfl
  | cons b tl =>
    simp only [offsets_nondecreasing, Bool.and_eq_true, decide_eq_true_eq]
    exact ⟨h b (List.mem_cons_self _ _), hl⟩

/-- The segments that the reader collects from laid out program headers. -/
theorem laid_out_entries (D : SonyElfDefs) :
    ∀ (L : List (Sony_Elf32_Phdr × List Nat)) (base : Nat), laid_out base L →
      offsets_nondecreasing ((L.map Prod.fst).filterMap (phdr_entry D)) = true
      ∧ ∀ en ∈ (L.map Prod.fst).filterMap (phdr_entry D),
          base ≤ en.offset ∧ en.offset + en.size ≤ base + (L.map Prod.snd).flatten.length := by
  intro L
  induction L with
  | nil => intro base _; exact ⟨rfl, by intro en h; simp at h⟩
  | cons a tl ih =>
    intro base hl
    obtain ⟨p, s⟩ := a
    obtain ⟨h1, h2, h3⟩ := hl
    obtain ⟨i1, i2⟩ := ih (base + s.length) h3
    simp only [List.map_cons, List.flatten_cons, List.length_append]
    cases hp : phdr_entry D p with
    | none =>
      simp only [List.filterMap_cons, hp]
      refine ⟨i1, ?_⟩
      intro en hen
      obtain ⟨b1, b2⟩ := i2 en hen
      exact ⟨by omega, by omega⟩
    | some e0 =>
      obtain ⟨o1, o2⟩ := phdr_entry_some D p e0 hp
      simp only [List.filterMap_cons, hp]
      refine ⟨offsets_nondecreasing_cons _ _ ?_ i1, ?_⟩
      · intro b hb
        have := (i2 b hb).1
        omega
      · intro en hen
        rcases List.mem_cons.1 hen with rfl | hen
        · exact ⟨by omega, by omega⟩
        · obtain ⟨b1, b2⟩ := i2 en hen
          exact ⟨by omega, by omega⟩

/-- The bytes at the offsets of the collected segments are the payloads. -/
theorem laid_out_slices (D : SonyElfDefs) :
    ∀ (L : List (Sony_Elf32_Phdr × List Nat)) (pre tail : List Nat),
      laid_out pre.length L →
      ((L.map Prod.fst).filterMap (phdr_entry D)).map
          (fun en => (en.type, slice (pre ++ ((L.map Prod.snd).flatten ++ tail)) en.offset en.size))
        = L.filterMap (fun q => (phdr_entry D q.1).map (fun en => (en.type, q.2))) := by
  intro L
  induction L with
  | nil => intro pre tail _; rfl
  | cons a tl ih =>
    intro pre tail hl
    obtain ⟨p, s⟩ := a
    obtain ⟨h1, h2, h3⟩ := hl
    have h3' : laid_out (pre ++ s).length tl := by rw [List.length_append]; exact h3
    have := ih (pre ++ s) tail h3'
    simp only [List.append_assoc] at this
    simp only [List.map_cons, List.flatten_cons, List.append_assoc]
    cases hp : phdr_entry D p with
    | none =>
      simp only [List.filterMap_cons, hp, Option.map_none']
      exact this
    | some e0 =>
      obtain ⟨o1, o2⟩ := phdr_entry_some D p e0 hp
      simp only [List.filterMap_cons, hp, Option.map_some', List.map_cons]
      rw [this]
      congr 2
      rw [o1, o2, h1, h2, slice_append_right pre _ pre.length _ _ rfl (Nat.le_refl _), Nat.sub_self,
        slice_zero, List.take_left]

/-! ## Written images in general -/

theorem written_headers_takeWhile :
    ∀ (l : List (Sony_Elf32_Phdr × List Nat)),
      written_headers (l.map (fun q => (q.1.to_bytes, decide (q.2 ≠ []))))
        = ((l.takeWhile (fun q => decide (q.2 ≠ []))).map (fun q => q.1.to_bytes)).flatten := by
  intro l
  induction l with
  | nil => rfl
  | cons a tl ih =>
    simp only [List.map_cons, written_headers, List.takeWhile_cons]
    by_cases h : a.2 = []
    · have hd : decide (a.2 ≠ []) = false := by simp [h]
      simp only [hd, Bool.false_eq_true, if_false, List.map_nil, List.flatten_nil]
    · have hd : decide (a.2 ≠ []) = true := by simpa using h
      simp only [hd, if_true, List.map_cons, List.flatten_cons, ih]

theorem written_headers_cons_true (b : List Nat) (rest : List (List Nat × Bool)) :
    written_headers ((b, true) :: rest) = b ++ written_headers rest := by
  simp only [written_headers, if_true]

theorem decide_size_pos (s : List Nat) (h : s.length < UINT32_MOD) :
    decide (s.length % UINT32_MOD > 0) = decide (s ≠ []) := by
  rw [mod_small _ h]
  cases s <;> simp

theorem image_body_length (H : Header) (P : SonyPayload) :
    (image_body H P).length
      = P.kernel.length + P.ramdisk.length + (staged_cmdline H).length + P.ipl.length
        + P.rpm.length + P.appsbl.length := by
  simp only [image_body, List.length_append]

theorem final_phdrs_eq (D : SonyElfDefs) (H : Header) (P : SonyPayload)
    (hsize : 4096 + (image_body H P).length < UINT32_MOD) :
    final_phdrs D H P = (written_segments D H P).map (fun q => (q.1, decide (q.2 ≠ []))) := by
  rw [image_body_length] at hsize
  have e1 : (final_kernel_phdr D H P).p_filesz = P.kernel.length % UINT32_MOD := rfl
  have e2 : (final_ramdisk_phdr D H P).p_filesz = P.ramdisk.length % UINT32_MOD := rfl
  have e3 : (final_cmdline_phdr D H P).p_filesz = (staged_cmdline H).length % UINT32_MOD := rfl
  have e4 : (final_ipl_phdr D H P).p_filesz = P.ipl.length % UINT32_MOD := rfl
  have e5 : (final_rpm_phdr D H P).p_filesz = P.rpm.length % UINT32_MOD := rfl
  have e6 : (final_appsbl_phdr D H P).p_filesz = P.appsbl.length % UINT32_MOD := rfl
  simp only [final_phdrs, written_segments, List.map_cons, List.map_nil, e1, e2, e3, e4, e5, e6]
  rw [decide_size_pos _ (by omega), decide_size_pos _ (by omega), decide_size_pos _ (by omega),
    decide_size_pos _ (by omega), decide_size_pos _ (by omega), decide_size_pos _ (by omega)]

theorem image_headers_eq (D : SonyElfDefs) (H : Header) (P : SonyPayload)
    (hsize : 4096 + (image_body H P).length < UINT32_MOD) :
    image_headers D H P
      = (final_ehdr D H P).to_bytes
        ++ ((((written_segments D H P).takeWhile (fun q => decide (q.2 ≠ []))).map
              Prod.fst).map Sony_Elf32_Phdr.to_bytes).flatten := by
  unfold image_headers
  rw [final_phdrs_eq D H P hsize, written_headers_cons_true]
  simp only [List.map_map]
  congr 1
  exact written_headers_takeWhile (written_segments D H P)

theorem written_segments_laid_out (D : SonyElfDefs) (H : Header) (P : SonyPayload)
    (hsize : 4096 + (image_body H P).length < UINT32_MOD) :
    laid_out 4096 (written_segments D H P) := by
  rw [image_body_length] at hsize
  have h32 : UINT32_MOD = 4294967296 := by decide
  have o1 : (final_kernel_phdr D H P).p_offset = 4096 % UINT32_MOD := rfl
  have o2 : (final_ramdisk_phdr D H P).p_offset = (4096 + P.kernel.length) % UINT32_MOD := rfl
  have o3 : (final_cmdline_phdr D H P).p_offset
      = (4096 + (P.kernel.length + P.ramdisk.length)) % UINT32_MOD := rfl
  have o4 : (final_ipl_phdr D H P).p_offset
      = (4096 + (P.kernel.length + (P.ramdisk.length + (staged_cmdline H).length)))
          % UINT32_MOD := rfl
  have o5 : (final_rpm_phdr D H P).p_offset
      = (4096 + (P.kernel.length + (P.ramdisk.length + ((staged_cmdline H).length
          + P.ipl.length)))) % UINT32_MOD := rfl
  have o6 : (final_appsbl_phdr D H P).p_offset
      = (4096 + (P.kernel.length + (P.ramdisk.length + ((staged_cmdline H).length
          + (P.ipl.length + P.rpm.length))))) % UINT32_MOD := rfl
  have m1 : (final_kernel_phdr D H P).p_memsz = P.kernel.length % UINT32_MOD := rfl
  have m2 : (final_ramdisk_phdr D H P).p_memsz = P.ramdisk.length % UINT32_MOD := rfl
  have m3 : (final_cmdline_phdr D H P).p_memsz = (staged_cmdline H).length % UINT32_MOD := rfl
  have m4 : (final_ipl_phdr D H P).p_memsz = P.ipl.length % UINT32_MOD := rfl
  have m5 : (final_rpm_phdr D H P).p_memsz = P.rpm.length % UINT32_MOD := rfl
  have m6 : (final_appsbl_phdr D H P).p_memsz = P.appsbl.length % UINT32_MOD := rfl
  simp only [written_segments, laid_out, o1, o2, o3, o4, o5, o6, m1, m2, m3, m4, m5, m6]
  refine ⟨?_, ?_, ?_, ?_, ?_, ?_, ?_, ?_, ?_, ?_, ?_, ?_, trivial⟩ <;>
    first
    | (rw [mod_small _ (by omega)]; done)
    | (rw [mod_small _ (by omega)]; omega)

/-- The kinds of the six program headers of the writer. -/
theorem written_segments_kinds (D : SonyElfDefs) (H : Header) (P : SonyPayload) :
    ((final_kernel_phdr D H P).p_type = D.SONY_E_TYPE_KERNEL
      ∧ (final_kernel_phdr D H P).p_flags = D.SONY_E_FLAGS_KERNEL)
    ∧ ((final_ramdisk_phdr D H P).p_type = D.SONY_E_TYPE_RAMDISK
      ∧ (final_ramdisk_phdr D H P).p_flags = D.SONY_E_FLAGS_RAMDISK)
    ∧ ((final_cmdline_phdr D H P).p_type = D.SONY_E_TYPE_CMDLINE
      ∧ (final_cmdline_phdr D H P).p_flags = D.SONY_E_FLAGS_CMDLINE)
    ∧ ((final_ipl_phdr D H P).p_type = D.SONY_E_TYPE_IPL
      ∧ (final_ipl_phdr D H P).p_flags = D.SONY_E_FLAGS_IPL)
    ∧ ((final_rpm_phdr D H P).p_type = D.SONY_E_TYPE_RPM
      ∧ (final_rpm_phdr D H P).p_flags = D.SONY_E_FLAGS_RPM)
    ∧ ((final_appsbl_phdr D H P).p_type = D.SONY_E_TYPE_APPSBL
      ∧ (final_appsbl_phdr D H P).p_flags = D.SONY_E_FLAGS_APPSBL) := by
  refine ⟨?_, ?_, ?_, ?_, ?_, ?_⟩
  · cases h : H.kernel_address <;> simp [final_kernel_phdr, written_phdr, staged_phdr, h]
  · cases h : H.ramdisk_address <;> simp [final_ramdisk_phdr, written_phdr, staged_phdr, h]
  · simp [final_cmdline_phdr, written_phdr, staged_phdr]
  · cases h : H.sony_ipl_address <;> simp [final_ipl_phdr, written_phdr, staged_phdr, h]
  · cases h : H.sony_rpm_address <;> simp [final_rpm_phdr, written_phdr, staged_phdr, h]
  · cases h : H.sony_appsbl_address <;> simp [final_appsbl_phdr, written_phdr, staged_phdr, h]

theorem written_segments_fit (D : SonyElfDefs) (hD : D.valid) (H : Header)
    (hH : H.addresses_fit) (P : SonyPayload) :
    ∀ q ∈ written_segments D H P, q.1.fits := by
  obtain ⟨wk, wkf, wr, wrf, wi, wif, wc, wcf, wm, wmf, wa, waf, _⟩ := valid_words D hD
  obtain ⟨hka, hra, hia, hma, haa, _⟩ := hH
  intro q hq
  simp only [written_segments, List.mem_cons, List.mem_singleton, List.not_mem_nil,
    or_false] at hq
  rcases hq with rfl | rfl | rfl | rfl | rfl | rfl
  · exact written_phdr_fits _ _ _ (staged_phdr_fits _ _ _ wk wkf hka)
  · exact written_phdr_fits _ _ _ (staged_phdr_fits _ _ _ wr wrf hra)
  · exact written_phdr_fits _ _ _ (staged_phdr_fits _ _ _ wc wcf (fun x h => by cases h))
  · exact written_phdr_fits _ _ _ (staged_phdr_fits _ _ _ wi wif hia)
  · exact written_phdr_fits _ _ _ (staged_phdr_fits _ _ _ wm wmf hma)
  · exact written_phdr_fits _ _ _ (staged_phdr_fits _ _ _ wa waf haa)

theorem no_gap_cases (k r c i m a : List Nat) (h : no_gap [k, r, c, i, m, a]) :
    (k = [] ∧ r = [] ∧ c = [] ∧ i = [] ∧ m = [] ∧ a = [])
    ∨ (k ≠ [] ∧ r = [] ∧ c = [] ∧ i = [] ∧ m = [] ∧ a = [])
    ∨ (k ≠ [] ∧ r ≠ [] ∧ c = [] ∧ i = [] ∧ m = [] ∧ a = [])
    ∨ (k ≠ [] ∧ r ≠ [] ∧ c ≠ [] ∧ i = [] ∧ m = [] ∧ a = [])
    ∨ (k ≠ [] ∧ r ≠ [] ∧ c ≠ [] ∧ i ≠ [] ∧ m = [] ∧ a = [])
    ∨ (k ≠ [] ∧ r ≠ [] ∧ c ≠ [] ∧ i ≠ [] ∧ m ≠ [] ∧ a = [])
    ∨ (k ≠ [] ∧ r ≠ [] ∧ c ≠ [] ∧ i ≠ [] ∧ m ≠ [] ∧ a ≠ []) := by
  simp only [no_gap, List.mem_cons, List.mem_singleton, List.not_mem_nil, or_false,
    forall_eq_or_imp, forall_eq, false_implies, implies_true, and_true] at h
  obtain ⟨hk, hr, hc, hi, hm⟩ := h
  by_cases k0 : k = []
  · obtain ⟨a1, a2, a3, a4, a5⟩ := hk k0
    exact Or.inl ⟨k0, a1, a2, a3, a4, a5⟩
  by_cases r0 : r = []
  · obtain ⟨a2, a3, a4, a5⟩ := hr r0
    exact Or.inr (Or.inl ⟨k0, r0, a2, a3, a4, a5⟩)
  by_cases c0 : c = []
  · obtain ⟨a3, a4, a5⟩ := hc c0
    exact Or.inr (Or.inr (Or.inl ⟨k0, r0, c0, a3, a4, a5⟩))
  by_cases i0 : i = []
  · obtain ⟨a4, a5⟩ := hi i0
    exact Or.inr (Or.inr (Or.inr (Or.inl ⟨k0, r0, c0, i0, a4, a5⟩)))
  by_cases m0 : m = []
  · have a5 := hm m0
    exact Or.inr (Or.inr (Or.inr (Or.inr (Or.inl ⟨k0, r0, c0, i0, m0, a5⟩))))
  by_cases a0 : a = []
  · exact Or.inr (Or.inr (Or.inr (Or.inr (Or.inr (Or.inl ⟨k0, r0, c0, i0, m0, a0⟩)))))
  · exact Or.inr (Or.inr (Or.inr (Or.inr (Or.inr (Or.inr ⟨k0, r0, c0, i0, m0, a0⟩)))))

/-- When no empty segment precedes a non-empty one, `e_phnum` is the number of program
headers that `close` writes. -/
theorem final_ehdr_phnum (D : SonyElfDefs) (H : Header) (P : SonyPayload)
    (hgap : no_gap [P.kernel, P.ramdisk, staged_cmdline H, P.ipl, P.rpm, P.appsbl]) :
    (final_ehdr D H P).e_phnum
      = ((written_segments D H P).takeWhile (fun q => decide (q.2 ≠ []))).length := by
  rcases no_gap_cases _ _ _ _ _ _ hgap with
    ⟨hk, hr, hc, hi, hm, ha⟩ | ⟨hk, hr, hc, hi, hm, ha⟩ | ⟨hk, hr, hc, hi, hm, ha⟩
    | ⟨hk, hr, hc, hi, hm, ha⟩ | ⟨hk, hr, hc, hi, hm, ha⟩ | ⟨hk, hr, hc, hi, hm, ha⟩
    | ⟨hk, hr, hc, hi, hm, ha⟩ <;>
  simp [final_ehdr, count_segment, written_segments, List.takeWhile, hk, hr, hc, hi, hm, ha,
    List.length_pos]

theorem phdr_entry_written (D : SonyElfDefs) (hD : D.valid) (H : Header) (P : SonyPayload) :
    phdr_entry D (final_kernel_phdr D H P)
      = some ⟨ENTRY_TYPE_KERNEL, (final_kernel_phdr D H P).p_offset,
          (final_kernel_phdr D H P).p_memsz, false⟩
    ∧ phdr_entry D (final_ramdisk_phdr D H P)
      = some ⟨ENTRY_TYPE_RAMDISK, (final_ramdisk_phdr D H P).p_offset,
          (final_ramdisk_phdr D H P).p_memsz, false⟩
    ∧ phdr_entry D (final_cmdline_phdr D H P) = none
    ∧ phdr_entry D (final_ipl_phdr D H P)
      = some ⟨ENTRY_TYPE_SONY_IPL, (final_ipl_phdr D H P).p_offset,
          (final_ipl_phdr D H P).p_memsz, false⟩
    ∧ phdr_entry D (final_rpm_phdr D H P)
      = some ⟨ENTRY_TYPE_SONY_RPM, (final_rpm_phdr D H P).p_offset,
          (final_rpm_phdr D H P).p_memsz, false⟩
    ∧ phdr_entry D (final_appsbl_phdr D H P)
      = some ⟨ENTRY_TYPE_SONY_APPSBL, (final_appsbl_phdr D H P).p_offset,
          (final_appsbl_phdr D H P).p_memsz, false⟩ := by
  have hd := valid_distinct D hD
  obtain ⟨⟨k1, k2⟩, ⟨r1, r2⟩, ⟨c1, c2⟩, ⟨i1, i2⟩, ⟨m1, m2⟩, ⟨a1, a2⟩⟩ :=
    written_segments_kinds D H P
  refine ⟨?_, ?_, ?_, ?_, ?_, ?_⟩
  · simp only [phdr_entry, k1, k2, hd, and_self, if_true, if_false]
  · simp only [phdr_entry, r1, r2, hd, and_self, if_true, if_false]
  · simp only [phdr_entry, c1, c2, and_self, if_true]
  · simp only [phdr_entry, i1, i2, hd, and_self, if_true, if_false]
  · simp only [phdr_entry, m1, m2, hd, and_self, if_true, if_false]
  · simp only [phdr_entry, a1, a2, hd, and_self, if_true, if_false]

/-- When no empty segment precedes a non-empty one, the program headers that `close`
writes stand for exactly the non-empty caller-visible entries. -/
theorem written_entries (D : SonyElfDefs) (hD : D.valid) (H : Header) (P : SonyPayload)
    (hgap : no_gap [P.kernel, P.ramdisk, staged_cmdline H, P.ipl, P.rpm, P.appsbl]) :
    ((written_segments D H P).takeWhile (fun q => decide (q.2 ≠ []))).filterMap
        (fun q => (phdr_entry D q.1).map (fun en => (en.type, q.2)))
      = P.nonempty_entries := by
  obtain ⟨pk, pr, pc, pi, pm, pa⟩ := phdr_entry_written D hD H P
  rcases no_gap_cases _ _ _ _ _ _ hgap with
    ⟨hk, hr, hc, hi, hm, ha⟩ | ⟨hk, hr, hc, hi, hm, ha⟩ | ⟨hk, hr, hc, hi, hm, ha⟩
    | ⟨hk, hr, hc, hi, hm, ha⟩ | ⟨hk, hr, hc, hi, hm, ha⟩ | ⟨hk, hr, hc, hi, hm, ha⟩
    | ⟨hk, hr, hc, hi, hm, ha⟩ <;>
  simp [written_segments, List.takeWhile, SonyPayload.nonempty_entries, List.filter,
    List.filterMap, hk, hr, hc, hi, hm, ha, pk, pr, pc, pi, pm, pa]

/-- Every program header of the writer is of a known kind, and only the command line
header has the command line kind. -/
theorem written_segments_known (D : SonyElfDefs) (hD : D.valid) (H : Header)
    (P : SonyPayload) :
    ∀ q ∈ written_segments D H P,
      ((q.1.p_type, q.1.p_flags) ∈
        [(D.SONY_E_TYPE_CMDLINE, D.SONY_E_FLAGS_CMDLINE),
         (D.SONY_E_TYPE_KERNEL, D.SONY_E_FLAGS_KERNEL),
         (D.SONY_E_TYPE_RAMDISK, D.SONY_E_FLAGS_RAMDISK),
         (D.SONY_E_TYPE_IPL, D.SONY_E_FLAGS_IPL),
         (D.SONY_E_TYPE_RPM, D.SONY_E_FLAGS_RPM),
         (D.SONY_E_TYPE_APPSBL, D.SONY_E_FLAGS_APPSBL)])
      ∧ (q.1.p_type = D.SONY_E_TYPE_CMDLINE ∧ q.1.p_flags = D.SONY_E_FLAGS_CMDLINE →
          q.2 = staged_cmdline H) := by
  have hd := valid_distinct D hD
  obtain ⟨⟨k1, k2⟩, ⟨r1, r2⟩, ⟨c1, c2⟩, ⟨i1, i2⟩, ⟨m1, m2⟩, ⟨a1, a2⟩⟩ :=
    written_segments_kinds D H P
  intro q hq
  simp only [written_segments, List.mem_cons, List.mem_singleton, List.not_mem_nil,
    or_false] at hq
  rcases hq with rfl | rfl | rfl | rfl | rfl | rfl
  · simp only [k1, k2, List.mem_cons, Prod.mk.injEq, and_self, true_or, or_true, true_and, hd,
      false_implies]
  · simp only [r1, r2, List.mem_cons, Prod.mk.injEq, and_self, true_or, or_true, true_and, hd,
      false_implies]
  · simp only [c1, c2, List.mem_cons, Prod.mk.injEq, and_self, true_or, or_true, true_and,
      implies_true]
  · simp only [i1, i2, List.mem_cons, Prod.mk.injEq, and_self, true_or, or_true, true_and, hd,
      false_implies]
  · simp only [m1, m2, List.mem_cons, Prod.mk.injEq, and_self, true_or, or_true, true_and, hd,
      false_implies]
  · simp only [a1, a2, List.mem_cons, Prod.mk.injEq, and_self, true_or, or_true, true_and, hd,
      false_implies]

theorem phdr_table_length (ps : List Sony_Elf32_Phdr) :
    (ps.map Sony_Elf32_Phdr.to_bytes).flatten.length = 32 * ps.length := by
  induction ps with
  | nil => rfl
  | cons p tl ih =>
    simp only [List.map_cons, List.flatten_cons, List.length_append, phdr_to_bytes_length, ih,
      List.length_cons]
    omega

/-- Reading an image that consists of an ELF header, the program headers of the segments
`L`, a gap `Z`, the payloads of `L` laid out one after the other, and any further bytes:
the reader hands out the payload of every segment that is not a command line. -/
theorem read_laid_out (D : SonyElfDefs) (hD : D.valid) (e : Sony_Elf32_Ehdr)
    (L : List (Sony_Elf32_Phdr × List Nat)) (Z tail : List Nat) (he : e.fits)
    (hid : e.e_ident.take D.SONY_EI_NIDENT = D.SONY_E_IDENT.take D.SONY_EI_NIDENT)
    (hnum : e.e_phnum = L.length)
    (hlay : laid_out (52 + 32 * L.length + Z.length) L)
    (hknown : ∀ q ∈ L, q.1.fits
      ∧ ((q.1.p_type, q.1.p_flags) ∈
          [(D.SONY_E_TYPE_CMDLINE, D.SONY_E_FLAGS_CMDLINE),
           (D.SONY_E_TYPE_KERNEL, D.SONY_E_FLAGS_KERNEL),
           (D.SONY_E_TYPE_RAMDISK, D.SONY_E_FLAGS_RAMDISK),
           (D.SONY_E_TYPE_IPL, D.SONY_E_FLAGS_IPL),
           (D.SONY_E_TYPE_RPM, D.SONY_E_FLAGS_RPM),
           (D.SONY_E_TYPE_APPSBL, D.SONY_E_FLAGS_APPSBL)])
      ∧ (q.1.p_type = D.SONY_E_TYPE_CMDLINE ∧ q.1.p_flags = D.SONY_E_FLAGS_CMDLINE →
          q.2.length < 512))
    (hsmall : 52 + 32 * L.length + Z.length + (L.map Prod.snd).flatten.length < 2 ^ 63) :
    ∃ H', sony_read_image D
        (e.to_bytes ++ (((L.map Prod.fst).map Sony_Elf32_Phdr.to_bytes).flatten
          ++ (Z ++ ((L.map Prod.snd).flatten ++ tail))))
      = some (H', L.filterMap (fun q => (phdr_entry D q.1).map (fun en => (en.type, q.2)))) := by
  have hpre : (e.to_bytes ++ (((L.map Prod.fst).map Sony_Elf32_Phdr.to_bytes).flatten ++ Z)).length
      = 52 + 32 * L.length + Z.length := by
    simp only [List.length_append, ehdr_to_bytes_length, phdr_table_length, List.length_map]
    omega
  have hassoc : e.to_bytes ++ (((L.map Prod.fst).map Sony_Elf32_Phdr.to_bytes).flatten
        ++ (Z ++ ((L.map Prod.snd).flatten ++ tail)))
      = (e.to_bytes ++ (((L.map Prod.fst).map Sony_Elf32_Phdr.to_bytes).flatten ++ Z))
        ++ ((L.map Prod.snd).flatten ++ tail) := by
    simp only [List.append_assoc]
  have hlay' : laid_out
      (e.to_bytes ++ (((L.map Prod.fst).map Sony_Elf32_Phdr.to_bytes).flatten ++ Z)).length L := by
    rw [hpre]; exact hlay
  have hsl := laid_out_slices D L _ tail hlay'
  obtain ⟨hmono, hbnd⟩ := laid_out_entries D L _ hlay
  have hq := laid_out_bound L _ hlay
  rw [← hassoc] at hsl
  have hs0 : slice (e.to_bytes ++ (((L.map Prod.fst).map Sony_Elf32_Phdr.to_bytes).flatten
        ++ (Z ++ ((L.map Prod.snd).flatten ++ tail)))) 0 52 = e.to_bytes := by
    rw [slice_zero, ← ehdr_to_bytes_length e, List.take_left]
  have hs : ∀ i (h : i < (L.map Prod.fst).length),
      slice (e.to_bytes ++ (((L.map Prod.fst).map Sony_Elf32_Phdr.to_bytes).flatten
        ++ (Z ++ ((L.map Prod.snd).flatten ++ tail)))) (52 + 32 * i) 32
        = ((L.map Prod.fst).get ⟨i, h⟩).to_bytes := by
    intro i h
    have := slice_phdr_table (L.map Prod.fst) e.to_bytes (Z ++ ((L.map Prod.snd).flatten ++ tail)) i h
    rw [ehdr_to_bytes_length] at this
    exact this
  generalize hdata : e.to_bytes ++ (((L.map Prod.fst).map Sony_Elf32_Phdr.to_bytes).flatten
        ++ (Z ++ ((L.map Prod.snd).flatten ++ tail))) = data at hsl hs0 hs
  have hlen : 52 + 32 * L.length + Z.length + (L.map Prod.snd).flatten.length ≤ data.length := by
    rw [← hdata]
    simp only [List.length_append, ehdr_to_bytes_length, phdr_table_length, List.length_map]
    omega
  have hfold : ∀ st : Header × List SegmentReaderEntry, st.2 = [] →
      ((L.map Prod.fst).foldl (apply_phdr D data) st).2
        = (L.map Prod.fst).filterMap (phdr_entry D) := by
    intro st hst
    rw [fold_entries, hst, List.nil_append]
  have hread : ∀ p ∈ L.map Prod.fst, phdr_readable D data p := by
    intro p hp
    obtain ⟨q, hqL, rfl⟩ := List.mem_map.1 hp
    obtain ⟨f1, f2, f3⟩ := hknown q hqL
    obtain ⟨b1, b2, b3⟩ := hq q hqL
    refine ⟨f1, f2, ?_⟩
    intro hc
    have := f3 hc
    refine ⟨by omega, ?_⟩
    rw [slice_length]
    omega
  have hres := sony_read_image_fold D hD data e (L.map Prod.fst) he hid
    (by rw [hnum, List.length_map]) hs0 hs hread
    (by rw [hfold _ rfl]; exact hmono)
    (by
      rw [hfold _ rfl]
      intro en hen
      obtain ⟨b1, b2⟩ := hbnd en hen
      refine ⟨by omega, ?_⟩
      rw [slice_length]
      omega)
  rw [hfold _ rfl, hsl] at hres
  exact ⟨_, hres⟩

/-! ## Sony ELF data round trip -/

theorem no_gap_full (k r c i m a : List Nat) (hk : k ≠ []) (hr : r ≠ []) (hc : c ≠ [])
    (hi : i ≠ []) (hm : m ≠ []) : no_gap [k, r, c, i, m, a] := by
  simp [no_gap, hk, hr, hc, hi, hm]

theorem no_gap_three (k r c : List Nat) (hk : k ≠ []) (hr : r ≠ []) (hc : c ≠ []) :
    no_gap [k, r, c, [], [], []] := by
  simp [no_gap, hk, hr, hc]

/-- C3 (amended): for every `Header` with 32-bit addresses whose command line is shorter
than 512 bytes and every assignment of byte strings (each possibly empty) to the kernel,
ramdisk, ipl, rpm and appsbl entries such that the 4096-byte header page and all segments
together stay below 2^32 bytes and, in the file order kernel, ramdisk, command line, ipl,
rpm, appsbl, no empty segment precedes a non-empty one, writing them in the writer's entry
order and closing succeeds, and reading the output yields exactly one entry for every
non-empty written segment, in the writer's order, of the same type and with identical
bytes. -/
theorem C3_sony_elf_data_round_trip (D : SonyElfDefs) (hD : D.valid) (H : Header)
    (hH : H.addresses_fit) (P : SonyPayload) (hc : (staged_cmdline H).length < 512)
    (hsize : 4096 + (image_body H P).length < UINT32_MOD)
    (hgap : no_gap [P.kernel, P.ramdisk, staged_cmdline H, P.ipl, P.rpm, P.appsbl]) :
    (sony_write_image D H P).1 = true
    ∧ ∃ H', sony_read_image D (sony_write_image D H P).2.data
        = some (H', P.nonempty_entries) := by
  rw [sony_write_image_eq]
  refine ⟨rfl, ?_⟩
  have h32 : UINT32_MOD = 4294967296 := by decide
  have hE := final_ehdr_fits D hD H hH P
  have hI := final_ehdr_ident D hD H P
  have hnum := final_ehdr_phnum D H P hgap
  have hent := written_entries D hD H P hgap
  have hhdr := image_headers_eq D H P hsize
  have hlay := laid_out_takeWhile (fun q => decide (q.2 ≠ [])) _ _
    (written_segments_laid_out D H P hsize)
  have hfit := written_segments_fit D hD H hH P
  have hkn := written_segments_known D hD H P
  have hbody : image_body H P = ((written_segments D H P).map Prod.snd).flatten := by
    simp [image_body, written_segments]
  have hsplit := List.takeWhile_append_dropWhile (fun q => decide (q.2 ≠ []))
    (written_segments D H P)
  have hlen6 : ((written_segments D H P).takeWhile (fun q => decide (q.2 ≠ []))).length
      ≤ (written_segments D H P).length :=
    (List.takeWhile_prefix (fun q : Sony_Elf32_Phdr × List Nat => decide (q.2 ≠ []))).length_le
  have hsix : (written_segments D H P).length = 6 := rfl
  rw [hsix] at hlen6
  obtain ⟨L, hL⟩ : ∃ L, L = (written_segments D H P).takeWhile (fun q => decide (q.2 ≠ [])) :=
    ⟨_, rfl⟩
  obtain ⟨T, hT⟩ : ∃ T, T = (written_segments D H P).dropWhile (fun q => decide (q.2 ≠ [])) :=
    ⟨_, rfl⟩
  rw [← hL] at hnum hent hhdr hlay hsplit hlen6
  rw [← hT] at hsplit
  have hbody2 : image_body H P = (L.map Prod.snd).flatten ++ (T.map Prod.snd).flatten := by
    rw [hbody, ← hsplit, List.map_append, List.flatten_append]
  have hknown : ∀ q ∈ L, q.1.fits
      ∧ ((q.1.p_type, q.1.p_flags) ∈
          [(D.SONY_E_TYPE_CMDLINE, D.SONY_E_FLAGS_CMDLINE),
           (D.SONY_E_TYPE_KERNEL, D.SONY_E_FLAGS_KERNEL),
           (D.SONY_E_TYPE_RAMDISK, D.SONY_E_FLAGS_RAMDISK),
           (D.SONY_E_TYPE_IPL, D.SONY_E_FLAGS_IPL),
           (D.SONY_E_TYPE_RPM, D.SONY_E_FLAGS_RPM),
           (D.SONY_E_TYPE_APPSBL, D.SONY_E_FLAGS_APPSBL)])
      ∧ (q.1.p_type = D.SONY_E_TYPE_CMDLINE ∧ q.1.p_flags = D.SONY_E_FLAGS_CMDLINE →
          q.2.length < 512) := by
    intro q hq
    have hmem : q ∈ written_segments D H P := by
      rw [← hsplit]; exact List.mem_append_left _ hq
    refine ⟨hfit q hmem, (hkn q hmem).1, ?_⟩
    intro hcm
    rw [(hkn q hmem).2 hcm]
    exact hc
  have hpl : (L.map Prod.snd).flatten.length ≤ (image_body H P).length := by
    rw [hbody2, List.length_append]; omega
  by_cases hb : image_body H P = []
  · have hk : P.kernel = [] := by
      have := congrArg List.length hb
      rw [image_body_length] at this
      exact List.length_eq_zero.1 (by simp only [List.length_nil] at this; omega)
    have hL0 : L = [] := by
      rw [hL]; simp [written_segments, List.takeWhile, hk]
    subst hL0
    obtain ⟨H', hres⟩ := read_laid_out D hD (final_ehdr D H P) [] [] [] hE hI hnum trivial
      hknown (by simp)
    have hd : (image_file (image_headers D H P) 4096 (image_body H P)).data
        = (final_ehdr D H P).to_bytes
          ++ (((([] : List (Sony_Elf32_Phdr × List Nat)).map Prod.fst).map
                Sony_Elf32_Phdr.to_bytes).flatten
            ++ ([] ++ (((([] : List (Sony_Elf32_Phdr × List Nat)).map Prod.snd).flatten
              ++ [])))) := by
      simp [image_file, hb, hhdr]
    refine ⟨H', ?_⟩
    show sony_read_image D (image_file (image_headers D H P) 4096 (image_body H P)).data = _
    rw [hd, hres, hent]
  · have hZ : 52 + 32 * L.length
        + (List.replicate (4096 - (image_headers D H P).length) 0).length = 4096 := by
      rw [List.length_replicate, hhdr, List.length_append, ehdr_to_bytes_length,
        phdr_table_length, List.length_map]
      omega
    obtain ⟨H', hres⟩ := read_laid_out D hD (final_ehdr D H P) L
      (List.replicate (4096 - (image_headers D H P).length) 0) (T.map Prod.snd).flatten hE hI hnum
      (by rw [hZ]; exact hlay) hknown (by rw [hZ]; omega)
    have hd : (image_file (image_headers D H P) 4096 (image_body H P)).data
        = (final_ehdr D H P).to_bytes
          ++ (((L.map Prod.fst).map Sony_Elf32_Phdr.to_bytes).flatten
            ++ (List.replicate (4096 - (image_headers D H P).length) 0
              ++ ((L.map Prod.snd).flatten ++ (T.map Prod.snd).flatten))) := by
      simp only [image_file, hb, if_false]
      generalize 4096 - (image_headers D H P).length = n
      rw [hhdr, hbody2]
      simp only [List.append_assoc]
    refine ⟨H', ?_⟩
    show sony_read_image D (image_file (image_headers D H P) 4096 (image_body H P)).data = _
    rw [hd, hres, hent]

/-- Witness of C3 (amended): the example `Header` (command line `console=ttyS0`) and one
byte for each of the five entries. -/
theorem C3_sony_elf_data_round_trip_witness :
    (sony_write_image sony_elf_defs example_sony_header ⟨[75], [82], [73], [80], [65]⟩).1 = true
    ∧ ∃ H', sony_read_image sony_elf_defs
          (sony_write_image sony_elf_defs example_sony_header
            ⟨[75], [82], [73], [80], [65]⟩).2.data
        = some (H', [(ENTRY_TYPE_KERNEL, [75]), (ENTRY_TYPE_RAMDISK, [82]),
                     (ENTRY_TYPE_SONY_IPL, [73]), (ENTRY_TYPE_SONY_RPM, [80]),
                     (ENTRY_TYPE_SONY_APPSBL, [65])]) :=
  C3_sony_elf_data_round_trip sony_elf_defs sony_elf_defs_valid example_sony_header
    example_sony_header_fits ⟨[75], [82], [73], [80], [65]⟩ (by decide) (by decide)
    (no_gap_full _ _ _ _ _ _ (by decide) (by decide) (by decide) (by decide) (by decide))

set_option maxRecDepth 1000000 in
/-- Counterexample to C3, in two parts, both without an empty segment before a non-empty
one.  With the command line `console=ttyS0`, a kernel of 2^32 - 4096 zero bytes and a
one-byte ramdisk, the write succeeds but the ramdisk starts at file offset 2^32, which does
not fit the 32-bit `p_offset`, and reading the output fails.  With a command line of 512
bytes, a one-byte kernel and a one-byte ramdisk, the write succeeds and `read_header` fails
with `KernelCmdlineTooLong`, so no entry is read. -/
theorem C3_counterexample :
    (no_gap [List.replicate (2 ^ 32 - 4096) 0, [1], staged_cmdline example_sony_header, [], [], []]
      ∧ (sony_write_image sony_elf_defs example_sony_header
          ⟨List.replicate (2 ^ 32 - 4096) 0, [1], [], [], []⟩).1 = true
      ∧ sony_read_image sony_elf_defs
          (sony_write_image sony_elf_defs example_sony_header
            ⟨List.replicate (2 ^ 32 - 4096) 0, [1], [], [], []⟩).2.data = none)
    ∧ (no_gap [[75], [82], staged_cmdline long_cmdline_header, [], [], []]
      ∧ (sony_write_image sony_elf_defs long_cmdline_header ⟨[75], [82], [], [], []⟩).1 = true
      ∧ ((SonyElfFormatReader.new Reader.init).read_header sony_elf_defs
          (File.of_bytes
            (sony_write_image sony_elf_defs long_cmdline_header ⟨[75], [82], [], [], []⟩).2.data 0)
          Header.empty).2.1._reader.error = some Error.KernelCmdlineTooLong
      ∧ sony_read_image sony_elf_defs
          (sony_write_image sony_elf_defs long_cmdline_header ⟨[75], [82], [], [], []⟩).2.data
          = none) :=
  ⟨⟨no_gap_three _ _ _
      (by intro h; exact absurd (congrArg List.length h) (by rw [List.length_replicate]; decide))
      (by decide) (by decide),
    read_truncated_image sony_elf_defs sony_elf_defs_valid example_sony_header
      example_sony_header_fits (List.replicate (2 ^ 32 - 4096) 0) [1]
      (List.length_replicate _ _) rfl (by decide) (by decide)⟩,
   ⟨no_gap_three _ _ _ (by decide) (by decide) (by decide), by decide, by decide, by decide⟩⟩

/-! ## Ordered, non-overlapping Android segments -/

/-- On a device that reports errors `find_header` fails with the file's error. -/
theorem find_header_unhealthy (reader : Reader) (file : File) (header_out : AndroidHeader)
    (offset_out : Nat) (hio : file.io_ok = false) :
    find_header reader file MAX_HEADER_OFFSET header_out offset_out
      = ⟨false, (reader.set_error .FileIo).fatal_if file, file, header_out, offset_out⟩ := by
  simp [find_header, MAX_HEADER_OFFSET, File.seek_set, hio]

/-- A successful `find_header`: the device is healthy, the offset is at most 512, the
header is decoded from the bytes at that offset and the facade is untouched. -/
theorem find_header_ok (reader : Reader) (file : File) (header_out : AndroidHeader)
    (offset_out : Nat)
    (h : (find_header reader file MAX_HEADER_OFFSET header_out offset_out).ok = true) :
    file.io_ok = true
    ∧ (find_header reader file MAX_HEADER_OFFSET header_out offset_out).offset_out
        ≤ MAX_HEADER_OFFSET
    ∧ (find_header reader file MAX_HEADER_OFFSET header_out offset_out).header_out
        = AndroidHeader.of_bytes (slice (file.data.take 1120)
            (find_header reader file MAX_HEADER_OFFSET header_out offset_out).offset_out 608)
    ∧ (find_header reader file MAX_HEADER_OFFSET header_out offset_out).reader = reader
    ∧ (find_header reader file MAX_HEADER_OFFSET header_out offset_out).file
        = { file with pos := (file.data.take 1120).length } := by
  cases hio : file.io_ok with
  | false => rw [find_header_unhealthy _ _ _ _ hio] at h; cases h
  | true =>
    have hh := find_header_healthy reader file header_out offset_out hio
    cases hm : mb_memmem (file.data.take 1120) BOOT_MAGIC with
    | none =>
      rw [hh, hm] at h
      simp at h
    | some o =>
      rw [hh, hm] at h ⊢
      simp only [] at h ⊢
      by_cases hlt : (file.data.take 1120).length - o < 608
      · rw [if_pos hlt] at h
        cases h
      · rw [if_neg hlt]
        refine ⟨trivial, ?_, rfl, rfl, ?_⟩
        · have := List.length_take_le 1120 file.data
          simp only [MAX_HEADER_OFFSET]
          omega
        · simp only [hio]

/-- With a positive page size consecutive segments of the list do not overlap. -/
theorem android_entries_disjoint (hdr : AndroidHeader) (ho ps : Nat) (b : Bool)
    (hps : 0 < ps) (hps32 : ps < UINT32_MOD) (hfit : hdr.words_fit)
    (hho : ho ≤ MAX_HEADER_OFFSET) :
    non_overlapping (android_entries hdr ho ps b) := by
  obtain ⟨e1, e2, e3, e4, _, l1, l2, l3, _, _⟩ := advance_chain hdr ho ps hps hps32 hfit hho
  rw [android_entries_eq, e1, e2, e3, e4]
  unfold non_overlapping
  by_cases h1 : hdr.second_size > 0 <;> by_cases h2 : hdr.dt_size > 0 <;>
    simp [h1, h2] <;> omega

/-- A successful `read_header` of a reader without cached header offset: the header and
the offset are those that `find_header` hands out. -/
theorem read_header_uncached_ok (self : AndroidFormatReader) (file : File) (header : Header)
    (hnone : self._header_offset = none) (hok : (read_header self file header).ok = true) :
    (find_header self._reader file MAX_HEADER_OFFSET self._hdr 0).ok = true
    ∧ (read_header self file header).self._hdr
        = (find_header self._reader file MAX_HEADER_OFFSET self._hdr 0).header_out
    ∧ (read_header self file header).self._header_offset
        = some (find_header self._reader file MAX_HEADER_OFFSET self._hdr 0).offset_out := by
  unfold read_header at hok ⊢
  simp only [hnone] at hok ⊢
  by_cases hf : (find_header self._reader file MAX_HEADER_OFFSET self._hdr 0).ok = false
  · simp [hf] at hok
  · simp only [hf, if_false] at hok ⊢
    rw [read_header_located_eq]
    exact ⟨trivial, rfl, rfl⟩

/-- What `find_header` hands out: on success a header decoded from bytes of the file at an
offset of at most 512, on failure the two output parameters as they were. -/
theorem find_header_out (reader : Reader) (file : File) (header_out : AndroidHeader)
    (offset_out : Nat) (hbytes : ∀ x ∈ file.data, x < 256) :
    ((find_header reader file MAX_HEADER_OFFSET header_out offset_out).ok = true →
      (find_header reader file MAX_HEADER_OFFSET header_out offset_out).header_out.words_fit
      ∧ (find_header reader file MAX_HEADER_OFFSET header_out offset_out).offset_out
          ≤ MAX_HEADER_OFFSET)
    ∧ ((find_header reader file MAX_HEADER_OFFSET header_out offset_out).ok = false →
      (find_header reader file MAX_HEADER_OFFSET header_out offset_out).header_out
        = header_out) := by
  constructor
  · intro h
    obtain ⟨_, hle, hdec, _, _⟩ := find_header_ok _ _ _ _ h
    refine ⟨?_, hle⟩
    rw [hdec]
    exact of_bytes_words_fit _
      (fun x hx => hbytes x (List.mem_of_mem_take (slice_mem _ _ _ _ hx)))
  · intro h
    cases hio : file.io_ok with
    | false => rw [find_header_unhealthy _ _ _ _ hio]
    | true =>
      rw [find_header_healthy _ _ _ _ hio] at h ⊢
      cases hm : mb_memmem (file.data.take 1120) BOOT_MAGIC with
      | none => rfl
      | some o =>
        rw [hm] at h
        simp only [] at h ⊢
        by_cases hlt : (file.data.take 1120).length - o < 608
        · rw [if_pos hlt]
        · rw [if_neg hlt] at h
          cases h

/-- The header and the header offset that a bid of the Android reader caches. -/
theorem bid_android_cache (self : AndroidFormatReader) (file : File) (best_bid : Int) :
    ((self.bid_android file best_bid).self._hdr = self._hdr
      ∧ (self.bid_android file best_bid).self._header_offset = self._header_offset)
    ∨ ((self.bid_android file best_bid).self._hdr
          = (find_header self._reader file MAX_HEADER_OFFSET self._hdr 0).header_out
        ∧ (((find_header self._reader file MAX_HEADER_OFFSET self._hdr 0).ok = true
            ∧ (self.bid_android file best_bid).self._header_offset
              = some (find_header self._reader file MAX_HEADER_OFFSET self._hdr 0).offset_out)
          ∨ ((find_header self._reader file MAX_HEADER_OFFSET self._hdr 0).ok = false
            ∧ (self.bid_android file best_bid).self._header_offset
              = self._header_offset))) := by
  unfold AndroidFormatReader.bid_android
  simp only []
  split
  · exact Or.inl ⟨rfl, rfl⟩
  · right
    by_cases hok : (find_header self._reader file MAX_HEADER_OFFSET self._hdr 0).ok = true
    · rw [if_pos hok]
      split
      · exact ⟨rfl, Or.inl ⟨hok, rfl⟩⟩
      · split
        · exact ⟨rfl, Or.inl ⟨hok, rfl⟩⟩
        · exact ⟨rfl, Or.inl ⟨hok, rfl⟩⟩
    · have hf : (find_header self._reader file MAX_HEADER_OFFSET self._hdr 0).ok = false := by
        simpa using hok
      rw [if_neg hok]
      split
      · exact ⟨rfl, Or.inr ⟨hf, rfl⟩⟩
      · exact ⟨rfl, Or.inr ⟨hf, rfl⟩⟩

/-- The header and the header offset that a bid of the Bump reader caches. -/
theorem bid_bump_cache (B : BumpDefs) (self : AndroidFormatReader) (file : File)
    (best_bid : Int) :
    ((self.bid_bump B file best_bid).self._hdr = self._hdr
      ∧ (self.bid_bump B file best_bid).self._header_offset = self._header_offset)
    ∨ ((self.bid_bump B file best_bid).self._hdr
          = (find_header self._reader file MAX_HEADER_OFFSET self._hdr 0).header_out
        ∧ (((find_header self._reader file MAX_HEADER_OFFSET self._hdr 0).ok = true
            ∧ (self.bid_bump B file best_bid).self._header_offset
              = some (find_header self._reader file MAX_HEADER_OFFSET self._hdr 0).offset_out)
          ∨ ((find_header self._reader file MAX_HEADER_OFFSET self._hdr 0).ok = false
            ∧ (self.bid_bump B file best_bid).self._header_offset
              = self._header_offset))) := by
  unfold AndroidFormatReader.bid_bump
  simp only []
  split
  · exact Or.inl ⟨rfl, rfl⟩
  · right
    by_cases hok : (find_header self._reader file MAX_HEADER_OFFSET self._hdr 0).ok = true
    · rw [if_pos hok]
      split
      · exact ⟨rfl, Or.inl ⟨hok, rfl⟩⟩
      · split
        · exact ⟨rfl, Or.inl ⟨hok, rfl⟩⟩
        · exact ⟨rfl, Or.inl ⟨hok, rfl⟩⟩
    · have hf : (find_header self._reader file MAX_HEADER_OFFSET self._hdr 0).ok = false := by
        simpa using hok
      rw [if_neg hok]
      split
      · exact ⟨rfl, Or.inr ⟨hf, rfl⟩⟩
      · exact ⟨rfl, Or.inr ⟨hf, rfl⟩⟩

/-- The header and the header offset that `read_header` leaves in the reader. -/
theorem read_header_cache (self : AndroidFormatReader) (file : File) (header : Header) :
    ((read_header self file header).self._hdr = self._hdr
      ∧ (read_header self file header).self._header_offset = self._header_offset)
    ∨ ((read_header self file header).self._hdr
          = (find_header self._reader file MAX_HEADER_OFFSET self._hdr 0).header_out
        ∧ (((find_header self._reader file MAX_HEADER_OFFSET self._hdr 0).ok = true
            ∧ (read_header self file header).self._header_offset
              = some (find_header self._reader file MAX_HEADER_OFFSET self._hdr 0).offset_out)
          ∨ ((find_header self._reader file MAX_HEADER_OFFSET self._hdr 0).ok = false
            ∧ (read_header self file header).self._header_offset
              = self._header_offset))) := by
  unfold read_header
  cases hoff : self._header_offset with
  | some ho =>
    simp only []
    rw [read_header_located_eq]
    exact Or.inl ⟨rfl, hoff⟩
  | none =>
    simp only []
    right
    by_cases hf : (find_header self._reader file MAX_HEADER_OFFSET self._hdr 0).ok = false
    · rw [if_pos hf]
      exact ⟨rfl, Or.inr ⟨hf, rfl⟩⟩
    · rw [if_neg hf, read_header_located_eq]
      exact ⟨rfl, Or.inl ⟨by simpa using hf, rfl⟩⟩

/-- The cache of a reader object: the words of the cached raw header fit 32 bits, and a
cached header offset is one that `find_header` has handed out, at most 512. -/
theorem reachable_cache (self : AndroidFormatReader) (h : self.Reachable) :
    self._hdr.words_fit ∧ ∀ o, self._header_offset = some o → o ≤ MAX_HEADER_OFFSET := by
  have hstep : ∀ (s t : AndroidFormatReader) (file : File),
      (∀ x ∈ file.data, x < 256) →
      (s._hdr.words_fit ∧ ∀ o, s._header_offset = some o → o ≤ MAX_HEADER_OFFSET) →
      ((t._hdr = s._hdr ∧ t._header_offset = s._header_offset)
        ∨ (t._hdr = (find_header s._reader file MAX_HEADER_OFFSET s._hdr 0).header_out
          ∧ (((find_header s._reader file MAX_HEADER_OFFSET s._hdr 0).ok = true
              ∧ t._header_offset
                = some (find_header s._reader file MAX_HEADER_OFFSET s._hdr 0).offset_out)
            ∨ ((find_header s._reader file MAX_HEADER_OFFSET s._hdr 0).ok = false
              ∧ t._header_offset = s._header_offset)))) →
      (t._hdr.words_fit ∧ ∀ o, t._header_offset = some o → o ≤ MAX_HEADER_OFFSET) := by
    intro s t file hbytes ih hc
    obtain ⟨hok, hfail⟩ := find_header_out s._reader file s._hdr 0 hbytes
    rcases hc with ⟨h1, h2⟩ | ⟨h1, ⟨hk, h2⟩ | ⟨hk, h2⟩⟩
    · rw [h1, h2]; exact ih
    · rw [h1, h2]
      refine ⟨(hok hk).1, fun o ho => ?_⟩
      rw [← Option.some.inj ho]
      exact (hok hk).2
    · rw [h1, h2, hfail hk]; exact ih
  induction h with
  | constructed reader is_bump =>
    refine ⟨?_, fun o ho => by cases ho⟩
    show AndroidHeader.zero.words_fit
    unfold AndroidHeader.words_fit
    decide
  | reported self reader _ ih => exact ih
  | after_set_option self key value _ ih =>
    unfold AndroidFormatReader.set_option
    split
    · exact ih
    · exact ih
  | after_bid B self file best_bid _ hbytes ih =>
    unfold AndroidFormatReader.bid
    split
    · exact hstep _ _ file hbytes ih (bid_bump_cache B self file best_bid)
    · exact hstep _ _ file hbytes ih (bid_android_cache self file best_bid)
  | after_read_header self file header _ hbytes ih =>
    exact hstep _ _ file hbytes ih (read_header_cache self file header)
  | after_read_entry self file entry _ ih => exact ih

/-- C11: for every reader object, whether it has cached a header in a bid or locates the
header itself, and every file of bytes: whenever `read_header` succeeds and the header
declares a positive page size, the segment list handed to the segment engine is ordered
by non-decreasing file offset and consecutive segments do not overlap:
`a.offset + a.size ≤ b.offset`. -/
theorem C11_segments_ordered_disjoint (self : AndroidFormatReader) (file : File)
    (header : Header) (hreach : self.Reachable)
    (hbytes : ∀ x ∈ file.data, x < 256)
    (hok : (read_header self file header).ok = true)
    (hps : 0 < (read_header self file header).self._hdr.page_size) :
    offsets_nondecreasing (read_header self file header).self._seg.entries = true
    ∧ non_overlapping (read_header self file header).self._seg.entries := by
  obtain ⟨ho, hoff, hent, _⟩ := read_header_ok_entries self file header hok
  obtain ⟨hfit, hle⟩ := reachable_cache _ (.after_read_header self file header hreach hbytes)
  have hho := hle ho hoff
  rw [hent]
  exact ⟨android_entries_nondecreasing _ _ _ _ hps hfit.2.2.2.2 hfit hho,
    android_entries_disjoint _ _ _ _ hps hfit.2.2.2.2 hfit hho⟩

set_option maxRecDepth 1000000 in
/-- Witness of C11: a reader that has bid on a file that consists of the example header
(page size 2048, a 4-byte kernel and a 4-byte ramdisk) and then reads the header it has
cached. -/
theorem C11_segments_ordered_disjoint_witness :
    ((AndroidFormatReader.new Reader.init false).bid bump_defs
        (File.of_bytes example_android_header.to_bytes 0) 0).self._header_offset = some 0
    ∧ offsets_nondecreasing (read_header
        ((AndroidFormatReader.new Reader.init false).bid bump_defs
          (File.of_bytes example_android_header.to_bytes 0) 0).self
        (File.of_bytes example_android_header.to_bytes 0) Header.empty).self._seg.entries
      = true
    ∧ non_overlapping (read_header
        ((AndroidFormatReader.new Reader.init false).bid bump_defs
          (File.of_bytes example_android_header.to_bytes 0) 0).self
        (File.of_bytes example_android_header.to_bytes 0) Header.empty).self._seg.entries :=
  ⟨by decide,
   C11_segments_ordered_disjoint
    ((AndroidFormatReader.new Reader.init false).bid bump_defs
      (File.of_bytes example_android_header.to_bytes 0) 0).self
    (File.of_bytes example_android_header.to_bytes 0) Header.empty
    (.after_bid _ _ _ _ (.constructed _ _) (by decide)) (by decide) (by decide) (by decide)⟩

/-! ## The kernel entry of the Android segment list -/

/-- A successful `read_header` leaves the segment engine before its first entry. -/
theorem read_header_ok_state (self : AndroidFormatReader) (file : File) (header : Header)
    (h : (read_header self file header).ok = true) :
    (read_header self file header).self._seg.state = .Begin := by
  have hset : ∀ (s : SegmentReader) (reader : Reader) (es : List SegmentReaderEntry),
      (s.set_entries reader es).1 = true → (s.set_entries reader es).2.1.state = .Begin := by
    intro s reader es hs
    unfold SegmentReader.set_entries at hs ⊢
    by_cases h1 : s.state ≠ .Begin
    · simp [h1] at hs
    · by_cases h2 : offsets_nondecreasing es = false
      · simp [h1, h2] at hs
      · simp only [h1, h2, if_false]
        simpa using h1
  unfold read_header at h ⊢
  cases hoff : self._header_offset with
  | none =>
    simp only [hoff] at h ⊢
    by_cases hf : (find_header self._reader file MAX_HEADER_OFFSET self._hdr 0).ok = false
    · simp [hf] at h
    · simp only [hf, if_false] at h ⊢
      rw [read_header_located_eq] at h ⊢
      exact hset _ _ _ h
  | some ho =>
    simp only [hoff] at h ⊢
    rw [read_header_located_eq] at h ⊢
    exact hset _ _ _ h

/-- The first offset that `read_header` computes fits a non-negative `int64_t`. -/
theorem kernel_offset_small (ho ps : Nat) (hho : ho ≤ MAX_HEADER_OFFSET)
    (hps : ps < UINT32_MOD) :
    advance (ho % UINT64_MOD) sizeof_AndroidHeader ps < 2 ^ 63 := by
  simp only [MAX_HEADER_OFFSET, UINT32_MOD, Nat.reducePow] at hho hps
  have hmod : ho % UINT64_MOD = ho := Nat.mod_eq_of_lt (by simp only [UINT64_MOD]; omega)
  rw [hmod]
  rcases Nat.eq_zero_or_pos ps with h0 | hpos
  · subst h0
    have h1 : (ho + 608) % UINT64_MOD = ho + 608 :=
      Nat.mod_eq_of_lt (by simp only [UINT64_MOD]; omega)
    simp only [advance, align_page_size, sizeof_AndroidHeader, h1, Nat.mod_zero]
    have h2 : (UINT64_MOD - (ho + 608)) % UINT64_MOD = UINT64_MOD - (ho + 608) :=
      Nat.mod_eq_of_lt (by simp only [UINT64_MOD]; omega)
    rw [h2]
    have h3 : ho + 608 + (UINT64_MOD - (ho + 608)) = UINT64_MOD := by
      simp only [UINT64_MOD]; omega
    rw [h3, Nat.mod_self]
    decide
  · obtain ⟨e, _, hlt⟩ := advance_eq_up ho sizeof_AndroidHeader ps hpos
      (by simp only [UINT64_MOD, sizeof_AndroidHeader]; omega)
    rw [e]
    simp only [sizeof_AndroidHeader] at hlt ⊢
    omega

set_option maxRecDepth 1000000 in
/-- Counterexample to C12: a file that consists of a header with `kernel_size = 0`.  The
segment list installed by `read_header` starts with a kernel entry of size 0, and the
first entry that the reader yields is the kernel, not the ramdisk. -/
theorem C12_counterexample :
    (AndroidHeader.of_bytes empty_kernel_android_header.to_bytes).kernel_size = 0
    ∧ (read_header (AndroidFormatReader.new Reader.init false)
        (File.of_bytes empty_kernel_android_header.to_bytes 0) Header.empty).ok = true
    ∧ (read_header (AndroidFormatReader.new Reader.init false)
        (File.of_bytes empty_kernel_android_header.to_bytes 0) Header.empty).self._seg.entries
        = [⟨ENTRY_TYPE_KERNEL, 2048, 0, false⟩, ⟨ENTRY_TYPE_RAMDISK, 2048, 4, false⟩]
    ∧ ((read_header (AndroidFormatReader.new Reader.init false)
          (File.of_bytes empty_kernel_android_header.to_bytes 0) Header.empty).self.read_entry
        (read_header (AndroidFormatReader.new Reader.init false)
          (File.of_bytes empty_kernel_android_header.to_bytes 0) Header.empty).file
        ⟨none, none⟩).2.2.2 = ⟨some ENTRY_TYPE_KERNEL, some 0⟩ := by
  decide

/-- The file after a successful `read_header` is healthy when the reader had to locate
the header, and is the file given when the header was cached. -/
theorem read_header_ok_file (self : AndroidFormatReader) (file : File) (header : Header)
    (hok : (read_header self file header).ok = true)
    (h : self._header_offset = none ∨ file.io_ok = true) :
    (read_header self file header).file.io_ok = true := by
  unfold read_header at hok ⊢
  cases hoff : self._header_offset with
  | some ho =>
    rw [hoff] at h
    simp only [hoff] at hok ⊢
    rw [read_header_located_eq]
    rcases h with h | h
    · cases h
    · exact h
  | none =>
    simp only [hoff] at hok ⊢
    by_cases hf : (find_header self._reader file MAX_HEADER_OFFSET self._hdr 0).ok = false
    · rw [if_pos hf] at hok
      cases hok
    · have hfound : (find_header self._reader file MAX_HEADER_OFFSET self._hdr 0).ok = true := by
        simpa using hf
      obtain ⟨hio, _, _, _, hfile⟩ := find_header_ok _ _ _ _ hfound
      rw [if_neg hf, read_header_located_eq]
      simp only [hfile, hio]

/-- C12 (amended): the kernel and ramdisk entries are always part of the segment list.
For every reader object, whether it has cached the header in a bid or locates it itself,
and every file of bytes: whenever `read_header` succeeds on a header with
`kernel_size = 0`, the installed list starts with a kernel entry of size 0 followed by the
ramdisk entry; the first `read_entry` succeeds whenever the reader has located the header
itself or the device is healthy, and whenever it succeeds the entry it yields is the
kernel entry with size 0, not the ramdisk. -/
theorem C12_kernel_entry_always_present (self : AndroidFormatReader) (file : File)
    (header : Header) (hreach : self.Reachable)
    (hbytes : ∀ x ∈ file.data, x < 256)
    (hok : (read_header self file header).ok = true)
    (hk : (read_header self file header).self._hdr.kernel_size = 0) :
    (∃ ko ro rest, (read_header self file header).self._seg.entries
        = ⟨ENTRY_TYPE_KERNEL, ko, 0, false⟩
          :: ⟨ENTRY_TYPE_RAMDISK, ro, (read_header self file header).self._hdr.ramdisk_size,
               false⟩ :: rest)
    ∧ (self._header_offset = none ∨ file.io_ok = true →
        ((read_header self file header).self.read_entry (read_header self file header).file
          ⟨none, none⟩).1 = true)
    ∧ (((read_header self file header).self.read_entry (read_header self file header).file
          ⟨none, none⟩).1 = true →
        ((read_header self file header).self.read_entry (read_header self file header).file
          ⟨none, none⟩).2.2.2 = ⟨some ENTRY_TYPE_KERNEL, some 0⟩) := by
  obtain ⟨ho, hoff, hent, _⟩ := read_header_ok_entries self file header hok
  obtain ⟨hfit, hle⟩ := reachable_cache _ (.after_read_header self file header hreach hbytes)
  have hho := hle ho hoff
  have hst := read_header_ok_state self file header hok
  have hsmall := kernel_offset_small ho _ hho hfit.2.2.2.2
  rw [android_entries_eq, hk] at hent
  have hhead : (read_header self file header).self._seg.entries[
      (read_header self file header).self._seg.next_index]?
      = some ⟨ENTRY_TYPE_KERNEL,
          advance (ho % UINT64_MOD) sizeof_AndroidHeader
            (read_header self file header).self._hdr.page_size, 0, false⟩ := by
    simp only [SegmentReader.next_index, hst, hent]
    rfl
  refine ⟨⟨_, _, _, hent⟩, ?_, ?_⟩
  · intro h
    have hrfile := read_header_ok_file self file header hok h
    unfold AndroidFormatReader.read_entry
    rw [seg_read_entry_some _ _ _ _ _ hhead hrfile hsmall]
  · intro h
    cases hio : (read_header self file header).file.io_ok with
    | true =>
      unfold AndroidFormatReader.read_entry
      rw [seg_read_entry_some _ _ _ _ _ hhead hio hsmall]
    | false =>
      exfalso
      unfold AndroidFormatReader.read_entry SegmentReader.read_entry at h
      simp only [hhead, File.seek_set, hio, if_true] at h
      cases h

set_option maxRecDepth 1000000 in
/-- Witness of C12 (amended): a reader that has bid on the file of the counterexample
and then reads the header it has cached. -/
theorem C12_kernel_entry_always_present_witness :
    ((AndroidFormatReader.new Reader.init false).bid bump_defs
        (File.of_bytes empty_kernel_android_header.to_bytes 0) 0).self._header_offset = some 0
    ∧ ((read_header
          ((AndroidFormatReader.new Reader.init false).bid bump_defs
            (File.of_bytes empty_kernel_android_header.to_bytes 0) 0).self
          (File.of_bytes empty_kernel_android_header.to_bytes 0) Header.empty).self.read_entry
        (read_header
          ((AndroidFormatReader.new Reader.init false).bid bump_defs
            (File.of_bytes empty_kernel_android_header.to_bytes 0) 0).self
          (File.of_bytes empty_kernel_android_header.to_bytes 0) Header.empty).file
        ⟨none, none⟩).1 = true :=
  ⟨by decide,
   (C12_kernel_entry_always_present
      ((AndroidFormatReader.new Reader.init false).bid bump_defs
        (File.of_bytes empty_kernel_android_header.to_bytes 0) 0).self
      (File.of_bytes empty_kernel_android_header.to_bytes 0) Header.empty
      (.after_bid _ _ _ _ (.constructed _ _) (by decide)) (by decide) (by decide)
      (by decide)).2.1 (Or.inr rfl)⟩

/-! ## The loop over the program headers, in general -/

theorem seek_set_cases (f : File) (x : Int) :
    (∃ e, f.seek_set x = (.error e, f))
    ∨ (f.io_ok = true ∧ 0 ≤ x ∧ f.seek_set x = (.ok x.toNat, { f with pos := x.toNat })) := by
  unfold File.seek_set
  by_cases hio : f.io_ok = false
  · exact Or.inl ⟨.FileIo, by simp [hio]⟩
  · by_cases hx : x < 0
    · exact Or.inl ⟨.FileInvalidOffset, by simp [hio, hx]⟩
    · exact Or.inr ⟨by simpa using hio, by omega, by simp [hio, hx]⟩

theorem read_exact_cases (f : File) (n : Nat) :
    (∃ e f', file_read_exact f n = (.error e, f') ∧ f'.data = f.data
        ∧ (f.io_ok = true → e = .FileUnexpectedEof ∧ (slice f.data f.pos n).length < n)
        ∧ (f.io_ok = false → e = .FileIo))
    ∨ (f.io_ok = true ∧ (slice f.data f.pos n).length = n
        ∧ file_read_exact f n = (.ok (slice f.data f.pos n), { f with pos := f.pos + n })) := by
  unfold file_read_exact
  by_cases hio : f.io_ok = false
  · exact Or.inl ⟨.FileIo, f, by simp [hio], rfl, by simp [hio], fun _ => rfl⟩
  · by_cases hlen : (slice f.data f.pos n).length < n
    · exact Or.inl ⟨.FileUnexpectedEof, { f with pos := f.pos + (slice f.data f.pos n).length },
        by simp [hio, hlen], rfl, fun _ => ⟨rfl, hlen⟩, fun h => absurd h hio⟩
    · refine Or.inr ⟨by simpa using hio, ?_, by simp [hio, hlen]⟩
      have := slice_length f.data f.pos n
      omega

theorem to_int64_nonneg (pos : Nat) (h : pos < UINT64_MOD) (h0 : 0 ≤ to_int64 pos) :
    pos < 2 ^ 63 ∧ (to_int64 pos).toNat = pos := by
  unfold to_int64 at h0 ⊢
  rw [Nat.mod_eq_of_lt h] at h0 ⊢
  simp only [UINT64_MOD] at h
  by_cases hlt : pos < 2 ^ 63
  · simp only [hlt, if_true]
    exact ⟨trivial, Int.toNat_ofNat pos⟩
  · simp only [hlt, if_false] at h0
    omega

theorem phdr_entry_type (D : SonyElfDefs) (p : Sony_Elf32_Phdr) :
    (phdr_entry D p).map (fun en => en.type) = pair_entry_type D (p.p_type, p.p_flags) := by
  unfold phdr_entry pair_entry_type
  split_ifs <;> rfl

theorem pair_entry_type_inj (D : SonyElfDefs) (q q' : Nat × Nat) (t : Int)
    (h : pair_entry_type D q = some t) (h' : pair_entry_type D q' = some t) : q = q' := by
  unfold pair_entry_type at h h'
  have e1 : ENTRY_TYPE_KERNEL = 1 := rfl
  have e2 : ENTRY_TYPE_RAMDISK = 2 := rfl
  have e3 : ENTRY_TYPE_SONY_IPL = 128 := rfl
  have e4 : ENTRY_TYPE_SONY_RPM = 256 := rfl
  have e5 : ENTRY_TYPE_SONY_APPSBL = 512 := rfl
  rw [e1, e2, e3, e4, e5] at h h'
  split_ifs at h h' <;> simp only [Option.some.injEq, reduceCtorEq] at h h' <;>
    first
    | omega
    | (apply Prod.ext
       · exact (by simp only [*] : q.1 = q'.1)
       · exact (by simp only [*] : q.2 = q'.2))

theorem phdr_entry_kernel (D : SonyElfDefs) (p : Sony_Elf32_Phdr)
    (hprev : ¬ (p.p_type = D.SONY_E_TYPE_CMDLINE ∧ p.p_flags = D.SONY_E_FLAGS_CMDLINE))
    (h : p.p_type = D.SONY_E_TYPE_KERNEL ∧ p.p_flags = D.SONY_E_FLAGS_KERNEL) :
    phdr_entry D p = some ⟨ENTRY_TYPE_KERNEL, p.p_offset, p.p_memsz, false⟩ := by
  have h0 := hprev
  rw [phdr_entry, if_neg h0, if_pos h]

theorem phdr_entry_ramdisk (D : SonyElfDefs) (p : Sony_Elf32_Phdr)
    (hprev : (¬ (p.p_type = D.SONY_E_TYPE_CMDLINE ∧ p.p_flags = D.SONY_E_FLAGS_CMDLINE)) ∧ ¬ (p.p_type = D.SONY_E_TYPE_KERNEL ∧ p.p_flags = D.SONY_E_FLAGS_KERNEL))
    (h : p.p_type = D.SONY_E_TYPE_RAMDISK ∧ p.p_flags = D.SONY_E_FLAGS_RAMDISK) :
    phdr_entry D p = some ⟨ENTRY_TYPE_RAMDISK, p.p_offset, p.p_memsz, false⟩ := by
  obtain ⟨h0, h1⟩ := hprev
  rw [phdr_entry, if_neg h0, if_neg h1, if_pos h]

theorem phdr_entry_ipl (D : SonyElfDefs) (p : Sony_Elf32_Phdr)
    (hprev : ((¬ (p.p_type = D.SONY_E_TYPE_CMDLINE ∧ p.p_flags = D.SONY_E_FLAGS_CMDLINE)) ∧ ¬ (p.p_type = D.SONY_E_TYPE_KERNEL ∧ p.p_flags = D.SONY_E_FLAGS_KERNEL)) ∧ ¬ (p.p_type = D.SONY_E_TYPE_RAMDISK ∧ p.p_flags = D.SONY_E_FLAGS_RAMDISK))
    (h : p.p_type = D.SONY_E_TYPE_IPL ∧ p.p_flags = D.SONY_E_FLAGS_IPL) :
    phdr_entry D p = some ⟨ENTRY_TYPE_SONY_IPL, p.p_offset, p.p_memsz, false⟩ := by
  obtain ⟨⟨h0, h1⟩, h2⟩ := hprev
  rw [phdr_entry, if_neg h0, if_neg h1, if_neg h2, if_pos h]

theorem phdr_entry_rpm (D : SonyElfDefs) (p : Sony_Elf32_Phdr)
    (hprev : (((¬ (p.p_type = D.SONY_E_TYPE_CMDLINE ∧ p.p_flags = D.SONY_E_FLAGS_CMDLINE)) ∧ ¬ (p.p_type = D.SONY_E_TYPE_KERNEL ∧ p.p_flags = D.SONY_E_FLAGS_KERNEL)) ∧ ¬ (p.p_type = D.SONY_E_TYPE_RAMDISK ∧ p.p_flags = D.SONY_E_FLAGS_RAMDISK)) ∧ ¬ (p.p_type = D.SONY_E_TYPE_IPL ∧ p.p_flags = D.SONY_E_FLAGS_IPL))
    (h : p.p_type = D.SONY_E_TYPE_RPM ∧ p.p_flags = D.SONY_E_FLAGS_RPM) :
    phdr_entry D p = some ⟨ENTRY_TYPE_SONY_RPM, p.p_offset, p.p_memsz, false⟩ := by
  obtain ⟨⟨⟨h0, h1⟩, h2⟩, h3⟩ := hprev
  rw [phdr_entry, if_neg h0, if_neg h1, if_neg h2, if_neg h3, if_pos h]

theorem phdr_entry_appsbl (D : SonyElfDefs) (p : Sony_Elf32_Phdr)
    (hprev : ((((¬ (p.p_type = D.SONY_E_TYPE_CMDLINE ∧ p.p_flags = D.SONY_E_FLAGS_CMDLINE)) ∧ ¬ (p.p_type = D.SONY_E_TYPE_KERNEL ∧ p.p_flags = D.SONY_E_FLAGS_KERNEL)) ∧ ¬ (p.p_type = D.SONY_E_TYPE_RAMDISK ∧ p.p_flags = D.SONY_E_FLAGS_RAMDISK)) ∧ ¬ (p.p_type = D.SONY_E_TYPE_IPL ∧ p.p_flags = D.SONY_E_FLAGS_IPL)) ∧ ¬ (p.p_type = D.SONY_E_TYPE_RPM ∧ p.p_flags = D.SONY_E_FLAGS_RPM))
    (h : p.p_type = D.SONY_E_TYPE_APPSBL ∧ p.p_flags = D.SONY_E_FLAGS_APPSBL) :
    phdr_entry D p = some ⟨ENTRY_TYPE_SONY_APPSBL, p.p_offset, p.p_memsz, false⟩ := by
  obtain ⟨⟨⟨⟨h0, h1⟩, h2⟩, h3⟩, h4⟩ := hprev
  rw [phdr_entry, if_neg h0, if_neg h1, if_neg h2, if_neg h3, if_neg h4, if_pos h]

theorem phdr_entry_other (D : SonyElfDefs) (p : Sony_Elf32_Phdr)
    (hprev : (((((¬ (p.p_type = D.SONY_E_TYPE_CMDLINE ∧ p.p_flags = D.SONY_E_FLAGS_CMDLINE)) ∧ ¬ (p.p_type = D.SONY_E_TYPE_KERNEL ∧ p.p_flags = D.SONY_E_FLAGS_KERNEL)) ∧ ¬ (p.p_type = D.SONY_E_TYPE_RAMDISK ∧ p.p_flags = D.SONY_E_FLAGS_RAMDISK)) ∧ ¬ (p.p_type = D.SONY_E_TYPE_IPL ∧ p.p_flags = D.SONY_E_FLAGS_IPL)) ∧ ¬ (p.p_type = D.SONY_E_TYPE_RPM ∧ p.p_flags = D.SONY_E_FLAGS_RPM)) ∧ ¬ (p.p_type = D.SONY_E_TYPE_APPSBL ∧ p.p_flags = D.SONY_E_FLAGS_APPSBL)) :
    phdr_entry D p = none := by
  obtain ⟨⟨⟨⟨⟨h0, h1⟩, h2⟩, h3⟩, h4⟩, h5⟩ := hprev
  rw [phdr_entry, if_neg h0, if_neg h1, if_neg h2, if_neg h3, if_neg h4, if_neg h5]

theorem range_filterMap_succ {β : Type} (F : Nat → Option β) (n : Nat) :
    (List.range (n + 1)).filterMap F
      = (F 0).toList ++ (List.range n).filterMap (fun i => F (i + 1)) := by
  rw [List.range_succ_eq_map, List.filterMap_cons, List.filterMap_map]
  cases F 0 <;> rfl

/-- When the loop over the program headers succeeds, the segments it has added are, in
order, those of the program headers it has read, and the facade is untouched. -/
theorem read_program_headers_ok (D : SonyElfDefs) :
    ∀ (n pos : Nat) (reader : Reader) (file : File) (header : Header)
      (entries : List SegmentReaderEntry), pos < UINT64_MOD →
      (read_program_headers D n pos reader file header entries).1 = true →
      (read_program_headers D n pos reader file header entries).2.2.2.2
        = entries ++ (List.range n).filterMap
            (fun i => phdr_entry D (Sony_Elf32_Phdr.of_bytes (slice file.data (pos + 32 * i) 32)))
      ∧ (read_program_headers D n pos reader file header entries).2.1 = reader := by
  intro n
  induction n with
  | zero =>
    intro pos reader file header entries _ _
    simp [read_program_headers]
  | succ n ih =>
    intro pos reader file header entries hpos h
    rw [read_program_headers] at h ⊢
    rcases seek_set_cases file (to_int64 pos) with ⟨e, he⟩ | ⟨hio, h0, he⟩
    · rw [he] at h; simp at h
    obtain ⟨hp63, hto⟩ := to_int64_nonneg pos hpos h0
    rw [he] at h ⊢
    simp only [hto] at h ⊢
    rcases read_exact_cases { file with pos := pos } sizeof_Sony_Elf32_Phdr with
      ⟨e, f', hr, _⟩ | ⟨_, hlen, hr⟩
    · rw [hr] at h; simp at h
    rw [hr] at h ⊢
    simp only [sizeof_Sony_Elf32_Phdr] at h ⊢
    have hmod : (pos + 32) % UINT64_MOD = pos + 32 :=
      Nat.mod_eq_of_lt (by simp only [UINT64_MOD]; omega)
    have hnext : pos + 32 < UINT64_MOD := by simp only [UINT64_MOD]; omega
    rw [hmod] at h ⊢
    rw [range_filterMap_succ]
    simp only [Nat.mul_zero, Nat.add_zero]
    have hshift : ∀ i, pos + 32 * (i + 1) = pos + 32 + 32 * i := by intro i; omega
    simp only [hshift]
    generalize Sony_Elf32_Phdr.of_bytes (slice file.data pos 32) = p at h ⊢
    by_cases c0 : p.p_type = D.SONY_E_TYPE_CMDLINE ∧ p.p_flags = D.SONY_E_FLAGS_CMDLINE
    · rw [if_pos c0] at h ⊢
      have hF : phdr_entry D p = none := by simp only [phdr_entry, c0, and_self, if_true]
      rw [hF]
      by_cases c1 : p.p_memsz ≥ 512
      · rw [if_pos c1] at h; simp at h
      rw [if_neg c1] at h ⊢
      rcases seek_set_cases { file with pos := pos + 32 } (p.p_offset : Int) with
        ⟨e, he2⟩ | ⟨_, _, he2⟩
      · rw [he2] at h; simp at h
      rw [he2] at h ⊢
      simp only [Int.toNat_ofNat] at h ⊢
      rcases read_exact_cases { file with pos := p.p_offset } p.p_memsz with
        ⟨e, f', hr2, _⟩ | ⟨_, _, hr2⟩
      · rw [hr2] at h; simp at h
      rw [hr2] at h ⊢
      simp only [] at h ⊢
      have := ih (pos + 32) reader _ _ entries hnext h
      simp only [Option.toList, List.nil_append]
      exact this
    rw [if_neg c0] at h ⊢
    have hprev := c0
    clear c0
    by_cases c0 : p.p_type = D.SONY_E_TYPE_KERNEL ∧ p.p_flags = D.SONY_E_FLAGS_KERNEL
    · rw [if_pos c0] at h ⊢
      obtain ⟨i1, i2⟩ := ih (pos + 32) reader _ _ _ hnext h
      refine ⟨?_, i2⟩
      rw [i1, List.append_assoc]
      congr 1
      have hF := phdr_entry_kernel D p hprev c0
      rw [hF]
      rfl
    have hprev := And.intro hprev c0
    rw [if_neg c0] at h ⊢
    clear c0
    by_cases c0 : p.p_type = D.SONY_E_TYPE_RAMDISK ∧ p.p_flags = D.SONY_E_FLAGS_RAMDISK
    · rw [if_pos c0] at h ⊢
      obtain ⟨i1, i2⟩ := ih (pos + 32) reader _ _ _ hnext h
      refine ⟨?_, i2⟩
      rw [i1, List.append_assoc]
      congr 1
      have hF := phdr_entry_ramdisk D p hprev c0
      rw [hF]
      rfl
    have hprev := And.intro hprev c0
    rw [if_neg c0] at h ⊢
    clear c0
    by_cases c0 : p.p_type = D.SONY_E_TYPE_IPL ∧ p.p_flags = D.SONY_E_FLAGS_IPL
    · rw [if_pos c0] at h ⊢
      obtain ⟨i1, i2⟩ := ih (pos + 32) reader _ _ _ hnext h
      refine ⟨?_, i2⟩
      rw [i1, List.append_assoc]
      congr 1
      have hF := phdr_entry_ipl D p hprev c0
      rw [hF]
      rfl
    have hprev := And.intro hprev c0
    rw [if_neg c0] at h ⊢
    clear c0
    by_cases c0 : p.p_type = D.SONY_E_TYPE_RPM ∧ p.p_flags = D.SONY_E_FLAGS_RPM
    · rw [if_pos c0] at h ⊢
      obtain ⟨i1, i2⟩ := ih (pos + 32) reader _ _ _ hnext h
      refine ⟨?_, i2⟩
      rw [i1, List.append_assoc]
      congr 1
      have hF := phdr_entry_rpm D p hprev c0
      rw [hF]
      rfl
    have hprev := And.intro hprev c0
    rw [if_neg c0] at h ⊢
    clear c0
    by_cases c0 : p.p_type = D.SONY_E_TYPE_APPSBL ∧ p.p_flags = D.SONY_E_FLAGS_APPSBL
    · rw [if_pos c0] at h ⊢
      obtain ⟨i1, i2⟩ := ih (pos + 32) reader _ _ _ hnext h
      refine ⟨?_, i2⟩
      rw [i1, List.append_assoc]
      congr 1
      have hF := phdr_entry_appsbl D p hprev c0
      rw [hF]
      rfl
    have hprev := And.intro hprev c0
    rw [if_neg c0] at h ⊢
    have hF : phdr_entry D p = none := phdr_entry_other D p hprev
    rw [hF]
    by_cases c1 : p.p_type = D.SONY_E_TYPE_SIN
    · rw [if_pos c1] at h ⊢
      have := ih (pos + 32) reader _ _ entries hnext h
      simp only [Option.toList, List.nil_append]
      exact this
    · rw [if_neg c1] at h; simp at h

/-! ## Entries per type in the Sony ELF segment list -/

theorem find_sony_elf_header_data (D : SonyElfDefs) (reader : Reader) (file : File)
    (header_out : Sony_Elf32_Ehdr) :
    (find_sony_elf_header D reader file header_out).2.2.1.data = file.data := by
  unfold find_sony_elf_header
  rcases seek_set_cases file 0 with ⟨e, he⟩ | ⟨_, _, he⟩
  · rw [he]
  · rw [he]
    simp only [Int.toNat_zero]
    rcases read_exact_cases { file with pos := 0 } sizeof_Sony_Elf32_Ehdr with
      ⟨e, f', hr, hd, _⟩ | ⟨_, _, hr⟩
    · rw [hr]
      simp only []
      split <;> exact hd
    · rw [hr]
      simp only []
      split <;> rfl

/-- Reading the header with a cached ELF header: the installed list. -/
theorem sony_read_header_cached (D : SonyElfDefs) (self : SonyElfFormatReader)
    (file : File) (header : Header) (hh : self._have_header = true)
    (hok : (self.read_header D file header).1 = true) :
    (self.read_header D file header).2.1._seg.entries
      = (List.range self._hdr.e_phnum).filterMap (fun i => phdr_entry D (phdr_at file.data i))
    ∧ (self.read_header D file header).2.1._hdr = self._hdr := by
  have h52 : (0 + sizeof_Sony_Elf32_Ehdr) % UINT64_MOD = 52 := by decide
  unfold SonyElfFormatReader.read_header at hok ⊢
  simp only [h52, hh, Bool.true_eq_false, if_false] at hok ⊢
  have hrp := read_program_headers_ok D self._hdr.e_phnum 52 self._reader file
    ((header.set_supported_fields SONY_ELF_SUPPORTED_FIELDS).set_entrypoint_address
      (some self._hdr.e_entry)).2 [] (by decide)
  generalize read_program_headers D self._hdr.e_phnum 52 self._reader file
    ((header.set_supported_fields SONY_ELF_SUPPORTED_FIELDS).set_entrypoint_address
      (some self._hdr.e_entry)).2 [] = r at hok hrp ⊢
  obtain ⟨b, reader, file2, header3, entries⟩ := r
  cases b with
  | false => simp at hok
  | true =>
    simp only [] at hok ⊢
    obtain ⟨hent, _⟩ := hrp rfl
    simp only [List.nil_append] at hent
    have hset := set_entries_ok self._seg reader entries hok
    refine ⟨?_, trivial⟩
    rw [hset.1, hent]
    rfl

/-- Reading the header without a cached ELF header: the ELF header is located first. -/
theorem sony_read_header_uncached (D : SonyElfDefs) (self : SonyElfFormatReader)
    (file : File) (header : Header) (hh : self._have_header = false) :
    ((find_sony_elf_header D self._reader file self._hdr).1 = false →
      (self.read_header D file header).1 = false
      ∧ (self.read_header D file header).2.1._reader
          = (find_sony_elf_header D self._reader file self._hdr).2.1
      ∧ (self.read_header D file header).2.1._seg = self._seg)
    ∧ ((find_sony_elf_header D self._reader file self._hdr).1 = true →
      self.read_header D file header
        = SonyElfFormatReader.read_header D
            { self with
              _reader := (find_sony_elf_header D self._reader file self._hdr).2.1
              _hdr := (find_sony_elf_header D self._reader file self._hdr).2.2.2
              _have_header := true }
            (find_sony_elf_header D self._reader file self._hdr).2.2.1 header) := by
  unfold SonyElfFormatReader.read_header
  simp only [hh, if_true, Bool.true_eq_false, if_false]
  generalize find_sony_elf_header D self._reader file self._hdr = r
  obtain ⟨b, reader1, file1, hdr1⟩ := r
  cases b with
  | false =>
    refine ⟨fun _ => ?_, fun h => ?_⟩
    · simp
    · simp at h
  | true =>
    refine ⟨fun h => ?_, fun _ => ?_⟩
    · simp at h
    · rfl

/-- After a successful `read_header` the installed segment list holds, in program header
order, one entry for every program header of a segment kind. -/
theorem sony_read_header_ok_entries (D : SonyElfDefs) (self : SonyElfFormatReader)
    (file : File) (header : Header)
    (hok : (self.read_header D file header).1 = true) :
    (self.read_header D file header).2.1._seg.entries
      = (List.range (self.read_header D file header).2.1._hdr.e_phnum).filterMap
          (fun i => phdr_entry D (phdr_at file.data i)) := by
  cases hh : self._have_header with
  | true =>
    obtain ⟨h1, h2⟩ := sony_read_header_cached D self file header hh hok
    rw [h1, h2]
  | false =>
    obtain ⟨hf, ht⟩ := sony_read_header_uncached D self file header hh
    cases hfind : (find_sony_elf_header D self._reader file self._hdr).1 with
    | false =>
      rw [(hf hfind).1] at hok
      cases hok
    | true =>
      have hd := find_sony_elf_header_data D self._reader file self._hdr
      have heq := ht hfind
      rw [heq] at hok ⊢
      obtain ⟨h1, h2⟩ := sony_read_header_cached D _ _ header rfl hok
      rw [h1, h2, hd]

set_option maxRecDepth 1000000 in
/-- Counterexample to C13: a file whose ELF header announces two program headers, both of
the kernel kind.  `read_header` succeeds and the installed segment list holds two kernel
entries. -/
theorem C13_counterexample :
    ((SonyElfFormatReader.new Reader.init).read_header sony_elf_defs
        (File.of_bytes two_kernels_image 0) Header.empty).1 = true
    ∧ ((SonyElfFormatReader.new Reader.init).read_header sony_elf_defs
        (File.of_bytes two_kernels_image 0) Header.empty).2.1._seg.entries
        = [⟨ENTRY_TYPE_KERNEL, 4096, 4, false⟩, ⟨ENTRY_TYPE_KERNEL, 8192, 4, false⟩] := by
  decide

/-- C13 (amended): for every file on which `read_header` succeeds, the installed segment
list holds, in program header order, exactly one entry for every program header (among
the `e_phnum` ones of the file) whose `(type, flags)` pair is the kernel, ramdisk, ipl, rpm
or appsbl pair, so an entry type occurs as often as its pair occurs among the program
headers; in particular the list holds at most one entry of each type whenever the
`(type, flags)` pairs of the program headers are pairwise distinct. -/
theorem C13_one_entry_per_program_header (D : SonyElfDefs) (self : SonyElfFormatReader)
    (file : File) (header : Header)
    (hok : (self.read_header D file header).1 = true) :
    (self.read_header D file header).2.1._seg.entries
      = (List.range (self.read_header D file header).2.1._hdr.e_phnum).filterMap
          (fun i => phdr_entry D (phdr_at file.data i))
    ∧ (((List.range (self.read_header D file header).2.1._hdr.e_phnum).map
          (fun i => ((phdr_at file.data i).p_type, (phdr_at file.data i).p_flags))).Nodup →
        ((self.read_header D file header).2.1._seg.entries.map (fun en => en.type)).Nodup) := by
  have hent := sony_read_header_ok_entries D self file header hok
  refine ⟨hent, ?_⟩
  intro hnd
  rw [hent, List.map_filterMap]
  have hfun : (fun i => (phdr_entry D (phdr_at file.data i)).map (fun en => en.type))
      = (fun i => pair_entry_type D
          ((phdr_at file.data i).p_type, (phdr_at file.data i).p_flags)) := by
    funext i
    exact phdr_entry_type D _
  have hcomp : (List.range (self.read_header D file header).2.1._hdr.e_phnum).filterMap
        (fun i => (phdr_entry D (phdr_at file.data i)).map (fun en => en.type))
      = ((List.range (self.read_header D file header).2.1._hdr.e_phnum).map
          (fun i => ((phdr_at file.data i).p_type, (phdr_at file.data i).p_flags))).filterMap
          (pair_entry_type D) := by
    rw [hfun, List.filterMap_map]
    rfl
  rw [hcomp]
  exact List.Nodup.filterMap
    (fun q q' t hq hq' => pair_entry_type_inj D q q' t (by simpa using hq) (by simpa using hq'))
    hnd

set_option maxRecDepth 1000000 in
/-- Witness of C13 (amended): the file with two kernel program headers. -/
theorem C13_one_entry_per_program_header_witness :
    ((SonyElfFormatReader.new Reader.init).read_header sony_elf_defs
        (File.of_bytes two_kernels_image 0) Header.empty).2.1._seg.entries
      = (List.range ((SonyElfFormatReader.new Reader.init).read_header sony_elf_defs
          (File.of_bytes two_kernels_image 0) Header.empty).2.1._hdr.e_phnum).filterMap
          (fun i => phdr_entry sony_elf_defs
            (phdr_at (File.of_bytes two_kernels_image 0).data i)) :=
  (C13_one_entry_per_program_header sony_elf_defs (SonyElfFormatReader.new Reader.init)
    (File.of_bytes two_kernels_image 0) Header.empty (by decide)).1

/-! ## The `strict` option -/

/-- The truncation flags of the segment list: only the device tree entry carries the
reader's flag, and it is present when the header declares a device tree. -/
theorem android_entries_truncation (hdr : AndroidHeader) (ho ps : Nat) (b : Bool) :
    (∀ e ∈ android_entries hdr ho ps b,
        e.can_truncate = (decide (e.type = ENTRY_TYPE_DEVICE_TREE) && b))
    ∧ (hdr.dt_size > 0 →
        ∃ e ∈ android_entries hdr ho ps b,
          e.type = ENTRY_TYPE_DEVICE_TREE ∧ e.size = hdr.dt_size ∧ e.can_truncate = b) := by
  rw [android_entries_eq]
  constructor
  · intro e he
    by_cases h1 : hdr.second_size > 0 <;> by_cases h2 : hdr.dt_size > 0 <;>
      simp only [h1, h2, if_true, if_false, List.append_nil, List.cons_append, List.nil_append,
        List.mem_cons, List.mem_singleton, List.not_mem_nil, or_false] at he <;>
      rcases he with rfl | rfl | rfl | rfl <;>
      simp [ENTRY_TYPE_KERNEL, ENTRY_TYPE_RAMDISK, ENTRY_TYPE_SECONDBOOT, ENTRY_TYPE_DEVICE_TREE]
  · intro hdt
    refine ⟨⟨ENTRY_TYPE_DEVICE_TREE,
      advance (advance (advance (advance (ho % UINT64_MOD) sizeof_AndroidHeader ps)
        hdr.kernel_size ps) hdr.ramdisk_size ps) hdr.second_size ps, hdr.dt_size, b⟩,
      ?_, rfl, rfl, rfl⟩
    simp [hdt]

/-- C14: `set_option("strict", v)` returns true for every value `v`, in particular for
`true`, `false`, `yes`, `no`, `y`, `n`, `1`, `0`, and selects strict mode (clears
`_allow_truncated_dt`) exactly when `v` is `true`, `yes` or `y` compared
case-insensitively or is exactly `1`; a freshly constructed reader allows truncation;
and after a successful `read_header` of any reader the device tree entry, present when
`dt_size > 0`, carries the reader's flag (false in strict mode, true otherwise) while
every other entry has `allow_truncation = false`. -/
theorem C14_strict_option (self : AndroidFormatReader) (v : List Nat) (file : File)
    (header : Header) :
    (self.set_option STR_strict v).1 = true
    ∧ ((self.set_option STR_strict v).2._allow_truncated_dt = false
        ↔ (v.map c_tolower = STR_true ∨ v.map c_tolower = STR_yes ∨ v.map c_tolower = STR_y
            ∨ v = STR_1))
    ∧ (∀ (reader : Reader) (is_bump : Bool),
        (AndroidFormatReader.new reader is_bump)._allow_truncated_dt = true)
    ∧ ((read_header self file header).ok = true →
        (∀ e ∈ (read_header self file header).self._seg.entries,
          e.can_truncate
            = (decide (e.type = ENTRY_TYPE_DEVICE_TREE) && self._allow_truncated_dt))
        ∧ ((read_header self file header).self._hdr.dt_size > 0 →
          ∃ e ∈ (read_header self file header).self._seg.entries,
            e.type = ENTRY_TYPE_DEVICE_TREE
            ∧ e.size = (read_header self file header).self._hdr.dt_size
            ∧ e.can_truncate = self._allow_truncated_dt)) := by
  refine ⟨?_, ?_, fun _ _ => rfl, ?_⟩
  · simp [AndroidFormatReader.set_option, strcmp_eq]
  · have h1 : STR_true.map c_tolower = STR_true := by decide
    have h2 : STR_yes.map c_tolower = STR_yes := by decide
    have h3 : STR_y.map c_tolower = STR_y := by decide
    simp [AndroidFormatReader.set_option, strcmp_eq, strcasecmp_eq, h1, h2, h3]
    tauto
  · intro hok
    obtain ⟨ho, _, hent, _⟩ := read_header_ok_entries self file header hok
    rw [hent]
    exact android_entries_truncation _ _ _ _

set_option maxRecDepth 1000000 in
/-- Witness of C14: a file that consists of a header with a device tree of 4 bytes, read
by a reader on which `strict` was set to `YES` and by one on which it was set to `no`. -/
theorem C14_strict_option_witness :
    ((AndroidFormatReader.new Reader.init false).set_option STR_strict
        STR_YES_upper).2._allow_truncated_dt = false
    ∧ ((AndroidFormatReader.new Reader.init false).set_option STR_strict
        STR_no).2._allow_truncated_dt = true
    ∧ (∃ e ∈ (read_header
          ((AndroidFormatReader.new Reader.init false).set_option STR_strict STR_YES_upper).2
          (File.of_bytes dt_android_header.to_bytes 0) Header.empty).self._seg.entries,
        e.type = ENTRY_TYPE_DEVICE_TREE
        ∧ e.size = (read_header
            ((AndroidFormatReader.new Reader.init false).set_option STR_strict STR_YES_upper).2
            (File.of_bytes dt_android_header.to_bytes 0) Header.empty).self._hdr.dt_size
        ∧ e.can_truncate
          = ((AndroidFormatReader.new Reader.init false).set_option STR_strict
              STR_YES_upper).2._allow_truncated_dt) :=
  ⟨by decide, by decide,
   ((C14_strict_option
      ((AndroidFormatReader.new Reader.init false).set_option STR_strict STR_YES_upper).2
      STR_YES_upper (File.of_bytes dt_android_header.to_bytes 0) Header.empty).2.2.2
      (by decide)).2 (by decide)⟩

/-! ## Bids as functions of the file contents -/

/-- On a healthy file `find_header` is determined by `located_header`. -/
theorem find_header_located (reader : Reader) (file : File) (header_out : AndroidHeader)
    (offset_out : Nat) (hio : file.io_ok = true) :
    (∀ o hdr, located_header file.data = some (o, hdr) →
      find_header reader file MAX_HEADER_OFFSET header_out offset_out
        = ⟨true, reader, { file with pos := (file.data.take 1120).length }, hdr, o⟩)
    ∧ (located_header file.data = none →
      (find_header reader file MAX_HEADER_OFFSET header_out offset_out).ok = false
      ∧ ((find_header reader file MAX_HEADER_OFFSET header_out offset_out).reader.error
            = some .HeaderNotFound
          ∨ (find_header reader file MAX_HEADER_OFFSET header_out offset_out).reader.error
            = some .HeaderOutOfBounds)
      ∧ (find_header reader file MAX_HEADER_OFFSET header_out offset_out).header_out = header_out
      ∧ (find_header reader file MAX_HEADER_OFFSET header_out offset_out).file
          = { file with pos := (file.data.take 1120).length }) := by
  rw [find_header_healthy _ _ _ _ hio]
  unfold located_header
  cases mb_memmem (file.data.take 1120) BOOT_MAGIC with
  | none =>
    refine ⟨fun o hdr h => by simp at h, fun _ => ⟨rfl, Or.inl rfl, rfl, rfl⟩⟩
  | some o =>
    simp only []
    by_cases hlt : (file.data.take 1120).length - o < 608
    · rw [if_pos hlt, if_pos hlt]
      exact ⟨fun o hdr h => by simp at h, fun _ => ⟨rfl, Or.inr rfl, rfl, rfl⟩⟩
    · rw [if_neg hlt, if_neg hlt]
      refine ⟨fun o' hdr h => ?_, fun h => by simp at h⟩
      simp only [Option.some.injEq, Prod.mk.injEq] at h
      obtain ⟨rfl, rfl⟩ := h
      rfl

theorem trailer_position_lt (hdr : AndroidHeader) : trailer_position hdr < UINT64_MOD := by
  unfold trailer_position advance
  exact Nat.mod_lt _ (by decide)

theorem to_int64_neg (pos : Nat) (h : pos < UINT64_MOD) (h63 : 2 ^ 63 ≤ pos) :
    to_int64 pos < 0 := by
  unfold to_int64
  rw [Nat.mod_eq_of_lt h]
  simp only [UINT64_MOD] at h
  have : ¬ pos < 2 ^ 63 := by omega
  simp only [this, if_false]
  omega

theorem find_samsung_seandroid_magic_eq (reader : Reader) (file : File)
    (hdr : AndroidHeader) (offset_out : Nat) :
    find_samsung_seandroid_magic reader file hdr offset_out
      = find_trailer_magic SAMSUNG_SEANDROID_MAGIC SAMSUNG_SEANDROID_MAGIC_SIZE
          .SamsungMagicNotFound reader file hdr offset_out := rfl

theorem find_bump_magic_eq (B : BumpDefs) (reader : Reader) (file : File)
    (hdr : AndroidHeader) (offset_out : Nat) :
    find_bump_magic B reader file hdr offset_out
      = find_trailer_magic B.BUMP_MAGIC B.BUMP_MAGIC_SIZE .BumpMagicNotFound reader file hdr
          offset_out := rfl

theorem find_trailer_magic_unhealthy (magic : List Nat) (magic_size : Nat) (not_found : Error)
    (reader : Reader) (file : File) (hdr : AndroidHeader) (offset_out : Nat)
    (hio : file.io_ok = false) :
    find_trailer_magic magic magic_size not_found reader file hdr offset_out
      = (false, (reader.set_error .FileIo).fatal_if file, file, offset_out) := by
  simp [find_trailer_magic, File.seek_set, hio]

/-- The trailer search on a healthy file. -/
theorem find_trailer_magic_healthy (magic : List Nat) (magic_size : Nat) (not_found : Error)
    (reader : Reader) (file : File) (hdr : AndroidHeader) (offset_out : Nat)
    (hio : file.io_ok = true) :
    find_trailer_magic magic magic_size not_found reader file hdr offset_out
      = if 2 ^ 63 ≤ trailer_position hdr then
          (false, (reader.set_error .FileInvalidOffset).fatal_if file, file, offset_out)
        else if (slice file.data (trailer_position hdr) magic_size).length = magic_size
            ∧ slice file.data (trailer_position hdr) magic_size = magic.take magic_size then
          (true, reader,
           { file with
             pos := trailer_position hdr
               + (slice file.data (trailer_position hdr) magic_size).length },
           trailer_position hdr)
        else
          (false, reader.set_error not_found,
           { file with
             pos := trailer_position hdr
               + (slice file.data (trailer_position hdr) magic_size).length },
           offset_out) := by
  have hlt := trailer_position_lt hdr
  unfold find_trailer_magic
  by_cases h63 : 2 ^ 63 ≤ trailer_position hdr
  · have hneg := to_int64_neg _ hlt h63
    rw [if_pos h63]
    simp [File.seek_set, hio, hneg]
  · rw [if_neg h63, to_int64_small _ (by omega), seek_set_healthy file _ hio]
    simp only []
    rw [read_retry_healthy { file with pos := trailer_position hdr } _ hio]
    simp only []
    by_cases hc : (slice file.data (trailer_position hdr) magic_size).length = magic_size
        ∧ slice file.data (trailer_position hdr) magic_size = magic.take magic_size
    · rw [if_pos hc]
      have hn : ¬ ((slice file.data (trailer_position hdr) magic_size).length ≠ magic_size
          ∨ slice file.data (trailer_position hdr) magic_size
            ≠ magic.take (slice file.data (trailer_position hdr) magic_size).length) := by
        intro hor
        rcases hor with h1 | h2
        · exact h1 hc.1
        · rw [hc.1] at h2
          exact h2 hc.2
      rw [if_neg hn]
    · rw [if_neg hc]
      have hp : (slice file.data (trailer_position hdr) magic_size).length ≠ magic_size
          ∨ slice file.data (trailer_position hdr) magic_size
            ≠ magic.take (slice file.data (trailer_position hdr) magic_size).length := by
        by_cases hl : (slice file.data (trailer_position hdr) magic_size).length = magic_size
        · right
          rw [hl]
          exact fun h => hc ⟨hl, h⟩
        · exact Or.inl hl
      rw [if_pos hp]

theorem fatal_if_error (r : Reader) (e : Error) (f : File) :
    ((r.set_error e).fatal_if f).error = some e := by
  unfold Reader.fatal_if
  split <;> rfl

/-- The value and the frame of `bid_android`: the value is a function of the file contents,
the health of the device and `best_bid`; the bid changes neither the contents nor the
health of the file, nor the reader's configuration. -/
theorem bid_android_value (self : AndroidFormatReader) (file : File) (best_bid : Int) :
    (self.bid_android file best_bid).bid
      = trailer_bid_value SAMSUNG_SEANDROID_MAGIC SAMSUNG_SEANDROID_MAGIC_SIZE file.data file.io_ok best_bid
    ∧ (self.bid_android file best_bid).file.data = file.data
    ∧ (self.bid_android file best_bid).file.io_ok = file.io_ok
    ∧ (self.bid_android file best_bid).self._is_bump = self._is_bump
    ∧ (self.bid_android file best_bid).self._allow_truncated_dt = self._allow_truncated_dt
    ∧ (self.bid_android file best_bid).self._seg = self._seg := by
  unfold AndroidFormatReader.bid_android trailer_bid_value
  by_cases hb : best_bid ≥ ((BOOT_MAGIC_SIZE + SAMSUNG_SEANDROID_MAGIC_SIZE : Nat) : Int) * 8
  · simp only [hb, if_true]
    simp
  simp only [hb, if_false]
  by_cases hio : file.io_ok = true
  · obtain ⟨hsome, hnone⟩ := find_header_located self._reader file self._hdr 0 hio
    cases hloc : located_header file.data with
    | none =>
      obtain ⟨h1, h2, h3, h4⟩ := hnone hloc
      simp only [h1, Bool.false_eq_true, if_false, h2, if_true, h4, hio]
      simp
    | some q =>
      obtain ⟨o, hdr⟩ := q
      rw [hsome o hdr hloc]
      simp only [if_true, find_samsung_seandroid_magic_eq]
      rw [find_trailer_magic_healthy _ _ _ _ _ _ _ (by simp only [hio])]
      simp only [hio, Bool.true_eq_false, if_false]
      by_cases h63 : 2 ^ 63 ≤ trailer_position hdr
      · simp only [h63, if_true]
        simp [fatal_if_error]
      · simp only [h63, if_false]
        by_cases hc : (slice file.data (trailer_position hdr) SAMSUNG_SEANDROID_MAGIC_SIZE).length = SAMSUNG_SEANDROID_MAGIC_SIZE
            ∧ slice file.data (trailer_position hdr) SAMSUNG_SEANDROID_MAGIC_SIZE = SAMSUNG_SEANDROID_MAGIC.take SAMSUNG_SEANDROID_MAGIC_SIZE
        · rw [if_pos hc, if_pos hc]
          simp [BOOT_MAGIC_SIZE]
        · rw [if_neg hc, if_neg hc]
          simp [BOOT_MAGIC_SIZE, Reader.set_error]
  · have hio' : file.io_ok = false := by simpa using hio
    rw [find_header_unhealthy _ _ _ _ hio']
    simp [fatal_if_error, hio']

/-- The value and the frame of `bid_bump`: the value is a function of the file contents,
the health of the device and `best_bid`; the bid changes neither the contents nor the
health of the file, nor the reader's configuration. -/
theorem bid_bump_value (B : BumpDefs) (self : AndroidFormatReader) (file : File) (best_bid : Int) :
    (self.bid_bump B file best_bid).bid
      = trailer_bid_value B.BUMP_MAGIC B.BUMP_MAGIC_SIZE file.data file.io_ok best_bid
    ∧ (self.bid_bump B file best_bid).file.data = file.data
    ∧ (self.bid_bump B file best_bid).file.io_ok = file.io_ok
    ∧ (self.bid_bump B file best_bid).self._is_bump = self._is_bump
    ∧ (self.bid_bump B file best_bid).self._allow_truncated_dt = self._allow_truncated_dt
    ∧ (self.bid_bump B file best_bid).self._seg = self._seg := by
  unfold AndroidFormatReader.bid_bump trailer_bid_value
  by_cases hb : best_bid ≥ ((BOOT_MAGIC_SIZE + B.BUMP_MAGIC_SIZE : Nat) : Int) * 8
  · simp only [hb, if_true]
    simp
  simp only [hb, if_false]
  by_cases hio : file.io_ok = true
  · obtain ⟨hsome, hnone⟩ := find_header_located self._reader file self._hdr 0 hio
    cases hloc : located_header file.data with
    | none =>
      obtain ⟨h1, h2, h3, h4⟩ := hnone hloc
      simp only [h1, Bool.false_eq_true, if_false, h2, if_true, h4, hio]
      simp
    | some q =>
      obtain ⟨o, hdr⟩ := q
      rw [hsome o hdr hloc]
      simp only [if_true, find_bump_magic_eq]
      rw [find_trailer_magic_healthy _ _ _ _ _ _ _ (by simp only [hio])]
      simp only [hio, Bool.true_eq_false, if_false]
      by_cases h63 : 2 ^ 63 ≤ trailer_position hdr
      · simp only [h63, if_true]
        simp [fatal_if_error]
      · simp only [h63, if_false]
        by_cases hc : (slice file.data (trailer_position hdr) B.BUMP_MAGIC_SIZE).length = B.BUMP_MAGIC_SIZE
            ∧ slice file.data (trailer_position hdr) B.BUMP_MAGIC_SIZE = B.BUMP_MAGIC.take B.BUMP_MAGIC_SIZE
        · rw [if_pos hc, if_pos hc]
          simp [BOOT_MAGIC_SIZE]
        · rw [if_neg hc, if_neg hc]
          simp [BOOT_MAGIC_SIZE, Reader.set_error]
  · have hio' : file.io_ok = false := by simpa using hio
    rw [find_header_unhealthy _ _ _ _ hio']
    simp [fatal_if_error, hio']

/-- The value and the frame of the Sony ELF bid. -/
theorem sony_bid_value_eq (D : SonyElfDefs) (self : SonyElfFormatReader) (file : File)
    (best_bid : Int) :
    (self.bid D file best_bid).bid = sony_bid_value D file.data file.io_ok best_bid
    ∧ (self.bid D file best_bid).file.data = file.data
    ∧ (self.bid D file best_bid).file.io_ok = file.io_ok
    ∧ (self.bid D file best_bid).self._seg = self._seg := by
  unfold SonyElfFormatReader.bid sony_bid_value
  by_cases hb : best_bid ≥ (D.SONY_EI_NIDENT : Int) * 8
  · simp only [hb, if_true]
    simp
  simp only [hb, if_false]
  by_cases hio : file.io_ok = true
  · unfold find_sony_elf_header
    have h0 : file.seek_set 0 = (.ok 0, { file with pos := 0 }) := seek_set_healthy file 0 hio
    rw [h0]
    simp only [Int.toNat_zero, hio, Bool.true_eq_false, if_false]
    have hsl : (slice file.data 0 sizeof_Sony_Elf32_Ehdr).length
        = min sizeof_Sony_Elf32_Ehdr file.data.length := by
      rw [slice_length]; simp
    by_cases hlen : file.data.length < sizeof_Sony_Elf32_Ehdr
    · have hshort : (slice file.data 0 sizeof_Sony_Elf32_Ehdr).length < sizeof_Sony_Elf32_Ehdr := by
        rw [hsl]; omega
      simp [file_read_exact, hio, hshort, hlen, Reader.set_error, Error.is_sony_elf]
    · have hfull : ¬ (slice file.data 0 sizeof_Sony_Elf32_Ehdr).length < sizeof_Sony_Elf32_Ehdr := by
        rw [hsl]; omega
      have hid : slice (slice file.data 0 sizeof_Sony_Elf32_Ehdr) 0 16 = slice file.data 0 16 := by
        simp [slice, sizeof_Sony_Elf32_Ehdr, List.take_take]
      simp only [file_read_exact, hio, Bool.true_eq_false, if_false, hfull, hlen, hid]
      by_cases hm : (slice file.data 0 16).take D.SONY_EI_NIDENT
          ≠ D.SONY_E_IDENT.take D.SONY_EI_NIDENT
      · rw [if_pos hm, if_pos hm]
        simp [Reader.set_error, Error.is_sony_elf]
      · rw [if_neg hm, if_neg hm]
        simp
  · have hio' : file.io_ok = false := by simpa using hio
    simp [find_sony_elf_header, File.seek_set, hio', fatal_if_error, Error.is_sony_elf]

/-- A successful `find_header` hands out the located header. -/
theorem located_of_find_header (reader : Reader) (file : File) (header_out : AndroidHeader)
    (offset_out : Nat)
    (h : (find_header reader file MAX_HEADER_OFFSET header_out offset_out).ok = true) :
    file.io_ok = true
    ∧ located_header file.data
        = some ((find_header reader file MAX_HEADER_OFFSET header_out offset_out).offset_out,
                (find_header reader file MAX_HEADER_OFFSET header_out offset_out).header_out)
    ∧ (find_header reader file MAX_HEADER_OFFSET header_out offset_out).reader = reader
    ∧ (find_header reader file MAX_HEADER_OFFSET header_out offset_out).file
        = { file with pos := (file.data.take 1120).length } := by
  obtain ⟨hio, _, _, hr, hf⟩ := find_header_ok reader file header_out offset_out h
  obtain ⟨hsome, hnone⟩ := find_header_located reader file header_out offset_out hio
  refine ⟨hio, ?_, hr, hf⟩
  cases hloc : located_header file.data with
  | none =>
    rw [(hnone hloc).1] at h
    cases h
  | some q =>
    obtain ⟨o, hdr⟩ := q
    rw [hsome o hdr hloc]

/-- A failing `find_header` on a healthy file: nothing is located. -/
theorem located_none_of_find_header (reader : Reader) (file : File)
    (header_out : AndroidHeader) (offset_out : Nat) (hio : file.io_ok = true)
    (h : (find_header reader file MAX_HEADER_OFFSET header_out offset_out).ok = false) :
    located_header file.data = none := by
  obtain ⟨hsome, _⟩ := find_header_located reader file header_out offset_out hio
  cases hloc : located_header file.data with
  | none => rfl
  | some q =>
    obtain ⟨o, hdr⟩ := q
    rw [hsome o hdr hloc] at h
    cases h

theorem advance_zero_page (pos size : Nat) : advance pos size 0 = 0 := by
  unfold advance align_page_size
  have hlt : (pos + size) % UINT64_MOD < UINT64_MOD := Nat.mod_lt _ (by decide)
  generalize (pos + size) % UINT64_MOD = p at hlt
  simp only [Nat.mod_zero, Nat.mod_eq_of_lt hlt]
  rcases Nat.eq_zero_or_pos p with h0 | hp
  · subst h0
    simp
  · have h1 : (UINT64_MOD - p) % UINT64_MOD = UINT64_MOD - p :=
      Nat.mod_eq_of_lt (by omega)
    rw [h1, show p + (UINT64_MOD - p) = UINT64_MOD by omega, Nat.mod_self]

/-- With 32-bit header words the trailer position fits a non-negative `int64_t`. -/
theorem trailer_position_small (hdr : AndroidHeader) (hfit : hdr.words_fit) :
    trailer_position hdr < 2 ^ 63 := by
  obtain ⟨hk, hr, hs, hd, hp⟩ := hfit
  simp only [UINT32_MOD, Nat.reducePow] at hk hr hs hd hp
  unfold trailer_position
  rcases Nat.eq_zero_or_pos hdr.page_size with h0 | hpos
  · rw [h0, advance_zero_page]
    decide
  · have hm : (0 + hdr.page_size) % UINT64_MOD = hdr.page_size := by
      rw [Nat.zero_add]
      exact Nat.mod_eq_of_lt (by simp only [UINT64_MOD]; omega)
    rw [hm]
    have e1 := advance_eq_up hdr.page_size hdr.kernel_size hdr.page_size hpos
      (by simp only [UINT64_MOD]; omega)
    rw [e1.1]
    have e2 := advance_eq_up (up (hdr.page_size + hdr.kernel_size) hdr.page_size)
      hdr.ramdisk_size hdr.page_size hpos (by simp only [UINT64_MOD]; omega)
    rw [e2.1]
    have e3 := advance_eq_up _ hdr.second_size hdr.page_size hpos
      (by simp only [UINT64_MOD]; omega :
        up (up (hdr.page_size + hdr.kernel_size) hdr.page_size + hdr.ramdisk_size) hdr.page_size
          + hdr.second_size + hdr.page_size ≤ UINT64_MOD)
    rw [e3.1]
    have e4 := advance_eq_up _ hdr.dt_size hdr.page_size hpos
      (by simp only [UINT64_MOD]; omega :
        up (up (up (hdr.page_size + hdr.kernel_size) hdr.page_size + hdr.ramdisk_size)
          hdr.page_size + hdr.second_size) hdr.page_size + hdr.dt_size + hdr.page_size
          ≤ UINT64_MOD)
    rw [e4.1]
    omega

/-- On a file of bytes the located header has 32-bit words. -/
theorem located_header_fits (data : List Nat) (hbytes : ∀ x ∈ data, x < 256) (o : Nat)
    (hdr : AndroidHeader) (h : located_header data = some (o, hdr)) : hdr.words_fit := by
  unfold located_header at h
  cases hm : mb_memmem (data.take 1120) BOOT_MAGIC with
  | none => rw [hm] at h; cases h
  | some o' =>
    rw [hm] at h
    simp only [] at h
    by_cases hlt : (data.take 1120).length - o' < 608
    · rw [if_pos hlt] at h; cases h
    · rw [if_neg hlt] at h
      simp only [Option.some.injEq, Prod.mk.injEq] at h
      rw [← h.2]
      exact of_bytes_words_fit _
        (fun x hx => hbytes x (List.mem_of_mem_take (slice_mem _ _ _ _ hx)))

/-! ## The bid contest between the Bump and the Android reader -/

theorem bump_defs_valid : bump_defs.valid := by decide

/-- C15: on every file on which the Bump reader's `find_header` finds the Android header
and its `find_bump_magic` finds the 16-byte Bump magic at the trailer position,
`bid_bump` with `best_bid < 192` returns `64 + 16 * 8 = 192`, and `bid_android` of any
Android reader on the same file contents (whatever the cursor) with `best_bid < 192`
returns exactly 64. -/
theorem C15_bump_outbids_android (B : BumpDefs) (hB : B.valid)
    (sb sa : AndroidFormatReader) (file file' : File) (best_bid best_bid' : Int)
    (hbest : best_bid < 192) (hbest' : best_bid' < 192)
    (hdata : file'.data = file.data) (hio' : file'.io_ok = file.io_ok)
    (hfound : (find_header sb._reader file MAX_HEADER_OFFSET sb._hdr 0).ok = true)
    (hbump : (find_bump_magic B
        (find_header sb._reader file MAX_HEADER_OFFSET sb._hdr 0).reader
        (find_header sb._reader file MAX_HEADER_OFFSET sb._hdr 0).file
        (find_header sb._reader file MAX_HEADER_OFFSET sb._hdr 0).header_out 0).1 = true) :
    (sb.bid_bump B file best_bid).bid = 192
    ∧ (sa.bid_android file' best_bid').bid = 64
    ∧ (sa.bid_android file' best_bid').bid < (sb.bid_bump B file best_bid).bid := by
  obtain ⟨hsz, hlen, hne⟩ := hB
  obtain ⟨hio, hloc, _, hfile⟩ := located_of_find_header _ _ _ _ hfound
  rw [find_bump_magic_eq, hfile,
    find_trailer_magic_healthy _ _ _ _ _ _ _ (by simp only [hio])] at hbump
  simp only [hsz] at hbump
  have h63 : ¬ 2 ^ 63 ≤ trailer_position
      (find_header sb._reader file MAX_HEADER_OFFSET sb._hdr 0).header_out := by
    intro h
    rw [if_pos h] at hbump
    cases hbump
  rw [if_neg h63] at hbump
  have hc : (slice file.data (trailer_position
        (find_header sb._reader file MAX_HEADER_OFFSET sb._hdr 0).header_out) 16).length = 16
      ∧ slice file.data (trailer_position
        (find_header sb._reader file MAX_HEADER_OFFSET sb._hdr 0).header_out) 16
        = B.BUMP_MAGIC.take 16 := by
    by_contra hcn
    rw [if_neg hcn] at hbump
    cases hbump
  have htake : B.BUMP_MAGIC.take 16 = B.BUMP_MAGIC := by
    rw [← hsz, ← hlen, List.take_length]
  have hsam : ¬ ((slice file.data (trailer_position
        (find_header sb._reader file MAX_HEADER_OFFSET sb._hdr 0).header_out) 16).length = 16
      ∧ slice file.data (trailer_position
        (find_header sb._reader file MAX_HEADER_OFFSET sb._hdr 0).header_out) 16
        = SAMSUNG_SEANDROID_MAGIC.take 16) := by
    rintro ⟨_, h2⟩
    rw [hc.2, htake] at h2
    exact hne h2
  have hv1 : (sb.bid_bump B file best_bid).bid = 192 := by
    rw [(bid_bump_value B sb file best_bid).1]
    unfold trailer_bid_value
    have hb : ¬ best_bid ≥ ((BOOT_MAGIC_SIZE + B.BUMP_MAGIC_SIZE : Nat) : Int) * 8 := by
      rw [hsz]; simp only [BOOT_MAGIC_SIZE]; omega
    rw [if_neg hb, hio, hloc]
    simp only [Bool.true_eq_false, if_false, hsz]
    rw [if_neg h63, if_pos hc]
    rfl
  have hv2 : (sa.bid_android file' best_bid').bid = 64 := by
    rw [(bid_android_value sa file' best_bid').1, hdata, hio']
    unfold trailer_bid_value
    have hb : ¬ best_bid' ≥ ((BOOT_MAGIC_SIZE + SAMSUNG_SEANDROID_MAGIC_SIZE : Nat) : Int) * 8 := by
      simp only [BOOT_MAGIC_SIZE, SAMSUNG_SEANDROID_MAGIC_SIZE]; omega
    rw [if_neg hb, hio, hloc]
    simp only [Bool.true_eq_false, if_false, SAMSUNG_SEANDROID_MAGIC_SIZE]
    rw [if_neg h63, if_neg hsam]
  refine ⟨hv1, hv2, ?_⟩
  rw [hv1, hv2]
  decide

set_option maxRecDepth 1000000 in
/-- Witness of C15: the example image with the Bump magic at the trailer position 6144. -/
theorem C15_bump_outbids_android_witness :
    ((AndroidFormatReader.new Reader.init true).bid_bump bump_defs
        (File.of_bytes bump_image 0) 0).bid = 192
    ∧ ((AndroidFormatReader.new Reader.init false).bid_android
        (File.of_bytes bump_image 0) 0).bid = 64 :=
  have h := C15_bump_outbids_android bump_defs bump_defs_valid
    (AndroidFormatReader.new Reader.init true) (AndroidFormatReader.new Reader.init false)
    (File.of_bytes bump_image 0) (File.of_bytes bump_image 0) 0 0 (by decide) (by decide) rfl rfl
    (by decide) (by decide)
  ⟨h.1, h.2.1⟩

/-! ## The value of the Android bid -/

set_option maxRecDepth 1000000 in
theorem samsung_image_bytes : ∀ x ∈ samsung_image, x < 256 := by
  intro x hx
  unfold samsung_image at hx
  rw [List.mem_append, List.mem_append] at hx
  rcases hx with (h | h) | h
  · exact (by decide : ∀ x ∈ example_android_header.to_bytes, x < 256) x h
  · rw [List.mem_replicate] at h
    omega
  · exact (by decide : ∀ x ∈ SAMSUNG_SEANDROID_MAGIC, x < 256) x h

/-- The value of `bid_android` on a file of bytes whose device is constant, healthy or
failing every operation.  For `best_bid < 192` the bid is 0 exactly when `find_header`
fails with `HeaderNotFound` or `HeaderOutOfBounds`; when the header is found on a healthy
device the bid is `64 + 128 = 192` if the 16 bytes at the trailer position are
`SEANDROIDENFORCE` and 64 if they are not; the bid is -1 exactly when the device fails.
The result is always one of -2, -1, 0, 64, 192. -/
theorem bid_android_constant_device (self : AndroidFormatReader) (file : File) (best_bid : Int)
    (hbytes : ∀ x ∈ file.data, x < 256) :
    (best_bid < 192 →
      ((self.bid_android file best_bid).bid = 0 ↔
        ((find_header self._reader file MAX_HEADER_OFFSET self._hdr 0).ok = false
          ∧ ((find_header self._reader file MAX_HEADER_OFFSET self._hdr 0).reader.error
                = some .HeaderNotFound
            ∨ (find_header self._reader file MAX_HEADER_OFFSET self._hdr 0).reader.error
                = some .HeaderOutOfBounds)))
      ∧ (file.io_ok = true →
          (find_header self._reader file MAX_HEADER_OFFSET self._hdr 0).ok = true →
          (self.bid_android file best_bid).bid
            = if slice file.data (trailer_position
                  (find_header self._reader file MAX_HEADER_OFFSET self._hdr 0).header_out) 16
                = SAMSUNG_SEANDROID_MAGIC then 192 else 64)
      ∧ ((self.bid_android file best_bid).bid = -1 ↔ file.io_ok = false))
    ∧ (self.bid_android file best_bid).bid ∈ ([-2, -1, 0, 64, 192] : List Int) := by
  have hval := (bid_android_value self file best_bid).1
  have hslice : ∀ p : Nat,
      ((slice file.data p SAMSUNG_SEANDROID_MAGIC_SIZE).length = SAMSUNG_SEANDROID_MAGIC_SIZE
        ∧ slice file.data p SAMSUNG_SEANDROID_MAGIC_SIZE
          = SAMSUNG_SEANDROID_MAGIC.take SAMSUNG_SEANDROID_MAGIC_SIZE)
      ↔ slice file.data p 16 = SAMSUNG_SEANDROID_MAGIC := by
    intro p
    have ht : SAMSUNG_SEANDROID_MAGIC.take SAMSUNG_SEANDROID_MAGIC_SIZE
        = SAMSUNG_SEANDROID_MAGIC := by decide
    rw [ht]
    simp only [SAMSUNG_SEANDROID_MAGIC_SIZE]
    constructor
    · exact fun h => h.2
    · intro h
      refine ⟨?_, h⟩
      rw [h]
      decide
  by_cases hb : best_bid ≥ ((BOOT_MAGIC_SIZE + SAMSUNG_SEANDROID_MAGIC_SIZE : Nat) : Int) * 8
  · have hge : ¬ best_bid < 192 := by
      simp only [BOOT_MAGIC_SIZE, SAMSUNG_SEANDROID_MAGIC_SIZE] at hb
      omega
    refine ⟨fun h => absurd h hge, ?_⟩
    rw [hval]
    unfold trailer_bid_value
    rw [if_pos hb]
    decide
  · unfold trailer_bid_value at hval
    rw [if_neg hb] at hval
    by_cases hio : file.io_ok = true
    · rw [hio] at hval
      simp only [Bool.true_eq_false, if_false] at hval
      obtain ⟨hsome, hnone⟩ := find_header_located self._reader file self._hdr 0 hio
      cases hloc : located_header file.data with
      | none =>
        obtain ⟨h1, h2, _, _⟩ := hnone hloc
        rw [hloc] at hval
        simp only [] at hval
        refine ⟨fun _ => ⟨?_, ?_, ?_⟩, ?_⟩
        · rw [hval]
          exact ⟨fun _ => ⟨h1, h2⟩, fun _ => rfl⟩
        · intro _ hok
          rw [h1] at hok
          cases hok
        · rw [hval, hio]
          decide
        · rw [hval]
          decide
      | some q =>
        obtain ⟨o, hdr⟩ := q
        have hfit := trailer_position_small hdr (located_header_fits _ hbytes o hdr hloc)
        have h63 : ¬ 2 ^ 63 ≤ trailer_position hdr := by omega
        rw [hloc] at hval
        simp only [] at hval
        rw [if_neg h63] at hval
        rw [hsome o hdr hloc]
        by_cases hc : slice file.data (trailer_position hdr) 16 = SAMSUNG_SEANDROID_MAGIC
        · rw [if_pos ((hslice _).2 hc)] at hval
          have hv : (self.bid_android file best_bid).bid = 192 := by
            rw [hval]; rfl
          rw [hv, hio]
          refine ⟨fun _ => ⟨?_, ?_, ?_⟩, by decide⟩
          · simp
          · intro _ _
            rw [if_pos hc]
          · decide
        · rw [if_neg (fun h => hc ((hslice _).1 h))] at hval
          rw [hval, hio]
          refine ⟨fun _ => ⟨?_, ?_, ?_⟩, by decide⟩
          · simp
          · intro _ _
            rw [if_neg hc]
          · decide
    · have hio' : file.io_ok = false := by simpa using hio
      rw [hio'] at hval
      simp only [if_true] at hval
      rw [hval, find_header_unhealthy _ _ _ _ hio', hio']
      refine ⟨fun _ => ⟨?_, ?_, ?_⟩, by decide⟩
      · simp [fatal_if_error]
      · intro h
        cases h
      · simp

/-! ## Bids on a device whose operations fail one by one -/

/-- An operation that the device fails. -/
theorem faulty_run_fault {α : Type} (f : FaultyFile) (op : File → Except Error α × File)
    (h : f.fault_at 0 = true) : f.run op = (.error .FileIo, ⟨f.file, f.faults.tail⟩) := by
  unfold FaultyFile.run
  rw [if_pos h]

/-- An operation that the device lets through. -/
theorem faulty_run_pass {α : Type} (f : FaultyFile) (op : File → Except Error α × File)
    (h : f.fault_at 0 = false) :
    f.run op = ((op f.file).1, ⟨(op f.file).2, f.faults.tail⟩) := by
  unfold FaultyFile.run
  rw [if_neg (by rw [h]; decide)]

/-- The script after one operation. -/
theorem fault_at_tail (f : FaultyFile) (file : File) (n : Nat) :
    (⟨file, f.faults.tail⟩ : FaultyFile).fault_at n = f.fault_at (n + 1) := by
  unfold FaultyFile.fault_at
  simp only [List.drop_tail]

/-- The script after two operations. -/
theorem fault_at_tail_tail (f : FaultyFile) (file : File) (n : Nat) :
    (⟨file, f.faults.tail.tail⟩ : FaultyFile).fault_at n = f.fault_at (n + 2) := by
  unfold FaultyFile.fault_at
  simp only [List.drop_tail]

/-- `find_header` on a device that fails the seek or the read: the search fails with the
I/O error and hands nothing out. -/
theorem faulty_find_header_fails (reader : Reader) (file : FaultyFile)
    (header_out : AndroidHeader) (offset_out : Nat)
    (h : file.file.io_ok = false ∨ file.fault_at 0 = true ∨ file.fault_at 1 = true) :
    (Faulty.find_header reader file MAX_HEADER_OFFSET header_out offset_out).ok = false
    ∧ (Faulty.find_header reader file MAX_HEADER_OFFSET header_out offset_out).reader.error
        = some .FileIo
    ∧ (Faulty.find_header reader file MAX_HEADER_OFFSET header_out offset_out).header_out
        = header_out
    ∧ (Faulty.find_header reader file MAX_HEADER_OFFSET header_out offset_out).offset_out
        = offset_out := by
  unfold Faulty.find_header FaultyFile.seek_set Faulty.file_read_retry
  rw [if_neg (Nat.lt_irrefl _)]
  by_cases f0 : file.fault_at 0 = true
  · rw [faulty_run_fault _ _ f0]
    exact ⟨rfl, fatal_if_error _ _ _, rfl, rfl⟩
  · have f0' : file.fault_at 0 = false := by simpa using f0
    rw [faulty_run_pass _ _ f0']
    by_cases hio : file.file.io_ok = true
    · have hs : file.file.seek_set 0 = (.ok 0, { file.file with pos := 0 }) :=
        seek_set_healthy file.file 0 hio
      rw [hs]
      simp only []
      have f1 : (⟨{ file.file with pos := 0 }, file.faults.tail⟩ : FaultyFile).fault_at 0
          = true := by
        rw [fault_at_tail]
        rcases h with h | h | h
        · rw [hio] at h; cases h
        · exact absurd h f0
        · exact h
      rw [faulty_run_fault _ _ f1]
      exact ⟨rfl, fatal_if_error _ _ _, rfl, rfl⟩
    · have hio' : file.file.io_ok = false := by simpa using hio
      have hs : file.file.seek_set 0 = (.error .FileIo, file.file) := by
        simp [File.seek_set, hio']
      rw [hs]
      exact ⟨rfl, fatal_if_error _ _ _, rfl, rfl⟩

/-- `find_header` on a healthy device that lets the seek and the read through: the search
is the search on the `File`. -/
theorem faulty_find_header_passes (reader : Reader) (file : FaultyFile)
    (header_out : AndroidHeader) (offset_out : Nat)
    (hio : file.file.io_ok = true) (f0 : file.fault_at 0 = false)
    (f1 : file.fault_at 1 = false) :
    (Faulty.find_header reader file MAX_HEADER_OFFSET header_out offset_out).ok
        = (find_header reader file.file MAX_HEADER_OFFSET header_out offset_out).ok
    ∧ (Faulty.find_header reader file MAX_HEADER_OFFSET header_out offset_out).reader
        = (find_header reader file.file MAX_HEADER_OFFSET header_out offset_out).reader
    ∧ (Faulty.find_header reader file MAX_HEADER_OFFSET header_out offset_out).header_out
        = (find_header reader file.file MAX_HEADER_OFFSET header_out offset_out).header_out
    ∧ (Faulty.find_header reader file MAX_HEADER_OFFSET header_out offset_out).offset_out
        = (find_header reader file.file MAX_HEADER_OFFSET header_out offset_out).offset_out
    ∧ (Faulty.find_header reader file MAX_HEADER_OFFSET header_out offset_out).file
        = ⟨(find_header reader file.file MAX_HEADER_OFFSET header_out offset_out).file,
           file.faults.tail.tail⟩ := by
  rw [find_header_healthy _ _ _ _ hio]
  unfold Faulty.find_header FaultyFile.seek_set Faulty.file_read_retry
  rw [if_neg (Nat.lt_irrefl _), faulty_run_pass _ _ f0]
  have hs : file.file.seek_set 0 = (.ok 0, { file.file with pos := 0 }) :=
    seek_set_healthy file.file 0 hio
  rw [hs]
  simp only []
  have f1' : (⟨{ file.file with pos := 0 }, file.faults.tail⟩ : FaultyFile).fault_at 0
      = false := by
    rw [fault_at_tail]
    exact f1
  rw [faulty_run_pass _ _ f1']
  rw [read_retry_healthy { file.file with pos := 0 }
    (MAX_HEADER_OFFSET + sizeof_AndroidHeader) hio]
  simp only [slice_zero, MAX_HEADER_OFFSET, sizeof_AndroidHeader, Nat.reduceAdd,
    Nat.zero_add]
  cases hm : mb_memmem (file.file.data.take 1120) BOOT_MAGIC with
  | none => exact ⟨rfl, rfl, rfl, rfl, rfl⟩
  | some o =>
    simp only []
    by_cases hlt : (file.file.data.take 1120).length - o < 608
    · rw [if_pos hlt, if_pos hlt]
      exact ⟨rfl, rfl, rfl, rfl, rfl⟩
    · rw [if_neg hlt, if_neg hlt]
      exact ⟨rfl, rfl, rfl, rfl, rfl⟩

/-- The trailer search on a device that fails the seek or the read: the search fails with
an error of the file, not with `SamsungMagicNotFound`. -/
theorem faulty_find_samsung_fails (reader : Reader) (file : FaultyFile) (hdr : AndroidHeader)
    (offset_out : Nat)
    (h : file.file.io_ok = false ∨ file.fault_at 0 = true ∨ file.fault_at 1 = true) :
    (Faulty.find_samsung_seandroid_magic reader file hdr offset_out).1 = false
    ∧ (Faulty.find_samsung_seandroid_magic reader file hdr offset_out).2.1.error
        ≠ some .SamsungMagicNotFound := by
  unfold Faulty.find_samsung_seandroid_magic FaultyFile.seek_set Faulty.file_read_retry
  simp only []
  generalize to_int64 (advance (advance (advance (advance ((0 + hdr.page_size) % UINT64_MOD)
    hdr.kernel_size hdr.page_size) hdr.ramdisk_size hdr.page_size) hdr.second_size
    hdr.page_size) hdr.dt_size hdr.page_size) = q
  by_cases f0 : file.fault_at 0 = true
  · rw [faulty_run_fault _ _ f0]
    refine ⟨rfl, ?_⟩
    rw [fatal_if_error]
    simp
  · have f0' : file.fault_at 0 = false := by simpa using f0
    rw [faulty_run_pass _ _ f0']
    rcases seek_set_cases file.file q with ⟨e, hs⟩ | ⟨hio, _, hs⟩
    · have he : e = .FileIo ∨ e = .FileInvalidOffset := by
        unfold File.seek_set at hs
        split_ifs at hs
        · left
          simp only [Prod.mk.injEq, Except.error.injEq] at hs
          exact hs.1.symm
        · right
          simp only [Prod.mk.injEq, Except.error.injEq] at hs
          exact hs.1.symm
        · simp at hs
      rw [hs]
      refine ⟨rfl, ?_⟩
      rw [fatal_if_error]
      rcases he with he | he <;> rw [he] <;> simp
    · rw [hs]
      simp only []
      have f1 : (⟨{ file.file with pos := q.toNat }, file.faults.tail⟩ : FaultyFile).fault_at 0
          = true := by
        rw [fault_at_tail]
        rcases h with h | h | h
        · rw [hio] at h; cases h
        · exact absurd h f0
        · exact h
      rw [faulty_run_fault _ _ f1]
      refine ⟨rfl, ?_⟩
      rw [fatal_if_error]
      simp

/-- The trailer search on a healthy device that lets the seek and the read through: the
search is the search on the `File`. -/
theorem faulty_find_samsung_passes (reader : Reader) (file : FaultyFile) (hdr : AndroidHeader)
    (offset_out : Nat) (hio : file.file.io_ok = true) (f0 : file.fault_at 0 = false)
    (f1 : file.fault_at 1 = false) :
    (Faulty.find_samsung_seandroid_magic reader file hdr offset_out).1
        = (find_samsung_seandroid_magic reader file.file hdr offset_out).1
    ∧ (Faulty.find_samsung_seandroid_magic reader file hdr offset_out).2.1
        = (find_samsung_seandroid_magic reader file.file hdr offset_out).2.1
    ∧ (Faulty.find_samsung_seandroid_magic reader file hdr offset_out).2.2.2
        = (find_samsung_seandroid_magic reader file.file hdr offset_out).2.2.2 := by
  unfold Faulty.find_samsung_seandroid_magic find_samsung_seandroid_magic
    FaultyFile.seek_set Faulty.file_read_retry
  simp only []
  generalize advance (advance (advance (advance ((0 + hdr.page_size) % UINT64_MOD)
    hdr.kernel_size hdr.page_size) hdr.ramdisk_size hdr.page_size) hdr.second_size
    hdr.page_size) hdr.dt_size hdr.page_size = p
  rw [faulty_run_pass _ _ f0]
  rcases seek_set_cases file.file (to_int64 p) with ⟨e, hs⟩ | ⟨_, _, hs⟩
  · rw [hs]
    exact ⟨rfl, rfl, rfl⟩
  · rw [hs]
    simp only []
    have f1' : (⟨{ file.file with pos := (to_int64 p).toNat }, file.faults.tail⟩
        : FaultyFile).fault_at 0 = false := by
      rw [fault_at_tail]
      exact f1
    rw [faulty_run_pass _ _ f1']
    rw [read_retry_healthy { file.file with pos := (to_int64 p).toNat }
      SAMSUNG_SEANDROID_MAGIC_SIZE hio]
    simp only []
    split <;> exact ⟨rfl, rfl, rfl⟩

/-- The value of `bid_android` on the device, for a `best_bid` that leaves the bid open:
-1 when the device fails the seek or the read of `find_header`, or the header is found and
the device fails the seek or the read of the trailer search; the value on the `File`
otherwise. -/
theorem faulty_bid_android_cases (self : AndroidFormatReader) (file : FaultyFile)
    (best_bid : Int)
    (hb : ¬ best_bid ≥ ((BOOT_MAGIC_SIZE + SAMSUNG_SEANDROID_MAGIC_SIZE : Nat) : Int) * 8) :
    ((file.file.io_ok = false ∨ file.fault_at 0 = true ∨ file.fault_at 1 = true) →
        (Faulty.bid_android self file best_bid).bid = -1)
    ∧ (file.file.io_ok = true → file.fault_at 0 = false → file.fault_at 1 = false →
        ((find_header self._reader file.file MAX_HEADER_OFFSET self._hdr 0).ok = true →
          (file.fault_at 2 = true ∨ file.fault_at 3 = true) →
          (Faulty.bid_android self file best_bid).bid = -1)
        ∧ (((find_header self._reader file.file MAX_HEADER_OFFSET self._hdr 0).ok = false
            ∨ (file.fault_at 2 = false ∧ file.fault_at 3 = false)) →
          (Faulty.bid_android self file best_bid).bid
            = (self.bid_android file.file best_bid).bid)) := by
  constructor
  · intro h
    obtain ⟨h1, h2, _, _⟩ := faulty_find_header_fails self._reader file self._hdr 0 h
    unfold Faulty.bid_android
    simp only [hb, if_false, h1, h2, Bool.false_eq_true]
    simp
  · intro hio f0 f1
    obtain ⟨e1, e2, e3, e4, e5⟩ := faulty_find_header_passes self._reader file self._hdr 0
      hio f0 f1
    unfold Faulty.bid_android AndroidFormatReader.bid_android
    simp only [hb, if_false, e1, e2, e3, e4, e5]
    by_cases hok : (find_header self._reader file.file MAX_HEADER_OFFSET self._hdr 0).ok = true
    · obtain ⟨_, _, _, _, hfile⟩ := find_header_ok _ _ _ _ hok
      have hio2 : (find_header self._reader file.file MAX_HEADER_OFFSET self._hdr 0).file.io_ok
          = true := by
        rw [hfile]
        exact hio
      simp only [hok, if_true]
      constructor
      · intro _ hf
        obtain ⟨g1, g2⟩ := faulty_find_samsung_fails
          (find_header self._reader file.file MAX_HEADER_OFFSET self._hdr 0).reader
          ⟨(find_header self._reader file.file MAX_HEADER_OFFSET self._hdr 0).file,
            file.faults.tail.tail⟩
          (find_header self._reader file.file MAX_HEADER_OFFSET self._hdr 0).header_out 0
          (Or.inr (by
            rw [fault_at_tail_tail, fault_at_tail_tail]
            exact hf))
        rcases hr : Faulty.find_samsung_seandroid_magic
          (find_header self._reader file.file MAX_HEADER_OFFSET self._hdr 0).reader
          ⟨(find_header self._reader file.file MAX_HEADER_OFFSET self._hdr 0).file,
            file.faults.tail.tail⟩
          (find_header self._reader file.file MAX_HEADER_OFFSET self._hdr 0).header_out 0
          with ⟨b, rd, f2, so⟩
        rw [hr] at g1 g2
        simp only [] at g1 g2
        subst g1
        simp only []
        rw [if_neg g2]
      · intro hf
        rcases hf with hf | ⟨f2, f3⟩
        · cases hf
        obtain ⟨p1, p2, _⟩ := faulty_find_samsung_passes
          (find_header self._reader file.file MAX_HEADER_OFFSET self._hdr 0).reader
          ⟨(find_header self._reader file.file MAX_HEADER_OFFSET self._hdr 0).file,
            file.faults.tail.tail⟩
          (find_header self._reader file.file MAX_HEADER_OFFSET self._hdr 0).header_out 0
          hio2 (by rw [fault_at_tail_tail]; exact f2) (by rw [fault_at_tail_tail]; exact f3)
        rcases hr : Faulty.find_samsung_seandroid_magic
          (find_header self._reader file.file MAX_HEADER_OFFSET self._hdr 0).reader
          ⟨(find_header self._reader file.file MAX_HEADER_OFFSET self._hdr 0).file,
            file.faults.tail.tail⟩
          (find_header self._reader file.file MAX_HEADER_OFFSET self._hdr 0).header_out 0
          with ⟨b, rd, f2', so⟩
        rcases hr2 : find_samsung_seandroid_magic
          (find_header self._reader file.file MAX_HEADER_OFFSET self._hdr 0).reader
          (find_header self._reader file.file MAX_HEADER_OFFSET self._hdr 0).file
          (find_header self._reader file.file MAX_HEADER_OFFSET self._hdr 0).header_out 0
          with ⟨b', rd', f2'', so'⟩
        rw [hr, hr2] at p1 p2
        simp only [] at p1 p2
        subst p1 p2
        cases b with
        | true => rfl
        | false =>
          simp only []
          split <;> rfl
    · have hf : (find_header self._reader file.file MAX_HEADER_OFFSET self._hdr 0).ok = false := by
        simpa using hok
      simp only [hf, Bool.false_eq_true, if_false]
      refine ⟨fun h => (by cases h), fun _ => ?_⟩
      split <;> rfl

/-- C16: the value of `bid_android` on a file of bytes whose device can fail every seek and
every read on its own.  For `best_bid < 192` the bid is 0 exactly when `find_header` fails
with `HeaderNotFound` or `HeaderOutOfBounds`; when no seek and no read fails and the
header is found, the bid is `64 + 128 = 192` if the 16 bytes at the trailer position are
`SEANDROIDENFORCE` and 64 if they are not (which includes fewer than 16 bytes being
available there); the bid is -1 exactly when a seek or a read of the run fails: the
device is unhealthy, or it fails the seek or the read of `find_header`, or the header is
found and it fails the seek or the read of the trailer search.  The result is always one
of -2, -1, 0, 64, 192. -/
theorem C16_android_bid_value (self : AndroidFormatReader) (file : FaultyFile)
    (best_bid : Int) (hbytes : ∀ x ∈ file.file.data, x < 256) :
    (best_bid < 192 →
      ((Faulty.bid_android self file best_bid).bid = 0 ↔
        ((Faulty.find_header self._reader file MAX_HEADER_OFFSET self._hdr 0).ok = false
          ∧ ((Faulty.find_header self._reader file MAX_HEADER_OFFSET self._hdr 0).reader.error
                = some .HeaderNotFound
            ∨ (Faulty.find_header self._reader file MAX_HEADER_OFFSET self._hdr 0).reader.error
                = some .HeaderOutOfBounds)))
      ∧ (file.file.io_ok = true → file.fault_at 0 = false → file.fault_at 1 = false →
          file.fault_at 2 = false → file.fault_at 3 = false →
          (Faulty.find_header self._reader file MAX_HEADER_OFFSET self._hdr 0).ok = true →
          (Faulty.bid_android self file best_bid).bid
            = if slice file.file.data (trailer_position
                  (Faulty.find_header self._reader file MAX_HEADER_OFFSET self._hdr
                    0).header_out) 16
                = SAMSUNG_SEANDROID_MAGIC then 192 else 64)
      ∧ ((Faulty.bid_android self file best_bid).bid = -1 ↔
          (file.file.io_ok = false ∨ file.fault_at 0 = true ∨ file.fault_at 1 = true
            ∨ ((Faulty.find_header self._reader file MAX_HEADER_OFFSET self._hdr 0).ok = true
              ∧ (file.fault_at 2 = true ∨ file.fault_at 3 = true)))))
    ∧ (Faulty.bid_android self file best_bid).bid ∈ ([-2, -1, 0, 64, 192] : List Int) := by
  have hold := bid_android_constant_device self file.file best_bid hbytes
  by_cases hb : best_bid ≥ ((BOOT_MAGIC_SIZE + SAMSUNG_SEANDROID_MAGIC_SIZE : Nat) : Int) * 8
  · have hge : ¬ best_bid < 192 := by
      simp only [BOOT_MAGIC_SIZE, SAMSUNG_SEANDROID_MAGIC_SIZE] at hb
      omega
    refine ⟨fun h => absurd h hge, ?_⟩
    unfold Faulty.bid_android
    simp only [hb, if_true]
    decide
  · obtain ⟨c1, c2⟩ := faulty_bid_android_cases self file best_bid hb
    have hlt : best_bid < 192 := by
      simp only [BOOT_MAGIC_SIZE, SAMSUNG_SEANDROID_MAGIC_SIZE] at hb
      omega
    have o4 := hold.2
    have o1 := (hold.1 hlt).1
    have o2 := (hold.1 hlt).2.1
    have o3 := (hold.1 hlt).2.2
    by_cases hfail : file.file.io_ok = false ∨ file.fault_at 0 = true ∨ file.fault_at 1 = true
    · obtain ⟨h1, h2, _, _⟩ := faulty_find_header_fails self._reader file self._hdr 0 hfail
      rw [c1 hfail, h1, h2]
      refine ⟨fun _ => ⟨?_, ?_, ?_⟩, by decide⟩
      · simp
      · intro hio f0 f1
        rcases hfail with h | h | h
        · rw [hio] at h; cases h
        · rw [f0] at h; cases h
        · rw [f1] at h; cases h
      · refine ⟨fun _ => ?_, fun _ => rfl⟩
        rcases hfail with h | h | h
        · exact Or.inl h
        · exact Or.inr (Or.inl h)
        · exact Or.inr (Or.inr (Or.inl h))
    · simp only [not_or, Bool.not_eq_false, Bool.not_eq_true] at hfail
      obtain ⟨hio, f0, f1⟩ := hfail
      obtain ⟨e1, e2, e3, _, _⟩ := faulty_find_header_passes self._reader file self._hdr 0
        hio f0 f1
      obtain ⟨d1, d2⟩ := c2 hio f0 f1
      rw [e1, e2, e3]
      have hrhs : ∀ p : Prop, (file.file.io_ok = false ∨ file.fault_at 0 = true
          ∨ file.fault_at 1 = true ∨ p) ↔ p := by
        intro p
        constructor
        · rintro (h | h | h | h)
          · rw [hio] at h; cases h
          · rw [f0] at h; cases h
          · rw [f1] at h; cases h
          · exact h
        · exact fun h => Or.inr (Or.inr (Or.inr h))
      rw [hrhs]
      by_cases hok : (find_header self._reader file.file MAX_HEADER_OFFSET self._hdr 0).ok = true
      · by_cases hf : file.fault_at 2 = true ∨ file.fault_at 3 = true
        · rw [d1 hok hf, hok]
          refine ⟨fun _ => ⟨by simp, ?_, ?_⟩, by decide⟩
          · intro _ _ _ f2 f3
            rcases hf with h | h
            · rw [f2] at h; cases h
            · rw [f3] at h; cases h
          · exact ⟨fun _ => ⟨rfl, hf⟩, fun _ => rfl⟩
        · simp only [not_or, Bool.not_eq_true] at hf
          rw [d2 (Or.inr hf)]
          refine ⟨fun _ => ⟨o1, fun _ _ _ _ _ h => o2 hio h, ?_⟩, o4⟩
          rw [o3]
          constructor
          · intro h
            rw [hio] at h
            cases h
          · rintro ⟨_, h | h⟩
            · rw [hf.1] at h; cases h
            · rw [hf.2] at h; cases h
      · have hf : (find_header self._reader file.file MAX_HEADER_OFFSET self._hdr 0).ok
            = false := by simpa using hok
        rw [d2 (Or.inl hf)]
        refine ⟨fun _ => ⟨o1, fun _ _ _ _ _ h => o2 hio h, ?_⟩, o4⟩
        rw [o3]
        constructor
        · intro h
          rw [hio] at h
          cases h
        · rintro ⟨h, _⟩
          exact absurd h hok

set_option maxRecDepth 1000000 in
/-- Witness of C16: the example image with `SEANDROIDENFORCE` at the trailer position 6144
is bid 192 on a device that does not fail, and -1 on a device that fails the read of the
trailer search after the two operations of `find_header` and the seek have succeeded. -/
theorem C16_android_bid_value_witness :
    (Faulty.bid_android (AndroidFormatReader.new Reader.init false)
        ⟨File.of_bytes samsung_image 0, []⟩ 0).bid = 192
    ∧ (Faulty.bid_android (AndroidFormatReader.new Reader.init false)
        ⟨File.of_bytes samsung_image 0, [false, false, false, true]⟩ 0).bid = -1 :=
  have hbytes : ∀ x ∈ (File.of_bytes samsung_image 0).data, x < 256 := samsung_image_bytes
  have hok : (Faulty.find_header (AndroidFormatReader.new Reader.init false)._reader
        ⟨File.of_bytes samsung_image 0, []⟩ MAX_HEADER_OFFSET
        (AndroidFormatReader.new Reader.init false)._hdr 0).ok = true
      ∧ (Faulty.find_header (AndroidFormatReader.new Reader.init false)._reader
        ⟨File.of_bytes samsung_image 0, [false, false, false, true]⟩ MAX_HEADER_OFFSET
        (AndroidFormatReader.new Reader.init false)._hdr 0).ok = true := by decide
  ⟨(((C16_android_bid_value (AndroidFormatReader.new Reader.init false)
      ⟨File.of_bytes samsung_image 0, []⟩ 0 hbytes).1 (by decide)).2.1 rfl rfl rfl rfl rfl
      hok.1).trans (by decide),
   ((C16_android_bid_value (AndroidFormatReader.new Reader.init false)
      ⟨File.of_bytes samsung_image 0, [false, false, false, true]⟩ 0 hbytes).1
      (by decide)).2.2.2 (Or.inr (Or.inr (Or.inr ⟨hok.2, Or.inr rfl⟩)))⟩

/-! ## The unwinnable short-circuit -/

theorem trailer_bid_value_unwinnable (magic : List Nat) (magic_size : Nat) (data : List Nat)
    (io_ok : Bool) (best_bid : Int) :
    trailer_bid_value magic magic_size data io_ok best_bid = -2
      ↔ best_bid ≥ ((BOOT_MAGIC_SIZE + magic_size : Nat) : Int) * 8 := by
  unfold trailer_bid_value
  by_cases hb : best_bid ≥ ((BOOT_MAGIC_SIZE + magic_size : Nat) : Int) * 8
  · rw [if_pos hb]
    exact ⟨fun _ => hb, fun _ => rfl⟩
  · rw [if_neg hb]
    refine ⟨fun h => ?_, fun h => absurd h hb⟩
    exfalso
    split_ifs at h
    all_goals first
      | omega
      | (split at h
         all_goals omega)

theorem sony_bid_value_unwinnable (D : SonyElfDefs) (data : List Nat) (io_ok : Bool)
    (best_bid : Int) :
    sony_bid_value D data io_ok best_bid = -2 ↔ best_bid ≥ (D.SONY_EI_NIDENT : Int) * 8 := by
  unfold sony_bid_value
  by_cases hb : best_bid ≥ (D.SONY_EI_NIDENT : Int) * 8
  · rw [if_pos hb]
    exact ⟨fun _ => hb, fun _ => rfl⟩
  · rw [if_neg hb]
    refine ⟨fun h => ?_, fun h => absurd h hb⟩
    exfalso
    split_ifs at h
    omega

/-- C17: each reader's bid returns -2 if and only if `best_bid` is at least the format's
maximum score, `(8 + 16) * 8 = 192` for Android and for Bump and `SONY_EI_NIDENT * 8` for
Sony ELF; when it returns -2 the reader object (cached header and offsets included) and the
file (cursor included) are handed back unchanged. -/
theorem C17_unwinnable_short_circuit (B : BumpDefs) (hB : B.valid) (D : SonyElfDefs)
    (sa : AndroidFormatReader) (ss : SonyElfFormatReader) (file : File) (best_bid : Int) :
    ((sa.bid_android file best_bid).bid = -2 ↔ best_bid ≥ 192)
    ∧ ((sa.bid_bump B file best_bid).bid = -2 ↔ best_bid ≥ 192)
    ∧ ((sa.bid B file best_bid).bid = -2 ↔ best_bid ≥ 192)
    ∧ ((sa.bid B file best_bid).bid = -2 → sa.bid B file best_bid = ⟨-2, sa, file⟩)
    ∧ ((ss.bid D file best_bid).bid = -2 ↔ best_bid ≥ (D.SONY_EI_NIDENT : Int) * 8)
    ∧ ((ss.bid D file best_bid).bid = -2 → ss.bid D file best_bid = ⟨-2, ss, file⟩) := by
  obtain ⟨hsz, _, _⟩ := hB
  have ha : (sa.bid_android file best_bid).bid = -2 ↔ best_bid ≥ 192 := by
    rw [(bid_android_value sa file best_bid).1, trailer_bid_value_unwinnable]
    simp only [BOOT_MAGIC_SIZE, SAMSUNG_SEANDROID_MAGIC_SIZE]
    omega
  have hbm : (sa.bid_bump B file best_bid).bid = -2 ↔ best_bid ≥ 192 := by
    rw [(bid_bump_value B sa file best_bid).1, trailer_bid_value_unwinnable, hsz]
    simp only [BOOT_MAGIC_SIZE]
    omega
  have hs : (ss.bid D file best_bid).bid = -2 ↔ best_bid ≥ (D.SONY_EI_NIDENT : Int) * 8 := by
    rw [(sony_bid_value_eq D ss file best_bid).1, sony_bid_value_unwinnable]
  have hab : (sa.bid B file best_bid).bid = -2 ↔ best_bid ≥ 192 := by
    unfold AndroidFormatReader.bid
    split
    · exact hbm
    · exact ha
  refine ⟨ha, hbm, hab, ?_, hs, ?_⟩
  · intro h
    have hge := hab.1 h
    unfold AndroidFormatReader.bid AndroidFormatReader.bid_bump AndroidFormatReader.bid_android
    have h1 : best_bid ≥ ((BOOT_MAGIC_SIZE + B.BUMP_MAGIC_SIZE : Nat) : Int) * 8 := by
      rw [hsz]; simp only [BOOT_MAGIC_SIZE]; omega
    have h2 : best_bid ≥ ((BOOT_MAGIC_SIZE + SAMSUNG_SEANDROID_MAGIC_SIZE : Nat) : Int) * 8 := by
      simp only [BOOT_MAGIC_SIZE, SAMSUNG_SEANDROID_MAGIC_SIZE]; omega
    rw [if_pos h1, if_pos h2]
    split <;> rfl
  · intro h
    have hge := hs.1 h
    unfold SonyElfFormatReader.bid
    rw [if_pos hge]

/-- Witness of C17: with `best_bid = 192` the Bump reader answers -2 on the example Bump
image and hands back the reader and the file as they were. -/
theorem C17_unwinnable_short_circuit_witness :
    (AndroidFormatReader.new Reader.init true).bid bump_defs (File.of_bytes bump_image 7) 192
      = ⟨-2, AndroidFormatReader.new Reader.init true, File.of_bytes bump_image 7⟩ :=
  have h := C17_unwinnable_short_circuit bump_defs bump_defs_valid sony_elf_defs
    (AndroidFormatReader.new Reader.init true) (SonyElfFormatReader.new Reader.init)
    (File.of_bytes bump_image 7) 192
  h.2.2.2.1 (h.2.2.1.2 (by decide))

/-! ## Bids are functions of the file contents -/

/-- C18: for the Android, the Bump and the Sony ELF reader the value of a bid depends only
on the file contents, the health of the device and `best_bid`: two readers of the same kind
in any state, on files with the same contents and any cursor, bid the same; in particular
bidding a second time, on the reader and the file that the first bid left behind, returns
the value of the first bid. -/
theorem C18_bid_deterministic (B : BumpDefs) (D : SonyElfDefs)
    (sa sa' : AndroidFormatReader) (ss ss' : SonyElfFormatReader) (file file' : File)
    (best_bid : Int)
    (hdata : file'.data = file.data) (hio : file'.io_ok = file.io_ok)
    (hkind : sa'._is_bump = sa._is_bump) :
    (sa'.bid B file' best_bid).bid = (sa.bid B file best_bid).bid
    ∧ ((sa.bid B file best_bid).self.bid B (sa.bid B file best_bid).file best_bid).bid
        = (sa.bid B file best_bid).bid
    ∧ (ss'.bid D file' best_bid).bid = (ss.bid D file best_bid).bid
    ∧ ((ss.bid D file best_bid).self.bid D (ss.bid D file best_bid).file best_bid).bid
        = (ss.bid D file best_bid).bid := by
  have hgen : ∀ (s s' : AndroidFormatReader) (f f' : File), f'.data = f.data →
      f'.io_ok = f.io_ok → s'._is_bump = s._is_bump →
      (s'.bid B f' best_bid).bid = (s.bid B f best_bid).bid := by
    intro s s' f f' hd hi hk
    unfold AndroidFormatReader.bid
    rw [hk]
    split
    · rw [(bid_bump_value B s' f' best_bid).1, (bid_bump_value B s f best_bid).1, hd, hi]
    · rw [(bid_android_value s' f' best_bid).1, (bid_android_value s f best_bid).1, hd, hi]
  have hframe : (sa.bid B file best_bid).file.data = file.data
      ∧ (sa.bid B file best_bid).file.io_ok = file.io_ok
      ∧ (sa.bid B file best_bid).self._is_bump = sa._is_bump := by
    unfold AndroidFormatReader.bid
    split
    · obtain ⟨_, h1, h2, h3, _⟩ := bid_bump_value B sa file best_bid
      exact ⟨h1, h2, h3⟩
    · obtain ⟨_, h1, h2, h3, _⟩ := bid_android_value sa file best_bid
      exact ⟨h1, h2, h3⟩
  have hsgen : ∀ (s s' : SonyElfFormatReader) (f f' : File), f'.data = f.data →
      f'.io_ok = f.io_ok → (s'.bid D f' best_bid).bid = (s.bid D f best_bid).bid := by
    intro s s' f f' hd hi
    rw [(sony_bid_value_eq D s' f' best_bid).1, (sony_bid_value_eq D s f best_bid).1, hd, hi]
  obtain ⟨_, hs1, hs2, _⟩ := sony_bid_value_eq D ss file best_bid
  exact ⟨hgen sa sa' file file' hdata hio hkind,
    hgen sa _ file _ hframe.1 hframe.2.1 hframe.2.2,
    hsgen ss ss' file file' hdata hio,
    hsgen ss _ file _ hs1 hs2⟩

set_option maxRecDepth 1000000 in
/-- Witness of C18: on the example Bump image a fresh Bump reader with the cursor at 0 and
one that has bid before, with the cursor where that bid left it, both bid 192. -/
theorem C18_bid_deterministic_witness :
    ((AndroidFormatReader.new Reader.init true).bid bump_defs
        (File.of_bytes bump_image 0) 0).bid = 192
    ∧ (((AndroidFormatReader.new Reader.init true).bid bump_defs
          (File.of_bytes bump_image 0) 0).self.bid bump_defs
        ((AndroidFormatReader.new Reader.init true).bid bump_defs
          (File.of_bytes bump_image 0) 0).file 0).bid = 192 :=
  have h0 : ((AndroidFormatReader.new Reader.init true).bid bump_defs
      (File.of_bytes bump_image 0) 0).bid = 192 := by decide
  have h := C18_bid_deterministic bump_defs sony_elf_defs
    (AndroidFormatReader.new Reader.init true) (AndroidFormatReader.new Reader.init true)
    (SonyElfFormatReader.new Reader.init) (SonyElfFormatReader.new Reader.init)
    (File.of_bytes bump_image 0) (File.of_bytes bump_image 0) 0 rfl rfl rfl
  ⟨h0, h.2.1.trans h0⟩

/-! ## The classification of the Sony ELF bid -/

/-- The error that a failing header search of a Sony ELF bid leaves on a healthy device. -/
theorem sony_bid_error (D : SonyElfDefs) (self : SonyElfFormatReader) (file : File)
    (best_bid : Int) (hb : ¬ best_bid ≥ (D.SONY_EI_NIDENT : Int) * 8)
    (hio : file.io_ok = true) :
    (file.data.length < sizeof_Sony_Elf32_Ehdr →
      (self.bid D file best_bid).self._reader.error = some .SonyElfHeaderTooSmall)
    ∧ (¬ file.data.length < sizeof_Sony_Elf32_Ehdr →
      (slice file.data 0 16).take D.SONY_EI_NIDENT ≠ D.SONY_E_IDENT.take D.SONY_EI_NIDENT →
      (self.bid D file best_bid).self._reader.error = some .InvalidElfMagic) := by
  unfold SonyElfFormatReader.bid
  simp only [hb, if_false]
  unfold find_sony_elf_header
  have h0 : file.seek_set 0 = (.ok 0, { file with pos := 0 }) := seek_set_healthy file 0 hio
  rw [h0]
  simp only [Int.toNat_zero, hio, Bool.true_eq_false, if_false]
  have hsl : (slice file.data 0 sizeof_Sony_Elf32_Ehdr).length
      = min sizeof_Sony_Elf32_Ehdr file.data.length := by
    rw [slice_length]; simp
  constructor
  · intro hlen
    have hshort : (slice file.data 0 sizeof_Sony_Elf32_Ehdr).length < sizeof_Sony_Elf32_Ehdr := by
      rw [hsl]; omega
    simp [file_read_exact, hio, hshort, Reader.set_error, Error.is_sony_elf]
  · intro hlen hm
    have hfull : ¬ (slice file.data 0 sizeof_Sony_Elf32_Ehdr).length < sizeof_Sony_Elf32_Ehdr := by
      rw [hsl]; omega
    have hid : slice (slice file.data 0 sizeof_Sony_Elf32_Ehdr) 0 16 = slice file.data 0 16 := by
      simp [slice, sizeof_Sony_Elf32_Ehdr, List.take_take]
    simp only [file_read_exact, hio, Bool.true_eq_false, if_false, hfull, hid]
    rw [if_pos hm]
    simp [Reader.set_error, Error.is_sony_elf]

/-- The Sony ELF bid on a file whose device is constant, healthy or failing every
operation.  For `best_bid < SONY_EI_NIDENT * 8` the bid is `SONY_EI_NIDENT * 8` exactly
when the device is healthy, the file holds at least `sizeof(Sony_Elf32_Ehdr) = 52` bytes
and its first `SONY_EI_NIDENT` bytes are `SONY_E_IDENT`; it is 0 exactly when, on a healthy
device, the file is shorter than 52 bytes (error `SonyElfHeaderTooSmall`) or the
identification bytes differ (error `InvalidElfMagic`); it is -1 exactly when the device
fails. -/
theorem sony_bid_constant_device (D : SonyElfDefs)
    (hpos : 0 < D.SONY_EI_NIDENT) (hn : D.SONY_EI_NIDENT ≤ 16)
    (hlen : D.SONY_E_IDENT.length = D.SONY_EI_NIDENT)
    (self : SonyElfFormatReader) (file : File) (best_bid : Int)
    (hbest : best_bid < (D.SONY_EI_NIDENT : Int) * 8) :
    ((self.bid D file best_bid).bid = (D.SONY_EI_NIDENT : Int) * 8 ↔
      (file.io_ok = true ∧ sizeof_Sony_Elf32_Ehdr ≤ file.data.length
        ∧ file.data.take D.SONY_EI_NIDENT = D.SONY_E_IDENT))
    ∧ ((self.bid D file best_bid).bid = 0 ↔
      (file.io_ok = true ∧ (file.data.length < sizeof_Sony_Elf32_Ehdr
        ∨ file.data.take D.SONY_EI_NIDENT ≠ D.SONY_E_IDENT)))
    ∧ (file.io_ok = true → file.data.length < sizeof_Sony_Elf32_Ehdr →
        (self.bid D file best_bid).self._reader.error = some .SonyElfHeaderTooSmall)
    ∧ (file.io_ok = true → sizeof_Sony_Elf32_Ehdr ≤ file.data.length →
        file.data.take D.SONY_EI_NIDENT ≠ D.SONY_E_IDENT →
        (self.bid D file best_bid).self._reader.error = some .InvalidElfMagic)
    ∧ ((self.bid D file best_bid).bid = -1 ↔ file.io_ok = false) := by
  have hb : ¬ best_bid ≥ (D.SONY_EI_NIDENT : Int) * 8 := by omega
  have ht1 : (slice file.data 0 16).take D.SONY_EI_NIDENT = file.data.take D.SONY_EI_NIDENT := by
    rw [slice_zero, List.take_take, Nat.min_eq_left hn]
  have ht2 : D.SONY_E_IDENT.take D.SONY_EI_NIDENT = D.SONY_E_IDENT := by
    rw [← hlen, List.take_length]
  have hval := (sony_bid_value_eq D self file best_bid).1
  unfold sony_bid_value at hval
  rw [if_neg hb, ht1, ht2] at hval
  have herr := sony_bid_error D self file best_bid hb
  rw [ht1, ht2] at herr
  have hne : ((D.SONY_EI_NIDENT * 8 : Nat) : Int) ≠ 0 := by
    push_cast
    omega
  have hcast : ((D.SONY_EI_NIDENT * 8 : Nat) : Int) = (D.SONY_EI_NIDENT : Int) * 8 := by
    push_cast
    rfl
  by_cases hio : file.io_ok = true
  · rw [hio] at hval
    simp only [Bool.true_eq_false, if_false] at hval
    by_cases hl : file.data.length < sizeof_Sony_Elf32_Ehdr
    · rw [if_pos hl] at hval
      rw [hval, hio]
      refine ⟨?_, ?_, fun _ _ => (herr hio).1 hl, fun _ h => absurd hl (by omega), by decide⟩
      · constructor
        · intro h
          omega
        · rintro ⟨_, h, _⟩
          omega
      · exact ⟨fun _ => ⟨rfl, Or.inl hl⟩, fun _ => rfl⟩
    · rw [if_neg hl] at hval
      by_cases hm : file.data.take D.SONY_EI_NIDENT ≠ D.SONY_E_IDENT
      · rw [if_pos hm] at hval
        rw [hval, hio]
        refine ⟨?_, ?_, fun _ h => absurd h hl, fun _ _ _ => (herr hio).2 hl hm, by decide⟩
        · constructor
          · intro h
            omega
          · rintro ⟨_, _, h⟩
            exact absurd h hm
        · exact ⟨fun _ => ⟨rfl, Or.inr hm⟩, fun _ => rfl⟩
      · rw [if_neg hm] at hval
        have hm' : file.data.take D.SONY_EI_NIDENT = D.SONY_E_IDENT := by
          by_contra h
          exact hm h
        rw [hval, hio, hcast]
        refine ⟨?_, ?_, fun _ h => absurd h hl, fun _ _ h => absurd hm' h, ?_⟩
        · exact ⟨fun _ => ⟨rfl, by omega, hm'⟩, fun _ => rfl⟩
        · constructor
          · intro h
            omega
          · rintro ⟨_, h | h⟩
            · exact absurd h hl
            · exact absurd hm' h
        · constructor
          · intro h
            omega
          · intro h
            cases h
  · have hio' : file.io_ok = false := by simpa using hio
    rw [hio'] at hval
    simp only [if_true] at hval
    rw [hval, hio']
    refine ⟨?_, ?_, fun h => (by cases h), fun h => (by cases h), ?_⟩
    · constructor
      · intro h
        omega
      · rintro ⟨h, _⟩
        cases h
    · constructor
      · intro h
        cases h
      · rintro ⟨h, _⟩
        cases h
    · exact ⟨fun _ => rfl, fun _ => rfl⟩

/-- The header search of the Sony ELF reader on a device that fails the seek or the read:
the search fails with the I/O error, which is not the end of the file. -/
theorem faulty_find_sony_fails (D : SonyElfDefs) (reader : Reader) (file : FaultyFile)
    (header_out : Sony_Elf32_Ehdr)
    (h : file.file.io_ok = false ∨ file.fault_at 0 = true ∨ file.fault_at 1 = true) :
    (Faulty.find_sony_elf_header D reader file header_out).1 = false
    ∧ (Faulty.find_sony_elf_header D reader file header_out).2.1.error = some .FileIo := by
  unfold Faulty.find_sony_elf_header FaultyFile.seek_set Faulty.file_read_exact
  by_cases f0 : file.fault_at 0 = true
  · rw [faulty_run_fault _ _ f0]
    exact ⟨rfl, fatal_if_error _ _ _⟩
  · have f0' : file.fault_at 0 = false := by simpa using f0
    rw [faulty_run_pass _ _ f0']
    by_cases hio : file.file.io_ok = true
    · have hs : file.file.seek_set 0 = (.ok 0, { file.file with pos := 0 }) :=
        seek_set_healthy file.file 0 hio
      rw [hs]
      simp only []
      have f1 : (⟨{ file.file with pos := 0 }, file.faults.tail⟩ : FaultyFile).fault_at 0
          = true := by
        rw [fault_at_tail]
        rcases h with h | h | h
        · rw [hio] at h; cases h
        · exact absurd h f0
        · exact h
      rw [faulty_run_fault _ _ f1]
      simp only []
      rw [if_neg (by decide)]
      exact ⟨rfl, fatal_if_error _ _ _⟩
    · have hio' : file.file.io_ok = false := by simpa using hio
      have hs : file.file.seek_set 0 = (.error .FileIo, file.file) := by
        simp [File.seek_set, hio']
      rw [hs]
      exact ⟨rfl, fatal_if_error _ _ _⟩

/-- The header search of the Sony ELF reader on a healthy device that lets the seek and the
read through: the search is the search on the `File`. -/
theorem faulty_find_sony_passes (D : SonyElfDefs) (reader : Reader) (file : FaultyFile)
    (header_out : Sony_Elf32_Ehdr) (hio : file.file.io_ok = true)
    (f0 : file.fault_at 0 = false) (f1 : file.fault_at 1 = false) :
    (Faulty.find_sony_elf_header D reader file header_out).1
        = (find_sony_elf_header D reader file.file header_out).1
    ∧ (Faulty.find_sony_elf_header D reader file header_out).2.1
        = (find_sony_elf_header D reader file.file header_out).2.1
    ∧ (Faulty.find_sony_elf_header D reader file header_out).2.2.2
        = (find_sony_elf_header D reader file.file header_out).2.2.2 := by
  unfold Faulty.find_sony_elf_header find_sony_elf_header FaultyFile.seek_set
    Faulty.file_read_exact
  rw [faulty_run_pass _ _ f0]
  have hs : file.file.seek_set 0 = (.ok 0, { file.file with pos := 0 }) :=
    seek_set_healthy file.file 0 hio
  rw [hs]
  simp only []
  have f1' : (⟨{ file.file with pos := 0 }, file.faults.tail⟩ : FaultyFile).fault_at 0
      = false := by
    rw [fault_at_tail]
    exact f1
  rw [faulty_run_pass _ _ f1']
  rcases read_exact_cases { file.file with pos := 0 } sizeof_Sony_Elf32_Ehdr with
    ⟨e, f', hr, _⟩ | ⟨_, _, hr⟩
  · rw [hr]
    simp only []
    split <;> exact ⟨rfl, rfl, rfl⟩
  · rw [hr]
    simp only []
    split <;> exact ⟨rfl, rfl, rfl⟩

/-- The bid of the Sony ELF reader on the device, for a `best_bid` that leaves the bid
open: -1 when the device fails the seek or the read, the bid on the `File` otherwise. -/
theorem faulty_sony_bid_cases (D : SonyElfDefs) (self : SonyElfFormatReader)
    (file : FaultyFile) (best_bid : Int) (hb : ¬ best_bid ≥ (D.SONY_EI_NIDENT : Int) * 8) :
    ((file.file.io_ok = false ∨ file.fault_at 0 = true ∨ file.fault_at 1 = true) →
        (Faulty.sony_bid D self file best_bid).bid = -1
        ∧ (Faulty.sony_bid D self file best_bid).self._reader.error = some .FileIo)
    ∧ (file.file.io_ok = true → file.fault_at 0 = false → file.fault_at 1 = false →
        (Faulty.sony_bid D self file best_bid).bid = (self.bid D file.file best_bid).bid
        ∧ (Faulty.sony_bid D self file best_bid).self = (self.bid D file.file best_bid).self) := by
  constructor
  · intro h
    obtain ⟨h1, h2⟩ := faulty_find_sony_fails D self._reader file self._hdr h
    unfold Faulty.sony_bid
    simp only [hb, if_false]
    rcases hr : Faulty.find_sony_elf_header D self._reader file self._hdr with ⟨b, rd, f1, hd⟩
    rw [hr] at h1 h2
    simp only [] at h1 h2
    subst h1
    simp only [h2, Option.map_some', Error.is_sony_elf, Option.getD_some, Bool.false_eq_true,
      if_false]
    exact ⟨trivial, trivial⟩
  · intro hio f0 f1
    obtain ⟨p1, p2, p3⟩ := faulty_find_sony_passes D self._reader file self._hdr hio f0 f1
    unfold Faulty.sony_bid SonyElfFormatReader.bid
    simp only [hb, if_false]
    rcases hr : Faulty.find_sony_elf_header D self._reader file self._hdr with ⟨b, rd, f1', hd⟩
    rcases hr2 : find_sony_elf_header D self._reader file.file self._hdr with ⟨b', rd', f2', hd'⟩
    rw [hr, hr2] at p1 p2 p3
    simp only [] at p1 p2 p3
    subst p1 p2 p3
    cases b with
    | true => exact ⟨rfl, rfl⟩
    | false =>
      simp only []
      split <;> exact ⟨rfl, rfl⟩

/-- C19: the Sony ELF bid on a file whose device can fail the seek and the read on its own.
For `best_bid < SONY_EI_NIDENT * 8` the bid is `SONY_EI_NIDENT * 8` exactly when no seek
and no read fails, the file holds at least `sizeof(Sony_Elf32_Ehdr) = 52` bytes and its
first `SONY_EI_NIDENT` bytes are `SONY_E_IDENT`; it is 0 exactly when no seek and no read
fails and the file is shorter than 52 bytes (the read reaches the end of the file, error
`SonyElfHeaderTooSmall`) or the identification bytes differ (error `InvalidElfMagic`); it
is -1 exactly when the seek or the read fails for another reason than the end of the file:
the device is unhealthy or fails one of the two operations. -/
theorem C19_sony_bid_classification (D : SonyElfDefs)
    (hpos : 0 < D.SONY_EI_NIDENT) (hn : D.SONY_EI_NIDENT ≤ 16)
    (hlen : D.SONY_E_IDENT.length = D.SONY_EI_NIDENT)
    (self : SonyElfFormatReader) (file : FaultyFile) (best_bid : Int)
    (hbest : best_bid < (D.SONY_EI_NIDENT : Int) * 8) :
    ((Faulty.sony_bid D self file best_bid).bid = (D.SONY_EI_NIDENT : Int) * 8 ↔
      ((file.file.io_ok = true ∧ file.fault_at 0 = false ∧ file.fault_at 1 = false)
        ∧ sizeof_Sony_Elf32_Ehdr ≤ file.file.data.length
        ∧ file.file.data.take D.SONY_EI_NIDENT = D.SONY_E_IDENT))
    ∧ ((Faulty.sony_bid D self file best_bid).bid = 0 ↔
      ((file.file.io_ok = true ∧ file.fault_at 0 = false ∧ file.fault_at 1 = false)
        ∧ (file.file.data.length < sizeof_Sony_Elf32_Ehdr
          ∨ file.file.data.take D.SONY_EI_NIDENT ≠ D.SONY_E_IDENT)))
    ∧ (file.file.io_ok = true → file.fault_at 0 = false → file.fault_at 1 = false →
        file.file.data.length < sizeof_Sony_Elf32_Ehdr →
        (Faulty.sony_bid D self file best_bid).self._reader.error
          = some .SonyElfHeaderTooSmall)
    ∧ (file.file.io_ok = true → file.fault_at 0 = false → file.fault_at 1 = false →
        sizeof_Sony_Elf32_Ehdr ≤ file.file.data.length →
        file.file.data.take D.SONY_EI_NIDENT ≠ D.SONY_E_IDENT →
        (Faulty.sony_bid D self file best_bid).self._reader.error = some .InvalidElfMagic)
    ∧ ((Faulty.sony_bid D self file best_bid).bid = -1 ↔
        (file.file.io_ok = false ∨ file.fault_at 0 = true ∨ file.fault_at 1 = true))
    ∧ ((file.file.io_ok = false ∨ file.fault_at 0 = true ∨ file.fault_at 1 = true) →
        (Faulty.sony_bid D self file best_bid).self._reader.error = some .FileIo) := by
  have hb : ¬ best_bid ≥ (D.SONY_EI_NIDENT : Int) * 8 := by omega
  obtain ⟨c1, c2⟩ := faulty_sony_bid_cases D self file best_bid hb
  obtain ⟨o1, o2, o3, o4, o5⟩ :=
    sony_bid_constant_device D hpos hn hlen self file.file best_bid hbest
  by_cases hfail : file.file.io_ok = false ∨ file.fault_at 0 = true ∨ file.fault_at 1 = true
  · obtain ⟨hv, he⟩ := c1 hfail
    have hno : ¬ (file.file.io_ok = true ∧ file.fault_at 0 = false ∧ file.fault_at 1 = false) := by
      rintro ⟨hio, f0, f1⟩
      rcases hfail with h | h | h
      · rw [hio] at h; cases h
      · rw [f0] at h; cases h
      · rw [f1] at h; cases h
    rw [hv]
    refine ⟨⟨fun h => ?_, fun h => absurd h.1 hno⟩, ⟨fun h => (by cases h), fun h => absurd h.1 hno⟩,
      fun hio f0 f1 => absurd ⟨hio, f0, f1⟩ hno, fun hio f0 f1 => absurd ⟨hio, f0, f1⟩ hno,
      ⟨fun _ => hfail, fun _ => rfl⟩, fun _ => he⟩
    omega
  · have hfail' := hfail
    simp only [not_or, Bool.not_eq_false, Bool.not_eq_true] at hfail
    obtain ⟨hio, f0, f1⟩ := hfail
    obtain ⟨hv, hs⟩ := c2 hio f0 f1
    rw [hv, hs, o1, o2, o5]
    refine ⟨⟨fun h => ⟨⟨hio, f0, f1⟩, h.2⟩, fun h => ⟨hio, h.2⟩⟩,
      ⟨fun h => ⟨⟨hio, f0, f1⟩, h.2⟩, fun h => ⟨hio, h.2⟩⟩,
      fun _ _ _ h => o3 hio h, fun _ _ _ h1 h2 => o4 hio h1 h2,
      ⟨fun h => (by rw [hio] at h; cases h), fun h => absurd h hfail'⟩,
      fun h => absurd h hfail'⟩

/-- Witness of C19: the image with two kernel program headers starts with the Sony ELF
identification and is bid `8 * 8 = 64` on a device that does not fail, and -1 on a device
that fails the read after the seek has succeeded. -/
theorem C19_sony_bid_classification_witness :
    (Faulty.sony_bid sony_elf_defs (SonyElfFormatReader.new Reader.init)
        ⟨File.of_bytes two_kernels_image 0, []⟩ 0).bid = 64
    ∧ (Faulty.sony_bid sony_elf_defs (SonyElfFormatReader.new Reader.init)
        ⟨File.of_bytes two_kernels_image 0, [false, true]⟩ 0).bid = -1 :=
  ⟨(C19_sony_bid_classification sony_elf_defs (by decide) (by decide) (by decide)
      (SonyElfFormatReader.new Reader.init) ⟨File.of_bytes two_kernels_image 0, []⟩ 0
      (by decide)).1.2 ⟨⟨rfl, rfl, rfl⟩, by decide, by decide⟩,
   (C19_sony_bid_classification sony_elf_defs (by decide) (by decide) (by decide)
      (SonyElfFormatReader.new Reader.init)
      ⟨File.of_bytes two_kernels_image 0, [false, true]⟩ 0
      (by decide)).2.2.2.2.1.2 (Or.inr (Or.inr rfl))⟩

/-! ## The unknown program header -/

/-- The header search of the Sony ELF reader on a healthy file with a valid ELF header. -/
theorem find_sony_elf_header_found (D : SonyElfDefs) (reader : Reader) (file : File)
    (header_out : Sony_Elf32_Ehdr) (hio : file.io_ok = true)
    (hv : has_sony_elf_header D file.data) :
    find_sony_elf_header D reader file header_out
      = (true, reader, { file with pos := 52 },
         Sony_Elf32_Ehdr.of_bytes (slice file.data 0 52)) := by
  obtain ⟨h52, hid⟩ := hv
  unfold find_sony_elf_header
  have h0 : file.seek_set 0 = (.ok 0, { file with pos := 0 }) := seek_set_healthy file 0 hio
  rw [h0]
  simp only []
  have hsl : (slice file.data 0 sizeof_Sony_Elf32_Ehdr).length = sizeof_Sony_Elf32_Ehdr := by
    rw [slice_length]
    omega
  rw [read_exact_healthy { file with pos := 0 } _ hio hsl]
  have hid2 : slice (slice file.data 0 sizeof_Sony_Elf32_Ehdr) 0 16 = slice file.data 0 16 := by
    simp [slice, sizeof_Sony_Elf32_Ehdr, List.take_take]
  simp only [hid2]
  rw [if_neg (fun h => h hid)]
  simp [sizeof_Sony_Elf32_Ehdr]

/-- The loop over the program headers stops at the first unknown program header with
`InvalidTypeOrFlagsField` when the headers before it pass. -/
theorem read_program_headers_unknown (D : SonyElfDefs) (data : List Nat) :
    ∀ (k n pos : Nat) (reader : Reader) (file : File) (header : Header)
      (entries : List SegmentReaderEntry),
      file.data = data → file.io_ok = true → k < n →
      pos + 32 * (k + 1) ≤ data.length → data.length < 2 ^ 63 →
      (∀ j, j < k →
        phdr_passes D data (Sony_Elf32_Phdr.of_bytes (slice data (pos + 32 * j) 32))) →
      phdr_unknown D (Sony_Elf32_Phdr.of_bytes (slice data (pos + 32 * k) 32)) →
      (read_program_headers D n pos reader file header entries).1 = false
      ∧ (read_program_headers D n pos reader file header entries).2.1
          = reader.set_error .InvalidTypeOrFlagsField := by
  intro k
  induction k with
  | zero =>
    intro n pos reader file header entries hdata hio hn hlen h63 _ hunk
    subst hdata
    obtain ⟨m, rfl⟩ : ∃ m, n = m + 1 := ⟨n - 1, by omega⟩
    have hslice : (slice file.data pos sizeof_Sony_Elf32_Phdr).length
        = sizeof_Sony_Elf32_Phdr := by
      rw [slice_length]
      simp only [sizeof_Sony_Elf32_Phdr]
      omega
    rw [read_program_headers, to_int64_small pos (by omega), seek_set_healthy file pos hio]
    simp only []
    rw [read_exact_healthy { file with pos := pos } _ hio hslice]
    simp only [sizeof_Sony_Elf32_Phdr]
    obtain ⟨hk, hsin⟩ := hunk
    simp only [Nat.mul_zero, Nat.add_zero] at hk hsin
    simp only [known_pairs, List.mem_cons, Prod.mk.injEq, List.mem_singleton,
      List.not_mem_nil, or_false, not_or] at hk
    obtain ⟨h0, h1, h2, h3, h4, h5⟩ := hk
    rw [if_neg h0, if_neg h1, if_neg h2, if_neg h3, if_neg h4, if_neg h5, if_neg hsin]
    exact ⟨rfl, rfl⟩
  | succ k ih =>
    intro n pos reader file header entries hdata hio hn hlen h63 hpass hunk
    subst hdata
    obtain ⟨m, rfl⟩ : ∃ m, n = m + 1 := ⟨n - 1, by omega⟩
    have hslice : (slice file.data pos sizeof_Sony_Elf32_Phdr).length
        = sizeof_Sony_Elf32_Phdr := by
      rw [slice_length]
      simp only [sizeof_Sony_Elf32_Phdr]
      omega
    have hmod : (pos + 32) % UINT64_MOD = pos + 32 :=
      Nat.mod_eq_of_lt (by simp only [UINT64_MOD]; omega)
    have hp0 := hpass 0 (by omega)
    rw [Nat.mul_zero, Nat.add_zero] at hp0
    have hpass' : ∀ j, j < k →
        phdr_passes D file.data
          (Sony_Elf32_Phdr.of_bytes (slice file.data (pos + 32 + 32 * j) 32)) := by
      intro j hj
      have h := hpass (j + 1) (by omega)
      rwa [show pos + 32 * (j + 1) = pos + 32 + 32 * j by ring] at h
    have hunk' : phdr_unknown D
        (Sony_Elf32_Phdr.of_bytes (slice file.data (pos + 32 + 32 * k) 32)) := by
      rwa [show pos + 32 * (k + 1) = pos + 32 + 32 * k by ring] at hunk
    have hlen' : pos + 32 + 32 * (k + 1) ≤ file.data.length := by omega
    have hm : k < m := by omega
    rw [read_program_headers, to_int64_small pos (by omega), seek_set_healthy file pos hio]
    simp only []
    rw [read_exact_healthy { file with pos := pos } _ hio hslice]
    simp only [sizeof_Sony_Elf32_Phdr, hmod]
    generalize Sony_Elf32_Phdr.of_bytes (slice file.data pos 32) = p at hp0 ⊢
    obtain ⟨hnu, hcmd⟩ := hp0
    by_cases c0 : p.p_type = D.SONY_E_TYPE_CMDLINE ∧ p.p_flags = D.SONY_E_FLAGS_CMDLINE
    · obtain ⟨hsz, hcl⟩ := hcmd c0
      rw [if_pos c0, if_neg (by omega : ¬ p.p_memsz ≥ 512)]
      rw [seek_set_healthy { file with pos := pos + 32 } p.p_offset hio]
      simp only []
      rw [read_exact_healthy { file with pos := p.p_offset } p.p_memsz hio hcl]
      simp only []
      exact ih m (pos + 32) reader _ _ _ rfl hio hm hlen' h63 hpass' hunk'
    rw [if_neg c0]
    by_cases c1 : p.p_type = D.SONY_E_TYPE_KERNEL ∧ p.p_flags = D.SONY_E_FLAGS_KERNEL
    · rw [if_pos c1]
      exact ih m (pos + 32) reader _ _ _ rfl hio hm hlen' h63 hpass' hunk'
    rw [if_neg c1]
    by_cases c2 : p.p_type = D.SONY_E_TYPE_RAMDISK ∧ p.p_flags = D.SONY_E_FLAGS_RAMDISK
    · rw [if_pos c2]
      exact ih m (pos + 32) reader _ _ _ rfl hio hm hlen' h63 hpass' hunk'
    rw [if_neg c2]
    by_cases c3 : p.p_type = D.SONY_E_TYPE_IPL ∧ p.p_flags = D.SONY_E_FLAGS_IPL
    · rw [if_pos c3]
      exact ih m (pos + 32) reader _ _ _ rfl hio hm hlen' h63 hpass' hunk'
    rw [if_neg c3]
    by_cases c4 : p.p_type = D.SONY_E_TYPE_RPM ∧ p.p_flags = D.SONY_E_FLAGS_RPM
    · rw [if_pos c4]
      exact ih m (pos + 32) reader _ _ _ rfl hio hm hlen' h63 hpass' hunk'
    rw [if_neg c4]
    by_cases c5 : p.p_type = D.SONY_E_TYPE_APPSBL ∧ p.p_flags = D.SONY_E_FLAGS_APPSBL
    · rw [if_pos c5]
      exact ih m (pos + 32) reader _ _ _ rfl hio hm hlen' h63 hpass' hunk'
    rw [if_neg c5]
    by_cases c6 : p.p_type = D.SONY_E_TYPE_SIN
    · rw [if_pos c6]
      exact ih m (pos + 32) reader _ _ _ rfl hio hm hlen' h63 hpass' hunk'
    exfalso
    apply hnu
    refine ⟨?_, c6⟩
    simp only [known_pairs, List.mem_cons, Prod.mk.injEq, List.mem_singleton,
      List.not_mem_nil, or_false, not_or]
    exact ⟨c0, c1, c2, c3, c4, c5⟩

/-- With a cached ELF header, `read_header` fails at the first unknown program header. -/
theorem sony_read_header_unknown_cached (D : SonyElfDefs) (self : SonyElfFormatReader)
    (file : File) (header : Header) (k : Nat) (hh : self._have_header = true)
    (hio : file.io_ok = true) (h63 : file.data.length < 2 ^ 63)
    (hk : k < self._hdr.e_phnum)
    (hlen : 52 + 32 * (k + 1) ≤ file.data.length)
    (hpass : ∀ j, j < k → phdr_passes D file.data (phdr_at file.data j))
    (hunk : phdr_unknown D (phdr_at file.data k)) :
    (self.read_header D file header).1 = false
    ∧ (self.read_header D file header).2.1._reader.error = some .InvalidTypeOrFlagsField
    ∧ (self.read_header D file header).2.1._seg = self._seg := by
  have h52 : (0 + sizeof_Sony_Elf32_Ehdr) % UINT64_MOD = 52 := by decide
  have hrp := read_program_headers_unknown D file.data k self._hdr.e_phnum 52 self._reader file
    ((header.set_supported_fields SONY_ELF_SUPPORTED_FIELDS).set_entrypoint_address
      (some self._hdr.e_entry)).2 [] rfl hio hk hlen h63 hpass hunk
  unfold SonyElfFormatReader.read_header
  simp only [h52, hh, Bool.true_eq_false, if_false]
  generalize read_program_headers D self._hdr.e_phnum 52 self._reader file
    ((header.set_supported_fields SONY_ELF_SUPPORTED_FIELDS).set_entrypoint_address
      (some self._hdr.e_entry)).2 [] = r at hrp ⊢
  obtain ⟨b, reader, file2, header3, entries⟩ := r
  obtain ⟨hb, hr⟩ := hrp
  simp only [] at hb hr
  subst hb
  subst hr
  exact ⟨rfl, rfl, rfl⟩

/-- C20: on a healthy file with a valid Sony ELF header, read by a reader that has no
cached ELF header or has cached the one of this file, let program header `k` be the first
unknown one: its `(type, flags)` pair is none of the six known pairs (command line, kernel,
ramdisk, ipl, rpm, appsbl) and its type is not the signature type, so a known type with
other flags than the expected ones counts as unknown.  If the program headers up to `k` lie
within the file and every program header before `k` passes without a failure, then
`read_header` fails, the error is `InvalidTypeOrFlagsField`, and the segment list of the
reader is left as it was. -/
theorem C20_unknown_program_header (D : SonyElfDefs) (self : SonyElfFormatReader)
    (file : File) (header : Header) (k : Nat)
    (hio : file.io_ok = true) (h63 : file.data.length < 2 ^ 63)
    (hv : has_sony_elf_header D file.data)
    (hcache : self._have_header = true →
      self._hdr = Sony_Elf32_Ehdr.of_bytes (slice file.data 0 52))
    (hk : k < (Sony_Elf32_Ehdr.of_bytes (slice file.data 0 52)).e_phnum)
    (hlen : sizeof_Sony_Elf32_Ehdr + sizeof_Sony_Elf32_Phdr * (k + 1) ≤ file.data.length)
    (hpass : ∀ j, j < k → phdr_passes D file.data (phdr_at file.data j))
    (hunk : phdr_unknown D (phdr_at file.data k)) :
    (self.read_header D file header).1 = false
    ∧ (self.read_header D file header).2.1._reader.error = some .InvalidTypeOrFlagsField
    ∧ (self.read_header D file header).2.1._seg = self._seg := by
  simp only [sizeof_Sony_Elf32_Ehdr, sizeof_Sony_Elf32_Phdr] at hlen
  cases hh : self._have_header with
  | true =>
    exact sony_read_header_unknown_cached D self file header k hh hio h63
      (by rw [hcache hh]; exact hk) hlen hpass hunk
  | false =>
    obtain ⟨_, ht⟩ := sony_read_header_uncached D self file header hh
    have hfind := find_sony_elf_header_found D self._reader file self._hdr hio hv
    rw [ht (by rw [hfind]), hfind]
    exact sony_read_header_unknown_cached D _ _ header k rfl hio h63 hk hlen hpass hunk

/-- Witness of C20: the only program header of the file has the type of a command line and
the flags 0. -/
theorem C20_unknown_program_header_witness :
    ((SonyElfFormatReader.new Reader.init).read_header sony_elf_defs
        (File.of_bytes wrong_flags_image 0) Header.empty).1 = false
    ∧ ((SonyElfFormatReader.new Reader.init).read_header sony_elf_defs
        (File.of_bytes wrong_flags_image 0) Header.empty).2.1._reader.error
        = some .InvalidTypeOrFlagsField
    ∧ ((SonyElfFormatReader.new Reader.init).read_header sony_elf_defs
        (File.of_bytes wrong_flags_image 0) Header.empty).2.1._seg = SegmentReader.init :=
  C20_unknown_program_header sony_elf_defs (SonyElfFormatReader.new Reader.init)
    (File.of_bytes wrong_flags_image 0) Header.empty 0 rfl (by decide) (by decide)
    (fun h => absurd h (by decide)) (by decide) (by decide)
    (fun j hj => absurd hj (Nat.not_lt_zero j)) (by decide)

/-! ## One round of the loop over the program headers -/

/-- A successful round of the loop has read its program header from a healthy device. -/
theorem read_program_headers_succ_readable (D : SonyElfDefs) (n pos : Nat) (reader : Reader)
    (file : File) (header : Header) (entries : List SegmentReaderEntry)
    (hpos : pos < UINT64_MOD)
    (h : (read_program_headers D (n + 1) pos reader file header entries).1 = true) :
    file.io_ok = true ∧ pos < 2 ^ 63 ∧ pos + 32 ≤ file.data.length := by
  rw [read_program_headers] at h
  rcases seek_set_cases file (to_int64 pos) with ⟨e, he⟩ | ⟨hio, h0, he⟩
  · rw [he] at h; simp at h
  obtain ⟨hp63, hto⟩ := to_int64_nonneg pos hpos h0
  rw [he] at h
  simp only [hto] at h
  rcases read_exact_cases { file with pos := pos } sizeof_Sony_Elf32_Phdr with
    ⟨e, f', hr, _⟩ | ⟨_, hlen, hr⟩
  · rw [hr] at h; simp at h
  refine ⟨hio, hp63, ?_⟩
  rw [slice_length] at hlen
  simp only [sizeof_Sony_Elf32_Phdr] at hlen
  omega

/-- One round of the loop on a healthy device, when the program header at `pos` lies
within the file: either the program header passes and the loop goes on with the state that
`apply_phdr` describes, or the loop fails with the error of the first check that the
program header does not pass. -/
theorem read_program_headers_step_cases (D : SonyElfDefs) (n pos : Nat) (reader : Reader)
    (file : File) (header : Header) (entries : List SegmentReaderEntry)
    (p : Sony_Elf32_Phdr) (hp : Sony_Elf32_Phdr.of_bytes (slice file.data pos 32) = p)
    (hio : file.io_ok = true) (h63 : pos < 2 ^ 63) (hlen : pos + 32 ≤ file.data.length) :
    (phdr_passes D file.data p
      ∧ ∃ file', file'.data = file.data ∧ file'.io_ok = true
        ∧ read_program_headers D (n + 1) pos reader file header entries
          = read_program_headers D n (pos + 32) reader file'
              (apply_phdr D file.data (header, entries) p).1
              (apply_phdr D file.data (header, entries) p).2)
    ∨ (phdr_unknown D p
      ∧ (read_program_headers D (n + 1) pos reader file header entries).1 = false
      ∧ (read_program_headers D (n + 1) pos reader file header entries).2.1
          = reader.set_error .InvalidTypeOrFlagsField)
    ∨ ((p.p_type = D.SONY_E_TYPE_CMDLINE ∧ p.p_flags = D.SONY_E_FLAGS_CMDLINE)
      ∧ p.p_memsz ≥ 512
      ∧ (read_program_headers D (n + 1) pos reader file header entries).1 = false
      ∧ (read_program_headers D (n + 1) pos reader file header entries).2.1
          = reader.set_error .KernelCmdlineTooLong)
    ∨ ((p.p_type = D.SONY_E_TYPE_CMDLINE ∧ p.p_flags = D.SONY_E_FLAGS_CMDLINE)
      ∧ p.p_memsz < 512
      ∧ (slice file.data p.p_offset p.p_memsz).length < p.p_memsz
      ∧ (read_program_headers D (n + 1) pos reader file header entries).1 = false
      ∧ (read_program_headers D (n + 1) pos reader file header entries).2.1.error
          = some .FileUnexpectedEof) := by
  have hslice : (slice file.data pos sizeof_Sony_Elf32_Phdr).length
      = sizeof_Sony_Elf32_Phdr := by
    rw [slice_length]
    simp only [sizeof_Sony_Elf32_Phdr]
    omega
  have hmod : (pos + 32) % UINT64_MOD = pos + 32 :=
    Nat.mod_eq_of_lt (by simp only [UINT64_MOD]; omega)
  rw [read_program_headers, to_int64_small pos h63, seek_set_healthy file pos hio]
  simp only []
  rw [read_exact_healthy { file with pos := pos } _ hio hslice]
  simp only [sizeof_Sony_Elf32_Phdr, hmod, hp]
  have hknown : ∀ t f : Nat, (t, f) ∈ known_pairs D → p.p_type = t ∧ p.p_flags = f →
      ¬ phdr_unknown D p := by
    intro t f hq he hu
    apply hu.1
    rw [he.1, he.2]
    exact hq
  by_cases c0 : p.p_type = D.SONY_E_TYPE_CMDLINE ∧ p.p_flags = D.SONY_E_FLAGS_CMDLINE
  · have hnu : ¬ phdr_unknown D p :=
      hknown D.SONY_E_TYPE_CMDLINE D.SONY_E_FLAGS_CMDLINE (by simp [known_pairs]) c0
    rw [if_pos c0]
    by_cases c1 : p.p_memsz ≥ 512
    · rw [if_pos c1]
      exact Or.inr (Or.inr (Or.inl ⟨c0, c1, rfl, rfl⟩))
    rw [if_neg c1]
    rw [seek_set_healthy { file with pos := pos + 32 } p.p_offset hio]
    simp only []
    by_cases c2 : (slice file.data p.p_offset p.p_memsz).length < p.p_memsz
    · refine Or.inr (Or.inr (Or.inr ⟨c0, by omega, c2, ?_, ?_⟩))
      · simp [file_read_exact, hio, c2]
      · simp [file_read_exact, hio, c2, fatal_if_error]
    · have hfull : (slice file.data p.p_offset p.p_memsz).length = p.p_memsz := by
        have := slice_length file.data p.p_offset p.p_memsz
        omega
      rw [read_exact_healthy { file with pos := p.p_offset } p.p_memsz hio hfull]
      simp only []
      refine Or.inl ⟨⟨hnu, fun _ => ⟨by omega, hfull⟩⟩,
        { file with pos := p.p_offset + p.p_memsz }, rfl, hio, ?_⟩
      simp only [apply_phdr, c0, and_self, if_true]
  rw [if_neg c0]
  have hcmd : p.p_type = D.SONY_E_TYPE_CMDLINE ∧ p.p_flags = D.SONY_E_FLAGS_CMDLINE →
      p.p_memsz < 512 ∧ (slice file.data p.p_offset p.p_memsz).length = p.p_memsz :=
    fun h => absurd h c0
  by_cases c1 : p.p_type = D.SONY_E_TYPE_KERNEL ∧ p.p_flags = D.SONY_E_FLAGS_KERNEL
  · rw [if_pos c1]
    refine Or.inl ⟨⟨hknown D.SONY_E_TYPE_KERNEL D.SONY_E_FLAGS_KERNEL (by simp [known_pairs]) c1, hcmd⟩,
      { file with pos := pos + 32 }, rfl, hio, ?_⟩
    rw [apply_phdr, if_neg c0, if_pos c1]
  rw [if_neg c1]
  by_cases c2 : p.p_type = D.SONY_E_TYPE_RAMDISK ∧ p.p_flags = D.SONY_E_FLAGS_RAMDISK
  · rw [if_pos c2]
    refine Or.inl ⟨⟨hknown D.SONY_E_TYPE_RAMDISK D.SONY_E_FLAGS_RAMDISK (by simp [known_pairs]) c2, hcmd⟩,
      { file with pos := pos + 32 }, rfl, hio, ?_⟩
    rw [apply_phdr, if_neg c0, if_neg c1, if_pos c2]
  rw [if_neg c2]
  by_cases c3 : p.p_type = D.SONY_E_TYPE_IPL ∧ p.p_flags = D.SONY_E_FLAGS_IPL
  · rw [if_pos c3]
    refine Or.inl ⟨⟨hknown D.SONY_E_TYPE_IPL D.SONY_E_FLAGS_IPL (by simp [known_pairs]) c3, hcmd⟩,
      { file with pos := pos + 32 }, rfl, hio, ?_⟩
    rw [apply_phdr, if_neg c0, if_neg c1, if_neg c2, if_pos c3]
  rw [if_neg c3]
  by_cases c4 : p.p_type = D.SONY_E_TYPE_RPM ∧ p.p_flags = D.SONY_E_FLAGS_RPM
  · rw [if_pos c4]
    refine Or.inl ⟨⟨hknown D.SONY_E_TYPE_RPM D.SONY_E_FLAGS_RPM (by simp [known_pairs]) c4, hcmd⟩,
      { file with pos := pos + 32 }, rfl, hio, ?_⟩
    rw [apply_phdr, if_neg c0, if_neg c1, if_neg c2, if_neg c3, if_pos c4]
  rw [if_neg c4]
  by_cases c5 : p.p_type = D.SONY_E_TYPE_APPSBL ∧ p.p_flags = D.SONY_E_FLAGS_APPSBL
  · rw [if_pos c5]
    refine Or.inl ⟨⟨hknown D.SONY_E_TYPE_APPSBL D.SONY_E_FLAGS_APPSBL (by simp [known_pairs]) c5, hcmd⟩,
      { file with pos := pos + 32 }, rfl, hio, ?_⟩
    rw [apply_phdr, if_neg c0, if_neg c1, if_neg c2, if_neg c3, if_neg c4, if_pos c5]
  rw [if_neg c5]
  by_cases c6 : p.p_type = D.SONY_E_TYPE_SIN
  · rw [if_pos c6]
    refine Or.inl ⟨⟨fun hu => hu.2 c6, hcmd⟩, { file with pos := pos + 32 }, rfl, hio, ?_⟩
    rw [apply_phdr, if_neg c0, if_neg c1, if_neg c2, if_neg c3, if_neg c4, if_neg c5]
  rw [if_neg c6]
  refine Or.inr (Or.inl ⟨⟨?_, c6⟩, rfl, rfl⟩)
  simp only [known_pairs, List.mem_cons, Prod.mk.injEq, List.mem_singleton,
    List.not_mem_nil, or_false, not_or]
  exact ⟨c0, c1, c2, c3, c4, c5⟩

/-! ## The loop over the program headers as a fold -/

/-- The loop gets past `k` program headers that pass. -/
theorem read_program_headers_skip (D : SonyElfDefs) :
    ∀ (k n pos : Nat) (reader : Reader) (file : File) (header : Header)
      (entries : List SegmentReaderEntry),
      file.io_ok = true → pos + 32 * k ≤ file.data.length → file.data.length < 2 ^ 63 →
      (∀ j, j < k →
        phdr_passes D file.data (Sony_Elf32_Phdr.of_bytes (slice file.data (pos + 32 * j) 32))) →
      ∃ file' header' entries', file'.data = file.data ∧ file'.io_ok = true
        ∧ read_program_headers D (k + n) pos reader file header entries
          = read_program_headers D n (pos + 32 * k) reader file' header' entries' := by
  intro k
  induction k with
  | zero =>
    intro n pos reader file header entries hio _ _ _
    exact ⟨file, header, entries, rfl, hio, by simp⟩
  | succ k ih =>
    intro n pos reader file header entries hio hlen h63 hpass
    have hp0 := hpass 0 (by omega)
    rw [Nat.mul_zero, Nat.add_zero] at hp0
    rcases read_program_headers_step_cases D (k + n) pos reader file header entries _ rfl hio
      (by omega) (by omega) with ⟨_, file1, hd1, hio1, heq⟩ | ⟨hu, _⟩ | ⟨hc, hsz, _⟩
      | ⟨hc, _, hshort, _⟩
    · have hpass' : ∀ j, j < k → phdr_passes D file1.data
          (Sony_Elf32_Phdr.of_bytes (slice file1.data (pos + 32 + 32 * j) 32)) := by
        intro j hj
        have h := hpass (j + 1) (by omega)
        rw [hd1]
        rwa [show pos + 32 * (j + 1) = pos + 32 + 32 * j by ring] at h
      obtain ⟨file', header', entries', hd', hio', heq'⟩ :=
        ih n (pos + 32) reader file1 _ _ hio1 (by rw [hd1]; omega) (by rw [hd1]; exact h63)
          hpass'
      refine ⟨file', header', entries', by rw [hd', hd1], hio', ?_⟩
      rw [show k + 1 + n = k + n + 1 by omega, heq, heq',
        show pos + 32 + 32 * k = pos + 32 * (k + 1) by ring]
    · exact absurd hu hp0.1
    · have := (hp0.2 hc).1
      omega
    · have := (hp0.2 hc).2
      omega

/-- The loop stops at the first command line program header of 512 bytes or more with
`KernelCmdlineTooLong` when the program headers before it pass. -/
theorem read_program_headers_too_long (D : SonyElfDefs) (k n pos : Nat) (reader : Reader)
    (file : File) (header : Header) (entries : List SegmentReaderEntry)
    (hio : file.io_ok = true) (hk : k < n) (hlen : pos + 32 * (k + 1) ≤ file.data.length)
    (h63 : file.data.length < 2 ^ 63)
    (hpass : ∀ j, j < k →
      phdr_passes D file.data (Sony_Elf32_Phdr.of_bytes (slice file.data (pos + 32 * j) 32)))
    (hc : (Sony_Elf32_Phdr.of_bytes (slice file.data (pos + 32 * k) 32)).p_type
        = D.SONY_E_TYPE_CMDLINE
      ∧ (Sony_Elf32_Phdr.of_bytes (slice file.data (pos + 32 * k) 32)).p_flags
        = D.SONY_E_FLAGS_CMDLINE)
    (hsz : (Sony_Elf32_Phdr.of_bytes (slice file.data (pos + 32 * k) 32)).p_memsz ≥ 512) :
    (read_program_headers D n pos reader file header entries).1 = false
    ∧ (read_program_headers D n pos reader file header entries).2.1
        = reader.set_error .KernelCmdlineTooLong := by
  obtain ⟨m, rfl⟩ : ∃ m, n = k + (m + 1) := ⟨n - k - 1, by omega⟩
  obtain ⟨file', header', entries', hd', hio', heq⟩ :=
    read_program_headers_skip D k (m + 1) pos reader file header entries hio (by omega) h63
      hpass
  rw [heq]
  rcases read_program_headers_step_cases D m (pos + 32 * k) reader file' header' entries' _
      rfl hio' (by omega) (by rw [hd']; omega) with
    ⟨hp, _⟩ | ⟨hu, _⟩ | ⟨_, _, h1, h2⟩ | ⟨_, hlt, _⟩
  · rw [hd'] at hp
    have := (hp.2 hc).1
    omega
  · rw [hd'] at hu
    exfalso
    apply hu.1
    rw [hc.1, hc.2]
    simp [known_pairs]
  · exact ⟨h1, h2⟩
  · rw [hd'] at hlt
    omega

/-- When the loop over the program headers succeeds, every program header passes and the
`Header` and the segment list are those of the fold of `apply_phdr`. -/
theorem read_program_headers_ok_fold (D : SonyElfDefs) :
    ∀ (n pos : Nat) (reader : Reader) (file : File) (header : Header)
      (entries : List SegmentReaderEntry), pos < UINT64_MOD →
      (read_program_headers D n pos reader file header entries).1 = true →
      (∀ j, j < n →
        phdr_passes D file.data (Sony_Elf32_Phdr.of_bytes (slice file.data (pos + 32 * j) 32)))
      ∧ ((read_program_headers D n pos reader file header entries).2.2.2.1,
         (read_program_headers D n pos reader file header entries).2.2.2.2)
        = ((List.range n).map
            (fun j => Sony_Elf32_Phdr.of_bytes (slice file.data (pos + 32 * j) 32))).foldl
            (apply_phdr D file.data) (header, entries) := by
  intro n
  induction n with
  | zero =>
    intro pos reader file header entries _ _
    exact ⟨fun j hj => absurd hj (Nat.not_lt_zero j), rfl⟩
  | succ n ih =>
    intro pos reader file header entries hpos h
    obtain ⟨hio, h63, hlen⟩ :=
      read_program_headers_succ_readable D n pos reader file header entries hpos h
    rcases read_program_headers_step_cases D n pos reader file header entries _ rfl hio h63
      hlen with ⟨hp, file1, hd1, hio1, heq⟩ | ⟨_, hf, _⟩ | ⟨_, _, hf, _⟩ | ⟨_, _, _, hf, _⟩
    · rw [heq] at h ⊢
      obtain ⟨ihp, ihe⟩ := ih (pos + 32) reader file1 _ _
        (by simp only [UINT64_MOD]; omega) h
      rw [hd1] at ihp ihe
      refine ⟨?_, ?_⟩
      · intro j hj
        rcases Nat.eq_zero_or_pos j with h0 | hpos'
        · subst h0
          simpa using hp
        · obtain ⟨i, rfl⟩ : ∃ i, j = i + 1 := ⟨j - 1, by omega⟩
          have := ihp i (by omega)
          rwa [show pos + 32 + 32 * i = pos + 32 * (i + 1) by ring] at this
      · rw [ihe, List.range_succ_eq_map, List.map_cons, List.foldl_cons, List.map_map]
        simp only [Nat.mul_zero, Nat.add_zero]
        congr 2
        funext i
        simp only [Function.comp, Nat.succ_eq_add_one]
        rw [show pos + 32 + 32 * i = pos + 32 * (i + 1) by ring]
    · rw [hf] at h; cases h
    · rw [hf] at h; cases h
    · rw [hf] at h; cases h

/-! ## The fields of the `Header` after the loop -/

theorem apply_phdr_supported (D : SonyElfDefs) (data : List Nat)
    (st : Header × List SegmentReaderEntry) (p : Sony_Elf32_Phdr) :
    (apply_phdr D data st p).1.supported_fields = st.1.supported_fields := by
  unfold apply_phdr
  split_ifs <;>
    simp only [Header.set_kernel_cmdline, Header.set_kernel_address,
      Header.set_ramdisk_address, Header.set_sony_ipl_address, Header.set_sony_rpm_address,
      Header.set_sony_appsbl_address] <;>
    split_ifs <;> rfl

theorem fold_supported (D : SonyElfDefs) (data : List Nat) :
    ∀ (ps : List Sony_Elf32_Phdr) (st : Header × List SegmentReaderEntry),
      (ps.foldl (apply_phdr D data) st).1.supported_fields = st.1.supported_fields := by
  intro ps
  induction ps with
  | nil => intro st; rfl
  | cons p rest ih =>
    intro st
    rw [List.foldl_cons, ih, apply_phdr_supported]

theorem last_of_concat {α : Type} (sel : Sony_Elf32_Phdr → Option α)
    (ps : List Sony_Elf32_Phdr) (p : Sony_Elf32_Phdr) (old : Option α) :
    last_of sel (ps ++ [p]) old
      = (sel p).or (last_of sel ps old) := by
  unfold last_of
  rw [List.filterMap_append]
  cases h : sel p with
  | none => simp [List.filterMap_cons, h]
  | some v => simp [List.filterMap_cons, h]

/-- A field that every round either overrides with `sel p` or leaves alone holds, after the
loop, the value of the last program header that overrides it. -/
theorem fold_last_of {α : Type} (D : SonyElfDefs) (data : List Nat) (proj : Header → Option α)
    (sel : Sony_Elf32_Phdr → Option α)
    (hstep : ∀ (st : Header × List SegmentReaderEntry) (p : Sony_Elf32_Phdr),
      st.1.supported_fields = SONY_ELF_SUPPORTED_FIELDS →
      proj (apply_phdr D data st p).1
        = (sel p).or (proj st.1)) :
    ∀ (ps : List Sony_Elf32_Phdr) (st : Header × List SegmentReaderEntry),
      st.1.supported_fields = SONY_ELF_SUPPORTED_FIELDS →
      proj (ps.foldl (apply_phdr D data) st).1 = last_of sel ps (proj st.1) := by
  intro ps
  induction ps using List.reverseRecOn with
  | nil =>
    intro st _
    simp [last_of]
  | append_singleton ps p ih =>
    intro st hs
    rw [List.foldl_append, List.foldl_cons, List.foldl_nil, last_of_concat,
      hstep _ p (by rw [fold_supported]; exact hs), ih st hs]

theorem c_str_terminated (c : List Nat) :
    c_str (c ++ [0]) = c.takeWhile (fun x => x != 0) := by
  unfold c_str
  induction c with
  | nil => simp [List.takeWhile]
  | cons a t ih =>
    rw [List.cons_append, List.takeWhile_cons, List.takeWhile_cons, ih]

theorem apply_phdr_kernel_address (D : SonyElfDefs) (hD : D.valid) (data : List Nat)
    (st : Header × List SegmentReaderEntry) (p : Sony_Elf32_Phdr)
    (hs : st.1.supported_fields = SONY_ELF_SUPPORTED_FIELDS) :
    (apply_phdr D data st p).1.kernel_address
      = (vaddr_of D.SONY_E_TYPE_KERNEL D.SONY_E_FLAGS_KERNEL p).or (st.1.kernel_address) := by
  have hd := valid_distinct D hD
  unfold apply_phdr vaddr_of
  simp only [Header.set_kernel_cmdline, Header.set_kernel_address,
    Header.set_ramdisk_address, Header.set_sony_ipl_address, Header.set_sony_rpm_address,
    Header.set_sony_appsbl_address, hs, SONY_ELF_SUPPORTED_FIELDS]
  split_ifs <;> simp_all

theorem apply_phdr_ramdisk_address (D : SonyElfDefs) (hD : D.valid) (data : List Nat)
    (st : Header × List SegmentReaderEntry) (p : Sony_Elf32_Phdr)
    (hs : st.1.supported_fields = SONY_ELF_SUPPORTED_FIELDS) :
    (apply_phdr D data st p).1.ramdisk_address
      = (vaddr_of D.SONY_E_TYPE_RAMDISK D.SONY_E_FLAGS_RAMDISK p).or (st.1.ramdisk_address) := by
  have hd := valid_distinct D hD
  unfold apply_phdr vaddr_of
  simp only [Header.set_kernel_cmdline, Header.set_kernel_address,
    Header.set_ramdisk_address, Header.set_sony_ipl_address, Header.set_sony_rpm_address,
    Header.set_sony_appsbl_address, hs, SONY_ELF_SUPPORTED_FIELDS]
  split_ifs <;> simp_all

theorem apply_phdr_sony_ipl_address (D : SonyElfDefs) (hD : D.valid) (data : List Nat)
    (st : Header × List SegmentReaderEntry) (p : Sony_Elf32_Phdr)
    (hs : st.1.supported_fields = SONY_ELF_SUPPORTED_FIELDS) :
    (apply_phdr D data st p).1.sony_ipl_address
      = (vaddr_of D.SONY_E_TYPE_IPL D.SONY_E_FLAGS_IPL p).or (st.1.sony_ipl_address) := by
  have hd := valid_distinct D hD
  unfold apply_phdr vaddr_of
  simp only [Header.set_kernel_cmdline, Header.set_kernel_address,
    Header.set_ramdisk_address, Header.set_sony_ipl_address, Header.set_sony_rpm_address,
    Header.set_sony_appsbl_address, hs, SONY_ELF_SUPPORTED_FIELDS]
  split_ifs <;> simp_all

theorem apply_phdr_sony_rpm_address (D : SonyElfDefs) (hD : D.valid) (data : List Nat)
    (st : Header × List SegmentReaderEntry) (p : Sony_Elf32_Phdr)
    (hs : st.1.supported_fields = SONY_ELF_SUPPORTED_FIELDS) :
    (apply_phdr D data st p).1.sony_rpm_address
      = (vaddr_of D.SONY_E_TYPE_RPM D.SONY_E_FLAGS_RPM p).or (st.1.sony_rpm_address) := by
  have hd := valid_distinct D hD
  unfold apply_phdr vaddr_of
  simp only [Header.set_kernel_cmdline, Header.set_kernel_address,
    Header.set_ramdisk_address, Header.set_sony_ipl_address, Header.set_sony_rpm_address,
    Header.set_sony_appsbl_address, hs, SONY_ELF_SUPPORTED_FIELDS]
  split_ifs <;> simp_all

theorem apply_phdr_sony_appsbl_address (D : SonyElfDefs) (hD : D.valid) (data : List Nat)
    (st : Header × List SegmentReaderEntry) (p : Sony_Elf32_Phdr)
    (hs : st.1.supported_fields = SONY_ELF_SUPPORTED_FIELDS) :
    (apply_phdr D data st p).1.sony_appsbl_address
      = (vaddr_of D.SONY_E_TYPE_APPSBL D.SONY_E_FLAGS_APPSBL p).or (st.1.sony_appsbl_address) := by
  have hd := valid_distinct D hD
  unfold apply_phdr vaddr_of
  simp only [Header.set_kernel_cmdline, Header.set_kernel_address,
    Header.set_ramdisk_address, Header.set_sony_ipl_address, Header.set_sony_rpm_address,
    Header.set_sony_appsbl_address, hs, SONY_ELF_SUPPORTED_FIELDS]
  split_ifs <;> simp_all

theorem apply_phdr_kernel_cmdline (D : SonyElfDefs) (data : List Nat)
    (st : Header × List SegmentReaderEntry) (p : Sony_Elf32_Phdr)
    (hs : st.1.supported_fields = SONY_ELF_SUPPORTED_FIELDS) :
    (apply_phdr D data st p).1.kernel_cmdline
      = (cmdline_of D data p).or (st.1.kernel_cmdline) := by
  unfold apply_phdr cmdline_of
  simp only [Header.set_kernel_cmdline, Header.set_kernel_address,
    Header.set_ramdisk_address, Header.set_sony_ipl_address, Header.set_sony_rpm_address,
    Header.set_sony_appsbl_address, hs, SONY_ELF_SUPPORTED_FIELDS, c_str_terminated]
  split_ifs <;> simp_all

theorem apply_phdr_entrypoint (D : SonyElfDefs) (data : List Nat)
    (st : Header × List SegmentReaderEntry) (p : Sony_Elf32_Phdr) :
    (apply_phdr D data st p).1.entrypoint_address = st.1.entrypoint_address := by
  unfold apply_phdr
  split_ifs <;>
    simp only [Header.set_kernel_cmdline, Header.set_kernel_address,
      Header.set_ramdisk_address, Header.set_sony_ipl_address, Header.set_sony_rpm_address,
      Header.set_sony_appsbl_address] <;>
    split_ifs <;> rfl

theorem fold_entrypoint (D : SonyElfDefs) (data : List Nat) :
    ∀ (ps : List Sony_Elf32_Phdr) (st : Header × List SegmentReaderEntry),
      (ps.foldl (apply_phdr D data) st).1.entrypoint_address = st.1.entrypoint_address := by
  intro ps
  induction ps with
  | nil => intro st; rfl
  | cons p rest ih =>
    intro st
    rw [List.foldl_cons, ih, apply_phdr_entrypoint]

/-- Reading the header with a cached ELF header: when it succeeds, every program header
passes and the `Header` is the fold of `apply_phdr` over the program headers. -/
theorem sony_read_header_cached_fold (D : SonyElfDefs) (self : SonyElfFormatReader)
    (file : File) (header : Header) (hh : self._have_header = true)
    (hok : (self.read_header D file header).1 = true) :
    (∀ j, j < self._hdr.e_phnum → phdr_passes D file.data (phdr_at file.data j))
    ∧ (self.read_header D file header).2.2.2
      = ((file_phdrs file.data self._hdr.e_phnum).foldl (apply_phdr D file.data)
          (((header.set_supported_fields SONY_ELF_SUPPORTED_FIELDS).set_entrypoint_address
            (some self._hdr.e_entry)).2, [])).1
    ∧ (self.read_header D file header).2.1._hdr = self._hdr := by
  have h52 : (0 + sizeof_Sony_Elf32_Ehdr) % UINT64_MOD = 52 := by decide
  unfold SonyElfFormatReader.read_header at hok ⊢
  simp only [h52, hh, Bool.true_eq_false, if_false] at hok ⊢
  have hrp := read_program_headers_ok_fold D self._hdr.e_phnum 52 self._reader file
    ((header.set_supported_fields SONY_ELF_SUPPORTED_FIELDS).set_entrypoint_address
      (some self._hdr.e_entry)).2 [] (by decide)
  generalize read_program_headers D self._hdr.e_phnum 52 self._reader file
    ((header.set_supported_fields SONY_ELF_SUPPORTED_FIELDS).set_entrypoint_address
      (some self._hdr.e_entry)).2 [] = r at hok hrp ⊢
  obtain ⟨b, reader, file2, header3, entries⟩ := r
  cases b with
  | false => simp at hok
  | true =>
    simp only [] at hok ⊢
    obtain ⟨hpass, hfold⟩ := hrp rfl
    refine ⟨hpass, ?_, trivial⟩
    have h1 := congrArg Prod.fst hfold
    simp only [] at h1
    rw [h1]
    rfl

/-- When `read_header` succeeds, every program header passes and the `Header` is the fold
of `apply_phdr` over the program headers, started from the caller's `Header` with the
supported fields and the entry point set. -/
theorem sony_read_header_ok_fold (D : SonyElfDefs) (self : SonyElfFormatReader)
    (file : File) (header : Header)
    (hok : (self.read_header D file header).1 = true) :
    (∀ j, j < (self.read_header D file header).2.1._hdr.e_phnum →
      phdr_passes D file.data (phdr_at file.data j))
    ∧ (self.read_header D file header).2.2.2
      = ((file_phdrs file.data (self.read_header D file header).2.1._hdr.e_phnum).foldl
          (apply_phdr D file.data)
          (((header.set_supported_fields SONY_ELF_SUPPORTED_FIELDS).set_entrypoint_address
            (some (self.read_header D file header).2.1._hdr.e_entry)).2, [])).1 := by
  cases hh : self._have_header with
  | true =>
    obtain ⟨h1, h2, h3⟩ := sony_read_header_cached_fold D self file header hh hok
    rw [h3]
    exact ⟨h1, h2⟩
  | false =>
    obtain ⟨hf, ht⟩ := sony_read_header_uncached D self file header hh
    cases hfind : (find_sony_elf_header D self._reader file self._hdr).1 with
    | false =>
      rw [(hf hfind).1] at hok
      cases hok
    | true =>
      have hd := find_sony_elf_header_data D self._reader file self._hdr
      have heq := ht hfind
      rw [heq] at hok ⊢
      obtain ⟨h1, h2, h3⟩ := sony_read_header_cached_fold D _ _ header rfl hok
      rw [h3]
      rw [hd] at h1 h2
      exact ⟨h1, h2⟩

/-! ## The segment list and the `Header` of a Sony ELF image -/

theorem pair_entry_type_known (D : SonyElfDefs) (hD : D.valid) :
    pair_entry_type D (D.SONY_E_TYPE_KERNEL, D.SONY_E_FLAGS_KERNEL) = some ENTRY_TYPE_KERNEL
    ∧ pair_entry_type D (D.SONY_E_TYPE_RAMDISK, D.SONY_E_FLAGS_RAMDISK)
        = some ENTRY_TYPE_RAMDISK
    ∧ pair_entry_type D (D.SONY_E_TYPE_IPL, D.SONY_E_FLAGS_IPL) = some ENTRY_TYPE_SONY_IPL
    ∧ pair_entry_type D (D.SONY_E_TYPE_RPM, D.SONY_E_FLAGS_RPM) = some ENTRY_TYPE_SONY_RPM
    ∧ pair_entry_type D (D.SONY_E_TYPE_APPSBL, D.SONY_E_FLAGS_APPSBL)
        = some ENTRY_TYPE_SONY_APPSBL
    ∧ pair_entry_type D (D.SONY_E_TYPE_CMDLINE, D.SONY_E_FLAGS_CMDLINE) = none := by
  obtain ⟨kc, rc, rk, ic, ik, ir, mc, mk, mr, mi, ac, ak, ar, ai, am⟩ := valid_distinct D hD
  refine ⟨?_, ?_, ?_, ?_, ?_, ?_⟩
  · rw [pair_entry_type, if_neg kc, if_pos ⟨rfl, rfl⟩]
  · rw [pair_entry_type, if_neg rc, if_neg rk, if_pos ⟨rfl, rfl⟩]
  · rw [pair_entry_type, if_neg ic, if_neg ik, if_neg ir, if_pos ⟨rfl, rfl⟩]
  · rw [pair_entry_type, if_neg mc, if_neg mk, if_neg mr, if_neg mi, if_pos ⟨rfl, rfl⟩]
  · rw [pair_entry_type, if_neg ac, if_neg ak, if_neg ar, if_neg ai, if_neg am,
      if_pos ⟨rfl, rfl⟩]
  · rw [pair_entry_type, if_pos ⟨rfl, rfl⟩]

/-- C21: when `read_header` succeeds, the segment list handed to the segment engine holds,
in program header order, the entry `{type, p_offset, p_memsz, false}` of every program
header whose `(type, flags)` pair is the kernel, ramdisk, ipl, rpm or appsbl pair, and
nothing else: a command line header and every header whose pair is none of the five (a
signature header with any flags) contribute no entry.  The entry point of the `Header` is
`e_entry`, and each of the five addresses is the `p_vaddr` of the last program header with
the pair of that address (the value the caller's `Header` held when there is none). -/
theorem C21_sony_segment_mapping (D : SonyElfDefs) (hD : D.valid)
    (self : SonyElfFormatReader) (file : File) (header : Header)
    (hok : (self.read_header D file header).1 = true) :
    (self.read_header D file header).2.1._seg.entries
      = (file_phdrs file.data (self.read_header D file header).2.1._hdr.e_phnum).filterMap
          (phdr_entry D)
    ∧ (∀ p : Sony_Elf32_Phdr, phdr_entry D p
        = (pair_entry_type D (p.p_type, p.p_flags)).map
            (fun t => (⟨t, p.p_offset, p.p_memsz, false⟩ : SegmentReaderEntry)))
    ∧ (pair_entry_type D (D.SONY_E_TYPE_KERNEL, D.SONY_E_FLAGS_KERNEL) = some ENTRY_TYPE_KERNEL
      ∧ pair_entry_type D (D.SONY_E_TYPE_RAMDISK, D.SONY_E_FLAGS_RAMDISK)
          = some ENTRY_TYPE_RAMDISK
      ∧ pair_entry_type D (D.SONY_E_TYPE_IPL, D.SONY_E_FLAGS_IPL) = some ENTRY_TYPE_SONY_IPL
      ∧ pair_entry_type D (D.SONY_E_TYPE_RPM, D.SONY_E_FLAGS_RPM) = some ENTRY_TYPE_SONY_RPM
      ∧ pair_entry_type D (D.SONY_E_TYPE_APPSBL, D.SONY_E_FLAGS_APPSBL)
          = some ENTRY_TYPE_SONY_APPSBL
      ∧ pair_entry_type D (D.SONY_E_TYPE_CMDLINE, D.SONY_E_FLAGS_CMDLINE) = none
      ∧ ∀ q : Nat × Nat,
          q ∉ [(D.SONY_E_TYPE_KERNEL, D.SONY_E_FLAGS_KERNEL),
               (D.SONY_E_TYPE_RAMDISK, D.SONY_E_FLAGS_RAMDISK),
               (D.SONY_E_TYPE_IPL, D.SONY_E_FLAGS_IPL),
               (D.SONY_E_TYPE_RPM, D.SONY_E_FLAGS_RPM),
               (D.SONY_E_TYPE_APPSBL, D.SONY_E_FLAGS_APPSBL)] →
          pair_entry_type D q = none)
    ∧ (self.read_header D file header).2.2.2.entrypoint_address
        = some (self.read_header D file header).2.1._hdr.e_entry
    ∧ (self.read_header D file header).2.2.2.kernel_address
        = last_of (vaddr_of D.SONY_E_TYPE_KERNEL D.SONY_E_FLAGS_KERNEL)
            (file_phdrs file.data (self.read_header D file header).2.1._hdr.e_phnum)
            header.kernel_address
    ∧ (self.read_header D file header).2.2.2.ramdisk_address
        = last_of (vaddr_of D.SONY_E_TYPE_RAMDISK D.SONY_E_FLAGS_RAMDISK)
            (file_phdrs file.data (self.read_header D file header).2.1._hdr.e_phnum)
            header.ramdisk_address
    ∧ (self.read_header D file header).2.2.2.sony_ipl_address
        = last_of (vaddr_of D.SONY_E_TYPE_IPL D.SONY_E_FLAGS_IPL)
            (file_phdrs file.data (self.read_header D file header).2.1._hdr.e_phnum)
            header.sony_ipl_address
    ∧ (self.read_header D file header).2.2.2.sony_rpm_address
        = last_of (vaddr_of D.SONY_E_TYPE_RPM D.SONY_E_FLAGS_RPM)
            (file_phdrs file.data (self.read_header D file header).2.1._hdr.e_phnum)
            header.sony_rpm_address
    ∧ (self.read_header D file header).2.2.2.sony_appsbl_address
        = last_of (vaddr_of D.SONY_E_TYPE_APPSBL D.SONY_E_FLAGS_APPSBL)
            (file_phdrs file.data (self.read_header D file header).2.1._hdr.e_phnum)
            header.sony_appsbl_address := by
  have hent := sony_read_header_ok_entries D self file header hok
  obtain ⟨_, hfold⟩ := sony_read_header_ok_fold D self file header hok
  have hsup : ((((header.set_supported_fields SONY_ELF_SUPPORTED_FIELDS).set_entrypoint_address
      (some (self.read_header D file header).2.1._hdr.e_entry)).2,
      ([] : List SegmentReaderEntry))).1.supported_fields = SONY_ELF_SUPPORTED_FIELDS := by
    simp [Header.set_entrypoint_address, Header.set_supported_fields, SONY_ELF_SUPPORTED_FIELDS]
  obtain ⟨k1, k2, k3, k4, k5, k6⟩ := pair_entry_type_known D hD
  refine ⟨?_, ?_, ⟨k1, k2, k3, k4, k5, k6, ?_⟩, ?_, ?_, ?_, ?_, ?_, ?_⟩
  · rw [hent, file_phdrs, List.filterMap_map]
    rfl
  · intro p
    unfold phdr_entry pair_entry_type
    split_ifs <;> rfl
  · intro q hq
    simp only [List.mem_cons, List.mem_singleton, List.not_mem_nil, or_false, not_or] at hq
    obtain ⟨q1, q2, q3, q4, q5⟩ := hq
    unfold pair_entry_type
    have e : ∀ a b : Nat, ¬ q = (a, b) → ¬ (q.1 = a ∧ q.2 = b) :=
      fun a b hne hab => hne (Prod.ext hab.1 hab.2)
    rw [if_neg (e _ _ q1), if_neg (e _ _ q2), if_neg (e _ _ q3), if_neg (e _ _ q4),
      if_neg (e _ _ q5)]
    split_ifs <;> rfl
  · rw [hfold, fold_entrypoint]
    simp [Header.set_entrypoint_address, Header.set_supported_fields, SONY_ELF_SUPPORTED_FIELDS]
  · rw [hfold, fold_last_of D file.data (fun h => h.kernel_address)
      (vaddr_of D.SONY_E_TYPE_KERNEL D.SONY_E_FLAGS_KERNEL)
      (apply_phdr_kernel_address D hD file.data) _ _ hsup]
    simp [Header.set_entrypoint_address, Header.set_supported_fields, SONY_ELF_SUPPORTED_FIELDS]
  · rw [hfold, fold_last_of D file.data (fun h => h.ramdisk_address)
      (vaddr_of D.SONY_E_TYPE_RAMDISK D.SONY_E_FLAGS_RAMDISK)
      (apply_phdr_ramdisk_address D hD file.data) _ _ hsup]
    simp [Header.set_entrypoint_address, Header.set_supported_fields, SONY_ELF_SUPPORTED_FIELDS]
  · rw [hfold, fold_last_of D file.data (fun h => h.sony_ipl_address)
      (vaddr_of D.SONY_E_TYPE_IPL D.SONY_E_FLAGS_IPL)
      (apply_phdr_sony_ipl_address D hD file.data) _ _ hsup]
    simp [Header.set_entrypoint_address, Header.set_supported_fields, SONY_ELF_SUPPORTED_FIELDS]
  · rw [hfold, fold_last_of D file.data (fun h => h.sony_rpm_address)
      (vaddr_of D.SONY_E_TYPE_RPM D.SONY_E_FLAGS_RPM)
      (apply_phdr_sony_rpm_address D hD file.data) _ _ hsup]
    simp [Header.set_entrypoint_address, Header.set_supported_fields, SONY_ELF_SUPPORTED_FIELDS]
  · rw [hfold, fold_last_of D file.data (fun h => h.sony_appsbl_address)
      (vaddr_of D.SONY_E_TYPE_APPSBL D.SONY_E_FLAGS_APPSBL)
      (apply_phdr_sony_appsbl_address D hD file.data) _ _ hsup]
    simp [Header.set_entrypoint_address, Header.set_supported_fields, SONY_ELF_SUPPORTED_FIELDS]

set_option maxRecDepth 1000000 in
/-- Witness of C21: the written image with a kernel `K` at offset 4096, a ramdisk `R` and
the command line `console=ttyS0`; the kernel address `0x40008000` comes back. -/
theorem C21_sony_segment_mapping_witness :
    ((SonyElfFormatReader.new Reader.init).read_header sony_elf_defs
        (File.of_bytes example_sony_image 0) Header.empty).2.1._seg.entries
      = [⟨ENTRY_TYPE_KERNEL, 4096, 1, false⟩, ⟨ENTRY_TYPE_RAMDISK, 4097, 1, false⟩]
    ∧ ((SonyElfFormatReader.new Reader.init).read_header sony_elf_defs
        (File.of_bytes example_sony_image 0) Header.empty).2.2.2.kernel_address
      = some 0x40008000 :=
  have h := C21_sony_segment_mapping sony_elf_defs sony_elf_defs_valid
    (SonyElfFormatReader.new Reader.init) (File.of_bytes example_sony_image 0) Header.empty
    (by decide)
  ⟨h.1.trans (by decide), h.2.2.2.2.1.trans (by decide)⟩

/-! ## The command line of a Sony ELF image -/

/-- With a cached ELF header, `read_header` fails with `KernelCmdlineTooLong` at the first
command line program header of 512 bytes or more. -/
theorem sony_read_header_too_long_cached (D : SonyElfDefs) (self : SonyElfFormatReader)
    (file : File) (header : Header) (k : Nat) (hh : self._have_header = true)
    (hio : file.io_ok = true) (h63 : file.data.length < 2 ^ 63)
    (hk : k < self._hdr.e_phnum)
    (hlen : 52 + 32 * (k + 1) ≤ file.data.length)
    (hpass : ∀ j, j < k → phdr_passes D file.data (phdr_at file.data j))
    (hc : (phdr_at file.data k).p_type = D.SONY_E_TYPE_CMDLINE
      ∧ (phdr_at file.data k).p_flags = D.SONY_E_FLAGS_CMDLINE)
    (hsz : (phdr_at file.data k).p_memsz ≥ 512) :
    (self.read_header D file header).1 = false
    ∧ (self.read_header D file header).2.1._reader.error = some .KernelCmdlineTooLong
    ∧ (self.read_header D file header).2.1._seg = self._seg := by
  have h52 : (0 + sizeof_Sony_Elf32_Ehdr) % UINT64_MOD = 52 := by decide
  have hrp := read_program_headers_too_long D k self._hdr.e_phnum 52 self._reader file
    ((header.set_supported_fields SONY_ELF_SUPPORTED_FIELDS).set_entrypoint_address
      (some self._hdr.e_entry)).2 [] hio hk hlen h63 hpass hc hsz
  unfold SonyElfFormatReader.read_header
  simp only [h52, hh, Bool.true_eq_false, if_false]
  generalize read_program_headers D self._hdr.e_phnum 52 self._reader file
    ((header.set_supported_fields SONY_ELF_SUPPORTED_FIELDS).set_entrypoint_address
      (some self._hdr.e_entry)).2 [] = r at hrp ⊢
  obtain ⟨b, reader, file2, header3, entries⟩ := r
  obtain ⟨hb, hr⟩ := hrp
  simp only [] at hb hr
  subst hb
  subst hr
  exact ⟨rfl, rfl, rfl⟩

/-- C22: the command line program headers of a Sony ELF image.  On a healthy file with a
valid ELF header, when the program headers before number `k` pass and number `k` is a
command line program header with `p_memsz >= 512`, `read_header` fails with
`KernelCmdlineTooLong` and installs no segment list.  When `read_header` succeeds, every
command line program header has `p_memsz < 512`, so that the terminator index `p_memsz` is
at most 511 and within the 512-byte buffer, the file holds `p_memsz` bytes at `p_offset`,
and the kernel command line of the `Header` is that of the last command line program
header: its bytes cut at the first NUL byte (the value the caller's `Header` held when
there is no command line program header). -/
theorem C22_sony_cmdline (D : SonyElfDefs) (self : SonyElfFormatReader) (file : File)
    (header : Header) :
    (∀ k : Nat, file.io_ok = true → file.data.length < 2 ^ 63 →
      has_sony_elf_header D file.data →
      (self._have_header = true →
        self._hdr = Sony_Elf32_Ehdr.of_bytes (slice file.data 0 52)) →
      k < (Sony_Elf32_Ehdr.of_bytes (slice file.data 0 52)).e_phnum →
      sizeof_Sony_Elf32_Ehdr + sizeof_Sony_Elf32_Phdr * (k + 1) ≤ file.data.length →
      (∀ j, j < k → phdr_passes D file.data (phdr_at file.data j)) →
      ((phdr_at file.data k).p_type = D.SONY_E_TYPE_CMDLINE
        ∧ (phdr_at file.data k).p_flags = D.SONY_E_FLAGS_CMDLINE) →
      (phdr_at file.data k).p_memsz ≥ 512 →
      (self.read_header D file header).1 = false
      ∧ (self.read_header D file header).2.1._reader.error = some .KernelCmdlineTooLong
      ∧ (self.read_header D file header).2.1._seg = self._seg)
    ∧ ((self.read_header D file header).1 = true →
      (∀ j, j < (self.read_header D file header).2.1._hdr.e_phnum →
        ((phdr_at file.data j).p_type = D.SONY_E_TYPE_CMDLINE
          ∧ (phdr_at file.data j).p_flags = D.SONY_E_FLAGS_CMDLINE) →
        (phdr_at file.data j).p_memsz < 512
        ∧ (slice file.data (phdr_at file.data j).p_offset
            (phdr_at file.data j).p_memsz).length = (phdr_at file.data j).p_memsz)
      ∧ (self.read_header D file header).2.2.2.kernel_cmdline
        = last_of (cmdline_of D file.data)
            (file_phdrs file.data (self.read_header D file header).2.1._hdr.e_phnum)
            header.kernel_cmdline) := by
  constructor
  · intro k hio h63 hv hcache hk hlen hpass hc hsz
    simp only [sizeof_Sony_Elf32_Ehdr, sizeof_Sony_Elf32_Phdr] at hlen
    cases hh : self._have_header with
    | true =>
      exact sony_read_header_too_long_cached D self file header k hh hio h63
        (by rw [hcache hh]; exact hk) hlen hpass hc hsz
    | false =>
      obtain ⟨_, ht⟩ := sony_read_header_uncached D self file header hh
      have hfind := find_sony_elf_header_found D self._reader file self._hdr hio hv
      rw [ht (by rw [hfind]), hfind]
      exact sony_read_header_too_long_cached D _ _ header k rfl hio h63 hk hlen hpass hc hsz
  · intro hok
    obtain ⟨hpass, hfold⟩ := sony_read_header_ok_fold D self file header hok
    have hsup : ((((header.set_supported_fields
        SONY_ELF_SUPPORTED_FIELDS).set_entrypoint_address
        (some (self.read_header D file header).2.1._hdr.e_entry)).2,
        ([] : List SegmentReaderEntry))).1.supported_fields = SONY_ELF_SUPPORTED_FIELDS := by
      simp [Header.set_entrypoint_address, Header.set_supported_fields,
        SONY_ELF_SUPPORTED_FIELDS]
    refine ⟨fun j hj hc => (hpass j hj).2 hc, ?_⟩
    rw [hfold, fold_last_of D file.data (fun h => h.kernel_cmdline) (cmdline_of D file.data)
      (apply_phdr_kernel_cmdline D file.data) _ _ hsup]
    simp [Header.set_entrypoint_address, Header.set_supported_fields,
      SONY_ELF_SUPPORTED_FIELDS]

set_option maxRecDepth 1000000 in
/-- Witness of C22: a file whose only program header is a command line of 512 bytes is
refused with `KernelCmdlineTooLong`; the written image with the command line
`console=ttyS0` is read and the command line comes back. -/
theorem C22_sony_cmdline_witness :
    ((SonyElfFormatReader.new Reader.init).read_header sony_elf_defs
        (File.of_bytes long_cmdline_image 0) Header.empty).2.1._reader.error
      = some .KernelCmdlineTooLong
    ∧ ((SonyElfFormatReader.new Reader.init).read_header sony_elf_defs
        (File.of_bytes example_sony_image 0) Header.empty).2.2.2.kernel_cmdline
      = some [99, 111, 110, 115, 111, 108, 101, 61, 116, 116, 121, 83, 48] :=
  ⟨((C22_sony_cmdline sony_elf_defs (SonyElfFormatReader.new Reader.init)
      (File.of_bytes long_cmdline_image 0) Header.empty).1 0 rfl (by decide) (by decide)
      (fun h => absurd h (by decide)) (by decide) (by decide)
      (fun j hj => absurd hj (Nat.not_lt_zero j)) (by decide) (by decide)).2.1,
   (((C22_sony_cmdline sony_elf_defs (SonyElfFormatReader.new Reader.init)
      (File.of_bytes example_sony_image 0) Header.empty).2 (by decide)).2).trans (by decide)⟩

/-! ## Byte order -/

theorem le_encode_lt (n x : Nat) : ∀ b ∈ le_encode n x, b < 256 := by
  induction n generalizing x with
  | zero => intro b hb; simp [le_encode] at hb
  | succ k ih =>
    intro b hb
    simp only [le_encode, List.mem_cons] at hb
    rcases hb with rfl | hb
    · exact Nat.mod_lt _ (by decide)
    · exact ih _ b hb

theorem le_encode_decode (l : List Nat) (h : ∀ b ∈ l, b < 256) :
    le_encode l.length (le_decode l) = l := by
  induction l with
  | nil => rfl
  | cons a t ih =>
    have ha : a < 256 := h a (List.mem_cons_self a t)
    have ht := ih (fun b hb => h b (List.mem_cons_of_mem a hb))
    simp only [List.length_cons, le_decode, le_encode]
    have h1 : (a + 256 * le_decode t) % 256 = a := by omega
    have h2 : (a + 256 * le_decode t) / 256 = le_decode t := by omega
    rw [h1, h2, ht]

theorem le_decode_encode_four (x : Nat) (h : x < UINT32_MOD) : le_decode (le_encode 4 x) = x := by
  rw [le_encode_four]
  exact le_decode_four x h

theorem le_decode_encode_two (x : Nat) (h : x < 2 ^ 16) : le_decode (le_encode 2 x) = x := by
  rw [le_encode_two]
  exact le_decode_two x h

theorem le_encode_bswap32 (x : Nat) : le_encode 4 (bswap32 x) = (le_encode 4 x).reverse := by
  unfold bswap32
  have h := le_encode_decode (le_encode 4 x).reverse
    (fun b hb => le_encode_lt 4 x b (List.mem_reverse.1 hb))
  rw [List.length_reverse, le_encode_length] at h
  exact h

theorem le_encode_bswap16 (x : Nat) : le_encode 2 (bswap16 x) = (le_encode 2 x).reverse := by
  unfold bswap16
  have h := le_encode_decode (le_encode 2 x).reverse
    (fun b hb => le_encode_lt 2 x b (List.mem_reverse.1 hb))
  rw [List.length_reverse, le_encode_length] at h
  exact h

theorem bswap32_bswap32 (x : Nat) (h : x < UINT32_MOD) : bswap32 (bswap32 x) = x := by
  have h1 : bswap32 (bswap32 x) = le_decode (le_encode 4 (bswap32 x)).reverse := rfl
  rw [h1, le_encode_bswap32, List.reverse_reverse, le_decode_encode_four x h]

theorem bswap16_bswap16 (x : Nat) (h : x < 2 ^ 16) : bswap16 (bswap16 x) = x := by
  have h1 : bswap16 (bswap16 x) = le_decode (le_encode 2 (bswap16 x)).reverse := rfl
  rw [h1, le_encode_bswap16, List.reverse_reverse, le_decode_encode_two x h]

theorem le32toh_le32toh (big_endian : Bool) (x : Nat) (h : x < UINT32_MOD) :
    le32toh big_endian (le32toh big_endian x) = x := by
  unfold le32toh
  cases big_endian with
  | false => rfl
  | true => exact bswap32_bswap32 x h

theorem le16toh_le16toh (big_endian : Bool) (x : Nat) (h : x < 2 ^ 16) :
    le16toh big_endian (le16toh big_endian x) = x := by
  unfold le16toh
  cases big_endian with
  | false => rfl
  | true => exact bswap16_bswap16 x h

/-- The bytes that reach the file when the writer fixes the byte order of a program header
and writes the struct raw are the little-endian bytes, whatever the host. -/
theorem phdr_raw_bytes_fix (big_endian : Bool) (p : Sony_Elf32_Phdr) :
    (sony_elf_fix_phdr_byte_order big_endian p).raw_bytes big_endian = p.to_bytes := by
  have hw : ∀ x : Nat, host_bytes32 big_endian (le32toh big_endian x) = le_encode 4 x := by
    intro x
    unfold host_bytes32 le32toh
    cases big_endian with
    | false => rfl
    | true =>
      simp only [if_true]
      rw [le_encode_bswap32, List.reverse_reverse]
  simp only [Sony_Elf32_Phdr.raw_bytes, sony_elf_fix_phdr_byte_order, hw,
    Sony_Elf32_Phdr.to_bytes]

/-- The program header that the reader holds after the raw read of 32 bytes and the fix of
the byte order is the little-endian reading of the bytes, whatever the host. -/
theorem phdr_fix_raw_of_bytes (big_endian : Bool) (b : List Nat) (hb : ∀ x ∈ b, x < 256)
    (hlen : 32 ≤ b.length) :
    sony_elf_fix_phdr_byte_order big_endian (Sony_Elf32_Phdr.raw_of_bytes big_endian b)
      = Sony_Elf32_Phdr.of_bytes b := by
  have hw : ∀ off : Nat, off + 4 ≤ 32 →
      le32toh big_endian (host_word big_endian (slice b off 4)) = le32_at b off := by
    intro off hoff
    unfold le32toh host_word le32_at
    cases big_endian with
    | false => rfl
    | true =>
      have hl : (slice b off 4).length = 4 := by
        rw [slice_length]
        omega
      have hbytes : ∀ x ∈ slice b off 4, x < 256 := fun x hx => hb x (slice_mem _ _ _ _ hx)
      simp only [if_true]
      have h1 : bswap32 (le_decode (slice b off 4).reverse)
          = le_decode (le_encode 4 (le_decode (slice b off 4).reverse)).reverse := rfl
      have h2 := le_encode_decode (slice b off 4).reverse
        (fun x hx => hbytes x (List.mem_reverse.1 hx))
      rw [List.length_reverse, hl] at h2
      rw [h1, h2, List.reverse_reverse]
  simp only [Sony_Elf32_Phdr.raw_of_bytes, sony_elf_fix_phdr_byte_order,
    Sony_Elf32_Phdr.of_bytes]
  rw [hw 0 (by omega), hw 4 (by omega), hw 8 (by omega), hw 12 (by omega), hw 16 (by omega),
    hw 20 (by omega), hw 24 (by omega), hw 28 (by omega)]

/-- C27: on a host of either byte order, applying the fix-byte-order operation of a raw
Android header, of a Sony ELF header or of a Sony ELF program header twice returns the
original value, for every value whose integer fields fit their widths; so a program header
whose byte order the writer fixes at `close` and the reader fixes again is recovered. -/
theorem C27_fix_byte_order_twice (big_endian : Bool) (a : AndroidHeader)
    (e : Sony_Elf32_Ehdr) (p : Sony_Elf32_Phdr)
    (ha : a.fits) (he : e.fits) (hp : p.fits) :
    android_fix_header_byte_order big_endian (android_fix_header_byte_order big_endian a) = a
    ∧ sony_elf_fix_ehdr_byte_order big_endian (sony_elf_fix_ehdr_byte_order big_endian e) = e
    ∧ sony_elf_fix_phdr_byte_order big_endian (sony_elf_fix_phdr_byte_order big_endian p) = p := by
  obtain ⟨a0, a1, a2, a3, a4, a5, a6, a7, a8, a9, aid⟩ := ha
  obtain ⟨_, e1, e2, e3, e4, e5, e6, e7, e8, e9, e10, e11, e12, e13⟩ := he
  obtain ⟨p0, p1, p2, p3, p4, p5, p6, p7⟩ := hp
  refine ⟨?_, ?_, ?_⟩
  · have hid : (a.id.map (le32toh big_endian)).map (le32toh big_endian) = a.id := by
      rw [List.map_map]
      conv_rhs => rw [← List.map_id a.id]
      apply List.map_congr_left
      intro x hx
      exact le32toh_le32toh big_endian x (aid x hx)
    cases a
    simp only [android_fix_header_byte_order] at *
    simp only [le32toh_le32toh, a0, a1, a2, a3, a4, a5, a6, a7, a8, a9, hid]
  · cases e
    simp only [sony_elf_fix_ehdr_byte_order] at *
    simp only [le32toh_le32toh, le16toh_le16toh, e1, e2, e3, e4, e5, e6, e7, e8, e9, e10, e11,
      e12, e13]
  · cases p
    simp only [sony_elf_fix_phdr_byte_order] at *
    simp only [le32toh_le32toh, p0, p1, p2, p3, p4, p5, p6, p7]

/-- Witness of C27: the example Android header, the staged ELF header and a kernel program
header on a big-endian host. -/
theorem C27_fix_byte_order_twice_witness :
    android_fix_header_byte_order true
        (android_fix_header_byte_order true example_android_header) = example_android_header
    ∧ (android_fix_header_byte_order true example_android_header).page_size = 0x80000
    ∧ sony_elf_fix_ehdr_byte_order true
        (sony_elf_fix_ehdr_byte_order true (staged_ehdr sony_elf_defs example_sony_header))
      = staged_ehdr sony_elf_defs example_sony_header
    ∧ sony_elf_fix_phdr_byte_order true
        (sony_elf_fix_phdr_byte_order true (final_kernel_phdr sony_elf_defs example_sony_header
          ⟨[75], [82], [], [], []⟩))
      = final_kernel_phdr sony_elf_defs example_sony_header ⟨[75], [82], [], [], []⟩ :=
  have h := C27_fix_byte_order_twice true example_android_header
    (staged_ehdr sony_elf_defs example_sony_header)
    (final_kernel_phdr sony_elf_defs example_sony_header ⟨[75], [82], [], [], []⟩)
    (by unfold AndroidHeader.fits; decide) (by unfold Sony_Elf32_Ehdr.fits; decide)
    (by unfold Sony_Elf32_Phdr.fits; decide)
  ⟨h.1, by decide, h.2.1, h.2.2⟩

/-! ## The trailer position and the end of the last segment -/

/-- The first step of the offset computation of `read_header` ends at the page size when
the header lies within the first page and the page size divides 2^64. -/
theorem advance_header_page (header_offset page_size : Nat) (hps : 0 < page_size)
    (hps32 : page_size < UINT32_MOD) (hdvd : page_size ∣ UINT64_MOD)
    (hoff : header_offset + sizeof_AndroidHeader ≤ page_size) :
    advance ((0 + header_offset) % UINT64_MOD) sizeof_AndroidHeader page_size = page_size := by
  have h608 : sizeof_AndroidHeader = 608 := rfl
  have h32 : UINT32_MOD = 4294967296 := rfl
  have h64 : UINT64_MOD = 18446744073709551616 := rfl
  rw [h608] at hoff ⊢
  have h0 : (0 + header_offset) % UINT64_MOD = header_offset := by
    rw [Nat.zero_add]
    exact Nat.mod_eq_of_lt (by omega)
  rw [h0]
  unfold advance
  have hx : (header_offset + 608) % UINT64_MOD = header_offset + 608 :=
    Nat.mod_eq_of_lt (by omega)
  simp only [hx]
  have hlt := align_page_size_lt (header_offset + 608) page_size hps
  obtain ⟨c, hc⟩ := align_page_size_dvd (header_offset + 608) page_size (by omega) hdvd
  have hc1 : c = 1 := by
    rcases Nat.lt_or_ge c 1 with h | h
    · have : c = 0 := by omega
      subst this
      omega
    · rcases Nat.lt_or_ge c 2 with h2 | h2
      · omega
      · have : page_size * 2 ≤ page_size * c := Nat.mul_le_mul_left _ h2
        omega
  rw [hc, hc1, Nat.mul_one]
  exact Nat.mod_eq_of_lt (by omega)

/-- C28 (amended): for every Android header with 32-bit words whose page size is positive
and divides 2^64 (a power of two), found at a header offset of at most 511 such that the
header ends within the first page (`header_offset + sizeof(AndroidHeader) <= page_size`),
the file offset at which the bids look for the trailer magic is the position after the last
declared segment as `read_header` computes it, and that position is the page-aligned end of
the device tree obtained by cumulative aligned addition from header offset + header
size. -/
theorem C28_trailer_position_within_first_page (hdr : AndroidHeader) (header_offset : Nat)
    (hfit : hdr.words_fit) (hps : 0 < hdr.page_size) (hdvd : hdr.page_size ∣ UINT64_MOD)
    (hho : header_offset ≤ 511)
    (hoff : header_offset + sizeof_AndroidHeader ≤ hdr.page_size) :
    trailer_position hdr = read_header_end_position hdr header_offset hdr.page_size
    ∧ read_header_end_position hdr header_offset hdr.page_size
        = (cumulative_offsets hdr header_offset hdr.page_size).2.2.2.2 := by
  have hps32 : hdr.page_size < UINT32_MOD := hfit.2.2.2.2
  have hfirst := advance_header_page header_offset hdr.page_size hps hps32 hdvd hoff
  have hm : (0 + hdr.page_size) % UINT64_MOD = hdr.page_size := by
    rw [Nat.zero_add]
    exact Nat.mod_eq_of_lt (by
      have h32 : UINT32_MOD = 4294967296 := rfl
      have h64 : UINT64_MOD = 18446744073709551616 := rfl
      omega)
  obtain ⟨e1, e2, e3, e4, e5, _⟩ :=
    advance_chain hdr header_offset hdr.page_size hps hps32 hfit
      (by simp only [MAX_HEADER_OFFSET]; omega)
  have h0 : (0 + header_offset) % UINT64_MOD = header_offset % UINT64_MOD := by
    rw [Nat.zero_add]
  constructor
  · unfold trailer_position read_header_end_position
    simp only []
    rw [hfirst, hm]
  · unfold read_header_end_position
    simp only []
    rw [h0, e1, e2, e3, e4, e5]

/-- Witness of C28 (amended): the example header, with page size 2048, found at the header
offsets 0 and 511; the trailer is looked for at offset 6144. -/
theorem C28_trailer_position_within_first_page_witness :
    trailer_position example_android_header = 6144
    ∧ read_header_end_position example_android_header 0 2048 = 6144
    ∧ read_header_end_position example_android_header 511 2048 = 6144 :=
  have h0 := C28_trailer_position_within_first_page example_android_header 0
    (by unfold AndroidHeader.words_fit; decide) (by decide) ⟨2 ^ 53, by decide⟩ (by decide)
    (by decide)
  have h511 := C28_trailer_position_within_first_page example_android_header 511
    (by unfold AndroidHeader.words_fit; decide) (by decide) ⟨2 ^ 53, by decide⟩ (by decide)
    (by decide)
  have ht : trailer_position example_android_header = 6144 := by decide
  ⟨ht, h0.1.symm.trans ht, h511.1.symm.trans ht⟩

/-- Counterexample to C28: with a page size of 512 bytes, which is positive, the header at
offset 0 does not end within the first page: the bids look for the trailer magic at offset
1536 while `read_header` places the end of the last segment at offset 2048.  With a page
size of 3000 bytes, which is not a power of two, and an empty kernel the two positions
differ as well, and so they do with a page size of 1024 bytes when the header is found at
offset 511. -/
theorem C28_counterexample :
    trailer_position small_page_android_header = 1536
    ∧ read_header_end_position small_page_android_header 0 512 = 2048
    ∧ (cumulative_offsets small_page_android_header 0 512).2.2.2.2 = 2048
    ∧ trailer_position odd_page_android_header
        ≠ read_header_end_position odd_page_android_header 0 3000
    ∧ trailer_position { example_android_header with page_size := 1024 }
        ≠ read_header_end_position { example_android_header with page_size := 1024 } 511 1024 := by
  decide

/-! ## Headers and payload of a written Sony ELF image -/

theorem image_headers_length_le (D : SonyElfDefs) (H : Header) (P : SonyPayload) :
    (image_headers D H P).length ≤ sizeof_Sony_Elf32_Ehdr + 6 * sizeof_Sony_Elf32_Phdr := by
  unfold image_headers
  refine le_trans (written_headers_length_le _) ?_
  simp [final_phdrs, ehdr_to_bytes_length, phdr_to_bytes_length, sizeof_Sony_Elf32_Ehdr,
    sizeof_Sony_Elf32_Phdr]

/-- C29: the Sony ELF writer keeps headers and payload apart.  `write_header` leaves the
cursor at offset 4096; the entry loop puts the payload bytes, in entry order, at offset
4096 and after; the headers that `close` writes at offset 0 (the ELF header followed by at
most six program headers) take at most `52 + 6 * 32 = 244` bytes, which is less than 4096;
and in the closed file the bytes from offset 4096 on are the payload bytes as the entry
loop left them. -/
theorem C29_headers_below_payload (D : SonyElfDefs) (H : Header) (P : SonyPayload) :
    ((SonyElfFormatWriter.new Writer.init).write_header D (File.of_bytes [] 0) H).2.2.pos
      = 4096
    ∧ (write_entries P 7
        ((SonyElfFormatWriter.new Writer.init).write_header D (File.of_bytes [] 0) H).2.1
        ((SonyElfFormatWriter.new Writer.init).write_header D (File.of_bytes [] 0) H).2.2).2.2
      = body_file 4096 (image_body H P)
    ∧ (body_file 4096 (image_body H P)).data.drop 4096 = image_body H P
    ∧ (image_headers D H P).length ≤ sizeof_Sony_Elf32_Ehdr + 6 * sizeof_Sony_Elf32_Phdr
    ∧ sizeof_Sony_Elf32_Ehdr + 6 * sizeof_Sony_Elf32_Phdr < 4096
    ∧ (sony_write_image D H P).1 = true
    ∧ (sony_write_image D H P).2.data.take (image_headers D H P).length = image_headers D H P
    ∧ (sony_write_image D H P).2.data.drop 4096
        = (body_file 4096 (image_body H P)).data.drop 4096 := by
  have hlen := image_headers_length_le D H P
  have h244 : sizeof_Sony_Elf32_Ehdr + 6 * sizeof_Sony_Elf32_Phdr < 4096 := by decide
  have hbody : (body_file 4096 (image_body H P)).data.drop 4096 = image_body H P := by
    unfold body_file
    by_cases hw : image_body H P = []
    · simp [hw]
    · simp only [hw, if_false]
      rw [List.drop_append_of_le_length (by rw [List.length_replicate]),
        List.drop_of_length_le (by rw [List.length_replicate]), List.nil_append]
  obtain ⟨selfF, hrun, _⟩ := write_entries_staged P (staged_writer D H) rfl rfl 4096
  refine ⟨?_, ?_, hbody, hlen, h244, ?_, ?_, ?_⟩
  · rw [write_header_fresh]
    rfl
  · rw [write_header_fresh]
    simp only []
    rw [hrun]
    rfl
  · rw [sony_write_image_eq]
  · rw [sony_write_image_eq]
    simp only [image_file]
    by_cases hw : image_body H P = []
    · simp [hw]
    · simp only [hw, if_false]
      rw [List.append_assoc, List.take_append_of_le_length (le_refl _), List.take_length]
  · rw [sony_write_image_eq, hbody]
    simp only [image_file]
    by_cases hw : image_body H P = []
    · simp only [hw, if_true]
      exact List.drop_of_length_le (by omega)
    · simp only [hw, if_false]
      have hl : (image_headers D H P
          ++ List.replicate (4096 - (image_headers D H P).length) 0).length = 4096 := by
        rw [List.length_append, List.length_replicate]
        omega
      rw [List.drop_append_of_le_length (by omega), List.drop_of_length_le (by omega),
        List.nil_append]

/-! ## The number of program headers that `close` writes -/

set_option maxRecDepth 1000000 in
/-- C30: the number of program headers in the file is not always `e_phnum`.  With an empty
kernel and a one-byte ramdisk the writer succeeds, `e_phnum` is 1, the number of segments
with non-zero size, but the loop of `close` stops at the kernel program header, whose
`can_write` is false: only the 52 bytes of the ELF header are written, the 32 bytes after
it are the zero bytes of the hole and not the ramdisk program header, and the reader refuses
the file.  With a kernel, a ramdisk, a command line, no ipl and a one-byte rpm, `e_phnum`
is 4 and three program headers are written. -/
theorem C30_close_stops_at_first_empty_segment :
    (sony_write_image sony_elf_defs Header.empty ⟨[], [82], [], [], []⟩).1 = true
    ∧ (final_ehdr sony_elf_defs Header.empty ⟨[], [82], [], [], []⟩).e_phnum = 1
    ∧ (Sony_Elf32_Ehdr.of_bytes
        (sony_write_image sony_elf_defs Header.empty ⟨[], [82], [], [], []⟩).2.data).e_phnum = 1
    ∧ (image_headers sony_elf_defs Header.empty ⟨[], [82], [], [], []⟩).length = 52
    ∧ slice (sony_write_image sony_elf_defs Header.empty ⟨[], [82], [], [], []⟩).2.data 52 32
        = List.replicate 32 0
    ∧ (final_ramdisk_phdr sony_elf_defs Header.empty ⟨[], [82], [], [], []⟩).to_bytes
        ≠ List.replicate 32 0
    ∧ ((SonyElfFormatReader.new Reader.init).read_header sony_elf_defs
        (File.of_bytes
          (sony_write_image sony_elf_defs Header.empty ⟨[], [82], [], [], []⟩).2.data 0)
        Header.empty).1 = false
    ∧ (sony_write_image sony_elf_defs example_sony_header ⟨[75], [82], [], [80], []⟩).1 = true
    ∧ (Sony_Elf32_Ehdr.of_bytes
        (sony_write_image sony_elf_defs example_sony_header
          ⟨[75], [82], [], [80], []⟩).2.data).e_phnum = 4
    ∧ (image_headers sony_elf_defs example_sony_header ⟨[75], [82], [], [80], []⟩).length
        = 52 + 3 * 32
    ∧ slice (sony_write_image sony_elf_defs example_sony_header
          ⟨[75], [82], [], [80], []⟩).2.data 148 32 = List.replicate 32 0 := by
  decide

/-! ## The entry operations of the facade, case by case -/

/-- What `read_data` of the segment engine returns: either it succeeds and advances the
cursor of the current entry by the number of bytes handed out, which is at most the
requested number and at most the residual, or it fails, leaves the engine as it is and
reports an error other than `EndOfEntries`. -/
theorem seg_read_data_cases (s : SegmentReader) (file : File) (n : Nat) (reader : Reader) :
    ((s.read_data file n reader).1 = true
        ∧ (s.read_data file n reader).2.1
            = { s with read_cur := s.read_cur + (s.read_data file n reader).2.2.2.1.length }
        ∧ (s.read_data file n reader).2.2.2.1.length ≤ min n (s.read_end - s.read_cur))
      ∨ ((s.read_data file n reader).1 = false
        ∧ (s.read_data file n reader).2.1 = s
        ∧ (s.read_data file n reader).2.2.2.2.error ≠ some .EndOfEntries) := by
  unfold SegmentReader.read_data
  split
  · rename_i e hst he
    rcases hr : file_read_retry file (min n (s.read_end - s.read_cur)) with ⟨res, f1⟩
    cases res with
    | error err =>
      right
      have herr : err = .FileIo := by
        unfold file_read_retry at hr
        split_ifs at hr
        · simp only [Prod.mk.injEq, Except.error.injEq] at hr
          exact hr.1.symm
        · simp at hr
      simp only [hr, herr, Reader.fatal_if, Reader.set_error, Reader.set_fatal]
      refine ⟨trivial, trivial, ?_⟩
      split <;> simp
    | ok buf =>
      have hlen : buf.length ≤ min n (s.read_end - s.read_cur) := by
        unfold file_read_retry at hr
        split_ifs at hr
        · simp at hr
        · simp only [Prod.mk.injEq, Except.ok.injEq] at hr
          rw [← hr.1]
          simp only [slice, List.length_take]
          omega
      simp only [hr]
      by_cases hshort : buf.length < min n (s.read_end - s.read_cur) ∧ e.can_truncate = false
      · right
        rw [if_pos hshort]
        simp [Reader.set_error]
      · left
        rw [if_neg hshort]
        exact ⟨rfl, rfl, hlen⟩
  · right
    simp [Reader.set_error]

/-- What `read_data` of the facade returns, in the terms of `seg_read_data_cases`. -/
theorem image_read_data_cases (r : ImageReader) (n : Nat) :
    ((r.read_data n).1 = true
        ∧ (r.read_data n).2.1.seg
            = { r.seg with read_cur := r.seg.read_cur + (r.read_data n).2.2.length }
        ∧ (r.read_data n).2.2.length ≤ min n (r.seg.read_end - r.seg.read_cur))
      ∨ ((r.read_data n).1 = false
        ∧ (r.read_data n).2.1.seg = r.seg
        ∧ (r.read_data n).2.1.reader.error ≠ some .EndOfEntries) := by
  unfold ImageReader.read_data
  exact seg_read_data_cases r.seg r.file n r.reader

/-- What `read_entry` of the segment engine does to the engine: the list of segments
stays, and a call that succeeds moves on by one segment. -/
theorem seg_read_entry_cases (s : SegmentReader) (file : File) (entry : Entry)
    (reader : Reader) :
    (s.read_entry file entry reader).2.1.entries = s.entries
      ∧ ((s.read_entry file entry reader).1 = true →
          (s.read_entry file entry reader).2.1.next_index = s.next_index + 1
            ∧ s.next_index < s.entries.length) := by
  cases he : s.entries[s.next_index]? with
  | none =>
    rw [seg_read_entry_none s file entry reader he]
    simp
  | some e =>
    have hlt : s.next_index < s.entries.length := by
      rw [List.getElem?_eq_some_iff] at he
      exact he.1
    unfold SegmentReader.read_entry
    simp only [he]
    rcases hs : file.seek_set (to_int64 e.offset) with ⟨res, f1⟩
    cases res with
    | error err => simp
    | ok v => exact ⟨rfl, fun _ => ⟨rfl, hlt⟩⟩

/-- What `read_entry` of the facade does to the segment engine, in the terms of
`seg_read_entry_cases`. -/
theorem image_read_entry_cases (r : ImageReader) :
    r.read_entry.2.seg.entries = r.seg.entries
      ∧ (r.read_entry.1 = true →
          r.read_entry.2.seg.next_index = r.seg.next_index + 1
            ∧ r.seg.next_index < r.seg.entries.length) := by
  unfold ImageReader.read_entry
  exact seg_read_entry_cases r.seg r.file r.entry r.reader

/-! ## The loops of `main`: termination and the calls that report an error -/

/-- A record appended to a list of calls none of which reports an error: the new list
holds a call that reports an error exactly when the record does. -/
theorem reports_error_append (calls : List CallRecord) (c : CallRecord)
    (hno : ∀ x ∈ calls, ¬ x.reports_error) :
    (∃ x ∈ calls ++ [c], x.reports_error) ↔ c.reports_error := by
  constructor
  · rintro ⟨x, hx, hbad⟩
    rw [List.mem_append, List.mem_singleton] at hx
    rcases hx with hx | hx
    · exact absurd hbad (hno x hx)
    · rw [← hx]
      exact hbad
  · intro hbad
    exact ⟨c, List.mem_append_right _ (List.mem_singleton_self c), hbad⟩

/-- The same for the list itself after the record is found not to report an error. -/
theorem no_reports_error_append (calls : List CallRecord) (c : CallRecord)
    (hno : ∀ x ∈ calls, ¬ x.reports_error) (hc : ¬ c.reports_error) :
    ∀ x ∈ calls ++ [c], ¬ x.reports_error := by
  intro x hx
  rw [List.mem_append, List.mem_singleton] at hx
  rcases hx with hx | hx
  · exact hno x hx
  · rw [hx]
    exact hc

/-- The data loop, for every pair of readers: with one round more than the first reader's
entry has bytes left the loop ends, it leaves the position of the second reader in its
list of segments and the counter as they are, and it returns 1 exactly when one of the
`read_data` calls reports an error. -/
theorem compare_data_general : ∀ (fuel : Nat) (s : CompareState),
    s.reader1.seg.read_end - s.reader1.seg.read_cur < fuel →
    (compare_data fuel s).1 ≠ .out_of_fuel
      ∧ (compare_data fuel s).2.reader2.seg.entries = s.reader2.seg.entries
      ∧ (compare_data fuel s).2.reader2.seg.next_index = s.reader2.seg.next_index
      ∧ (compare_data fuel s).2.entries = s.entries
      ∧ ((∀ c ∈ s.calls, ¬ c.reports_error) →
          ((compare_data fuel s).1 = .exit 1
            ↔ ∃ c ∈ (compare_data fuel s).2.calls, c.reports_error)) := by
  intro fuel
  induction fuel with
  | zero => intro s h; omega
  | succ n ih =>
    intro s hf
    unfold compare_data
    have c1 := image_read_data_cases s.reader1 COMPARE_BUF_SIZE
    rcases h1 : s.reader1.read_data COMPARE_BUF_SIZE with ⟨ok1, r1, buf1⟩
    rw [h1] at c1
    simp only at c1
    cases ok1 with
    | false =>
      rcases c1 with ⟨h, _⟩ | ⟨_, _, herr⟩
      · cases h
      · simp only []
        refine ⟨by simp, trivial, trivial, trivial, fun hno => ?_⟩
        rw [reports_error_append _ _ hno]
        exact ⟨fun _ => ⟨rfl, herr⟩, fun _ => trivial⟩
    | true =>
      rcases c1 with ⟨_, hseg1, hlen1⟩ | ⟨h, _⟩
      swap
      · cases h
      simp only []
      have hno1 : ∀ calls : List CallRecord, (∀ c ∈ calls, ¬ c.reports_error) →
          ∀ c ∈ calls ++ [⟨1, .read_data, true, r1.reader.error⟩], ¬ c.reports_error :=
        fun calls hno => no_reports_error_append _ _ hno (fun h => by cases h.1)
      by_cases hz : buf1.length = 0
      · rw [if_pos hz]
        refine ⟨by simp, rfl, rfl, rfl, fun hno => ?_⟩
        constructor
        · intro h
          cases h
        · rintro ⟨c, hc, hbad⟩
          exact absurd hbad (hno1 _ hno c hc)
      · rw [if_neg hz]
        have c2 := image_read_data_cases s.reader2 buf1.length
        rcases h2 : s.reader2.read_data buf1.length with ⟨ok2, r2, buf2⟩
        rw [h2] at c2
        simp only at c2
        cases ok2 with
        | false =>
          rcases c2 with ⟨h, _⟩ | ⟨_, hseg2, herr⟩
          · cases h
          · simp only []
            refine ⟨by simp, by rw [hseg2], by rw [hseg2], trivial, fun hno => ?_⟩
            rw [reports_error_append _ _ (hno1 _ hno)]
            exact ⟨fun _ => ⟨rfl, herr⟩, fun _ => trivial⟩
        | true =>
          rcases c2 with ⟨_, hseg2, hlen2⟩ | ⟨h, _⟩
          swap
          · cases h
          simp only []
          have hno2 : ∀ calls : List CallRecord, (∀ c ∈ calls, ¬ c.reports_error) →
              ∀ c ∈ calls ++ [⟨2, .read_data, true, r2.reader.error⟩], ¬ c.reports_error :=
            fun calls hno => no_reports_error_append _ _ hno (fun h => by cases h.1)
          by_cases hne : buf1.length ≠ buf2.length ∨ buf1 ≠ buf2
          · rw [if_pos hne]
            refine ⟨by simp, by rw [hseg2], by rw [hseg2]; rfl, rfl, fun hno => ?_⟩
            constructor
            · intro h
              cases h
            · rintro ⟨c, hc, hbad⟩
              exact absurd hbad (hno2 _ (hno1 _ hno) c hc)
          · rw [if_neg hne]
            have hrec := ih
              { s with reader1 := r1, reader2 := r2
                       calls := (s.calls ++ [⟨1, .read_data, true, r1.reader.error⟩])
                         ++ [⟨2, .read_data, true, r2.reader.error⟩] }
              (by
                simp only [hseg1]
                have : 0 < buf1.length := Nat.pos_of_ne_zero hz
                omega)
            obtain ⟨hr1, hr2, hr3, hr4, hr5⟩ := hrec
            refine ⟨hr1, ?_, ?_, hr4, fun hno => hr5 (hno2 _ (hno1 _ hno))⟩
            · rw [hr2]
              simp only [hseg2]
            · rw [hr3]
              simp only [hseg2]
              rfl

/-- The loop that counts the entries, for every reader: with one round more than the
first reader has segments the loop ends, it leaves the second reader as it is, and it
returns 1 exactly when a `read_entry` call reports an error other than `EndOfEntries`. -/
theorem count_entries_general : ∀ (fuel : Nat) (s : CompareState),
    s.reader1.seg.entries.length - s.reader1.seg.next_index < fuel →
    (count_entries fuel s).1 ≠ .out_of_fuel
      ∧ (count_entries fuel s).2.reader2 = s.reader2
      ∧ ((∀ c ∈ s.calls, ¬ c.reports_error) →
          ((count_entries fuel s).1 = .exit 1
            ↔ ∃ c ∈ (count_entries fuel s).2.calls, c.reports_error)) := by
  intro fuel
  induction fuel with
  | zero => intro s h; omega
  | succ n ih =>
    intro s hf
    unfold count_entries
    have c1 := image_read_entry_cases s.reader1
    rcases h1 : s.reader1.read_entry with ⟨ok1, r1⟩
    rw [h1] at c1
    simp only at c1
    cases ok1 with
    | false =>
      simp only []
      by_cases herr : r1.reader.error = some .EndOfEntries
      · rw [if_pos herr]
        refine ⟨by simp, rfl, fun hno => ?_⟩
        rw [reports_error_append _ _ hno]
        exact ⟨fun h => (by cases h), fun h => absurd herr h.2⟩
      · rw [if_neg herr]
        refine ⟨by simp, rfl, fun hno => ?_⟩
        rw [reports_error_append _ _ hno]
        exact ⟨fun _ => ⟨rfl, herr⟩, fun _ => rfl⟩
    | true =>
      simp only []
      obtain ⟨hent, hnext⟩ := c1
      obtain ⟨hnext1, hlt⟩ := hnext rfl
      have hrec := ih
        { s with reader1 := r1, entries := s.entries + 1
                 calls := s.calls ++ [⟨1, .read_entry, true, r1.reader.error⟩] }
        (by
          simp only [hent, hnext1]
          omega)
      obtain ⟨hr1, hr2, hr3⟩ := hrec
      exact ⟨hr1, hr2, fun hno =>
        hr3 (no_reports_error_append _ _ hno (fun h => by cases h.1))⟩

/-- The loop over the entries of the second image, for every `go_to_entry` and every
pair of readers: with one round more than the second reader has segments the loop ends,
and it returns 1 exactly when one of its calls reports an error other than
`EndOfEntries`. -/
theorem compare_entries_general (g : GoToEntry) : ∀ (fuel : Nat) (s : CompareState),
    s.reader2.seg.entries.length - s.reader2.seg.next_index < fuel →
    (compare_entries g fuel s).1 ≠ .out_of_fuel
      ∧ ((∀ c ∈ s.calls, ¬ c.reports_error) →
          ((compare_entries g fuel s).1 = .exit 1
            ↔ ∃ c ∈ (compare_entries g fuel s).2.calls, c.reports_error)) := by
  intro fuel
  induction fuel with
  | zero => intro s h; omega
  | succ n ih =>
    intro s hf
    unfold compare_entries
    have c2 := image_read_entry_cases s.reader2
    rcases h2 : s.reader2.read_entry with ⟨ok2, r2⟩
    rw [h2] at c2
    simp only at c2
    cases ok2 with
    | false =>
      simp only []
      by_cases herr : r2.reader.error = some .EndOfEntries
      · rw [if_pos herr]
        refine ⟨by simp, fun hno => ?_⟩
        rw [reports_error_append _ _ hno]
        exact ⟨fun h => (by cases h), fun h => absurd herr h.2⟩
      · rw [if_neg herr]
        refine ⟨by simp, fun hno => ?_⟩
        rw [reports_error_append _ _ hno]
        exact ⟨fun _ => ⟨rfl, herr⟩, fun _ => rfl⟩
    | true =>
      simp only []
      obtain ⟨hent, hnext⟩ := c2
      obtain ⟨hnext2, hlt⟩ := hnext rfl
      have hno2 : ∀ calls : List CallRecord, (∀ c ∈ calls, ¬ c.reports_error) →
          ∀ c ∈ calls ++ [⟨2, .read_entry, true, r2.reader.error⟩], ¬ c.reports_error :=
        fun calls hno => no_reports_error_append _ _ hno (fun h => by cases h.1)
      by_cases hz : s.entries = 0
      · rw [if_pos hz]
        refine ⟨by simp, fun hno => ⟨fun h => (by cases h), ?_⟩⟩
        rintro ⟨c, hc, hbad⟩
        exact absurd hbad (hno2 _ hno c hc)
      · rw [if_neg hz]
        rcases h1 : s.reader1.go_to_entry g (r2.entry.type.getD 0) with ⟨ok1, r1⟩
        cases ok1 with
        | false =>
          simp only []
          by_cases herr : r1.reader.error = some .EndOfEntries
          · rw [if_pos herr]
            refine ⟨by simp, fun hno => ?_⟩
            rw [reports_error_append _ _ (hno2 _ hno)]
            exact ⟨fun h => (by cases h), fun h => absurd herr h.2⟩
          · rw [if_neg herr]
            refine ⟨by simp, fun hno => ?_⟩
            rw [reports_error_append _ _ (hno2 _ hno)]
            exact ⟨fun _ => ⟨rfl, herr⟩, fun _ => rfl⟩
        | true =>
          simp only []
          have hcd := compare_data_general (r1.seg.read_end - r1.seg.read_cur + 1)
            { s with reader1 := r1, reader2 := r2, entries := s.entries - 1
                     calls := (s.calls ++ [⟨2, .read_entry, true, r2.reader.error⟩])
                       ++ [⟨1, .go_to_entry, true, r1.reader.error⟩] }
            (Nat.lt_succ_self _)
          rcases hd : compare_data (r1.seg.read_end - r1.seg.read_cur + 1)
            { s with reader1 := r1, reader2 := r2, entries := s.entries - 1
                     calls := (s.calls ++ [⟨2, .read_entry, true, r2.reader.error⟩])
                       ++ [⟨1, .go_to_entry, true, r1.reader.error⟩] } with ⟨o, s4⟩
          rw [hd] at hcd
          simp only at hcd
          obtain ⟨hf4, hent4, hnext4, _, hiff4⟩ := hcd
          have hno3 : ∀ calls : List CallRecord, (∀ c ∈ calls, ¬ c.reports_error) →
              ∀ c ∈ (calls ++ [⟨2, .read_entry, true, r2.reader.error⟩])
                ++ [⟨1, .go_to_entry, true, r1.reader.error⟩], ¬ c.reports_error :=
            fun calls hno =>
              no_reports_error_append _ _ (hno2 _ hno) (fun h => by cases h.1)
          cases o with
          | done =>
            simp only []
            have hrec := ih s4 (by
              rw [hent4, hnext4]
              simp only [hent, hnext2]
              omega)
            refine ⟨hrec.1, fun hno => hrec.2 ?_⟩
            intro c hc hbad
            have := (hiff4 (hno3 _ hno)).2 ⟨c, hc, hbad⟩
            cases this
          | exit code =>
            simp only []
            exact ⟨by simp, fun hno => hiff4 (hno3 _ hno)⟩
          | out_of_fuel => exact absurd rfl hf4

/-- `main` of `bootimg_compare`, for every `go_to_entry` and every pair of boot images:
the run ends with an exit code, and the exit code is 1 exactly when one of the calls made
reports an error other than `EndOfEntries`. -/
theorem bootimg_compare_exit_one (g : GoToEntry) (image1 image2 : BootImage) :
    (bootimg_compare g image1 image2).exit_code ≠ none
      ∧ ((bootimg_compare g image1 image2).exit_code = some 1
          ↔ ∃ c ∈ (bootimg_compare g image1 image2).state.calls, c.reports_error) := by
  unfold bootimg_compare
  simp only [List.nil_append, List.cons_append]
  by_cases h1 : image1.enabled = false
  · rw [if_pos h1]
    simp [CompareState.start, CallRecord.reports_error, h1]
  rw [if_neg h1]
  by_cases h2 : image2.enabled = false
  · rw [if_pos h2]
    simp [CompareState.start, CallRecord.reports_error, h2]
  rw [if_neg h2]
  by_cases h3 : image1.opened = false
  · rw [if_pos h3]
    simp [CompareState.start, CallRecord.reports_error, h3]
  rw [if_neg h3]
  by_cases h4 : image2.opened = false
  · rw [if_pos h4]
    simp [CompareState.start, CallRecord.reports_error, h4]
  rw [if_neg h4]
  simp only [Bool.not_eq_false] at h1 h2 h3 h4
  cases h5 : image1.header with
  | none => simp [CompareState.start, CallRecord.reports_error]
  | some header1 =>
    cases h6 : image2.header with
    | none => simp [CompareState.start, CallRecord.reports_error]
    | some header2 =>
      simp only []
      by_cases hne : header1.equal header2 = false
      · rw [if_pos hne]
        simp [CompareState.start, CallRecord.reports_error, h1, h2, h3, h4]
      rw [if_neg hne]
      have hno : ∀ c ∈ (CompareState.start image1 image2
          [⟨1, .enable_format_all, image1.enabled, none⟩,
           ⟨2, .enable_format_all, image2.enabled, none⟩,
           ⟨1, .open_filename, image1.opened, none⟩,
           ⟨2, .open_filename, image2.opened, none⟩,
           ⟨1, .read_header, (some header1).isSome, none⟩,
           ⟨2, .read_header, (some header2).isSome, none⟩]).calls, ¬ c.reports_error := by
        simp [CompareState.start, CallRecord.reports_error, h1, h2, h3, h4]
      have hc := count_entries_general (image1.seg.entries.length + 1)
        (CompareState.start image1 image2
          [⟨1, .enable_format_all, image1.enabled, none⟩,
           ⟨2, .enable_format_all, image2.enabled, none⟩,
           ⟨1, .open_filename, image1.opened, none⟩,
           ⟨2, .open_filename, image2.opened, none⟩,
           ⟨1, .read_header, (some header1).isSome, none⟩,
           ⟨2, .read_header, (some header2).isSome, none⟩])
        (by
          simp only [CompareState.start]
          omega)
      rcases hd : count_entries (image1.seg.entries.length + 1)
        (CompareState.start image1 image2
          [⟨1, .enable_format_all, image1.enabled, none⟩,
           ⟨2, .enable_format_all, image2.enabled, none⟩,
           ⟨1, .open_filename, image1.opened, none⟩,
           ⟨2, .open_filename, image2.opened, none⟩,
           ⟨1, .read_header, (some header1).isSome, none⟩,
           ⟨2, .read_header, (some header2).isSome, none⟩]) with ⟨o1, s1⟩
      rw [hd] at hc
      simp only at hc
      obtain ⟨hf1, hr2, hiff1⟩ := hc
      have hiff1 := hiff1 hno
      cases o1 with
      | out_of_fuel => exact absurd rfl hf1
      | exit code =>
        simp only []
        refine ⟨by simp, ?_⟩
        rw [← hiff1]
        constructor
        · intro h
          cases h
          rfl
        · intro h
          cases h
          rfl
      | done =>
        simp only []
        have hno1 : ∀ c ∈ s1.calls, ¬ c.reports_error := by
          intro c hc hbad
          have := hiff1.2 ⟨c, hc, hbad⟩
          cases this
        have he := compare_entries_general g (image2.seg.entries.length + 1) s1 (by
          rw [hr2]
          simp only [CompareState.start]
          omega)
        rcases hd2 : compare_entries g (image2.seg.entries.length + 1) s1 with ⟨o2, s2⟩
        rw [hd2] at he
        simp only at he
        obtain ⟨hf2, hiff2⟩ := he
        have hiff2 := hiff2 hno1
        cases o2 with
        | out_of_fuel => exact absurd rfl hf2
        | exit code =>
          simp only []
          refine ⟨by simp, ?_⟩
          rw [← hiff2]
          constructor
          · intro h
            cases h
            rfl
          · intro h
            cases h
            rfl
        | done =>
          simp only []
          refine ⟨by simp, ?_⟩
          rw [← hiff2]
          constructor
          · intro h
            cases h
          · intro h
            cases h

/-! ## The entry operations with the forward-scanning `go_to_entry` -/

/-- `read_entry` of the facade when there is a next segment: the call succeeds exactly
when the seek to the segment succeeds; a call that fails leaves the segment engine as it
is and reports the error of the seek, which is not `EndOfEntries`. -/
theorem image_read_entry_seek (r : ImageReader) (e : SegmentReaderEntry)
    (he : r.seg.entries[r.seg.next_index]? = some e) :
    (e.seekable r.file →
      r.read_entry.1 = true
      ∧ r.read_entry.2.seg
          = { r.seg with state := .Entries, entry := r.seg.next_index, read_cur := e.offset,
                         read_end := e.offset + e.size }
      ∧ r.read_entry.2.file.io_ok = r.file.io_ok
      ∧ r.read_entry.2.file.data = r.file.data
      ∧ r.read_entry.2.entry = ⟨some e.type, some e.size⟩)
    ∧ (¬ e.seekable r.file →
      r.read_entry.1 = false ∧ r.read_entry.2.reader.error ≠ some .EndOfEntries) := by
  unfold ImageReader.read_entry SegmentReader.read_entry SegmentReaderEntry.seekable
  simp only [he]
  rcases seek_set_cases r.file (to_int64 e.offset) with ⟨err, hs⟩ | ⟨hio, h0, hs⟩
  · have hbad : ¬ (r.file.io_ok = true ∧ 0 ≤ to_int64 e.offset) := by
      rintro ⟨hio, h0⟩
      unfold File.seek_set at hs
      rw [if_neg (by simp [hio]), if_neg (by omega)] at hs
      cases hs
    have herr : err = .FileIo ∨ err = .FileInvalidOffset := by
      unfold File.seek_set at hs
      split_ifs at hs
      · left
        simp only [Prod.mk.injEq, Except.error.injEq] at hs
        exact hs.1.symm
      · right
        simp only [Prod.mk.injEq, Except.error.injEq] at hs
        exact hs.1.symm
      · simp at hs
    rw [hs]
    refine ⟨fun h => absurd h hbad, fun _ => ⟨rfl, ?_⟩⟩
    simp only [Reader.fatal_if, Reader.set_error, Reader.set_fatal]
    rcases herr with h | h <;> rw [h] <;> split <;> simp
  · rw [hs]
    refine ⟨fun _ => ⟨rfl, rfl, rfl, rfl, rfl⟩, fun h => absurd ⟨hio, h0⟩ h⟩

/-- `read_entry` of the facade behind the last segment. -/
theorem image_read_entry_none (r : ImageReader)
    (he : r.seg.entries[r.seg.next_index]? = none) :
    r.read_entry
      = (false,
         ⟨{ r.seg with state := .End, entry := r.seg.entries.length }, r.file,
          r.reader.set_error .EndOfEntries, r.entry⟩) := by
  unfold ImageReader.read_entry
  rw [seg_read_entry_none r.seg r.file r.entry r.reader he]

/-- The forward-scanning `go_to_entry` on a reader that has read past its last entry: there
is nothing left to scan, so the call fails with `EndOfEntries` whatever the type is. -/
theorem image_go_to_entry_at_end (r : ImageReader) (entry_type : Int)
    (hend : r.seg.state = .End) :
    r.go_to_entry SegmentReader.go_to_entry entry_type
      = (false, ⟨r.seg, r.file, r.reader.set_error .EndOfEntries, r.entry⟩) := by
  unfold ImageReader.go_to_entry SegmentReader.go_to_entry
  have h : find_type (r.seg.entries.drop r.seg.next_index) entry_type = none := by
    simp [SegmentReader.next_index, hend, find_type]
  simp only [h]

/-- The loop that counts the entries: when every seek to a remaining segment succeeds
the loop ends with `break`, the first reader stands behind its last entry, and the
counter has grown by the number of remaining segments; when a seek does not succeed,
`main` returns 1. -/
theorem count_entries_forward : ∀ (fuel : Nat) (s : CompareState),
    s.reader1.seg.entries.length - s.reader1.seg.next_index < fuel →
    ((∀ e ∈ s.reader1.seg.remaining, e.seekable s.reader1.file) →
      (count_entries fuel s).1 = .done
        ∧ (count_entries fuel s).2.reader1.seg.state = .End
        ∧ (count_entries fuel s).2.reader1.seg.entries = s.reader1.seg.entries
        ∧ (count_entries fuel s).2.reader2 = s.reader2
        ∧ (count_entries fuel s).2.entries
            = s.entries + (s.reader1.seg.entries.length - s.reader1.seg.next_index))
    ∧ ((∃ e ∈ s.reader1.seg.remaining, ¬ e.seekable s.reader1.file) →
      (count_entries fuel s).1 = .exit 1) := by
  intro fuel
  induction fuel with
  | zero => intro s h; omega
  | succ n ih =>
    intro s hf
    unfold count_entries
    cases he : s.reader1.seg.entries[s.reader1.seg.next_index]? with
    | none =>
      have hge : s.reader1.seg.entries.length ≤ s.reader1.seg.next_index := by
        rw [List.getElem?_eq_none_iff] at he
        exact he
      have hrem : s.reader1.seg.remaining = [] := by
        unfold SegmentReader.remaining
        exact List.drop_eq_nil_of_le hge
      rw [image_read_entry_none s.reader1 he]
      simp only [Reader.set_error, if_true, hrem]
      refine ⟨fun _ => ⟨trivial, trivial, trivial, trivial, ?_⟩, ?_⟩
      · omega
      · rintro ⟨e, he, _⟩
        cases he
    | some e =>
      have hlt : s.reader1.seg.next_index < s.reader1.seg.entries.length := by
        rw [List.getElem?_eq_some_iff] at he
        exact he.1
      have hrem : s.reader1.seg.remaining
          = e :: s.reader1.seg.entries.drop (s.reader1.seg.next_index + 1) := by
        unfold SegmentReader.remaining
        rw [List.getElem?_eq_some_iff] at he
        obtain ⟨hj, hje⟩ := he
        rw [← hje]
        exact List.drop_eq_getElem_cons hj
      obtain ⟨hyes, hno⟩ := image_read_entry_seek s.reader1 e he
      by_cases hseek : e.seekable s.reader1.file
      · obtain ⟨hok, hseg, hio, _, _⟩ := hyes hseek
        rcases hr : s.reader1.read_entry with ⟨ok1, r1⟩
        rw [hr] at hok hseg hio
        simp only [] at hok hseg hio
        subst hok
        simp only []
        obtain ⟨s1, hs1⟩ : ∃ s1 : CompareState, s1 =
            { s with reader1 := r1, entries := s.entries + 1
                     calls := s.calls ++ [⟨1, .read_entry, true, r1.reader.error⟩] } :=
          ⟨_, rfl⟩
        rw [← hs1]
        have f1 : s1.reader1.seg.next_index = s.reader1.seg.next_index + 1 := by
          rw [hs1]
          simp only [hseg, SegmentReader.next_index]
        have f2 : s1.reader1.seg.entries = s.reader1.seg.entries := by
          rw [hs1]
          simp only [hseg]
        have f3 : s1.entries = s.entries + 1 := by rw [hs1]
        have f4 : s1.reader1.file.io_ok = s.reader1.file.io_ok := by rw [hs1]; exact hio
        have f6 : s1.reader2 = s.reader2 := by rw [hs1]
        have f7 : s1.reader1.seg.remaining
            = s.reader1.seg.entries.drop (s.reader1.seg.next_index + 1) := by
          unfold SegmentReader.remaining
          rw [f1, f2]
        have hsk : ∀ x : SegmentReaderEntry,
            x.seekable s1.reader1.file ↔ x.seekable s.reader1.file := by
          intro x
          unfold SegmentReaderEntry.seekable
          rw [f4]
        obtain ⟨ih1, ih2⟩ := ih s1 (by rw [f1, f2]; omega)
        constructor
        · intro hall
          obtain ⟨h1, h2, h3, h5, h6⟩ := ih1 (by
            intro x hx
            rw [hsk]
            exact hall x (by rw [hrem]; exact List.mem_cons_of_mem _ (by rw [← f7]; exact hx)))
          refine ⟨h1, h2, by rw [h3, f2], by rw [h5, f6], ?_⟩
          rw [h6, f1, f2, f3]
          omega
        · rintro ⟨x, hx, hbad⟩
          rw [hrem, List.mem_cons] at hx
          rcases hx with hx | hx
          · rw [hx] at hbad
            exact absurd hseek hbad
          · exact ih2 ⟨x, by rw [f7]; exact hx, by rw [hsk]; exact hbad⟩
      · obtain ⟨hok, herr⟩ := hno hseek
        rcases hr : s.reader1.read_entry with ⟨ok1, r1⟩
        rw [hr] at hok herr
        simp only [] at hok herr
        subst hok
        simp only []
        rw [if_neg herr]
        refine ⟨fun hall => absurd (hall e (by rw [hrem]; exact List.mem_cons_self _ _)) hseek,
          fun _ => rfl⟩

/-- One round of the loop over the entries of the second image with the forward-scanning
`go_to_entry`, when the first reader stands behind its last entry: without a next entry
of the second reader the loop ends with `break`; with one, `main` returns 2 when the seek
to it succeeds (the counter is 0, or `go_to_entry` finds nothing) and 1 when it does not. -/
theorem compare_entries_at_end (fuel : Nat) (s : CompareState)
    (hend : s.reader1.seg.state = .End) :
    (s.reader2.seg.entries[s.reader2.seg.next_index]? = none →
      (compare_entries SegmentReader.go_to_entry (fuel + 1) s).1 = .done)
    ∧ (∀ e, s.reader2.seg.entries[s.reader2.seg.next_index]? = some e →
        (e.seekable s.reader2.file →
          (compare_entries SegmentReader.go_to_entry (fuel + 1) s).1 = .exit 2)
        ∧ (¬ e.seekable s.reader2.file →
          (compare_entries SegmentReader.go_to_entry (fuel + 1) s).1 = .exit 1)) := by
  constructor
  · intro he
    unfold compare_entries
    rw [image_read_entry_none s.reader2 he]
    simp [Reader.set_error]
  · intro e he
    obtain ⟨hyes, hno⟩ := image_read_entry_seek s.reader2 e he
    constructor
    · intro hseek
      obtain ⟨hok, _, _, _, _⟩ := hyes hseek
      unfold compare_entries
      rcases hr : s.reader2.read_entry with ⟨ok2, r2⟩
      rw [hr] at hok
      simp only [] at hok
      subst hok
      simp only []
      by_cases hz : s.entries = 0
      · rw [if_pos hz]
      · rw [if_neg hz, image_go_to_entry_at_end _ _ hend]
        simp [Reader.set_error]
    · intro hseek
      obtain ⟨hok, herr⟩ := hno hseek
      unfold compare_entries
      rcases hr : s.reader2.read_entry with ⟨ok2, r2⟩
      rw [hr] at hok herr
      simp only [] at hok herr
      subst hok
      simp only []
      rw [if_neg herr]

/-- `main` with the forward-scanning `go_to_entry` on two images that open, whose headers
are read and are equal: the exit code is 1 when a seek to a remaining segment of the first
image does not succeed; otherwise it is 0 when the second image has no entry before it, 2
when the seek to its first entry succeeds and 1 when that seek does not succeed. -/
theorem bootimg_compare_forward (image1 image2 : BootImage) (header1 header2 : Header)
    (h1 : image1.enabled = true) (h2 : image2.enabled = true) (h3 : image1.opened = true)
    (h4 : image2.opened = true) (h5 : image1.header = some header1)
    (h6 : image2.header = some header2) (heq : header1.equal header2 = true) :
    ((∃ e ∈ image1.seg.remaining, ¬ e.seekable image1.file) →
      (bootimg_compare SegmentReader.go_to_entry image1 image2).exit_code = some 1)
    ∧ ((∀ e ∈ image1.seg.remaining, e.seekable image1.file) →
      (image2.seg.entries[image2.seg.next_index]? = none →
        (bootimg_compare SegmentReader.go_to_entry image1 image2).exit_code = some 0)
      ∧ (∀ e, image2.seg.entries[image2.seg.next_index]? = some e →
          (e.seekable image2.file →
            (bootimg_compare SegmentReader.go_to_entry image1 image2).exit_code = some 2)
          ∧ (¬ e.seekable image2.file →
            (bootimg_compare SegmentReader.go_to_entry image1 image2).exit_code
              = some 1))) := by
  unfold bootimg_compare
  rw [h5, h6]
  simp only [h1, h2, h3, h4, heq, if_false, Bool.true_eq_false, List.nil_append,
    List.cons_append]
  obtain ⟨hc1, hc2⟩ := count_entries_forward (image1.seg.entries.length + 1)
    (CompareState.start image1 image2
      [⟨1, .enable_format_all, true, none⟩, ⟨2, .enable_format_all, true, none⟩,
       ⟨1, .open_filename, true, none⟩, ⟨2, .open_filename, true, none⟩,
       ⟨1, .read_header, (some header1).isSome, none⟩,
       ⟨2, .read_header, (some header2).isSome, none⟩])
    (by simp only [CompareState.start]; omega)
  rcases hd : count_entries (image1.seg.entries.length + 1)
    (CompareState.start image1 image2
      [⟨1, .enable_format_all, true, none⟩, ⟨2, .enable_format_all, true, none⟩,
       ⟨1, .open_filename, true, none⟩, ⟨2, .open_filename, true, none⟩,
       ⟨1, .read_header, (some header1).isSome, none⟩,
       ⟨2, .read_header, (some header2).isSome, none⟩]) with ⟨o1, s1⟩
  rw [hd] at hc1 hc2
  simp only [CompareState.start] at hc1 hc2
  constructor
  · intro hbad
    rw [hc2 hbad]
  · intro hall
    obtain ⟨ho, hend, _, hr2, _⟩ := hc1 hall
    rw [ho]
    simp only []
    obtain ⟨ce1, ce2⟩ := compare_entries_at_end image2.seg.entries.length s1 hend
    rw [hr2] at ce1 ce2
    simp only [] at ce1 ce2
    rcases hd2 : compare_entries SegmentReader.go_to_entry (image2.seg.entries.length + 1) s1
      with ⟨o2, s2⟩
    rw [hd2] at ce1 ce2
    simp only [] at ce1 ce2
    refine ⟨fun hn => ?_, fun e he => ⟨fun hs => ?_, fun hs => ?_⟩⟩
    · rw [ce1 hn]
    · rw [(ce2 e he).1 hs]
    · rw [(ce2 e he).2 hs]

/-! ## The boot images that the readers produce -/

/-- The offsets of the Android segment list fit a non-negative `int64_t`. -/
theorem android_entries_offsets_small (hdr : AndroidHeader) (ho ps : Nat) (b : Bool)
    (hps32 : ps < UINT32_MOD) (hfit : hdr.words_fit) (hho : ho ≤ MAX_HEADER_OFFSET) :
    ∀ e ∈ android_entries hdr ho ps b, e.offset < 2 ^ 63 := by
  have hall : advance (ho % UINT64_MOD) sizeof_AndroidHeader ps < 2 ^ 63
      ∧ advance (advance (ho % UINT64_MOD) sizeof_AndroidHeader ps) hdr.kernel_size ps < 2 ^ 63
      ∧ advance (advance (advance (ho % UINT64_MOD) sizeof_AndroidHeader ps) hdr.kernel_size ps)
          hdr.ramdisk_size ps < 2 ^ 63
      ∧ advance (advance (advance (advance (ho % UINT64_MOD) sizeof_AndroidHeader ps)
          hdr.kernel_size ps) hdr.ramdisk_size ps) hdr.second_size ps < 2 ^ 63 := by
    rcases Nat.eq_zero_or_pos ps with h0 | hps
    · subst h0
      simp only [advance_zero_page]
      decide
    · obtain ⟨hk, hr, hs, hd, hp⟩ := hfit
      simp only [UINT32_MOD, MAX_HEADER_OFFSET, Nat.reducePow] at hk hr hs hd hp hho hps32
      have hmod : ho % UINT64_MOD = ho := Nat.mod_eq_of_lt (by simp only [UINT64_MOD]; omega)
      rw [hmod]
      have e1 := advance_eq_up ho sizeof_AndroidHeader ps hps
        (by simp only [UINT64_MOD, sizeof_AndroidHeader]; omega)
      simp only [sizeof_AndroidHeader] at e1 ⊢
      rw [e1.1]
      have e2 := advance_eq_up (up (ho + 608) ps) hdr.kernel_size ps hps
        (by simp only [UINT64_MOD]; omega)
      rw [e2.1]
      have e3 := advance_eq_up (up (up (ho + 608) ps + hdr.kernel_size) ps) hdr.ramdisk_size ps
        hps (by simp only [UINT64_MOD]; omega)
      rw [e3.1]
      have e4 := advance_eq_up
        (up (up (up (ho + 608) ps + hdr.kernel_size) ps + hdr.ramdisk_size) ps)
        hdr.second_size ps hps (by simp only [UINT64_MOD]; omega)
      rw [e4.1]
      refine ⟨?_, ?_, ?_, ?_⟩ <;> omega
  obtain ⟨a1, a2, a3, a4⟩ := hall
  intro e he
  rw [android_entries_eq] at he
  simp only [List.mem_append, List.mem_cons, List.mem_singleton, List.not_mem_nil,
    or_false] at he
  rcases he with ((he | he) | he) | he
  · subst he; exact a1
  · subst he; exact a2
  · split at he
    · simp only [List.mem_singleton] at he
      subst he; exact a3
    · cases he
  · split at he
    · simp only [List.mem_singleton] at he
      subst he; exact a4
    · cases he

/-- The `Header` that a successful `read_header` fills is the conversion of the raw header
the reader holds. -/
theorem read_header_ok_header (self : AndroidFormatReader) (file : File) (header : Header)
    (h : (read_header self file header).ok = true) :
    (read_header self file header).header
      = (convert_header (read_header self file header).self._hdr header).2 := by
  unfold read_header at h ⊢
  cases hoff : self._header_offset with
  | none =>
    simp only [hoff] at h ⊢
    by_cases hf : (find_header self._reader file MAX_HEADER_OFFSET self._hdr 0).ok = false
    · simp [hf] at h
    · rw [if_neg hf] at h ⊢
      rw [read_header_located_eq]
  | some ho =>
    simp only [hoff] at h ⊢
    rw [read_header_located_eq]

/-- What the facade hands to `main` for a file of bytes that the Android reader reads: the
file is healthy, the segment engine stands before its first entry, the list holds at
least the kernel and the ramdisk, every seek to a segment succeeds, and the `Header` holds
a kernel address. -/
theorem android_image_facts (data : List Nat) (hbytes : ∀ x ∈ data, x < 256)
    (hh : (BootImage.android data).header.isSome = true) :
    (BootImage.android data).enabled = true
    ∧ (BootImage.android data).opened = true
    ∧ (BootImage.android data).seg.state = .Begin
    ∧ (∃ k r rest, (BootImage.android data).seg.entries = k :: r :: rest)
    ∧ (∀ e ∈ (BootImage.android data).seg.entries, e.seekable (BootImage.android data).file)
    ∧ (∃ header, (BootImage.android data).header = some header
        ∧ header.supported_fields = ANDROID_SUPPORTED_FIELDS
        ∧ header.kernel_address.isSome = true) := by
  have hok : (read_header (AndroidFormatReader.new Reader.init false) (File.of_bytes data 0)
      Header.empty).ok = true := by
    unfold BootImage.android at hh
    simp only [] at hh
    by_contra hne
    rw [if_neg hne] at hh
    cases hh
  have hb : ∀ x ∈ (File.of_bytes data 0).data, x < 256 := hbytes
  obtain ⟨ho, hoff, hent, _⟩ := read_header_ok_entries _ _ _ hok
  obtain ⟨hfit, hle⟩ := reachable_cache _
    (.after_read_header _ (File.of_bytes data 0) Header.empty (.constructed Reader.init false) hb)
  have hio := read_header_ok_file _ _ _ hok (Or.inl rfl)
  have hsmall := android_entries_offsets_small _ ho _
    (AndroidFormatReader.new Reader.init false)._allow_truncated_dt hfit.2.2.2.2 hfit
    (hle ho hoff)
  refine ⟨rfl, rfl, read_header_ok_state _ _ _ hok, ?_, ?_, ?_⟩
  · show ∃ k r rest, (read_header _ _ _).self._seg.entries = k :: r :: rest
    rw [hent, android_entries_eq]
    exact ⟨_, _, _, rfl⟩
  · intro e he
    have he' : e ∈ (read_header (AndroidFormatReader.new Reader.init false)
        (File.of_bytes data 0) Header.empty).self._seg.entries := he
    rw [hent] at he'
    refine ⟨hio, ?_⟩
    rw [to_int64_small _ (hsmall e he')]
    omega
  · refine ⟨(read_header (AndroidFormatReader.new Reader.init false) (File.of_bytes data 0)
      Header.empty).header, ?_, ?_, ?_⟩
    · unfold BootImage.android
      simp only [hok, if_true]
    · rw [read_header_ok_header _ _ _ hok]
      exact (convert_header_eq _ _).2.2.2
    · rw [read_header_ok_header _ _ _ hok, (convert_header_eq _ _).2.2.1]
      rfl

/-- A successful `set_entries` leaves the segment engine before its first entry. -/
theorem set_entries_ok_state (s : SegmentReader) (reader : Reader)
    (es : List SegmentReaderEntry) (h : (s.set_entries reader es).1 = true) :
    (s.set_entries reader es).2.1.state = .Begin := by
  unfold SegmentReader.set_entries at h ⊢
  by_cases h1 : s.state ≠ .Begin
  · simp [h1] at h
  · by_cases h2 : offsets_nondecreasing es = false
    · simp [h1, h2] at h
    · simp only [h1, h2, if_false]
      simpa using h1

/-- The header search of the Sony ELF reader succeeds on a healthy device only, and leaves
it healthy. -/
theorem find_sony_elf_header_ok_io (D : SonyElfDefs) (reader : Reader) (file : File)
    (header_out : Sony_Elf32_Ehdr)
    (h : (find_sony_elf_header D reader file header_out).1 = true) :
    (find_sony_elf_header D reader file header_out).2.2.1.io_ok = true := by
  unfold find_sony_elf_header at h ⊢
  rcases seek_set_cases file 0 with ⟨e, he⟩ | ⟨hio, _, he⟩
  · rw [he] at h
    cases h
  · rw [he] at h ⊢
    simp only [Int.toNat_zero] at h ⊢
    rcases read_exact_cases { file with pos := 0 } sizeof_Sony_Elf32_Ehdr with
      ⟨e, f', hr, _⟩ | ⟨_, _, hr⟩
    · rw [hr] at h
      simp only [] at h
      split at h <;> cases h
    · rw [hr] at h ⊢
      simp only [] at h ⊢
      split at h
      · cases h
      · rename_i hne
        rw [if_neg hne]
        exact hio

/-- The loop over the program headers leaves a healthy device healthy. -/
theorem read_program_headers_ok_io (D : SonyElfDefs) :
    ∀ (n pos : Nat) (reader : Reader) (file : File) (header : Header)
      (entries : List SegmentReaderEntry), pos < UINT64_MOD →
      (read_program_headers D n pos reader file header entries).1 = true →
      file.io_ok = true →
      (read_program_headers D n pos reader file header entries).2.2.1.io_ok = true := by
  intro n
  induction n with
  | zero =>
    intro pos reader file header entries _ _ hio
    exact hio
  | succ n ih =>
    intro pos reader file header entries hpos h _
    obtain ⟨hio, h63, hlen⟩ :=
      read_program_headers_succ_readable D n pos reader file header entries hpos h
    rcases read_program_headers_step_cases D n pos reader file header entries _ rfl hio h63
      hlen with ⟨_, file1, _, hio1, heq⟩ | ⟨_, hf, _⟩ | ⟨_, _, hf, _⟩ | ⟨_, _, _, hf, _⟩
    · rw [heq] at h ⊢
      exact ih (pos + 32) reader file1 _ _ (by simp only [UINT64_MOD]; omega) h hio1
    · rw [hf] at h; cases h
    · rw [hf] at h; cases h
    · rw [hf] at h; cases h

/-- A successful `read_header` of the Sony ELF reader with a cached ELF header leaves the
segment engine before its first entry and a healthy device healthy. -/
theorem sony_read_header_cached_state (D : SonyElfDefs) (self : SonyElfFormatReader)
    (file : File) (header : Header) (hh : self._have_header = true)
    (hok : (self.read_header D file header).1 = true) :
    (self.read_header D file header).2.1._seg.state = .Begin
    ∧ (file.io_ok = true → (self.read_header D file header).2.2.1.io_ok = true) := by
  have h52 : (0 + sizeof_Sony_Elf32_Ehdr) % UINT64_MOD = 52 := by decide
  unfold SonyElfFormatReader.read_header at hok ⊢
  simp only [h52, hh, Bool.true_eq_false, if_false] at hok ⊢
  have hrp := read_program_headers_ok_io D self._hdr.e_phnum 52 self._reader file
    ((header.set_supported_fields SONY_ELF_SUPPORTED_FIELDS).set_entrypoint_address
      (some self._hdr.e_entry)).2 [] (by decide)
  generalize read_program_headers D self._hdr.e_phnum 52 self._reader file
    ((header.set_supported_fields SONY_ELF_SUPPORTED_FIELDS).set_entrypoint_address
      (some self._hdr.e_entry)).2 [] = r at hok hrp ⊢
  obtain ⟨b, reader, file2, header3, entries⟩ := r
  cases b with
  | false => simp at hok
  | true =>
    simp only [] at hok ⊢
    exact ⟨set_entries_ok_state _ _ _ hok, fun hio => hrp rfl hio⟩

/-- A successful `read_header` of the Sony ELF reader leaves the segment engine before its
first entry, and the device healthy when the reader had to locate the ELF header or the
device was healthy. -/
theorem sony_read_header_ok_state (D : SonyElfDefs) (self : SonyElfFormatReader)
    (file : File) (header : Header)
    (hok : (self.read_header D file header).1 = true) :
    (self.read_header D file header).2.1._seg.state = .Begin
    ∧ (self._have_header = false ∨ file.io_ok = true →
        (self.read_header D file header).2.2.1.io_ok = true) := by
  cases hh : self._have_header with
  | true =>
    obtain ⟨h1, h2⟩ := sony_read_header_cached_state D self file header hh hok
    refine ⟨h1, fun h => ?_⟩
    rcases h with h | h
    · cases h
    · exact h2 h
  | false =>
    obtain ⟨hf, ht⟩ := sony_read_header_uncached D self file header hh
    cases hfind : (find_sony_elf_header D self._reader file self._hdr).1 with
    | false =>
      rw [(hf hfind).1] at hok
      cases hok
    | true =>
      have hio := find_sony_elf_header_ok_io D self._reader file self._hdr hfind
      have heq := ht hfind
      rw [heq] at hok ⊢
      obtain ⟨h1, h2⟩ := sony_read_header_cached_state D _ _ header rfl hok
      exact ⟨h1, fun _ => h2 hio⟩

/-- One program header keeps the link between the `Header` and the segment list: the
`Header` holds the address of a segment exactly when the list holds a segment. -/
theorem apply_phdr_address (D : SonyElfDefs) (data : List Nat)
    (st : Header × List SegmentReaderEntry) (p : Sony_Elf32_Phdr)
    (hsup : st.1.supported_fields = SONY_ELF_SUPPORTED_FIELDS)
    (h : st.1.has_segment_address = true ↔ st.2 ≠ []) :
    (apply_phdr D data st p).1.has_segment_address = true ↔ (apply_phdr D data st p).2 ≠ [] := by
  unfold apply_phdr
  split_ifs
  · simpa [Header.set_kernel_cmdline, hsup, SONY_ELF_SUPPORTED_FIELDS,
      Header.has_segment_address] using h
  · simp [Header.set_kernel_address, hsup, SONY_ELF_SUPPORTED_FIELDS,
      Header.has_segment_address]
  · simp [Header.set_ramdisk_address, hsup, SONY_ELF_SUPPORTED_FIELDS,
      Header.has_segment_address]
  · simp [Header.set_sony_ipl_address, hsup, SONY_ELF_SUPPORTED_FIELDS,
      Header.has_segment_address]
  · simp [Header.set_sony_rpm_address, hsup, SONY_ELF_SUPPORTED_FIELDS,
      Header.has_segment_address]
  · simp [Header.set_sony_appsbl_address, hsup, SONY_ELF_SUPPORTED_FIELDS,
      Header.has_segment_address]
  · exact h

/-- The loop over the program headers keeps the link between the `Header` and the segment
list. -/
theorem fold_address (D : SonyElfDefs) (data : List Nat) :
    ∀ (ps : List Sony_Elf32_Phdr) (st : Header × List SegmentReaderEntry),
      st.1.supported_fields = SONY_ELF_SUPPORTED_FIELDS →
      (st.1.has_segment_address = true ↔ st.2 ≠ []) →
      ((ps.foldl (apply_phdr D data) st).1.has_segment_address = true
        ↔ (ps.foldl (apply_phdr D data) st).2 ≠ []) := by
  intro ps
  induction ps with
  | nil => intro st _ h; exact h
  | cons p rest ih =>
    intro st hsup h
    rw [List.foldl_cons]
    exact ih _ (by rw [apply_phdr_supported]; exact hsup) (apply_phdr_address D data st p hsup h)

/-- What the facade hands to `main` for a file of bytes that the Sony ELF reader reads: the
file is healthy, the segment engine stands before its first entry, every seek to a
segment succeeds, and the `Header` holds the address of a segment exactly when the list
holds a segment. -/
theorem sony_image_facts (D : SonyElfDefs) (data : List Nat) (hbytes : ∀ x ∈ data, x < 256)
    (hh : (BootImage.sony D data).header.isSome = true) :
    (BootImage.sony D data).enabled = true
    ∧ (BootImage.sony D data).opened = true
    ∧ (BootImage.sony D data).seg.state = .Begin
    ∧ (∀ e ∈ (BootImage.sony D data).seg.entries, e.seekable (BootImage.sony D data).file)
    ∧ (∃ header, (BootImage.sony D data).header = some header
        ∧ header.supported_fields = SONY_ELF_SUPPORTED_FIELDS
        ∧ (header.has_segment_address = true ↔ (BootImage.sony D data).seg.entries ≠ [])) := by
  have hok : ((SonyElfFormatReader.new Reader.init).read_header D (File.of_bytes data 0)
      Header.empty).1 = true := by
    unfold BootImage.sony at hh
    simp only [] at hh
    by_contra hne
    rw [if_neg hne] at hh
    cases hh
  obtain ⟨hst, hio⟩ := sony_read_header_ok_state D _ _ _ hok
  have hent := sony_read_header_ok_entries D _ _ _ hok
  obtain ⟨_, hfold⟩ := sony_read_header_ok_fold D _ _ _ hok
  have hdata : (File.of_bytes data 0).data = data := rfl
  rw [hdata] at hent hfold
  refine ⟨rfl, rfl, hst, ?_, ?_⟩
  · intro e he
    have he' : e ∈ ((SonyElfFormatReader.new Reader.init).read_header D (File.of_bytes data 0)
        Header.empty).2.1._seg.entries := he
    rw [hent, List.mem_filterMap] at he'
    obtain ⟨i, _, hi⟩ := he'
    obtain ⟨ho, _⟩ := phdr_entry_some D _ e hi
    have hlt : e.offset < UINT32_MOD := by
      rw [ho]
      exact le32_at_lt _ 4 (fun x hx => hbytes x (slice_mem _ _ _ _ hx))
    refine ⟨hio (Or.inl rfl), ?_⟩
    rw [to_int64_small _ (by simp only [UINT32_MOD] at hlt; omega)]
    omega
  · refine ⟨((SonyElfFormatReader.new Reader.init).read_header D (File.of_bytes data 0)
      Header.empty).2.2.2, ?_, ?_, ?_⟩
    · unfold BootImage.sony
      simp only [hok, if_true]
    · rw [hfold, fold_supported]
      simp [Header.set_entrypoint_address, Header.set_supported_fields,
        SONY_ELF_SUPPORTED_FIELDS]
    · have hinv := fold_address D data
        (file_phdrs data ((SonyElfFormatReader.new Reader.init).read_header D
          (File.of_bytes data 0) Header.empty).2.1._hdr.e_phnum)
        (((Header.empty.set_supported_fields SONY_ELF_SUPPORTED_FIELDS).set_entrypoint_address
          (some ((SonyElfFormatReader.new Reader.init).read_header D (File.of_bytes data 0)
            Header.empty).2.1._hdr.e_entry)).2, [])
        (by simp [Header.set_entrypoint_address, Header.set_supported_fields,
          SONY_ELF_SUPPORTED_FIELDS])
        (by simp [Header.set_entrypoint_address, Header.set_supported_fields,
          SONY_ELF_SUPPORTED_FIELDS, Header.has_segment_address, Header.empty])
      rw [fold_entries] at hinv
      rw [hfold]
      show _ ↔ ((SonyElfFormatReader.new Reader.init).read_header D (File.of_bytes data 0)
        Header.empty).2.1._seg.entries ≠ []
      rw [hent]
      simpa [file_phdrs, List.filterMap_map, Function.comp] using hinv

/-! ## `bootimg_compare` on the images that the readers produce -/

/-- A header is equal to itself. -/
theorem header_equal_refl (a : Header) : a.equal a = true := by
  unfold Header.equal
  rw [List.all_eq_true]
  intro f _
  cases f <;> simp [Header.same_field]

/-- What `main` can rely on for an image that a reader of the embedded sources has read:
the facade is set up, the segment engine stands before its first entry and every seek to
a segment succeeds. -/
theorem from_bytes_facts (D : SonyElfDefs) (image : BootImage) (hf : image.from_bytes D)
    (hh : image.header.isSome = true) :
    image.enabled = true ∧ image.opened = true ∧ image.seg.state = .Begin
      ∧ (∀ e ∈ image.seg.entries, e.seekable image.file) := by
  obtain ⟨data, hbytes, h | h⟩ := hf
  · subst h
    obtain ⟨h1, h2, h3, _, h5, _⟩ := android_image_facts data hbytes hh
    exact ⟨h1, h2, h3, h5⟩
  · subst h
    obtain ⟨h1, h2, h3, h4, _⟩ := sony_image_facts D data hbytes hh
    exact ⟨h1, h2, h3, h4⟩

/-- One round of the loop over the entries of the second image with the forward-scanning
`go_to_entry`, when the first reader stands behind its last entry, the counter is not 0
and the seek to the next entry of the second reader succeeds: `main` returns 2 from the
branch of the failed `go_to_entry`, whose call is the last one made, and the first reader
still stands behind its last entry. -/
theorem compare_entries_pairing_fails (fuel : Nat) (s : CompareState)
    (e : SegmentReaderEntry) (hend : s.reader1.seg.state = .End) (hz : s.entries ≠ 0)
    (he : s.reader2.seg.entries[s.reader2.seg.next_index]? = some e)
    (hseek : e.seekable s.reader2.file) :
    (compare_entries SegmentReader.go_to_entry (fuel + 1) s).1 = .exit 2
    ∧ (∃ calls, (compare_entries SegmentReader.go_to_entry (fuel + 1) s).2.calls
        = calls ++ [⟨1, .go_to_entry, false, some .EndOfEntries⟩])
    ∧ (compare_entries SegmentReader.go_to_entry (fuel + 1) s).2.reader1.seg.state = .End := by
  obtain ⟨hok, _, _, _, _⟩ := (image_read_entry_seek s.reader2 e he).1 hseek
  unfold compare_entries
  rcases hr : s.reader2.read_entry with ⟨ok2, r2⟩
  rw [hr] at hok
  simp only [] at hok
  subst hok
  simp only []
  rw [if_neg hz, image_go_to_entry_at_end _ _ hend]
  simp only [Reader.set_error, if_true]
  exact ⟨trivial, ⟨_, rfl⟩, hend⟩

/-- `main` with the forward-scanning `go_to_entry` on two images that open, whose headers
are read and are equal, when every seek succeeds and both images have an entry before
them: the counting loop leaves the first reader behind its last entry, the `go_to_entry`
for the first entry of the second image fails with `EndOfEntries`, and `main` returns 2
from that branch. -/
theorem bootimg_compare_pairing_fails (image1 image2 : BootImage) (header1 header2 : Header)
    (e : SegmentReaderEntry)
    (h1 : image1.enabled = true) (h2 : image2.enabled = true) (h3 : image1.opened = true)
    (h4 : image2.opened = true) (h5 : image1.header = some header1)
    (h6 : image2.header = some header2) (heq : header1.equal header2 = true)
    (hall : ∀ x ∈ image1.seg.remaining, x.seekable image1.file)
    (hne : image1.seg.next_index < image1.seg.entries.length)
    (he : image2.seg.entries[image2.seg.next_index]? = some e)
    (hseek : e.seekable image2.file) :
    (bootimg_compare SegmentReader.go_to_entry image1 image2).exit_code = some 2
    ∧ (∃ calls, (bootimg_compare SegmentReader.go_to_entry image1 image2).state.calls
        = calls ++ [⟨1, .go_to_entry, false, some .EndOfEntries⟩])
    ∧ (bootimg_compare SegmentReader.go_to_entry image1 image2).state.reader1.seg.state
        = .End := by
  unfold bootimg_compare
  rw [h5, h6]
  simp only [h1, h2, h3, h4, heq, if_false, Bool.true_eq_false, List.nil_append,
    List.cons_append]
  obtain ⟨hc1, _⟩ := count_entries_forward (image1.seg.entries.length + 1)
    (CompareState.start image1 image2
      [⟨1, .enable_format_all, true, none⟩, ⟨2, .enable_format_all, true, none⟩,
       ⟨1, .open_filename, true, none⟩, ⟨2, .open_filename, true, none⟩,
       ⟨1, .read_header, (some header1).isSome, none⟩,
       ⟨2, .read_header, (some header2).isSome, none⟩])
    (by simp only [CompareState.start]; omega)
  rcases hd : count_entries (image1.seg.entries.length + 1)
    (CompareState.start image1 image2
      [⟨1, .enable_format_all, true, none⟩, ⟨2, .enable_format_all, true, none⟩,
       ⟨1, .open_filename, true, none⟩, ⟨2, .open_filename, true, none⟩,
       ⟨1, .read_header, (some header1).isSome, none⟩,
       ⟨2, .read_header, (some header2).isSome, none⟩]) with ⟨o1, s1⟩
  rw [hd] at hc1
  simp only [CompareState.start] at hc1
  obtain ⟨ho, hend, _, hr2, hcount⟩ := hc1 hall
  rw [ho]
  simp only []
  have hz : s1.entries ≠ 0 := by
    rw [hcount]
    omega
  obtain ⟨p1, p2, p3⟩ := compare_entries_pairing_fails image2.seg.entries.length s1 e hend hz
    (by rw [hr2]; exact he) (by rw [hr2]; exact hseek)
  rcases hd2 : compare_entries SegmentReader.go_to_entry (image2.seg.entries.length + 1) s1
    with ⟨o2, s2⟩
  rw [hd2] at p1 p2 p3
  simp only [] at p1 p2 p3
  rw [p1]
  exact ⟨rfl, p2, p3⟩

/-- C25, the run that diverges: for every boot image that a reader of the embedded sources
reads from a file of bytes and that has at least one entry, `main`, with `go_to_entry`
scanning forward as the specification says, exits 2 when the image is compared with
itself.  The loop that counts the entries leaves the first reader behind its last entry,
so the scan for the type of the first entry of the second image finds nothing: the last
call of the run is the `go_to_entry` on the first reader, which fails with
`EndOfEntries`. -/
theorem C25_identical_images_exit_two (D : SonyElfDefs) (image : BootImage)
    (hf : image.from_bytes D) (hh : image.header.isSome = true)
    (hne : image.seg.entries ≠ []) :
    (bootimg_compare SegmentReader.go_to_entry image image).exit_code = some 2
    ∧ (∃ calls, (bootimg_compare SegmentReader.go_to_entry image image).state.calls
        = calls ++ [⟨1, .go_to_entry, false, some .EndOfEntries⟩])
    ∧ (bootimg_compare SegmentReader.go_to_entry image image).state.reader1.seg.state
        = .End := by
  obtain ⟨a1, a2, a3, a4⟩ := from_bytes_facts D image hf hh
  have hnext : image.seg.next_index = 0 := by
    simp only [SegmentReader.next_index, a3]
  cases h5 : image.header with
  | none => rw [h5] at hh; cases hh
  | some header =>
    cases hl : image.seg.entries with
    | nil => exact absurd hl hne
    | cons e rest =>
      exact bootimg_compare_pairing_fails image image header header e a1 a1 a2 a2 h5 h5
        (header_equal_refl header)
        (fun x hx => a4 x (List.mem_of_mem_drop hx))
        (by rw [hnext, hl]; simp)
        (by rw [hnext, hl]; simp)
        (a4 e (by rw [hl]; exact List.mem_cons_self _ _))

/-- The bytes of an Android boot image built from bytes are bytes. -/
theorem android_image_bytes (hdr : AndroidHeader) (kernel ramdisk second : List Nat)
    (hh : ∀ x ∈ hdr.to_bytes, x < 256) (hk : ∀ x ∈ kernel, x < 256)
    (hr : ∀ x ∈ ramdisk, x < 256) (hs : ∀ x ∈ second, x < 256) :
    ∀ x ∈ android_image hdr kernel ramdisk second, x < 256 := by
  intro x hx
  unfold android_image at hx
  simp only [List.mem_append, List.mem_replicate] at hx
  rcases hx with (((((h | h) | h) | h) | h) | h) | h
  · exact hh x h
  · omega
  · exact hk x h
  · omega
  · exact hr x h
  · omega
  · exact hs x h

set_option maxRecDepth 1000000 in
/-- Witness of C25: the Android image with kernel `"KERN"`, ramdisk `"RAMD"` and page size
2048, compared with itself, exits 2. -/
theorem C25_identical_images_exit_two_witness :
    (bootimg_compare SegmentReader.go_to_entry (BootImage.android image_kern_ramd)
        (BootImage.android image_kern_ramd)).exit_code = some 2 :=
  have h : (BootImage.android image_kern_ramd).header.isSome = true
      ∧ (BootImage.android image_kern_ramd).seg.entries ≠ [] := by decide!
  (C25_identical_images_exit_two sony_elf_defs (BootImage.android image_kern_ramd)
    ⟨image_kern_ramd,
      android_image_bytes _ _ _ _ (by decide) (by decide) (by decide) (by decide),
      Or.inl rfl⟩
    h.1 h.2).1

/-- C26: `main` on every pair of boot images as the facade presents them.  When both
images open, both headers are read and `operator==` finds them different, `main` exits 2
after the six calls that set up the two readers, without a call that reads an entry and
with both readers untouched, whatever `go_to_entry` does.  When one of the six calls
fails, `main` exits 1.  Every run ends with an exit code, which is 1 exactly when one of
the calls made returned false with an error other than `EndOfEntries`.  With
`go_to_entry` scanning forward as the specification says, the exit code is 1 exactly when
enabling the formats, opening or reading a header fails for one of the images, or the
headers are equal and the seek of a `read_entry` fails: on a remaining segment of the
first image or on the first remaining segment of the second. -/
theorem C26_header_difference_and_errors (g : GoToEntry) (image1 image2 : BootImage) :
    (image1.enabled = true → image2.enabled = true → image1.opened = true →
      image2.opened = true → image1.header.isSome = true → image2.header.isSome = true →
      image1.headers_equal image2 = false →
      (bootimg_compare g image1 image2).exit_code = some 2
        ∧ (bootimg_compare g image1 image2).state.calls
            = [⟨1, .enable_format_all, true, none⟩, ⟨2, .enable_format_all, true, none⟩,
               ⟨1, .open_filename, true, none⟩, ⟨2, .open_filename, true, none⟩,
               ⟨1, .read_header, true, none⟩, ⟨2, .read_header, true, none⟩]
        ∧ (bootimg_compare g image1 image2).state.reader1
            = ⟨image1.seg, image1.file, Reader.init, ⟨none, none⟩⟩
        ∧ (bootimg_compare g image1 image2).state.reader2
            = ⟨image2.seg, image2.file, Reader.init, ⟨none, none⟩⟩)
    ∧ (image1.enabled = false ∨ image2.enabled = false ∨ image1.opened = false
        ∨ image2.opened = false ∨ image1.header = none ∨ image2.header = none →
      (bootimg_compare g image1 image2).exit_code = some 1)
    ∧ (bootimg_compare g image1 image2).exit_code ≠ none
    ∧ ((bootimg_compare g image1 image2).exit_code = some 1
        ↔ ∃ c ∈ (bootimg_compare g image1 image2).state.calls, c.reports_error)
    ∧ ((bootimg_compare SegmentReader.go_to_entry image1 image2).exit_code = some 1
        ↔ (image1.enabled = false ∨ image2.enabled = false ∨ image1.opened = false
            ∨ image2.opened = false ∨ image1.header = none ∨ image2.header = none)
          ∨ (image1.headers_equal image2 = true
            ∧ ((∃ e ∈ image1.seg.remaining, ¬ e.seekable image1.file)
              ∨ ∃ e, image2.seg.entries[image2.seg.next_index]? = some e
                  ∧ ¬ e.seekable image2.file))) := by
  have hsetup : ∀ g' : GoToEntry,
      (image1.enabled = false ∨ image2.enabled = false ∨ image1.opened = false
        ∨ image2.opened = false ∨ image1.header = none ∨ image2.header = none) →
      (bootimg_compare g' image1 image2).exit_code = some 1 := by
    intro g' h
    unfold bootimg_compare
    by_cases h1 : image1.enabled = false
    · rw [if_pos h1]
    rw [if_neg h1]
    by_cases h2 : image2.enabled = false
    · rw [if_pos h2]
    rw [if_neg h2]
    by_cases h3 : image1.opened = false
    · rw [if_pos h3]
    rw [if_neg h3]
    by_cases h4 : image2.opened = false
    · rw [if_pos h4]
    rw [if_neg h4]
    cases h5 : image1.header with
    | none => rfl
    | some header1 =>
      cases h6 : image2.header with
      | none => rfl
      | some header2 =>
        rcases h with h | h | h | h | h | h
        · exact absurd h h1
        · exact absurd h h2
        · exact absurd h h3
        · exact absurd h h4
        · rw [h5] at h; cases h
        · rw [h6] at h; cases h
  refine ⟨?_, hsetup g, (bootimg_compare_exit_one g image1 image2).1,
    (bootimg_compare_exit_one g image1 image2).2, ?_⟩
  · intro h1 h2 h3 h4 h5 h6 hne
    unfold BootImage.headers_equal at hne
    unfold bootimg_compare
    cases k5 : image1.header with
    | none => rw [k5] at h5; cases h5
    | some header1 =>
      cases k6 : image2.header with
      | none => rw [k6] at h6; cases h6
      | some header2 =>
        rw [k5, k6] at hne
        simp only [] at hne
        simp only [h1, h2, h3, h4, hne, if_true, if_false, Bool.true_eq_false,
          List.nil_append, List.cons_append, Option.isSome_some, CompareState.start]
        exact ⟨trivial, trivial, trivial, trivial⟩
  · by_cases hs : image1.enabled = false ∨ image2.enabled = false ∨ image1.opened = false
        ∨ image2.opened = false ∨ image1.header = none ∨ image2.header = none
    · exact ⟨fun _ => Or.inl hs, fun _ => hsetup _ hs⟩
    · simp only [not_or, Bool.not_eq_false] at hs
      obtain ⟨h1, h2, h3, h4, h5, h6⟩ := hs
      obtain ⟨header1, k5⟩ := Option.ne_none_iff_exists'.1 h5
      obtain ⟨header2, k6⟩ := Option.ne_none_iff_exists'.1 h6
      have hheq : image1.headers_equal image2 = header1.equal header2 := by
        unfold BootImage.headers_equal
        rw [k5, k6]
      rw [hheq]
      cases he : header1.equal header2 with
      | false =>
        have h2' : (bootimg_compare SegmentReader.go_to_entry image1 image2).exit_code
            = some 2 := by
          unfold bootimg_compare
          rw [k5, k6]
          simp only [h1, h2, h3, h4, he, if_true, if_false, Bool.true_eq_false]
        rw [h2']
        constructor
        · intro h
          cases h
        · rintro (h | ⟨h, _⟩)
          · rcases h with h | h | h | h | h | h
            · rw [h1] at h; cases h
            · rw [h2] at h; cases h
            · rw [h3] at h; cases h
            · rw [h4] at h; cases h
            · exact absurd h h5
            · exact absurd h h6
          · cases h
      | true =>
        obtain ⟨hbad, hgood⟩ :=
          bootimg_compare_forward image1 image2 header1 header2 h1 h2 h3 h4 k5 k6 he
        by_cases hex : ∃ e ∈ image1.seg.remaining, ¬ e.seekable image1.file
        · exact ⟨fun _ => Or.inr ⟨rfl, Or.inl hex⟩, fun _ => hbad hex⟩
        · have hall : ∀ e ∈ image1.seg.remaining, e.seekable image1.file := by
            intro e he1
            by_contra hn
            exact hex ⟨e, he1, hn⟩
          obtain ⟨hzero, hsome⟩ := hgood hall
          cases hnext : image2.seg.entries[image2.seg.next_index]? with
          | none =>
            rw [hzero hnext]
            constructor
            · intro h
              cases h
            · rintro (h | ⟨_, h | ⟨e, h, _⟩⟩)
              · rcases h with h | h | h | h | h | h
                · rw [h1] at h; cases h
                · rw [h2] at h; cases h
                · rw [h3] at h; cases h
                · rw [h4] at h; cases h
                · exact absurd h h5
                · exact absurd h h6
              · exact absurd h hex
              · cases h
          | some e =>
            by_cases hsk : e.seekable image2.file
            · rw [(hsome e hnext).1 hsk]
              constructor
              · intro h
                cases h
              · rintro (h | ⟨_, h | ⟨e', h, hn⟩⟩)
                · rcases h with h | h | h | h | h | h
                  · rw [h1] at h; cases h
                  · rw [h2] at h; cases h
                  · rw [h3] at h; cases h
                  · rw [h4] at h; cases h
                  · exact absurd h h5
                  · exact absurd h h6
                · exact absurd h hex
                · rw [Option.some.inj h] at hsk
                  exact absurd hsk hn
            · exact ⟨fun _ => Or.inr ⟨rfl, Or.inr ⟨e, rfl, hsk⟩⟩,
                fun _ => (hsome e hnext).2 hsk⟩

set_option maxRecDepth 1000000 in
/-- Witness of C26: the Android image with kernel `"KERN"`, ramdisk `"RAMD"` and kernel
address `0x8000` against the same image with the kernel address `0x10000000` exits 2 after
the six calls that set up the readers. -/
theorem C26_header_difference_and_errors_witness :
    (bootimg_compare SegmentReader.go_to_entry (BootImage.android image_kern_ramd)
        (BootImage.android image_other_address)).exit_code = some 2
    ∧ (bootimg_compare SegmentReader.go_to_entry (BootImage.android image_kern_ramd)
        (BootImage.android image_other_address)).state.calls.length = 6 :=
  have h : (BootImage.android image_kern_ramd).header.isSome = true
      ∧ (BootImage.android image_other_address).header.isSome = true
      ∧ (BootImage.android image_kern_ramd).headers_equal
          (BootImage.android image_other_address) = false := by decide!
  have hw := (C26_header_difference_and_errors SegmentReader.go_to_entry
    (BootImage.android image_kern_ramd) (BootImage.android image_other_address)).1
    rfl rfl rfl rfl h.1 h.2.1 h.2.2
  ⟨hw.1, by rw [hw.2.1]; rfl⟩

/-! ## What `write_header` stages -/

/-- The members that `write_header` assigns depend on the `Header` alone: whatever the
writer held before, and whether or not the call succeeds, they are the staged ELF header,
the six staged program headers and the stored command line. -/
theorem write_header_members (D : SonyElfDefs) (self : SonyElfFormatWriter) (file : File)
    (H : Header) :
    (self.write_header D file H).2.1._hdr = staged_ehdr D H
    ∧ (self.write_header D file H).2.1._hdr_kernel
        = staged_phdr D.SONY_E_TYPE_KERNEL D.SONY_E_FLAGS_KERNEL H.kernel_address
    ∧ (self.write_header D file H).2.1._hdr_ramdisk
        = staged_phdr D.SONY_E_TYPE_RAMDISK D.SONY_E_FLAGS_RAMDISK H.ramdisk_address
    ∧ (self.write_header D file H).2.1._hdr_cmdline
        = staged_phdr D.SONY_E_TYPE_CMDLINE D.SONY_E_FLAGS_CMDLINE none
    ∧ (self.write_header D file H).2.1._hdr_ipl
        = staged_phdr D.SONY_E_TYPE_IPL D.SONY_E_FLAGS_IPL H.sony_ipl_address
    ∧ (self.write_header D file H).2.1._hdr_rpm
        = staged_phdr D.SONY_E_TYPE_RPM D.SONY_E_FLAGS_RPM H.sony_rpm_address
    ∧ (self.write_header D file H).2.1._hdr_appsbl
        = staged_phdr D.SONY_E_TYPE_APPSBL D.SONY_E_FLAGS_APPSBL H.sony_appsbl_address
    ∧ (self.write_header D file H).2.1._cmdline = staged_cmdline H := by
  unfold SonyElfFormatWriter.write_header SegmentWriter.set_entries
  simp only []
  by_cases hst : self._seg.state ≠ .Begin
  · rw [if_pos hst]
    cases he : H.entrypoint_address <;> cases hk : H.kernel_address <;>
      simp [staged_ehdr, staged_cmdline, staged_phdr, he, hk, Sony_Elf32_Phdr.zero,
        Sony_Elf32_Ehdr.zero]
  · rw [if_neg hst]
    rcases hs : file.seek_set 4096 with ⟨res, f1⟩
    cases res <;> cases he : H.entrypoint_address <;> cases hk : H.kernel_address <;>
      simp [staged_ehdr, staged_cmdline, staged_phdr, he, hk, Sony_Elf32_Phdr.zero,
        Sony_Elf32_Ehdr.zero]

/-- A `write_header` that succeeds: the segment engine was in its initial state, the
device is healthy, the writer holds the staged members and the six entries, and the file
is positioned at offset 4096. -/
theorem write_header_ok (D : SonyElfDefs) (self : SonyElfFormatWriter) (file : File)
    (H : Header) (hok : (self.write_header D file H).1 = true) :
    self._seg.state = .Begin ∧ file.io_ok = true
      ∧ self.write_header D file H = (true, staged_from D self H, { file with pos := 4096 }) := by
  have hst : self._seg.state = .Begin := by
    by_contra hne
    unfold SonyElfFormatWriter.write_header SegmentWriter.set_entries at hok
    simp only [] at hok
    rw [if_pos hne] at hok
    cases hok
  have hio : file.io_ok = true := by
    by_contra hne
    unfold SonyElfFormatWriter.write_header SegmentWriter.set_entries File.seek_set at hok
    simp only [hst, ne_eq, not_true_eq_false, if_false] at hok
    simp only [Bool.not_eq_true] at hne
    rw [if_pos hne] at hok
    cases hok
  refine ⟨hst, hio, ?_⟩
  cases he : H.entrypoint_address <;> cases hk : H.kernel_address <;>
    simp [SonyElfFormatWriter.write_header, SegmentWriter.set_entries, File.seek_set, hst, hio,
      staged_from, staged_writer, staged_ehdr, staged_cmdline, staged_phdr, he, hk,
      Sony_Elf32_Phdr.zero, Sony_Elf32_Ehdr.zero, SONY_ELF_WRITER_ENTRIES]

/-- A staged program header, field by field: the load address of the `Header` in both
address words, 0 when the `Header` has none, and no offset and no size yet. -/
theorem staged_phdr_fields (t f : Nat) (a : Option Nat) :
    staged_phdr t f a
      = { p_type := t, p_offset := 0, p_vaddr := a.getD 0, p_paddr := a.getD 0,
          p_filesz := 0, p_memsz := 0, p_flags := f, p_align := 0 } := by
  cases a <;> rfl

/-- The entry point that `write_header` stages. -/
theorem staged_ehdr_entry (D : SonyElfDefs) (H : Header) :
    (staged_ehdr D H).e_entry = (H.entrypoint_address.or H.kernel_address).getD 0 := by
  unfold staged_ehdr
  cases H.entrypoint_address <;> cases H.kernel_address <;> rfl

/-- A second `write_header` on a writer whose first `write_header` succeeded does what a
single `write_header` does: nothing of the first call is left. -/
theorem write_header_twice (D : SonyElfDefs) (self : SonyElfFormatWriter) (file file2 : File)
    (H H2 : Header) (hok : (self.write_header D file H).1 = true) :
    (self.write_header D file H).2.1.write_header D file2 H2
      = self.write_header D file2 H2 := by
  obtain ⟨hst, _, hres⟩ := write_header_ok D self file H hok
  rw [hres]
  simp only []
  unfold SonyElfFormatWriter.write_header SegmentWriter.set_entries
  simp only [staged_from, hst, ne_eq, not_true_eq_false, if_false, SONY_ELF_WRITER_ENTRIES,
    List.length_cons, List.length_nil]

/-- C32: for every writer state, file and `Header`, whether or not the call succeeds,
`write_header` leaves `e_entry` equal to the entry point address of the `Header` when it
has one, otherwise to its kernel address when it has one, otherwise to 0; each of the
kernel, ramdisk, ipl, rpm and appsbl program headers has `p_vaddr = p_paddr` equal to the
address of the `Header`, 0 when it has none; and every member it assigns, the ELF header,
the six program headers (offsets and sizes 0) and the stored command line, depends on the
`Header` alone, so that a second `write_header` after a first one that succeeded does what
a single `write_header` does. -/
theorem C32_write_header_entry_point (D : SonyElfDefs) (self : SonyElfFormatWriter)
    (file : File) (H : Header) :
    (self.write_header D file H).2.1._hdr.e_entry
        = (H.entrypoint_address.or H.kernel_address).getD 0
    ∧ (self.write_header D file H).2.1._hdr = staged_ehdr D H
    ∧ (staged_ehdr D H).e_phnum = 0
    ∧ (self.write_header D file H).2.1._hdr_kernel
        = { p_type := D.SONY_E_TYPE_KERNEL, p_offset := 0,
            p_vaddr := H.kernel_address.getD 0, p_paddr := H.kernel_address.getD 0,
            p_filesz := 0, p_memsz := 0, p_flags := D.SONY_E_FLAGS_KERNEL, p_align := 0 }
    ∧ (self.write_header D file H).2.1._hdr_ramdisk
        = { p_type := D.SONY_E_TYPE_RAMDISK, p_offset := 0,
            p_vaddr := H.ramdisk_address.getD 0, p_paddr := H.ramdisk_address.getD 0,
            p_filesz := 0, p_memsz := 0, p_flags := D.SONY_E_FLAGS_RAMDISK, p_align := 0 }
    ∧ (self.write_header D file H).2.1._hdr_ipl
        = { p_type := D.SONY_E_TYPE_IPL, p_offset := 0,
            p_vaddr := H.sony_ipl_address.getD 0, p_paddr := H.sony_ipl_address.getD 0,
            p_filesz := 0, p_memsz := 0, p_flags := D.SONY_E_FLAGS_IPL, p_align := 0 }
    ∧ (self.write_header D file H).2.1._hdr_rpm
        = { p_type := D.SONY_E_TYPE_RPM, p_offset := 0,
            p_vaddr := H.sony_rpm_address.getD 0, p_paddr := H.sony_rpm_address.getD 0,
            p_filesz := 0, p_memsz := 0, p_flags := D.SONY_E_FLAGS_RPM, p_align := 0 }
    ∧ (self.write_header D file H).2.1._hdr_appsbl
        = { p_type := D.SONY_E_TYPE_APPSBL, p_offset := 0,
            p_vaddr := H.sony_appsbl_address.getD 0, p_paddr := H.sony_appsbl_address.getD 0,
            p_filesz := 0, p_memsz := 0, p_flags := D.SONY_E_FLAGS_APPSBL, p_align := 0 }
    ∧ (self.write_header D file H).2.1._hdr_cmdline
        = { p_type := D.SONY_E_TYPE_CMDLINE, p_offset := 0, p_vaddr := 0, p_paddr := 0,
            p_filesz := 0, p_memsz := 0, p_flags := D.SONY_E_FLAGS_CMDLINE, p_align := 0 }
    ∧ (self.write_header D file H).2.1._cmdline = H.kernel_cmdline.getD []
    ∧ ((self.write_header D file H).1 = true →
        ∀ (file2 : File) (H2 : Header),
          (self.write_header D file H).2.1.write_header D file2 H2
            = self.write_header D file2 H2) := by
  obtain ⟨h0, h1, h2, h3, h4, h5, h6, h7⟩ := write_header_members D self file H
  refine ⟨by rw [h0, staged_ehdr_entry], h0, rfl, by rw [h1, staged_phdr_fields],
    by rw [h2, staged_phdr_fields], by rw [h4, staged_phdr_fields],
    by rw [h5, staged_phdr_fields], by rw [h6, staged_phdr_fields],
    by rw [h3, staged_phdr_fields]; rfl, ?_,
    fun hok file2 H2 => write_header_twice D self file file2 H H2 hok⟩
  rw [h7]
  unfold staged_cmdline
  cases H.kernel_cmdline <;> rfl

/-- C32 at a fresh writer, a fresh file and the example `Header`, which has a kernel
address and no entry point address: the call succeeds, `e_entry` is the kernel address,
and a second call with the empty `Header` does what a single call with the empty `Header`
does and leaves `e_entry` 0. -/
theorem C32_write_header_entry_point_witness :
    ((SonyElfFormatWriter.new Writer.init).write_header sony_elf_defs (File.of_bytes [] 0)
        example_sony_header).1 = true
    ∧ ((SonyElfFormatWriter.new Writer.init).write_header sony_elf_defs (File.of_bytes [] 0)
        example_sony_header).2.1._hdr.e_entry = 0x40008000
    ∧ ((SonyElfFormatWriter.new Writer.init).write_header sony_elf_defs (File.of_bytes [] 0)
        example_sony_header).2.1.write_header sony_elf_defs (File.of_bytes [] 0) Header.empty
      = (SonyElfFormatWriter.new Writer.init).write_header sony_elf_defs (File.of_bytes [] 0)
          Header.empty
    ∧ ((SonyElfFormatWriter.new Writer.init).write_header sony_elf_defs (File.of_bytes [] 0)
        Header.empty).2.1._hdr.e_entry = 0 :=
  have hok : ((SonyElfFormatWriter.new Writer.init).write_header sony_elf_defs
      (File.of_bytes [] 0) example_sony_header).1 = true := by decide
  have h := C32_write_header_entry_point sony_elf_defs (SonyElfFormatWriter.new Writer.init)
    (File.of_bytes [] 0) example_sony_header
  ⟨hok, by rw [h.1]; rfl, h.2.2.2.2.2.2.2.2.2.2 hok (File.of_bytes [] 0) Header.empty,
   by decide⟩

/-! ## The order of the entries of the Sony ELF writer -/

/-- A write on a healthy device succeeds. -/
theorem write_exact_eq (f : File) (buf : List Nat) (hio : f.io_ok = true) :
    file_write_exact f buf = (.ok (), f.after_write buf) := by
  unfold File.after_write file_write_exact
  rw [if_neg (by rw [hio]; decide)]
  split <;> rfl

/-- A write leaves the device as it is. -/
theorem after_write_io (f : File) (buf : List Nat) : (f.after_write buf).io_ok = f.io_ok := by
  unfold File.after_write file_write_exact
  split
  · rfl
  · split <;> rfl

/-- A write leaves the fatal flag as it is. -/
theorem after_write_fatal (f : File) (buf : List Nat) :
    (f.after_write buf).fatal = f.fatal := by
  unfold File.after_write file_write_exact
  split
  · rfl
  · split <;> rfl

/-- A write on a healthy device moves the cursor behind the bytes written. -/
theorem after_write_pos (f : File) (buf : List Nat) (hio : f.io_ok = true) :
    (f.after_write buf).pos = f.pos + buf.length := by
  unfold File.after_write file_write_exact
  rw [if_neg (by rw [hio]; decide)]
  by_cases hb : buf = []
  · rw [if_pos hb, hb]
    rfl
  · rw [if_neg hb]

/-- After a write on a healthy device the file holds the bytes written at the position of
the write. -/
theorem after_write_slice (f : File) (buf : List Nat) (hio : f.io_ok = true) :
    slice (f.after_write buf).data f.pos buf.length = buf := by
  unfold File.after_write file_write_exact
  rw [if_neg (by rw [hio]; decide)]
  by_cases hb : buf = []
  · rw [if_pos hb, hb]
    simp [slice]
  · rw [if_neg hb]
    simp only [slice]
    have hlen : ((f.data ++ List.replicate (f.pos - f.data.length) 0).take f.pos).length
        = f.pos := by
      rw [List.length_take, List.length_append, List.length_replicate]
      omega
    rw [List.append_assoc, List.drop_append_of_le_length (by rw [hlen]),
      List.drop_of_length_le (by rw [hlen]), List.nil_append,
      List.take_append_of_le_length (le_refl _), List.take_length]

set_option maxHeartbeats 4000000 in
/-- The caller's loop on the state that `write_header` leaves: the five entries handed out
and the file after the six segments, the command line between the ramdisk and the ipl. -/
theorem returned_entries_staged (D : SonyElfDefs) (self : SonyElfFormatWriter) (file : File)
    (H : Header) (P : SonyPayload) (d : Nat) (hst : self._seg.state = .Begin)
    (hio : file.io_ok = true) :
    (returned_entries P (d + 2) 6 (staged_from D self H) { file with pos := 4096 } []).1 = true
    ∧ (returned_entries P (d + 2) 6 (staged_from D self H) { file with pos := 4096 } []).2.1
        = [⟨some ENTRY_TYPE_KERNEL, none⟩, ⟨some ENTRY_TYPE_RAMDISK, none⟩,
           ⟨some ENTRY_TYPE_SONY_IPL, none⟩, ⟨some ENTRY_TYPE_SONY_RPM, none⟩,
           ⟨some ENTRY_TYPE_SONY_APPSBL, none⟩]
    ∧ (returned_entries P (d + 2) 6 (staged_from D self H) { file with pos := 4096 } []).2.2.2
        = (((((({ file with pos := 4096 } : File).after_write P.kernel).after_write
            P.ramdisk).after_write (staged_cmdline H)).after_write P.ipl).after_write
              P.rpm).after_write P.appsbl := by
  obtain ⟨w, h, hk, hr, hc, hi, hrpm, ha, cmd, seg⟩ := self
  obtain ⟨sst, ses, se, ssz⟩ := seg
  simp only at hst
  subst hst
  simp [returned_entries, SonyElfFormatWriter.get_entry, SegmentWriter.get_entry,
    SegmentWriter.next_index, SonyElfFormatWriter.write_entry,
    SegmentWriter.write_entry, SonyElfFormatWriter.write_data, SegmentWriter.write_data,
    SonyElfFormatWriter.finish_entry, SegmentWriter.finish_entry, write_exact_eq,
    after_write_io, after_write_pos, after_write_fatal, hio,
    ENTRY_TYPE_KERNEL, ENTRY_TYPE_RAMDISK, SONY_ELF_ENTRY_CMDLINE, ENTRY_TYPE_SONY_IPL,
    ENTRY_TYPE_SONY_RPM, ENTRY_TYPE_SONY_APPSBL, SonyPayload.data, Entry.clear,
    Writer.set_error, staged_from, staged_writer, SONY_ELF_WRITER_ENTRIES]

set_option maxHeartbeats 4000000 in
/-- The third `get_entry` call, on the state that two rounds of the caller's loop leave:
it writes the stored command line at the position after the ramdisk, finishes that
segment, and hands out the ipl entry; with no recursion allowed it fails. -/
theorem get_entry_after_ramdisk (D : SonyElfDefs) (self : SonyElfFormatWriter) (file : File)
    (H : Header) (P : SonyPayload) (d : Nat) (hst : self._seg.state = .Begin)
    (hio : file.io_ok = true) :
    (returned_entries P (d + 2) 2 (staged_from D self H) { file with pos := 4096 } []).2.1
        = [⟨some ENTRY_TYPE_KERNEL, none⟩, ⟨some ENTRY_TYPE_RAMDISK, none⟩]
    ∧ (returned_entries P (d + 2) 2 (staged_from D self H) { file with pos := 4096 } []).2.2.2
        = (({ file with pos := 4096 } : File).after_write P.kernel).after_write P.ramdisk
    ∧ (SonyElfFormatWriter.get_entry (d + 2)
        (returned_entries P (d + 2) 2 (staged_from D self H)
          { file with pos := 4096 } []).2.2.1
        ((({ file with pos := 4096 } : File).after_write P.kernel).after_write P.ramdisk)
        ⟨none, none⟩).1 = true
    ∧ (SonyElfFormatWriter.get_entry (d + 2)
        (returned_entries P (d + 2) 2 (staged_from D self H)
          { file with pos := 4096 } []).2.2.1
        ((({ file with pos := 4096 } : File).after_write P.kernel).after_write P.ramdisk)
        ⟨none, none⟩).2.2.2 = ⟨some ENTRY_TYPE_SONY_IPL, none⟩
    ∧ (SonyElfFormatWriter.get_entry (d + 2)
        (returned_entries P (d + 2) 2 (staged_from D self H)
          { file with pos := 4096 } []).2.2.1
        ((({ file with pos := 4096 } : File).after_write P.kernel).after_write P.ramdisk)
        ⟨none, none⟩).2.2.1
        = ((({ file with pos := 4096 } : File).after_write P.kernel).after_write
            P.ramdisk).after_write (staged_cmdline H)
    ∧ (SonyElfFormatWriter.get_entry (d + 2)
        (returned_entries P (d + 2) 2 (staged_from D self H)
          { file with pos := 4096 } []).2.2.1
        ((({ file with pos := 4096 } : File).after_write P.kernel).after_write P.ramdisk)
        ⟨none, none⟩).2.1._hdr_cmdline
        = written_phdr (staged_phdr D.SONY_E_TYPE_CMDLINE D.SONY_E_FLAGS_CMDLINE none)
            (4096 + P.kernel.length + P.ramdisk.length) (staged_cmdline H).length
    ∧ (SonyElfFormatWriter.get_entry (d + 2)
        (returned_entries P (d + 2) 2 (staged_from D self H)
          { file with pos := 4096 } []).2.2.1
        ((({ file with pos := 4096 } : File).after_write P.kernel).after_write P.ramdisk)
        ⟨none, none⟩).2.1._seg.entries
        = [⟨ENTRY_TYPE_KERNEL, 4096, some P.kernel.length, 0⟩,
           ⟨ENTRY_TYPE_RAMDISK, 4096 + P.kernel.length, some P.ramdisk.length, 0⟩,
           ⟨SONY_ELF_ENTRY_CMDLINE, 4096 + P.kernel.length + P.ramdisk.length,
             some (staged_cmdline H).length, 0⟩,
           ⟨ENTRY_TYPE_SONY_IPL,
             4096 + P.kernel.length + P.ramdisk.length + (staged_cmdline H).length, none, 0⟩,
           ⟨ENTRY_TYPE_SONY_RPM, 0, none, 0⟩, ⟨ENTRY_TYPE_SONY_APPSBL, 0, none, 0⟩]
    ∧ (SonyElfFormatWriter.get_entry (d + 2)
        (returned_entries P (d + 2) 2 (staged_from D self H)
          { file with pos := 4096 } []).2.2.1
        ((({ file with pos := 4096 } : File).after_write P.kernel).after_write P.ramdisk)
        ⟨none, none⟩).2.1._seg.entry = 3
    ∧ (SonyElfFormatWriter.get_entry 1
        (returned_entries P (d + 2) 2 (staged_from D self H)
          { file with pos := 4096 } []).2.2.1
        ((({ file with pos := 4096 } : File).after_write P.kernel).after_write P.ramdisk)
        ⟨none, none⟩).1 = false
    ∧ returned_entries P 1 2 (staged_from D self H) { file with pos := 4096 } []
        = returned_entries P (d + 2) 2 (staged_from D self H) { file with pos := 4096 } [] := by
  obtain ⟨w, h, hk, hr, hc, hi, hrpm, ha, cmd, seg⟩ := self
  obtain ⟨sst, ses, se, ssz⟩ := seg
  simp only at hst
  subst hst
  simp [returned_entries, SonyElfFormatWriter.get_entry, SegmentWriter.get_entry,
    SegmentWriter.next_index, SonyElfFormatWriter.write_entry,
    SegmentWriter.write_entry, SonyElfFormatWriter.write_data, SegmentWriter.write_data,
    SonyElfFormatWriter.finish_entry, SegmentWriter.finish_entry, write_exact_eq,
    after_write_io, after_write_pos, after_write_fatal, hio,
    ENTRY_TYPE_KERNEL, ENTRY_TYPE_RAMDISK, SONY_ELF_ENTRY_CMDLINE, ENTRY_TYPE_SONY_IPL,
    ENTRY_TYPE_SONY_RPM, ENTRY_TYPE_SONY_APPSBL, SonyPayload.data, Entry.clear,
    Writer.set_error, staged_from, staged_writer, SONY_ELF_WRITER_ENTRIES, written_phdr,
    finished_phdr, Nat.add_assoc]

/-- C31: for every writer, file and `Header` on which `write_header` succeeds, leaving the
writer `W` and the file `F`, and for every payload: the caller's loop of `get_entry`,
`write_entry`, `write_data` and `finish_entry` gets the entries kernel, ramdisk, sony-ipl,
sony-rpm and sony-appsbl, in that order and with no size declared, and then `EndOfEntries`;
the command line entry (type -1) is not among them.  The third `get_entry` call, after the
ramdisk, writes the stored command line at the position after the ramdisk, records it as a
segment of its own of size `|cmdline|` in the command line program header, and returns the
sony-ipl entry.  One level of recursion is enough for it and more changes nothing (`d` is
arbitrary); with none it fails, and the two calls before it need none. -/
theorem C31_sony_writer_entry_order (D : SonyElfDefs) (self W : SonyElfFormatWriter)
    (file F : File) (H : Header) (P : SonyPayload) (d : Nat)
    (hW : self.write_header D file H = (true, W, F)) :
    (returned_entries P (d + 2) 6 W F []).1 = true
    ∧ (returned_entries P (d + 2) 6 W F []).2.1
        = [⟨some ENTRY_TYPE_KERNEL, none⟩, ⟨some ENTRY_TYPE_RAMDISK, none⟩,
           ⟨some ENTRY_TYPE_SONY_IPL, none⟩, ⟨some ENTRY_TYPE_SONY_RPM, none⟩,
           ⟨some ENTRY_TYPE_SONY_APPSBL, none⟩]
    ∧ (∀ e ∈ (returned_entries P (d + 2) 6 W F []).2.1,
        e.type ≠ some SONY_ELF_ENTRY_CMDLINE)
    ∧ (returned_entries P (d + 2) 6 W F []).2.2.2
        = (((((F.after_write P.kernel).after_write P.ramdisk).after_write
            (staged_cmdline H)).after_write P.ipl).after_write P.rpm).after_write P.appsbl
    ∧ (returned_entries P (d + 2) 2 W F []).2.1
        = [⟨some ENTRY_TYPE_KERNEL, none⟩, ⟨some ENTRY_TYPE_RAMDISK, none⟩]
    ∧ (returned_entries P (d + 2) 2 W F []).2.2.2
        = (F.after_write P.kernel).after_write P.ramdisk
    ∧ ((F.after_write P.kernel).after_write P.ramdisk).pos
        = 4096 + P.kernel.length + P.ramdisk.length
    ∧ (SonyElfFormatWriter.get_entry (d + 2) (returned_entries P (d + 2) 2 W F []).2.2.1
        ((F.after_write P.kernel).after_write P.ramdisk) ⟨none, none⟩).1 = true
    ∧ (SonyElfFormatWriter.get_entry (d + 2) (returned_entries P (d + 2) 2 W F []).2.2.1
        ((F.after_write P.kernel).after_write P.ramdisk) ⟨none, none⟩).2.2.2
        = ⟨some ENTRY_TYPE_SONY_IPL, none⟩
    ∧ (SonyElfFormatWriter.get_entry (d + 2) (returned_entries P (d + 2) 2 W F []).2.2.1
        ((F.after_write P.kernel).after_write P.ramdisk) ⟨none, none⟩).2.2.1
        = ((F.after_write P.kernel).after_write P.ramdisk).after_write (staged_cmdline H)
    ∧ slice (((F.after_write P.kernel).after_write P.ramdisk).after_write
          (staged_cmdline H)).data
        (4096 + P.kernel.length + P.ramdisk.length) (staged_cmdline H).length
        = staged_cmdline H
    ∧ (SonyElfFormatWriter.get_entry (d + 2) (returned_entries P (d + 2) 2 W F []).2.2.1
        ((F.after_write P.kernel).after_write P.ramdisk) ⟨none, none⟩).2.1._hdr_cmdline
        = written_phdr (staged_phdr D.SONY_E_TYPE_CMDLINE D.SONY_E_FLAGS_CMDLINE none)
            (4096 + P.kernel.length + P.ramdisk.length) (staged_cmdline H).length
    ∧ (SonyElfFormatWriter.get_entry (d + 2) (returned_entries P (d + 2) 2 W F []).2.2.1
        ((F.after_write P.kernel).after_write P.ramdisk) ⟨none, none⟩).2.1._seg.entries
        = [⟨ENTRY_TYPE_KERNEL, 4096, some P.kernel.length, 0⟩,
           ⟨ENTRY_TYPE_RAMDISK, 4096 + P.kernel.length, some P.ramdisk.length, 0⟩,
           ⟨SONY_ELF_ENTRY_CMDLINE, 4096 + P.kernel.length + P.ramdisk.length,
             some (staged_cmdline H).length, 0⟩,
           ⟨ENTRY_TYPE_SONY_IPL,
             4096 + P.kernel.length + P.ramdisk.length + (staged_cmdline H).length, none, 0⟩,
           ⟨ENTRY_TYPE_SONY_RPM, 0, none, 0⟩, ⟨ENTRY_TYPE_SONY_APPSBL, 0, none, 0⟩]
    ∧ (SonyElfFormatWriter.get_entry (d + 2) (returned_entries P (d + 2) 2 W F []).2.2.1
        ((F.after_write P.kernel).after_write P.ramdisk) ⟨none, none⟩).2.1._seg.entry = 3
    ∧ (SonyElfFormatWriter.get_entry 1 (returned_entries P (d + 2) 2 W F []).2.2.1
        ((F.after_write P.kernel).after_write P.ramdisk) ⟨none, none⟩).1 = false
    ∧ returned_entries P 1 2 W F [] = returned_entries P (d + 2) 2 W F [] := by
  have hok : (self.write_header D file H).1 = true := by rw [hW]
  obtain ⟨hst, hio, hres⟩ := write_header_ok D self file H hok
  rw [hres] at hW
  simp only [Prod.mk.injEq, true_and] at hW
  obtain ⟨hWeq, hFeq⟩ := hW
  subst hWeq hFeq
  obtain ⟨a1, a2, a3⟩ := returned_entries_staged D self file H P d hst hio
  obtain ⟨b1, b2, b3, b4, b5, b6, b7, b8, b9, b10⟩ :=
    get_entry_after_ramdisk D self file H P d hst hio
  have hio1 : (({ file with pos := 4096 } : File).after_write P.kernel).io_ok = true := by
    rw [after_write_io]
    exact hio
  have hio2 : ((({ file with pos := 4096 } : File).after_write P.kernel).after_write
      P.ramdisk).io_ok = true := by
    rw [after_write_io]
    exact hio1
  have hpos : ((({ file with pos := 4096 } : File).after_write P.kernel).after_write
      P.ramdisk).pos = 4096 + P.kernel.length + P.ramdisk.length := by
    rw [after_write_pos _ _ hio1,
      after_write_pos ({ file with pos := 4096 } : File) P.kernel hio]
  refine ⟨a1, a2, ?_, a3, b1, b2, hpos, b3, b4, b5, ?_, b6, b7, b8, b9, b10⟩
  · rw [a2]
    decide
  · rw [← hpos]
    exact after_write_slice _ _ hio2

/-- C31 at a fresh writer and a fresh file, with the example `Header`, a one-byte kernel
and a one-byte ramdisk: the command line `console=ttyS0` is in the file at offset 4098. -/
theorem C31_sony_writer_entry_order_witness :
    (SonyElfFormatWriter.new Writer.init).write_header sony_elf_defs (File.of_bytes [] 0)
        example_sony_header
      = (true, staged_writer sony_elf_defs example_sony_header, body_file 4096 [])
    ∧ (returned_entries ⟨[75], [82], [], [], []⟩ 2 6
        (staged_writer sony_elf_defs example_sony_header) (body_file 4096 []) []).2.1
        = [⟨some ENTRY_TYPE_KERNEL, none⟩, ⟨some ENTRY_TYPE_RAMDISK, none⟩,
           ⟨some ENTRY_TYPE_SONY_IPL, none⟩, ⟨some ENTRY_TYPE_SONY_RPM, none⟩,
           ⟨some ENTRY_TYPE_SONY_APPSBL, none⟩]
    ∧ slice ((((body_file 4096 []).after_write [75]).after_write [82]).after_write
          (staged_cmdline example_sony_header)).data (4096 + 1 + 1) 13
        = [99, 111, 110, 115, 111, 108, 101, 61, 116, 116, 121, 83, 48] :=
  have h := C31_sony_writer_entry_order sony_elf_defs (SonyElfFormatWriter.new Writer.init)
    (staged_writer sony_elf_defs example_sony_header) (File.of_bytes [] 0)
    (body_file 4096 []) example_sony_header ⟨[75], [82], [], [], []⟩ 0
    (write_header_fresh sony_elf_defs example_sony_header)
  ⟨write_header_fresh sony_elf_defs example_sony_header, h.2.1, h.2.2.2.2.2.2.2.2.2.2.1⟩

/-! ## Where `read_header` reads the program headers -/

/-- The position of program header `i` is `sizeof(Sony_Elf32_Ehdr) + i * sizeof(phdr)`:
the 64-bit sum does not wrap for an index that fits the 16-bit `e_phnum`. -/
theorem phdr_pos_eq : ∀ i : Nat, i < 2 ^ 16 →
    phdr_pos i = sizeof_Sony_Elf32_Ehdr + i * sizeof_Sony_Elf32_Phdr := by
  intro i
  induction i with
  | zero => intro _; rfl
  | succ k ih =>
    intro hk
    have h := ih (by omega)
    simp only [sizeof_Sony_Elf32_Ehdr, sizeof_Sony_Elf32_Phdr] at h ⊢
    unfold phdr_pos
    rw [h]
    simp only [sizeof_Sony_Elf32_Phdr, UINT64_MOD]
    omega

/-- One round of the loop on a command line program header that passes: the file cursor
ends behind the command line, at `p_offset + p_memsz`, and the next round reads at
`pos + sizeof(phdr)` all the same. -/
theorem read_program_headers_cmdline (D : SonyElfDefs) (n pos : Nat) (reader : Reader)
    (file : File) (header : Header) (entries : List SegmentReaderEntry)
    (hio : file.io_ok = true) (h63 : pos + 32 < 2 ^ 63) (hlen : pos + 32 ≤ file.data.length)
    (ht : (Sony_Elf32_Phdr.of_bytes (slice file.data pos 32)).p_type = D.SONY_E_TYPE_CMDLINE)
    (hf : (Sony_Elf32_Phdr.of_bytes (slice file.data pos 32)).p_flags = D.SONY_E_FLAGS_CMDLINE)
    (hsz : (Sony_Elf32_Phdr.of_bytes (slice file.data pos 32)).p_memsz < 512)
    (hav : (slice file.data (Sony_Elf32_Phdr.of_bytes (slice file.data pos 32)).p_offset
        (Sony_Elf32_Phdr.of_bytes (slice file.data pos 32)).p_memsz).length
          = (Sony_Elf32_Phdr.of_bytes (slice file.data pos 32)).p_memsz) :
    read_program_headers D (n + 1) pos reader file header entries
      = read_program_headers D n (pos + 32) reader
          { file with pos := (Sony_Elf32_Phdr.of_bytes (slice file.data pos 32)).p_offset
              + (Sony_Elf32_Phdr.of_bytes (slice file.data pos 32)).p_memsz }
          (header.set_kernel_cmdline
            (some (c_str (slice file.data
              (Sony_Elf32_Phdr.of_bytes (slice file.data pos 32)).p_offset
              (Sony_Elf32_Phdr.of_bytes (slice file.data pos 32)).p_memsz ++ [0])))).2
          entries := by
  have hsl : (slice { file with pos := pos }.data { file with pos := pos }.pos 32).length
      = 32 := by
    simp only [slice, List.length_take, List.length_drop]
    omega
  rw [read_program_headers, to_int64_small pos (by omega), seek_set_healthy file pos hio]
  simp only [sizeof_Sony_Elf32_Phdr]
  rw [read_exact_healthy { file with pos := pos } 32 hio hsl]
  have hm : (pos + 32) % UINT64_MOD = pos + 32 :=
    Nat.mod_eq_of_lt (by simp only [UINT64_MOD]; omega)
  simp only [ht, hf, and_self, if_true, hm, ge_iff_le, Nat.not_le.2 hsz, if_false]
  rw [seek_set_healthy { file with pos := pos + 32 } _ hio]
  simp only []
  rw [read_exact_healthy
    { file with pos := (Sony_Elf32_Phdr.of_bytes (slice file.data pos 32)).p_offset }
    (Sony_Elf32_Phdr.of_bytes (slice file.data pos 32)).p_memsz hio hav]

/-- The header search does not look at the caller's `header_out`: the flag, the facade
and the file are the same for every `header_out`, and so is the ELF header found. -/
theorem find_sony_elf_header_out (D : SonyElfDefs) (reader : Reader) (file : File)
    (h1 h2 : Sony_Elf32_Ehdr) :
    (find_sony_elf_header D reader file h1).1 = (find_sony_elf_header D reader file h2).1
    ∧ (find_sony_elf_header D reader file h1).2.1 = (find_sony_elf_header D reader file h2).2.1
    ∧ (find_sony_elf_header D reader file h1).2.2.1
        = (find_sony_elf_header D reader file h2).2.2.1
    ∧ ((find_sony_elf_header D reader file h1).1 = true →
        (find_sony_elf_header D reader file h1).2.2.2
          = (find_sony_elf_header D reader file h2).2.2.2) := by
  unfold find_sony_elf_header
  rcases hs : file.seek_set 0 with ⟨res, f1⟩
  cases res with
  | error err => exact ⟨rfl, rfl, rfl, fun h => by cases h⟩
  | ok v =>
    simp only []
    rcases hr : file_read_exact f1 sizeof_Sony_Elf32_Ehdr with ⟨res2, f2⟩
    cases res2 with
    | error err =>
      simp only []
      split
      · exact ⟨rfl, rfl, rfl, fun h => by cases h⟩
      · exact ⟨rfl, rfl, rfl, fun h => by cases h⟩
    | ok buf =>
      simp only []
      split
      · exact ⟨rfl, rfl, rfl, fun h => by cases h⟩
      · exact ⟨rfl, rfl, rfl, fun _ => rfl⟩

/-- The fields `e_phoff` and `e_phentsize` of the ELF header that the reader holds do not
enter `read_header`: with any other values in them the flag, the file, the `Header`, the
segment list and the facade come out the same. -/
theorem sony_read_header_ignores_phoff (D : SonyElfDefs) (self : SonyElfFormatReader)
    (file : File) (header : Header) (a b : Nat) :
    (SonyElfFormatReader.read_header D
        { self with _hdr := { self._hdr with e_phoff := a, e_phentsize := b } } file header).1
      = (self.read_header D file header).1
    ∧ (SonyElfFormatReader.read_header D
        { self with _hdr := { self._hdr with e_phoff := a, e_phentsize := b } } file header).2.2
      = (self.read_header D file header).2.2
    ∧ (SonyElfFormatReader.read_header D
        { self with _hdr := { self._hdr with e_phoff := a, e_phentsize := b } } file
          header).2.1._seg
      = (self.read_header D file header).2.1._seg
    ∧ (SonyElfFormatReader.read_header D
        { self with _hdr := { self._hdr with e_phoff := a, e_phentsize := b } } file
          header).2.1._reader
      = (self.read_header D file header).2.1._reader := by
  cases hh : self._have_header with
  | true =>
    unfold SonyElfFormatReader.read_header
    simp only [hh, Bool.true_eq_false, if_false]
    rcases hl : read_program_headers D self._hdr.e_phnum
      ((0 + sizeof_Sony_Elf32_Ehdr) % UINT64_MOD) self._reader file
      ((header.set_supported_fields SONY_ELF_SUPPORTED_FIELDS).set_entrypoint_address
        (some self._hdr.e_entry)).2 [] with ⟨ok, reader, file2, header3, entries⟩
    cases ok with
    | false => exact ⟨rfl, rfl, rfl, rfl⟩
    | true => exact ⟨rfl, rfl, rfl, rfl⟩
  | false =>
    obtain ⟨f1, f2, f3, f4⟩ := find_sony_elf_header_out D self._reader file
      { self._hdr with e_phoff := a, e_phentsize := b } self._hdr
    unfold SonyElfFormatReader.read_header
    simp only [hh, if_true]
    rcases hx : find_sony_elf_header D self._reader file
      { self._hdr with e_phoff := a, e_phentsize := b } with ⟨ok1, r1, g1, e1⟩
    rcases hy : find_sony_elf_header D self._reader file self._hdr with ⟨ok2, r2, g2, e2⟩
    rw [hx, hy] at f1 f2 f3 f4
    simp only at f1 f2 f3 f4
    subst f1 f2 f3
    cases ok1 with
    | false => exact ⟨rfl, rfl, rfl, rfl⟩
    | true =>
      have he := f4 rfl
      subst he
      simp only []
      rcases hl : read_program_headers D e1.e_phnum
        ((0 + sizeof_Sony_Elf32_Ehdr) % UINT64_MOD) r1 g1
        ((header.set_supported_fields SONY_ELF_SUPPORTED_FIELDS).set_entrypoint_address
          (some e1.e_entry)).2 [] with ⟨ok, reader, file2, header3, entries⟩
      cases ok with
      | false => exact ⟨trivial, trivial, trivial, trivial⟩
      | true => exact ⟨trivial, trivial, trivial, trivial⟩

/-- When the fixed positions of the reader and the lookup of the ELF header agree on the
first `n` program headers, for an `n` that fits the 16-bit `e_phnum`. -/
theorem phdr_pos_agrees_iff (h : Sony_Elf32_Ehdr) (n : Nat) (hn : n < 2 ^ 16) :
    (∀ i, i < n → phdr_pos i = elf_phdr_offset h i)
      ↔ (n = 0 ∨ (h.e_phoff = sizeof_Sony_Elf32_Ehdr
          ∧ (n = 1 ∨ h.e_phentsize = sizeof_Sony_Elf32_Phdr))) := by
  simp only [sizeof_Sony_Elf32_Ehdr, sizeof_Sony_Elf32_Phdr]
  constructor
  · intro hall
    by_cases h0 : n = 0
    · exact Or.inl h0
    · right
      have e0 := hall 0 (by omega)
      rw [phdr_pos_eq 0 (by omega)] at e0
      simp only [elf_phdr_offset, sizeof_Sony_Elf32_Ehdr, sizeof_Sony_Elf32_Phdr] at e0
      refine ⟨by omega, ?_⟩
      by_cases h1 : n = 1
      · exact Or.inl h1
      · right
        have e1 := hall 1 (by omega)
        rw [phdr_pos_eq 1 (by omega)] at e1
        simp only [elf_phdr_offset, sizeof_Sony_Elf32_Ehdr, sizeof_Sony_Elf32_Phdr] at e1
        omega
  · rintro (h0 | ⟨hoff, h1 | hsz⟩) i hi
    · omega
    · have hi0 : i = 0 := by omega
      subst hi0
      rw [phdr_pos_eq 0 (by omega)]
      simp only [elf_phdr_offset, sizeof_Sony_Elf32_Ehdr, sizeof_Sony_Elf32_Phdr]
      omega
    · rw [phdr_pos_eq i (by omega)]
      simp only [elf_phdr_offset, sizeof_Sony_Elf32_Ehdr, sizeof_Sony_Elf32_Phdr, hoff, hsz]

/-- The program header number `i` of a file is the one at the position `phdr_pos i`. -/
theorem phdr_at_pos (data : List Nat) (i : Nat) (hi : i < 2 ^ 16) :
    phdr_at data i
      = Sony_Elf32_Phdr.of_bytes (slice data (phdr_pos i) sizeof_Sony_Elf32_Phdr) := by
  unfold phdr_at
  rw [phdr_pos_eq i hi, Nat.mul_comm]

/-- A list built from the program headers of a file is built from the bytes at the
positions `phdr_pos i`. -/
theorem range_map_phdr_at (data : List Nat) (n : Nat) (hn : n < 2 ^ 16) :
    (List.range n).map (phdr_at data)
      = (List.range n).map
          (fun i => Sony_Elf32_Phdr.of_bytes (slice data (phdr_pos i) sizeof_Sony_Elf32_Phdr)) := by
  apply List.map_congr_left
  intro i hi
  rw [List.mem_range] at hi
  exact phdr_at_pos data i (by omega)

/-- C33 (amended): `read_header` reads program header `i` at the position `phdr_pos i`,
which is `sizeof(Sony_Elf32_Ehdr) + i * sizeof(Sony_Elf32_Phdr)` for every index that
fits the 16-bit `e_phnum`.  When `read_header` succeeds, the segment list and the `Header`
are those of the program headers decoded from the bytes at these positions.  A round that
reads a command line leaves the file cursor behind the command line and the next round
reads at `phdr_pos (i + 1)` all the same.  The fields `e_phoff` and `e_phentsize` of the
ELF header do not enter `read_header`.  The positions agree with the lookup at
`e_phoff + i * e_phentsize` for every `i < e_phnum` exactly when `e_phnum = 0`, or
`e_phoff = sizeof(Sony_Elf32_Ehdr)` and either `e_phnum = 1` or
`e_phentsize = sizeof(Sony_Elf32_Phdr)`; the writer stages `e_phoff = 52` and
`e_phentsize = sizeof(Sony_Elf32_Phdr)`. -/
theorem C33_program_header_location (D : SonyElfDefs) (self : SonyElfFormatReader)
    (file : File) (header : Header) :
    (∀ i, i < 2 ^ 16 → phdr_pos i = sizeof_Sony_Elf32_Ehdr + i * sizeof_Sony_Elf32_Phdr)
    ∧ ((self.read_header D file header).1 = true →
        (self.read_header D file header).2.1._hdr.e_phnum < 2 ^ 16 →
        (self.read_header D file header).2.1._seg.entries
          = (List.range (self.read_header D file header).2.1._hdr.e_phnum).filterMap
              (fun i => phdr_entry D
                (Sony_Elf32_Phdr.of_bytes
                  (slice file.data (phdr_pos i) sizeof_Sony_Elf32_Phdr)))
        ∧ (self.read_header D file header).2.2.2
          = (((List.range (self.read_header D file header).2.1._hdr.e_phnum).map
                (fun i => Sony_Elf32_Phdr.of_bytes
                  (slice file.data (phdr_pos i) sizeof_Sony_Elf32_Phdr))).foldl
              (apply_phdr D file.data)
              (((header.set_supported_fields
                  SONY_ELF_SUPPORTED_FIELDS).set_entrypoint_address
                (some (self.read_header D file header).2.1._hdr.e_entry)).2, [])).1)
    ∧ (∀ (n i : Nat) (reader : Reader) (header1 : Header)
        (entries : List SegmentReaderEntry) (p : Sony_Elf32_Phdr),
        i + 1 < 2 ^ 16 → file.io_ok = true → phdr_pos i + 32 ≤ file.data.length →
        p = Sony_Elf32_Phdr.of_bytes (slice file.data (phdr_pos i) 32) →
        p.p_type = D.SONY_E_TYPE_CMDLINE → p.p_flags = D.SONY_E_FLAGS_CMDLINE →
        p.p_memsz < 512 → (slice file.data p.p_offset p.p_memsz).length = p.p_memsz →
        read_program_headers D (n + 1) (phdr_pos i) reader file header1 entries
          = read_program_headers D n (phdr_pos (i + 1)) reader
              { file with pos := p.p_offset + p.p_memsz }
              (header1.set_kernel_cmdline
                (some (c_str (slice file.data p.p_offset p.p_memsz ++ [0])))).2
              entries)
    ∧ (∀ a b : Nat,
        (SonyElfFormatReader.read_header D
            { self with _hdr := { self._hdr with e_phoff := a, e_phentsize := b } } file
            header).1 = (self.read_header D file header).1
        ∧ (SonyElfFormatReader.read_header D
            { self with _hdr := { self._hdr with e_phoff := a, e_phentsize := b } } file
            header).2.2 = (self.read_header D file header).2.2
        ∧ (SonyElfFormatReader.read_header D
            { self with _hdr := { self._hdr with e_phoff := a, e_phentsize := b } } file
            header).2.1._seg = (self.read_header D file header).2.1._seg
        ∧ (SonyElfFormatReader.read_header D
            { self with _hdr := { self._hdr with e_phoff := a, e_phentsize := b } } file
            header).2.1._reader = (self.read_header D file header).2.1._reader)
    ∧ (∀ h : Sony_Elf32_Ehdr, h.e_phnum < 2 ^ 16 →
        ((∀ i, i < h.e_phnum → phdr_pos i = elf_phdr_offset h i)
          ↔ (h.e_phnum = 0 ∨ (h.e_phoff = sizeof_Sony_Elf32_Ehdr
              ∧ (h.e_phnum = 1 ∨ h.e_phentsize = sizeof_Sony_Elf32_Phdr)))))
    ∧ (∀ (w : SonyElfFormatWriter) (f : File) (H : Header),
        (w.write_header D f H).2.1._hdr.e_phoff = sizeof_Sony_Elf32_Ehdr
        ∧ (w.write_header D f H).2.1._hdr.e_phentsize = sizeof_Sony_Elf32_Phdr) := by
  refine ⟨phdr_pos_eq, ?_, ?_, sony_read_header_ignores_phoff D self file header,
    fun h hn => phdr_pos_agrees_iff h h.e_phnum hn, ?_⟩
  · intro hok hn
    have hent := sony_read_header_ok_entries D self file header hok
    obtain ⟨_, hfold⟩ := sony_read_header_ok_fold D self file header hok
    constructor
    · rw [hent]
      apply List.filterMap_congr
      intro i hi
      rw [List.mem_range] at hi
      rw [phdr_at_pos file.data i (by omega)]
    · rw [hfold]
      unfold file_phdrs
      rw [range_map_phdr_at file.data _ hn]
  · intro n i reader header1 entries p hi hio hlen hp ht hf hsz hav
    have e0 := phdr_pos_eq i (by omega)
    have e1 := phdr_pos_eq (i + 1) hi
    simp only [sizeof_Sony_Elf32_Ehdr, sizeof_Sony_Elf32_Phdr] at e0 e1
    have hnext : phdr_pos (i + 1) = phdr_pos i + 32 := by omega
    subst hp
    rw [hnext]
    exact read_program_headers_cmdline D n (phdr_pos i) reader file header1 entries hio
      (by omega) hlen ht hf hsz hav
  · intro w f H
    rw [(write_header_members D w f H).1]
    exact ⟨rfl, rfl⟩

set_option maxRecDepth 1000000 in
/-- C33 (amended) at a file whose program headers are a command line of 3 bytes stored at
offset 116 and a kernel: `read_header` succeeds with the kernel segment and the command
line, and the round that reads the command line program header at position 52 leaves the
cursor at 119 and goes on at position 84. -/
theorem C33_program_header_location_witness :
    ((SonyElfFormatReader.new Reader.init).read_header sony_elf_defs
        (File.of_bytes cmdline_first_image 0) Header.empty).1 = true
    ∧ ((SonyElfFormatReader.new Reader.init).read_header sony_elf_defs
        (File.of_bytes cmdline_first_image 0) Header.empty).2.1._hdr.e_phnum = 2
    ∧ ((SonyElfFormatReader.new Reader.init).read_header sony_elf_defs
        (File.of_bytes cmdline_first_image 0) Header.empty).2.1._seg.entries
      = [⟨ENTRY_TYPE_KERNEL, 4096, 1, false⟩]
    ∧ ((SonyElfFormatReader.new Reader.init).read_header sony_elf_defs
        (File.of_bytes cmdline_first_image 0) Header.empty).2.2.2.kernel_cmdline
      = some [97, 61, 98]
    ∧ phdr_pos 0 = 52 ∧ phdr_pos 1 = 84
    ∧ read_program_headers sony_elf_defs 2 (phdr_pos 0) Reader.init
        (File.of_bytes cmdline_first_image 0) Header.empty []
      = read_program_headers sony_elf_defs 1 (phdr_pos 1) Reader.init
          { File.of_bytes cmdline_first_image 0 with pos := 116 + 3 }
          (Header.empty.set_kernel_cmdline
            (some (c_str (slice (File.of_bytes cmdline_first_image 0).data 116 3 ++ [0])))).2
          [] :=
  have hok : ((SonyElfFormatReader.new Reader.init).read_header sony_elf_defs
      (File.of_bytes cmdline_first_image 0) Header.empty).1 = true := by decide
  have hn : ((SonyElfFormatReader.new Reader.init).read_header sony_elf_defs
      (File.of_bytes cmdline_first_image 0) Header.empty).2.1._hdr.e_phnum = 2 := by decide
  have h := C33_program_header_location sony_elf_defs (SonyElfFormatReader.new Reader.init)
    (File.of_bytes cmdline_first_image 0) Header.empty
  ⟨hok, hn, (h.2.1 hok (by rw [hn]; decide)).1.trans (by rw [hn]; decide), by decide,
   by decide, by decide,
   h.2.2.1 1 0 Reader.init Header.empty []
     { p_type := sony_elf_defs.SONY_E_TYPE_CMDLINE, p_offset := 116, p_vaddr := 0,
       p_paddr := 0, p_filesz := 3, p_memsz := 3,
       p_flags := sony_elf_defs.SONY_E_FLAGS_CMDLINE, p_align := 0 }
     (by decide) rfl (by decide) (by decide) rfl rfl (by decide) (by decide)⟩

set_option maxRecDepth 1000000 in
/-- C33 (counterexample): agreement does not need `e_phentsize = sizeof(Sony_Elf32_Phdr)`
or `e_phoff = sizeof(Sony_Elf32_Ehdr)`.  The file below has one program header, a kernel,
`e_phoff = 52` and `e_phentsize = 0`: the lookup at `e_phoff + i * e_phentsize` gives the
position 52 of the reader for the only index 0, and `read_header` succeeds with the kernel
segment.  For an ELF header with no program header and `e_phoff = 0` there is no index to
disagree on. -/
theorem C33_counterexample :
    (Sony_Elf32_Ehdr.of_bytes (slice zero_phentsize_image 0 52)).e_phnum = 1
    ∧ (Sony_Elf32_Ehdr.of_bytes (slice zero_phentsize_image 0 52)).e_phoff = 52
    ∧ (Sony_Elf32_Ehdr.of_bytes (slice zero_phentsize_image 0 52)).e_phentsize = 0
    ∧ (∀ i, i < (Sony_Elf32_Ehdr.of_bytes (slice zero_phentsize_image 0 52)).e_phnum →
        phdr_pos i
          = elf_phdr_offset (Sony_Elf32_Ehdr.of_bytes (slice zero_phentsize_image 0 52)) i)
    ∧ ¬ ((Sony_Elf32_Ehdr.of_bytes (slice zero_phentsize_image 0 52)).e_phoff
          = sizeof_Sony_Elf32_Ehdr
        ∧ (Sony_Elf32_Ehdr.of_bytes (slice zero_phentsize_image 0 52)).e_phentsize
          = sizeof_Sony_Elf32_Phdr)
    ∧ ((SonyElfFormatReader.new Reader.init).read_header sony_elf_defs
        (File.of_bytes zero_phentsize_image 0) Header.empty).1 = true
    ∧ ((SonyElfFormatReader.new Reader.init).read_header sony_elf_defs
        (File.of_bytes zero_phentsize_image 0) Header.empty).2.1._seg.entries
      = [⟨ENTRY_TYPE_KERNEL, 4096, 1, false⟩]
    ∧ (∀ i, i < ({ staged_ehdr sony_elf_defs Header.empty with e_phoff := 0 } :
          Sony_Elf32_Ehdr).e_phnum →
        phdr_pos i
          = elf_phdr_offset
              ({ staged_ehdr sony_elf_defs Header.empty with e_phoff := 0 } :
                Sony_Elf32_Ehdr) i)
    ∧ ({ staged_ehdr sony_elf_defs Header.empty with e_phoff := 0 } :
          Sony_Elf32_Ehdr).e_phoff ≠ sizeof_Sony_Elf32_Ehdr := by
  decide

end DualBootPatcher
